import Mathlib

/-!
# Home Assistant REST client (`client` package): shallow embedding and verified properties

The Go package `client` is embedded as pure Lean functions.

* Go strings and byte slices are sequences of bytes (`GoString`).
* A Go function returning `(T, error)` returns a `Call`: the value (`none` for `nil`), the error
  (`none` for `nil`), the requests it handed to `HTTPClient.Do`, and the state of the outside world
  (the remote server) after the call.
* The outside world is a state `σ` threaded through `HTTPClient.Do`.
* Standard-library routines the package calls (`url.PathEscape`, `http.Header.Set`,
  `fmt.Errorf`, `encoding/json`) are embedded from their Go definitions; the parts of them that
  depend on the network or on floating point are parameters.
-/

namespace HomeAssistant

/-! ## Strings, errors -/

/-- A byte. -/
abbrev Byte := Fin 256

/-- A Go `string` (or `[]byte`): a finite sequence of bytes. -/
abbrev GoString := List Byte

/-- The byte of an ASCII character. -/
def ch (c : Char) : Byte := Fin.ofNat c.toNat

/-- UTF-8 encoding of one code point. -/
def utf8EncodeChar (c : Char) : List Byte :=
  let v := c.toNat
  if v ≤ 0x7f then [Fin.ofNat v]
  else if v ≤ 0x7ff then [Fin.ofNat (0xc0 + v / 64), Fin.ofNat (0x80 + v % 64)]
  else if v ≤ 0xffff then
    [Fin.ofNat (0xe0 + v / 4096), Fin.ofNat (0x80 + v / 64 % 64), Fin.ofNat (0x80 + v % 64)]
  else
    [Fin.ofNat (0xf0 + v / 262144), Fin.ofNat (0x80 + v / 4096 % 64),
      Fin.ofNat (0x80 + v / 64 % 64), Fin.ofNat (0x80 + v % 64)]

/-- The bytes of a Go string literal (Go source text is UTF-8). -/
def str (s : String) : GoString := s.toList.flatMap utf8EncodeChar

/-- Go `error` values as the package builds them with `fmt.Errorf`: a plain message, or a message
wrapping a cause (the `%w` verb). Errors coming from the standard library are values of the same
shape. -/
inductive GoError where
  | errorString (msg : GoString)
  | wrapError (msg : GoString) (err : GoError)
  deriving DecidableEq, Repr

/-- The method `Error()`. -/
def GoError.Error : GoError → GoString
  | .errorString msg => msg
  | .wrapError msg _ => msg

/-- The method `Unwrap()`; `none` when the error wraps nothing. -/
def GoError.Unwrap : GoError → Option GoError
  | .errorString _ => none
  | .wrapError _ err => some err

/-- The chain `errors.Is` and `errors.As` walk: the error itself, then what it wraps, and so on. -/
def GoError.chain : GoError → List GoError
  | .errorString msg => [.errorString msg]
  | .wrapError msg err => .wrapError msg err :: err.chain

/-- The call `fmt.Errorf(pre + "%w", err)` where `pre` is the already formatted text before the verb. -/
def errorfW (pre : GoString) (err : GoError) : GoError :=
  .wrapError (pre ++ err.Error) err

/-- Decimal digits of `n`, most significant first, produced by repeated division as
`strconv` does; `fuel` bounds the number of digits. -/
def decimalLoop : Nat → Nat → GoString → GoString
  | 0, _, acc => acc
  | fuel + 1, n, acc =>
    let acc1 := Fin.ofNat (48 + n % 10) :: acc
    if n / 10 = 0 then acc1 else decimalLoop fuel (n / 10) acc1

/-- Decimal text of a natural number. -/
def formatNat (n : Nat) : GoString := decimalLoop (n + 1) n []

/-- The verb `%d` applied to an `int`. -/
def formatInt (i : Int) : GoString :=
  if i < 0 then ch '-' :: formatNat i.natAbs else formatNat i.natAbs

/-! ## Maps -/

/-- A Go map as an association list without duplicate keys. -/
def mapSet {κ ν : Type} [DecidableEq κ] (m : List (κ × ν)) (k : κ) (v : ν) : List (κ × ν) :=
  (k, v) :: m.filter (fun e => decide (e.1 ≠ k))

/-- Map lookup. -/
def mapGet {κ ν : Type} [DecidableEq κ] (m : List (κ × ν)) (k : κ) : Option ν :=
  (m.find? (fun e => decide (e.1 = k))).map Prod.snd

/-! ## net/url: escaping of one path segment -/

/-- The function `shouldEscape(c, encodePathSegment)`: letters, digits and the marks
`- _ . ~` are kept; of the reserved characters `$ & + , / : ; = ? @` the four `/ ; , ?` are
escaped; every other byte is escaped. -/
def shouldEscape (c : Byte) : Bool :=
  if (97 ≤ c.val && c.val ≤ 122) || (65 ≤ c.val && c.val ≤ 90) || (48 ≤ c.val && c.val ≤ 57) then
    false
  else if c = ch '-' ∨ c = ch '_' ∨ c = ch '.' ∨ c = ch '~' then
    false
  else if c = ch '$' ∨ c = ch '&' ∨ c = ch '+' ∨ c = ch ',' ∨ c = ch '/' ∨ c = ch ':' ∨
      c = ch ';' ∨ c = ch '=' ∨ c = ch '?' ∨ c = ch '@' then
    c = ch '/' ∨ c = ch ';' ∨ c = ch ',' ∨ c = ch '?'
  else
    true

/-- The table `upperhex`, indexed by a value below 16. -/
def upperhex (n : Nat) : Byte := (str "0123456789ABCDEF").getD n 0

/-- The function `url.PathEscape`: each byte that must be escaped becomes `%XX`. -/
def PathEscape : GoString → GoString
  | [] => []
  | c :: rest =>
    if shouldEscape c then
      ch '%' :: upperhex (c.val / 16) :: upperhex (c.val % 16) :: PathEscape rest
    else
      c :: PathEscape rest

/-- The function `ishex`. -/
def ishex (c : Byte) : Bool :=
  (48 ≤ c.val && c.val ≤ 57) || (97 ≤ c.val && c.val ≤ 102) || (65 ≤ c.val && c.val ≤ 70)

/-- The function `unhex`. -/
def unhex (c : Byte) : Nat :=
  if 48 ≤ c.val ∧ c.val ≤ 57 then c.val - 48
  else if 97 ≤ c.val ∧ c.val ≤ 102 then c.val - 97 + 10
  else if 65 ≤ c.val ∧ c.val ≤ 70 then c.val - 65 + 10
  else 0

/-- The function `url.PathUnescape`: `%XX` becomes the byte `XX`; `none` is the `EscapeError`
returned for a `%` that is not followed by two hexadecimal digits. -/
def PathUnescape : GoString → Option GoString
  | [] => some []
  | c :: rest =>
    if c = ch '%' then
      match rest with
      | h :: l :: rest2 =>
        if ishex h && ishex l then
          (PathUnescape rest2).map (fun t => Fin.ofNat (unhex h * 16 + unhex l) :: t)
        else none
      | _ => none
    else
      (PathUnescape rest).map (fun t => c :: t)

/-! ## encoding/json: syntax -/

/-- A parsed JSON text. A number keeps its literal; a string holds its unquoted bytes; an object
keeps its members in textual order, duplicates included. -/
inductive JSON where
  | null
  | bool (b : Bool)
  | num (lit : GoString)
  | str (s : GoString)
  | arr (xs : List JSON)
  | obj (ms : List (GoString × JSON))
  deriving Repr

/-- The six kinds of JSON value. -/
inductive Kind where
  | null | bool | number | string | array | object
  deriving DecidableEq, Repr

/-- The kind of a JSON value. -/
def JSON.kind : JSON → Kind
  | .null => .null
  | .bool _ => .bool
  | .num _ => .number
  | .str _ => .string
  | .arr _ => .array
  | .obj _ => .object

/-- The function `isSpace` of the scanner. -/
def isSpace (c : Byte) : Bool :=
  c.val = 32 || c.val = 9 || c.val = 13 || c.val = 10

/-- Skip JSON white space. -/
def skipWS : GoString → GoString
  | [] => []
  | c :: rest => if isSpace c then skipWS rest else c :: rest

/-- Decimal digit test. -/
def isDigit (c : Byte) : Bool := 48 ≤ c.val && c.val ≤ 57

/-- The longest run of digits at the head, and what follows it. -/
def spanDigits : GoString → GoString × GoString
  | [] => ([], [])
  | c :: rest =>
    if isDigit c then ((spanDigits rest).1.cons c, (spanDigits rest).2) else ([], c :: rest)

/-- The optional fraction of a number: a dot and at least one digit. -/
def scanFraction (s : GoString) : Option (GoString × GoString) :=
  match s with
  | c :: rest =>
    if c = ch '.' then
      match spanDigits rest with
      | ([], _) => none
      | (ds, rest1) => some (c :: ds, rest1)
    else some ([], s)
  | [] => some ([], s)

/-- One optional byte satisfying `p` at the head of the input, and what follows it. -/
def takeOptional (p : Byte → Bool) (s : GoString) : GoString × GoString :=
  match s with
  | c :: rest => if p c then ([c], rest) else ([], s)
  | [] => ([], s)

/-- The optional exponent of a number: `e` or `E`, an optional sign, at least one digit. -/
def scanExponent (s : GoString) : Option (GoString × GoString) :=
  match s with
  | c :: rest =>
    if c = ch 'e' ∨ c = ch 'E' then
      match spanDigits (takeOptional (fun d => d = ch '+' || d = ch '-') rest).2 with
      | ([], _) => none
      | (ds, rest2) =>
        some (c :: (takeOptional (fun d => d = ch '+' || d = ch '-') rest).1 ++ ds, rest2)
    else some ([], s)
  | [] => some ([], s)

/-- The integer part of a number: `0`, or a non-zero digit followed by digits. -/
def scanIntPart (s : GoString) : Option (GoString × GoString) :=
  match s with
  | c :: rest =>
    if c = ch '0' then some ([c], rest)
    else if isDigit c then some (c :: (spanDigits rest).1, (spanDigits rest).2)
    else none
  | [] => none

/-- A JSON number at the head of the input: its literal and the rest. -/
def scanNumber (s : GoString) : Option (GoString × GoString) :=
  match scanIntPart (takeOptional (fun c => c = ch '-') s).2 with
  | none => none
  | some (ip, s2) =>
    match scanFraction s2 with
    | none => none
    | some (fp, s3) =>
      match scanExponent s3 with
      | none => none
      | some (ep, s4) => some ((takeOptional (fun c => c = ch '-') s).1 ++ ip ++ fp ++ ep, s4)

/-- The scanner inside a string literal, after the opening quote: the raw bytes up to the
closing quote, and what follows it. A control byte, an unknown escape or a `\u` without four
hexadecimal digits is a syntax error. -/
def scanString : GoString → Option (GoString × GoString)
  | [] => none
  | c :: rest =>
    if c.val = 34 then some ([], rest)
    else if c.val = 92 then
      match rest with
      | [] => none
      | e :: rest1 =>
        if e.val = 98 ∨ e.val = 102 ∨ e.val = 110 ∨ e.val = 114 ∨ e.val = 116 ∨ e.val = 92 ∨
            e.val = 47 ∨ e.val = 34 then
          (scanString rest1).map (fun r => (c :: e :: r.1, r.2))
        else if e.val = 117 then
          match rest1 with
          | h1 :: h2 :: h3 :: h4 :: rest2 =>
            if ishex h1 && ishex h2 && ishex h3 && ishex h4 then
              (scanString rest2).map (fun r => (c :: e :: h1 :: h2 :: h3 :: h4 :: r.1, r.2))
            else none
          | _ => none
        else none
    else if c.val < 32 then none
    else (scanString rest).map (fun r => (c :: r.1, r.2))

/-- The length of the well-formed UTF-8 sequence at the head of the input, 0 when the head is
not one (`utf8.DecodeRune` then returns `RuneError` with size 1). -/
def utf8Size (s : GoString) : Nat :=
  let cont (b : Byte) : Bool := 128 ≤ b.val && b.val ≤ 191
  match s with
  | [] => 0
  | p0 :: t =>
    if p0.val < 128 then 1
    else if p0.val < 194 then 0
    else if p0.val ≤ 223 then
      match t with
      | b1 :: _ => if cont b1 then 2 else 0
      | _ => 0
    else if p0.val ≤ 239 then
      match t with
      | b1 :: b2 :: _ =>
        let lo := if p0.val = 224 then 160 else 128
        let hi := if p0.val = 237 then 159 else 191
        if lo ≤ b1.val && b1.val ≤ hi && cont b2 then 3 else 0
      | _ => 0
    else if p0.val ≤ 244 then
      match t with
      | b1 :: b2 :: b3 :: _ =>
        let lo := if p0.val = 240 then 144 else 128
        let hi := if p0.val = 244 then 143 else 191
        if lo ≤ b1.val && b1.val ≤ hi && cont b2 && cont b3 then 4 else 0
      | _ => 0
    else 0

/-- The function `utf8.EncodeRune` (`utf8.AppendRune`): surrogates and values above U+10FFFF
are encoded as U+FFFD. -/
def encodeRune (r : Nat) : GoString :=
  if r ≤ 0x7f then [Fin.ofNat r]
  else if r ≤ 0x7ff then [Fin.ofNat (0xc0 + r / 64), Fin.ofNat (0x80 + r % 64)]
  else if r > 0x10ffff ∨ (0xd800 ≤ r ∧ r ≤ 0xdfff) then [239, 191, 189]
  else if r ≤ 0xffff then
    [Fin.ofNat (0xe0 + r / 4096), Fin.ofNat (0x80 + r / 64 % 64), Fin.ofNat (0x80 + r % 64)]
  else
    [Fin.ofNat (0xf0 + r / 262144), Fin.ofNat (0x80 + r / 4096 % 64),
      Fin.ofNat (0x80 + r / 64 % 64), Fin.ofNat (0x80 + r % 64)]

/-- The function `getu4`: the code unit of a `\uXXXX` at the head of the input. -/
def getu4 (s : GoString) : Option Nat :=
  match s with
  | b :: u :: h1 :: h2 :: h3 :: h4 :: _ =>
    if b.val = 92 ∧ u.val = 117 ∧ ishex h1 ∧ ishex h2 ∧ ishex h3 ∧ ishex h4 then
      some (((unhex h1 * 16 + unhex h2) * 16 + unhex h3) * 16 + unhex h4)
    else none
  | _ => none

/-- The function `unquoteBytes` on the raw bytes of a scanned string: escapes are replaced,
a surrogate pair becomes one code point, a lone surrogate and every byte that is not part of
well-formed UTF-8 become U+FFFD. `fuel` bounds the number of steps by the input length. -/
def unquoteLoop : Nat → GoString → GoString
  | 0, _ => []
  | _ + 1, [] => []
  | fuel + 1, c :: rest =>
    if c.val = 92 then
      match rest with
      | [] => []
      | e :: rest1 =>
        if e.val = 117 then
          match getu4 (c :: rest) with
          | none => []
          | some rr =>
            let rest2 := rest1.drop 4
            if 0xd800 ≤ rr ∧ rr < 0xe000 then
              match getu4 rest2 with
              | some rr1 =>
                if rr < 0xdc00 ∧ 0xdc00 ≤ rr1 ∧ rr1 < 0xe000 then
                  encodeRune ((rr - 0xd800) * 1024 + (rr1 - 0xdc00) + 0x10000) ++
                    unquoteLoop fuel (rest2.drop 6)
                else [239, 191, 189] ++ unquoteLoop fuel rest2
              | none => [239, 191, 189] ++ unquoteLoop fuel rest2
            else encodeRune rr ++ unquoteLoop fuel rest2
        else
          let b : Byte :=
            if e.val = 98 then 8 else if e.val = 102 then 12 else if e.val = 110 then 10
            else if e.val = 114 then 13 else if e.val = 116 then 9 else e
          b :: unquoteLoop fuel rest1
    else if c.val < 128 then c :: unquoteLoop fuel rest
    else
      match utf8Size (c :: rest) with
      | 0 => [239, 191, 189] ++ unquoteLoop fuel rest
      | n + 1 => c :: rest.take n ++ unquoteLoop fuel (rest.drop n)

/-- The unquoted bytes of a scanned string. -/
def unquote (raw : GoString) : GoString := unquoteLoop raw.length raw

/-- The scanner's limit on nesting (`maxNestingDepth`). -/
def maxNestingDepth : Nat := 10000

mutual
/-- One JSON value at the head of the input (white space already skipped). `depth` is the number
of further nesting levels allowed; `fuel` bounds the recursion. -/
def parseValue : Nat → Nat → GoString → Option (JSON × GoString)
  | 0, _, _ => none
  | _ + 1, _, [] => none
  | fuel + 1, depth, c :: rest =>
    if c.val = 123 then
      match depth with
      | 0 => none
      | depth1 + 1 =>
        match skipWS rest with
        | d :: rest1 =>
          if d.val = 125 then some (.obj [], rest1)
          else (parseMembers fuel depth1 (d :: rest1)).map (fun r => (.obj r.1, r.2))
        | [] => none
    else if c.val = 91 then
      match depth with
      | 0 => none
      | depth1 + 1 =>
        match skipWS rest with
        | d :: rest1 =>
          if d.val = 93 then some (.arr [], rest1)
          else (parseElems fuel depth1 (d :: rest1)).map (fun r => (.arr r.1, r.2))
        | [] => none
    else if c.val = 34 then
      (scanString rest).map (fun r => (.str (unquote r.1), r.2))
    else if c = ch 't' then
      if rest.take 3 = str "rue" then some (.bool true, rest.drop 3) else none
    else if c = ch 'f' then
      if rest.take 4 = str "alse" then some (.bool false, rest.drop 4) else none
    else if c = ch 'n' then
      if rest.take 3 = str "ull" then some (.null, rest.drop 3) else none
    else
      (scanNumber (c :: rest)).map (fun r => (.num r.1, r.2))
/-- The elements of an array from the first byte of an element up to and including the closing
bracket. -/
def parseElems : Nat → Nat → GoString → Option (List JSON × GoString)
  | 0, _, _ => none
  | fuel + 1, depth, s =>
    match parseValue fuel depth s with
    | none => none
    | some (v, rest) =>
      match skipWS rest with
      | d :: rest1 =>
        if d.val = 93 then some ([v], rest1)
        else if d.val = 44 then
          (parseElems fuel depth (skipWS rest1)).map (fun r => (v :: r.1, r.2))
        else none
      | [] => none
/-- The members of an object from the opening quote of a key up to and including the closing
brace. -/
def parseMembers : Nat → Nat → GoString → Option (List (GoString × JSON) × GoString)
  | 0, _, _ => none
  | _ + 1, _, [] => none
  | fuel + 1, depth, q :: s =>
    if q.val = 34 then
      match scanString s with
      | none => none
      | some (rawKey, rest) =>
        match skipWS rest with
        | colon :: rest1 =>
          if colon.val = 58 then
            match parseValue fuel depth (skipWS rest1) with
            | none => none
            | some (v, rest2) =>
              match skipWS rest2 with
              | d :: rest3 =>
                if d.val = 125 then some ([(unquote rawKey, v)], rest3)
                else if d.val = 44 then
                  (parseMembers fuel depth (skipWS rest3)).map
                    (fun r => ((unquote rawKey, v) :: r.1, r.2))
                else none
              | [] => none
          else none
        | [] => none
    else none
end

/-- The whole input as one JSON value surrounded by optional white space (`checkValid` followed
by the decoder's walk); `none` is a `SyntaxError`. -/
def parseJSON (data : GoString) : Option JSON :=
  match parseValue (2 * data.length + 2) maxNestingDepth (skipWS data) with
  | some (v, rest) => if skipWS rest = [] then some v else none
  | none => none

/-! ## encoding/json: Go values and types -/

/-- A `float64`, as its IEEE 754 bit pattern. -/
abbrev Float64 := Fin 18446744073709551616

/-- The test `math.IsInf(f, 0) || math.IsNaN(f)`: all exponent bits set. -/
def Float64.isNaNOrInf (f : Float64) : Bool := f.val / 4503599627370496 % 2048 = 2047

/-- The test `f == 0`: every bit but the sign is clear. -/
def Float64.isZero (f : Float64) : Bool := f.val % 9223372036854775808 = 0

/-- When the encoder leaves a struct field out: never (no `omitempty`), when the value is empty
(`omitempty` on a string, number, boolean, slice or map), or when it is nil (`omitempty` on a
pointer or an interface, whatever the value behind it). -/
inductive Omit where
  | never
  | whenEmpty
  | whenNil
  deriving DecidableEq, Repr

/-- A Go value as `encoding/json` sees it by reflection. `nil` is a nil interface, pointer,
slice or map; a non-nil pointer is represented by the value it points to; a struct lists its
exported fields in declaration order, each with its JSON name and the rule for leaving it out;
`unsupported` is a value of a type that cannot be encoded (a channel, a function). -/
inductive GoValue where
  | nil
  | bool (b : Bool)
  | int (i : Int)
  | float64 (f : Float64)
  | string (s : GoString)
  | slice (xs : List GoValue)
  | map (ms : List (GoString × GoValue))
  | struct (fs : List (GoString × Omit × GoValue))
  | unsupported (typeName : GoString)
  deriving Repr

/-- The Go types the package decodes into. A struct lists its fields in declaration order:
JSON name, `omitempty` flag, type. A map has string keys. -/
inductive GoType where
  | string
  | bool
  | int
  | float64
  | iface
  | ptr (elem : GoType)
  | slice (elem : GoType)
  | map (elem : GoType)
  | struct (name : GoString) (fields : List (GoString × Bool × GoType))
  deriving Repr

/-- The rule for leaving out a field of type `t` whose tag has, or has not, `omitempty`. -/
def omitRule (omitempty : Bool) (t : GoType) : Omit :=
  if omitempty then
    match t with
    | .ptr _ => .whenNil
    | .iface => .whenNil
    | _ => .whenEmpty
  else .never

mutual
/-- The zero value of a type. -/
def zeroValue : GoType → GoValue
  | .string => .string []
  | .bool => .bool false
  | .int => .int 0
  | .float64 => .float64 0
  | .iface => .nil
  | .ptr _ => .nil
  | .slice _ => .nil
  | .map _ => .nil
  | .struct _ fields => .struct (zeroFields fields)
/-- The zero values of the fields of a struct. -/
def zeroFields : List (GoString × Bool × GoType) → List (GoString × Omit × GoValue)
  | [] => []
  | (name, oe, t) :: rest => (name, omitRule oe t, zeroValue t) :: zeroFields rest
end

/-- The type reached by following pointers. -/
def GoType.elem : GoType → GoType
  | .ptr e => e.elem
  | t => t

/-- Whether JSON `null` sets a value of this type to nil (interface, pointer, map, slice);
for every other type `null` leaves the value unchanged. -/
def GoType.nullable : GoType → Bool
  | .iface => true
  | .ptr _ => true
  | .slice _ => true
  | .map _ => true
  | _ => false

/-- The kind of JSON value a type is decoded from; `none` for `interface{}`, which takes any. -/
def GoType.kind : GoType → Option Kind
  | .string => some .string
  | .bool => some .bool
  | .int => some .number
  | .float64 => some .number
  | .iface => none
  | .ptr e => e.kind
  | .slice _ => some .array
  | .map _ => some .object
  | .struct _ _ => some .object

/-- The value of a struct field, by JSON name. -/
def GoValue.field (v : GoValue) (name : GoString) : Option GoValue :=
  match v with
  | .struct fs => (fs.find? (fun f => decide (f.1 = name))).map (fun f => f.2.2)
  | _ => none

/-- A struct with one field replaced. -/
def setField (fs : List (GoString × Omit × GoValue)) (name : GoString) (v : GoValue) :
    List (GoString × Omit × GoValue) :=
  fs.map (fun f => if f.1 = name then (f.1, f.2.1, v) else f)

/-- The string held by a value; empty for any other value. -/
def GoValue.asString : GoValue → GoString
  | .string s => s
  | _ => []

/-- The entry of a map value; `none` for a missing key and for a value that is not a map
(indexing a nil map). -/
def GoValue.index (v : GoValue) (key : GoString) : Option GoValue :=
  match v with
  | .map ms => mapGet ms key
  | _ => none

/-! ## Parameters -/

/-- The parts of the Go runtime that are parameters of the embedding. -/
structure Runtime where
  /-- The validation `http.NewRequest` performs on the method and the URL text: the error it
  returns, if any. -/
  newRequestError : GoString → GoString → Option GoError
  /-- The function `strconv.ParseFloat(lit, 64)` on the literal of a JSON number; `none` when
  the value is out of range. -/
  parseFloat : GoString → Option Float64
  /-- The text the encoder writes for a finite `float64`. -/
  formatFloat : Float64 → GoString
  /-- The `*json.SyntaxError` returned for an input that is not one JSON value. -/
  syntaxError : GoString → GoError
  /-- The `*json.UnmarshalTypeError` for a JSON value that cannot be stored in a Go value of
  the given type. -/
  typeError : JSON → GoType → GoError

/-! ## net/http: headers, requests, responses -/

/-- The type `http.Header`. -/
abbrev Header := List (GoString × List GoString)

/-- The bytes allowed in a header field name (RFC 7230 token characters). -/
def validHeaderFieldByte (c : Byte) : Bool :=
  (48 ≤ c.val && c.val ≤ 57) || (65 ≤ c.val && c.val ≤ 90) || (97 ≤ c.val && c.val ≤ 122) ||
    [33, 35, 36, 37, 38, 39, 42, 43, 45, 46, 94, 95, 96, 124, 126].contains c.val

/-- The loop of `textproto.canonicalMIMEHeaderKey`: upper case at the start and after each dash,
lower case elsewhere. -/
def canonLoop : Bool → GoString → GoString
  | _, [] => []
  | upper, c :: rest =>
    let c1 : Byte :=
      if upper && 97 ≤ c.val && c.val ≤ 122 then Fin.ofNat (c.val - 32)
      else if !upper && 65 ≤ c.val && c.val ≤ 90 then Fin.ofNat (c.val + 32)
      else c
    c1 :: canonLoop (c1 == ch '-') rest

/-- The function `textproto.CanonicalMIMEHeaderKey`: a key holding a byte that is not a token
character is returned unchanged. -/
def CanonicalMIMEHeaderKey (s : GoString) : GoString :=
  if s.all validHeaderFieldByte then canonLoop true s else s

/-- The method `Header.Set`. -/
def Header.Set (h : Header) (key value : GoString) : Header :=
  mapSet h (CanonicalMIMEHeaderKey key) [value]

/-- The method `Header.Get`: the first value of the key, or the empty string. -/
def Header.Get (h : Header) (key : GoString) : GoString :=
  match mapGet h (CanonicalMIMEHeaderKey key) with
  | some (v :: _) => v
  | _ => []

/-- The fields of `http.Request` the package sets. `Body = none` is a request without a body
(`req.Body == nil`); `Body = some []` is the body without bytes (`http.NoBody`). -/
structure Request where
  Method : GoString
  URL : GoString
  Header : Header
  Body : Option GoString
  ContentLength : Nat
  deriving DecidableEq, Repr

/-- What `HTTPClient.Do` delivers when the exchange completes: the status code and the outcome
of reading the body to its end (`io.ReadAll`). -/
structure Response where
  StatusCode : Int
  Body : Except GoError GoString

/-- The type `http.Client`: its timeout (nanoseconds) and the behaviour of `Do` against the
outside world `σ`. -/
structure HTTPClient (σ : Type) where
  Timeout : Int
  Do : Request → σ → Except GoError Response × σ

/-- The function `http.NewRequest`: an empty method means `GET`; the header starts empty. -/
def NewRequest (rt : Runtime) (method url : GoString) (body : Option GoString) :
    Except GoError Request :=
  let method1 := if method = [] then str "GET" else method
  match rt.newRequestError method1 url with
  | some err => .error err
  | none =>
    .ok { Method := method1, URL := url, Header := [], Body := body,
          ContentLength := (body.getD []).length }

/-- The outcome of a call of a function with result type `(α, error)`. -/
structure Call (σ α : Type) where
  /-- The first result; `none` is `nil`. -/
  val : Option α
  /-- The second result; `none` is `nil`. -/
  err : Option GoError
  /-- The requests handed to `HTTPClient.Do`, in order. -/
  sent : List Request
  /-- The outside world after the call. -/
  world : σ

/-! ## encoding/json: decoding (`Unmarshal`) -/

/-- The decoder keeps the first error it meets (`saveError`) and goes on. -/
def firstError (a b : Option GoError) : Option GoError :=
  match a with
  | some e => some e
  | none => b

/-- The assignment `m[k] = v` of the decoder: the entries are kept in the order their keys were
last assigned, an entry assigned again moving to the end. -/
def mapPut (m : List (GoString × GoValue)) (k : GoString) (v : GoValue) :
    List (GoString × GoValue) :=
  m.filter (fun e => decide (e.1 ≠ k)) ++ [(k, v)]

/-- The function `strconv.ParseInt(lit, 10, 64)` on the literal of a JSON number: an optional
minus sign and digits only, within the range of `int64`. -/
def parseInt64 (lit : GoString) : Option Int :=
  let (neg, ds) : Bool × GoString :=
    match lit with
    | c :: rest => if c = ch '-' then (true, rest) else (false, lit)
    | [] => (false, lit)
  if ds ≠ [] ∧ ds.all isDigit then
    let n : Nat := ds.foldl (fun a d => 10 * a + (d.val - 48)) 0
    if neg then (if n ≤ 9223372036854775808 then some (-(n : Int)) else none)
    else (if n < 9223372036854775808 then some (n : Int) else none)
  else none

mutual
/-- The method `valueInterface`: the Go value stored in an `interface{}` for a JSON value. -/
def toInterface (rt : Runtime) : JSON → GoValue × Option GoError
  | .null => (.nil, none)
  | .bool b => (.bool b, none)
  | .num lit =>
    match rt.parseFloat lit with
    | some f => (.float64 f, none)
    | none => (.nil, some (rt.typeError (.num lit) .float64))
  | .str s => (.string s, none)
  | .arr xs => ((GoValue.slice (toInterfaceList rt xs).1), (toInterfaceList rt xs).2)
  | .obj ms => ((GoValue.map (toInterfaceMembers rt ms []).1), (toInterfaceMembers rt ms []).2)
/-- The method `arrayInterface`. -/
def toInterfaceList (rt : Runtime) : List JSON → List GoValue × Option GoError
  | [] => ([], none)
  | x :: xs =>
    ((toInterface rt x).1 :: (toInterfaceList rt xs).1,
      firstError (toInterface rt x).2 (toInterfaceList rt xs).2)
/-- The method `objectInterface`: members are stored in order, a later duplicate replacing an
earlier one. -/
def toInterfaceMembers (rt : Runtime) :
    List (GoString × JSON) → List (GoString × GoValue) → List (GoString × GoValue) × Option GoError
  | [], acc => (acc, none)
  | (k, x) :: ms, acc =>
    ((toInterfaceMembers rt ms (mapPut acc k (toInterface rt x).1)).1,
      firstError (toInterface rt x).2 (toInterfaceMembers rt ms (mapPut acc k (toInterface rt x).1)).2)
end

/-- The function `foldName` as far as it can produce an ASCII name: ASCII letters are upper-cased,
U+017F (long s) folds to `S` and U+212A (Kelvin sign) to `K`; every other code point folds to a
code point outside ASCII and is left in place. -/
def foldName : GoString → GoString
  | [] => []
  | c :: rest =>
    if 97 ≤ c.val ∧ c.val ≤ 122 then Fin.ofNat (c.val - 32) :: foldName rest
    else if c.val = 197 then
      match rest with
      | b :: rest1 => if b.val = 191 then ch 'S' :: foldName rest1 else c :: foldName (b :: rest1)
      | [] => [c]
    else if c.val = 226 then
      match rest with
      | b1 :: b2 :: rest1 =>
        if b1.val = 132 ∧ b2.val = 170 then ch 'K' :: foldName rest1
        else c :: foldName (b1 :: b2 :: rest1)
      | [b1] => c :: foldName [b1]
      | [] => [c]
    else c :: foldName rest

/-- The struct field an object key is stored in: the field with exactly that JSON name, else
the first field whose name equals the key under case folding; `none` for an unknown key. -/
def findField {τ : Type} (fields : List (GoString × τ)) (key : GoString) : Option (GoString × τ) :=
  match fields.find? (fun f => decide (f.1 = key)) with
  | some f => some f
  | none => fields.find? (fun f => decide (foldName f.1 = foldName key))

/-- The current value a pointer leads to, allocating a zero value for a nil pointer. -/
def derefOrNew (t : GoType) (cur : GoValue) : GoValue :=
  match t, cur with
  | .ptr e, .nil => zeroValue e.elem
  | _, _ => cur

/-- The fields of the struct a value holds. -/
def structFields (t : GoType) (cur : GoValue) : List (GoString × Omit × GoValue) :=
  match cur with
  | .struct fs => fs
  | _ =>
    match zeroValue t with
    | .struct fs => fs
    | _ => []

mutual
/-- The method `decodeState.value`: store the JSON value `j` in a Go value of type `t` whose
current content is `cur`. A value of the wrong kind leaves the content unchanged (a nil pointer
has been allocated by then) and records a type error; `null` sets interfaces, pointers, maps and slices to nil and leaves everything else
unchanged, without error (package documentation: "unmarshaling a JSON null into any other Go
type has no effect on the value and produces no error"). -/
def unmarshalValue (rt : Runtime) (t : GoType) : JSON → GoValue → GoValue × Option GoError
  | .null, cur => if t.nullable then (.nil, none) else (cur, none)
  | .bool b, cur =>
    match t.elem with
    | .bool => (.bool b, none)
    | .iface => (.bool b, none)
    | _ => (derefOrNew t cur, some (rt.typeError (.bool b) t.elem))
  | .num lit, cur =>
    match t.elem with
    | .int =>
      match parseInt64 lit with
      | some i => (.int i, none)
      | none => (derefOrNew t cur, some (rt.typeError (.num lit) t.elem))
    | .float64 =>
      match rt.parseFloat lit with
      | some f => (.float64 f, none)
      | none => (derefOrNew t cur, some (rt.typeError (.num lit) t.elem))
    | .iface => toInterface rt (.num lit)
    | _ => (derefOrNew t cur, some (rt.typeError (.num lit) t.elem))
  | .str s, cur =>
    match t.elem with
    | .string => (.string s, none)
    | .iface => (.string s, none)
    | _ => (derefOrNew t cur, some (rt.typeError (.str s) t.elem))
  | .arr xs, cur =>
    match t.elem with
    | .slice e =>
      let old : List GoValue :=
        match cur with
        | .slice ys => ys
        | _ => []
      ((GoValue.slice (unmarshalElems rt e xs old).1), (unmarshalElems rt e xs old).2)
    | .iface => ((GoValue.slice (toInterfaceList rt xs).1), (toInterfaceList rt xs).2)
    | _ => (derefOrNew t cur, some (rt.typeError (.arr xs) t.elem))
  | .obj ms, cur =>
    match t.elem with
    | .struct name fields =>
      ((GoValue.struct
          (unmarshalFields rt fields ms (structFields (.struct name fields) cur)).1),
        (unmarshalFields rt fields ms (structFields (.struct name fields) cur)).2)
    | .map e =>
      let old : List (GoString × GoValue) :=
        match cur with
        | .map m => m
        | _ => []
      ((GoValue.map (unmarshalEntries rt e ms old).1), (unmarshalEntries rt e ms old).2)
    | .iface =>
      ((GoValue.map (toInterfaceMembers rt ms []).1), (toInterfaceMembers rt ms []).2)
    | _ => (derefOrNew t cur, some (rt.typeError (.obj ms) t.elem))
/-- The elements of an array are decoded in order, element `i` into the existing element `i` of
the slice when there is one and into a zero value otherwise. -/
def unmarshalElems (rt : Runtime) (e : GoType) :
    List JSON → List GoValue → List GoValue × Option GoError
  | [], _ => ([], none)
  | x :: xs, old =>
    ((unmarshalValue rt e x (old.headD (zeroValue e))).1 :: (unmarshalElems rt e xs old.tail).1,
      firstError (unmarshalValue rt e x (old.headD (zeroValue e))).2
        (unmarshalElems rt e xs old.tail).2)
/-- The members of an object decoded into a struct: a member whose key names a field is decoded
into that field, any other member is skipped. -/
def unmarshalFields (rt : Runtime) (fields : List (GoString × Bool × GoType)) :
    List (GoString × JSON) → List (GoString × Omit × GoValue) →
      List (GoString × Omit × GoValue) × Option GoError
  | [], acc => (acc, none)
  | (k, x) :: ms, acc =>
    match findField fields k with
    | none => unmarshalFields rt fields ms acc
    | some (name, _, ft) =>
      let cur := ((GoValue.struct acc).field name).getD (zeroValue ft)
      ((unmarshalFields rt fields ms (setField acc name (unmarshalValue rt ft x cur).1)).1,
        firstError (unmarshalValue rt ft x cur).2
          (unmarshalFields rt fields ms (setField acc name (unmarshalValue rt ft x cur).1)).2)
/-- The members of an object decoded into a map: each value is decoded into a fresh zero value
and stored under its key. -/
def unmarshalEntries (rt : Runtime) (e : GoType) :
    List (GoString × JSON) → List (GoString × GoValue) →
      List (GoString × GoValue) × Option GoError
  | [], acc => (acc, none)
  | (k, x) :: ms, acc =>
    ((unmarshalEntries rt e ms (mapPut acc k (unmarshalValue rt e x (zeroValue e)).1)).1,
      firstError (unmarshalValue rt e x (zeroValue e)).2
        (unmarshalEntries rt e ms (mapPut acc k (unmarshalValue rt e x (zeroValue e)).1)).2)
end

/-- The function `json.Unmarshal(data, &v)` for `v` of type `t` with content `cur`: the new
content and the error. The input is checked to be one JSON value before anything is stored. -/
def Unmarshal (rt : Runtime) (data : GoString) (t : GoType) (cur : GoValue) :
    GoValue × Option GoError :=
  match parseJSON data with
  | none => (cur, some (rt.syntaxError data))
  | some j => unmarshalValue rt t j cur

/-! ## encoding/json: encoding (`Marshal`) -/

/-- The table `hex` of the encoder (lower case). -/
def hexLower (n : Nat) : Byte := (str "0123456789abcdef").getD n 0

/-- The table `htmlSafeSet`: the ASCII bytes written as they are, that is all from the space on
except the double quote, the backslash and `&`, `<`, `>`. -/
def htmlSafe (b : Byte) : Bool :=
  32 ≤ b.val && b.val < 128 && b.val ≠ 34 && b.val ≠ 92 && b.val ≠ 38 && b.val ≠ 60 && b.val ≠ 62

/-- The loop of `appendString` with HTML escaping on, as `Marshal` uses it. `fuel` bounds the
number of steps by the input length. -/
def quoteLoop : Nat → GoString → GoString
  | 0, _ => []
  | _ + 1, [] => []
  | fuel + 1, b :: rest =>
    if b.val < 128 then
      if htmlSafe b then b :: quoteLoop fuel rest
      else if b.val = 92 ∨ b.val = 34 then 92 :: b :: quoteLoop fuel rest
      else if b.val = 8 then 92 :: ch 'b' :: quoteLoop fuel rest
      else if b.val = 12 then 92 :: ch 'f' :: quoteLoop fuel rest
      else if b.val = 10 then 92 :: ch 'n' :: quoteLoop fuel rest
      else if b.val = 13 then 92 :: ch 'r' :: quoteLoop fuel rest
      else if b.val = 9 then 92 :: ch 't' :: quoteLoop fuel rest
      else
        92 :: ch 'u' :: ch '0' :: ch '0' :: hexLower (b.val / 16) :: hexLower (b.val % 16) ::
          quoteLoop fuel rest
    else
      match utf8Size (b :: rest) with
      | 0 => 92 :: str "ufffd" ++ quoteLoop fuel rest
      | n + 1 =>
        if b.val = 226 ∧ n = 2 ∧ rest.take 1 = [128] ∧ (rest.drop 1).take 1 = [168] then
          92 :: str "u2028" ++ quoteLoop fuel (rest.drop n)
        else if b.val = 226 ∧ n = 2 ∧ rest.take 1 = [128] ∧ (rest.drop 1).take 1 = [169] then
          92 :: str "u2029" ++ quoteLoop fuel (rest.drop n)
        else b :: rest.take n ++ quoteLoop fuel (rest.drop n)

/-- A Go string as a JSON string literal. -/
def quoteString (s : GoString) : GoString :=
  34 :: quoteLoop s.length s ++ [34]

/-- The function `isEmptyValue`. -/
def isEmptyValue : GoValue → Bool
  | .nil => true
  | .bool b => !b
  | .int i => i = 0
  | .float64 f => f.isZero
  | .string s => s.isEmpty
  | .slice xs => xs.isEmpty
  | .map ms => ms.isEmpty
  | .struct _ => false
  | .unsupported _ => false

/-- Whether a struct field is left out of the encoding. -/
def omitted (rule : Omit) (v : GoValue) : Bool :=
  match rule with
  | .never => false
  | .whenEmpty => isEmptyValue v
  | .whenNil =>
    match v with
    | .nil => true
    | _ => false

/-- The order of `strings.Compare`: byte-wise lexicographic. -/
def bytesLe : GoString → GoString → Bool
  | [], _ => true
  | _ :: _, [] => false
  | a :: s, b :: t => a.val < b.val || (a.val = b.val && bytesLe s t)

/-- Insertion of one encoded map entry into a list sorted by key. -/
def insertEntry (e : GoString × Except GoError GoString) :
    List (GoString × Except GoError GoString) → List (GoString × Except GoError GoString)
  | [] => [e]
  | x :: rest => if bytesLe e.1 x.1 then e :: x :: rest else x :: insertEntry e rest

/-- The entries of a map sorted by key. -/
def sortEntries (es : List (GoString × Except GoError GoString)) :
    List (GoString × Except GoError GoString) :=
  es.foldr insertEntry []

/-- The encoded items joined by commas; the first item that failed to encode gives the error. -/
def joinItems : List (Except GoError GoString) → Except GoError GoString
  | [] => .ok []
  | [x] => x
  | x :: y :: rest =>
    match x with
    | .error e => .error e
    | .ok a =>
      match joinItems (y :: rest) with
      | .error e => .error e
      | .ok b => .ok (a ++ ch ',' :: b)

/-- The text of `math.NaN` and the infinities under `strconv.FormatFloat(f, 103, -1, 64)`. -/
def nonFiniteText (f : Float64) : GoString :=
  if f.val % 4503599627370496 ≠ 0 then str "NaN"
  else if f.val ≥ 9223372036854775808 then str "-Inf" else str "+Inf"

/-- One `"key":value` item from the encoded value. -/
def keyed (name : GoString) (v : Except GoError GoString) : Except GoError GoString :=
  match v with
  | .error e => .error e
  | .ok t => .ok (quoteString name ++ ch ':' :: t)

mutual
/-- The encoder (`reflectValue`): nil is `null`; slices are arrays; maps are objects with their
keys in sorted order; structs are objects with their fields in declaration order, the fields
to leave out skipped; a NaN or an infinity and a value of an unsupported type are errors. -/
def marshalValue (rt : Runtime) : GoValue → Except GoError GoString
  | .nil => .ok (str "null")
  | .bool b => .ok (if b then str "true" else str "false")
  | .int i => .ok (formatInt i)
  | .float64 f =>
    if f.isNaNOrInf then .error (.errorString (str "json: unsupported value: " ++ nonFiniteText f))
    else .ok (rt.formatFloat f)
  | .string s => .ok (quoteString s)
  | .slice xs =>
    match joinItems (marshalList rt xs) with
    | .error e => .error e
    | .ok t => .ok (91 :: t ++ [93])
  | .map ms =>
    match joinItems ((sortEntries (marshalEntries rt ms)).map (fun e => keyed e.1 e.2)) with
    | .error e => .error e
    | .ok t => .ok (123 :: t ++ [125])
  | .struct fs =>
    match joinItems (marshalFields rt fs) with
    | .error e => .error e
    | .ok t => .ok (123 :: t ++ [125])
  | .unsupported typeName => .error (.errorString (str "json: unsupported type: " ++ typeName))
/-- The elements of a slice, encoded. -/
def marshalList (rt : Runtime) : List GoValue → List (Except GoError GoString)
  | [] => []
  | x :: xs => marshalValue rt x :: marshalList rt xs
/-- The entries of a map, each value encoded. -/
def marshalEntries (rt : Runtime) :
    List (GoString × GoValue) → List (GoString × Except GoError GoString)
  | [] => []
  | (k, v) :: ms => (k, marshalValue rt v) :: marshalEntries rt ms
/-- The fields of a struct that are not left out, each as a `"name":value` item. -/
def marshalFields (rt : Runtime) : List (GoString × Omit × GoValue) → List (Except GoError GoString)
  | [] => []
  | (name, rule, v) :: fs =>
    if omitted rule v then marshalFields rt fs
    else keyed name (marshalValue rt v) :: marshalFields rt fs
end

/-- The function `json.Marshal`: the encoding and a nil error, or nil and the error. -/
def Marshal (rt : Runtime) (v : GoValue) : Option GoString × Option GoError :=
  match marshalValue rt v with
  | .ok t => (some t, none)
  | .error e => (none, some e)

/-! ## types.go -/

/-- The type `map[string]interface{}`, when not nil. -/
abbrev GoMap := List (GoString × GoValue)

/-- The type `Context`: `ID`, `ParentID`, `UserID`. -/
def ContextType : GoType :=
  .struct (str "client.Context")
    [(str "id", false, .string), (str "parent_id", true, .string), (str "user_id", true, .string)]

/-- The type `State`: `EntityID`, `State`, `Attributes`, `LastChanged`, `LastUpdated`,
`Context`. -/
def StateType : GoType :=
  .struct (str "client.State")
    [(str "entity_id", false, .string), (str "state", false, .string),
     (str "attributes", true, .map .iface), (str "last_changed", true, .string),
     (str "last_updated", true, .string), (str "context", true, .ptr ContextType)]

/-- The type `UnitSystem`. -/
def UnitSystemType : GoType :=
  .struct (str "client.UnitSystem")
    [(str "length", false, .string), (str "accumulated_precipitation", false, .string),
     (str "mass", false, .string), (str "pressure", false, .string),
     (str "temperature", false, .string), (str "volume", false, .string),
     (str "wind_speed", false, .string)]

/-- The type `Config`. -/
def ConfigType : GoType :=
  .struct (str "client.Config")
    [(str "latitude", false, .float64), (str "longitude", false, .float64),
     (str "elevation", false, .int), (str "unit_system", false, UnitSystemType),
     (str "location_name", false, .string), (str "time_zone", false, .string),
     (str "components", false, .slice .string), (str "config_dir", false, .string),
     (str "whitelist_external_dirs", false, .slice .string),
     (str "allowlist_external_dirs", false, .slice .string),
     (str "allowlist_external_urls", false, .slice .string),
     (str "version", false, .string), (str "config_source", false, .string),
     (str "safe_mode", false, .bool), (str "state", false, .string),
     (str "external_url", true, .string), (str "internal_url", true, .string),
     (str "currency", false, .string), (str "country", true, .string),
     (str "language", false, .string)]

/-- The type `TargetEntity`. -/
def TargetEntityType : GoType :=
  .struct (str "client.TargetEntity")
    [(str "domain", true, .string), (str "integration", true, .string)]

/-- The type `TargetDevice`. -/
def TargetDeviceType : GoType :=
  .struct (str "client.TargetDevice") [(str "integration", true, .string)]

/-- The type `TargetArea`, a struct without fields. -/
def TargetAreaType : GoType :=
  .struct (str "client.TargetArea") []

/-- The type `ServiceTarget`. -/
def ServiceTargetType : GoType :=
  .struct (str "client.ServiceTarget")
    [(str "entity", true, .slice TargetEntityType), (str "device", true, .slice TargetDeviceType),
     (str "area", true, .slice TargetAreaType)]

/-- The type `ServiceField`. -/
def ServiceFieldType : GoType :=
  .struct (str "client.ServiceField")
    [(str "name", true, .string), (str "description", true, .string),
     (str "required", true, .bool), (str "example", true, .iface), (str "selector", true, .iface)]

/-- The type `ServiceDef`. -/
def ServiceDefType : GoType :=
  .struct (str "client.ServiceDef")
    [(str "name", true, .string), (str "description", true, .string),
     (str "fields", true, .map ServiceFieldType), (str "target", true, .ptr ServiceTargetType)]

/-- The type `ServiceDomain`. -/
def ServiceDomainType : GoType :=
  .struct (str "client.ServiceDomain")
    [(str "domain", false, .string), (str "services", false, .map ServiceDefType)]

/-- The type `Event`. -/
def EventType : GoType :=
  .struct (str "client.Event") [(str "event", false, .string), (str "listener_count", false, .int)]

/-- The type `APIStatus`. -/
def APIStatusType : GoType :=
  .struct (str "client.APIStatus") [(str "message", false, .string)]

/-- The type `FireEventResponse` (events.go). -/
def FireEventResponseType : GoType :=
  .struct (str "client.FireEventResponse") [(str "message", false, .string)]

/-- The type `StateUpdateRequest`. `Attributes = none` is the nil map. -/
structure StateUpdateRequest where
  State : GoString
  Attributes : Option GoMap

/-- A `StateUpdateRequest` as the encoder sees it: `state`, and `attributes` with `omitempty`. -/
def StateUpdateRequest.toValue (r : StateUpdateRequest) : GoValue :=
  .struct
    [(str "state", .never, .string r.State),
     (str "attributes", .whenEmpty,
       match r.Attributes with
       | none => .nil
       | some m => .map m)]

/-- The elements of a slice; `none` for the nil slice. -/
def sliceOf : GoValue → Option (List GoValue)
  | .slice xs => some xs
  | _ => none

/-! ## client.go -/

/-- The type `Client`. -/
structure Client (σ : Type) where
  BaseURL : GoString
  Token : GoString
  HTTPClient : HTTPClient σ

/-- The constant `30 * time.Second`, in nanoseconds. -/
def thirtySeconds : Int := 30 * 1000000000

/-- The function `NewClient`. `getenv` is `os.Getenv` (unset variables read as empty) and
`defaultDo` is the behaviour of a `http.Client` with the default transport. -/
def NewClient {σ : Type} (getenv : GoString → GoString)
    (defaultDo : Request → σ → Except GoError Response × σ) :
    Option (Client σ) × Option GoError :=
  let token := getenv (str "HA_BEARER_TOKEN")
  if token = [] then
    (none, some (.errorString (str "HA_BEARER_TOKEN environment variable is required")))
  else
    let hostName := getenv (str "HA_HOST_NAME")
    if hostName = [] then
      (none, some (.errorString (str "HA_HOST_NAME environment variable is required")))
    else
      let port := getenv (str "HA_PORT")
      let port1 := if port = [] then str "8123" else port
      let baseURL := str "http://" ++ hostName ++ str ":" ++ port1 ++ str "/api"
      (some { BaseURL := baseURL, Token := token,
              HTTPClient := { Timeout := thirtySeconds, Do := defaultDo } }, none)

/-- The text of the error `doRequest` builds for a status outside 200..299. -/
def apiErrorText (status : Int) (respBody : GoString) : GoString :=
  str "API request failed with status " ++ formatInt status ++ str ": " ++ respBody

/-- The first part of `doRequest`: the URL is the base URL followed by the endpoint, the request
is created with the body (when not nil) or without one, and the two headers are set. -/
def Client.buildRequest {σ : Type} (rt : Runtime) (c : Client σ) (method endpoint : GoString)
    (body : Option GoString) : Except GoError Request :=
  let url := c.BaseURL ++ endpoint
  match NewRequest rt method url body with
  | .error err => .error (errorfW (str "failed to create request: ") err)
  | .ok req =>
    .ok { req with
          Header := (req.Header.Set (str "Authorization") (str "Bearer " ++ c.Token)).Set
            (str "Content-Type") (str "application/json") }

/-- The method `doRequest`: the request is built, handed to `HTTPClient.Do`, the body of the
response is read to its end, and the status code is checked. -/
def Client.doRequest {σ : Type} (rt : Runtime) (c : Client σ) (method endpoint : GoString)
    (body : Option GoString) (w : σ) : Call σ GoString :=
  match c.buildRequest rt method endpoint body with
  | .error err => ⟨none, some err, [], w⟩
  | .ok req =>
    match c.HTTPClient.Do req w with
    | (.error err, w1) =>
      ⟨none, some (errorfW (str "failed to execute request: ") err), [req], w1⟩
    | (.ok resp, w1) =>
      match resp.Body with
      | .error err =>
        ⟨none, some (errorfW (str "failed to read response body: ") err), [req], w1⟩
      | .ok respBody =>
        if resp.StatusCode < 200 ∨ resp.StatusCode ≥ 300 then
          ⟨none, some (.errorString (apiErrorText resp.StatusCode respBody)), [req], w1⟩
        else
          ⟨some respBody, none, [req], w1⟩

/-! ## Endpoint methods -/

/-- The tail shared by the methods that decode into a struct and return its address: the error
of `doRequest` is wrapped with the text `failText`; otherwise the body is decoded into a zero
value of type `t`, a decoding error is wrapped with the text `parseText`. -/
def finishStruct {σ : Type} (rt : Runtime) (r : Call σ GoString) (failText parseText : GoString)
    (t : GoType) : Call σ GoValue :=
  match r.err with
  | some err => ⟨none, some (errorfW failText err), r.sent, r.world⟩
  | none =>
    match (Unmarshal rt (r.val.getD []) t (zeroValue t)).2 with
    | some err => ⟨none, some (errorfW parseText err), r.sent, r.world⟩
    | none => ⟨some (Unmarshal rt (r.val.getD []) t (zeroValue t)).1, none, r.sent, r.world⟩

/-- The tail shared by the methods that decode into a slice declared with `var` (so nil) and
return it. -/
def finishSlice {σ : Type} (rt : Runtime) (r : Call σ GoString) (failText parseText : GoString)
    (t : GoType) : Call σ (List GoValue) :=
  match r.err with
  | some err => ⟨none, some (errorfW failText err), r.sent, r.world⟩
  | none =>
    match (Unmarshal rt (r.val.getD []) (.slice t) .nil).2 with
    | some err => ⟨none, some (errorfW parseText err), r.sent, r.world⟩
    | none => ⟨sliceOf (Unmarshal rt (r.val.getD []) (.slice t) .nil).1, none, r.sent, r.world⟩

/-- The method `Health` (config.go). -/
def Client.Health {σ : Type} (rt : Runtime) (c : Client σ) (w : σ) : Call σ GoValue :=
  finishStruct rt (c.doRequest rt (str "GET") (str "/") none w)
    (str "health check failed: ") (str "failed to parse health response: ") APIStatusType

/-- The method `GetConfig` (config.go). -/
def Client.GetConfig {σ : Type} (rt : Runtime) (c : Client σ) (w : σ) : Call σ GoValue :=
  finishStruct rt (c.doRequest rt (str "GET") (str "/config") none w)
    (str "failed to get config: ") (str "failed to parse config response: ") ConfigType

/-- The method `GetStates` (states.go). -/
def Client.GetStates {σ : Type} (rt : Runtime) (c : Client σ) (w : σ) : Call σ (List GoValue) :=
  finishSlice rt (c.doRequest rt (str "GET") (str "/states") none w)
    (str "failed to get states: ") (str "failed to parse states response: ") StateType

/-- The endpoint of `GetState` and `SetState`: `fmt.Sprintf("/states/%s", url.PathEscape(id))`. -/
def stateEndpoint (entityID : GoString) : GoString :=
  str "/states/" ++ PathEscape entityID

/-- The method `GetState` (states.go). -/
def Client.GetState {σ : Type} (rt : Runtime) (c : Client σ) (entityID : GoString) (w : σ) :
    Call σ GoValue :=
  finishStruct rt (c.doRequest rt (str "GET") (stateEndpoint entityID) none w)
    (str "failed to get state for " ++ entityID ++ str ": ")
    (str "failed to parse state response: ") StateType

/-- The method `SetState` (states.go). -/
def Client.SetState {σ : Type} (rt : Runtime) (c : Client σ) (entityID : GoString)
    (req : StateUpdateRequest) (w : σ) : Call σ GoValue :=
  match Marshal rt req.toValue with
  | (_, some err) =>
    ⟨none, some (errorfW (str "failed to marshal state update request: ") err), [], w⟩
  | (payload, none) =>
    finishStruct rt (c.doRequest rt (str "POST") (stateEndpoint entityID) payload w)
      (str "failed to set state for " ++ entityID ++ str ": ")
      (str "failed to parse state response: ") StateType

/-- The method `GetServices` (services.go). -/
def Client.GetServices {σ : Type} (rt : Runtime) (c : Client σ) (w : σ) :
    Call σ (List GoValue) :=
  finishSlice rt (c.doRequest rt (str "GET") (str "/services") none w)
    (str "failed to get services: ") (str "failed to parse services response: ")
    ServiceDomainType

/-- The payload of `CallService` and `FireEvent`: nil for a nil map, else its encoding. -/
def optionalPayload (rt : Runtime) (data : Option GoMap) : Option GoString × Option GoError :=
  match data with
  | none => (none, none)
  | some m => Marshal rt (.map m)

/-- The endpoint of `CallService`:
`fmt.Sprintf("/services/%s/%s", url.PathEscape(domain), url.PathEscape(service))`. -/
def serviceEndpoint (domain service : GoString) : GoString :=
  str "/services/" ++ PathEscape domain ++ str "/" ++ PathEscape service

/-- The method `CallService` (services.go). -/
def Client.CallService {σ : Type} (rt : Runtime) (c : Client σ) (domain service : GoString)
    (serviceData : Option GoMap) (w : σ) : Call σ (List GoValue) :=
  match optionalPayload rt serviceData with
  | (_, some err) => ⟨none, some (errorfW (str "failed to marshal service data: ") err), [], w⟩
  | (payload, none) =>
    finishSlice rt (c.doRequest rt (str "POST") (serviceEndpoint domain service) payload w)
      (str "failed to call service " ++ domain ++ str "." ++ service ++ str ": ")
      (str "failed to parse service call response: ") StateType

/-- The method `GetEvents` (events.go). -/
def Client.GetEvents {σ : Type} (rt : Runtime) (c : Client σ) (w : σ) : Call σ (List GoValue) :=
  finishSlice rt (c.doRequest rt (str "GET") (str "/events") none w)
    (str "failed to get events: ") (str "failed to parse events response: ") EventType

/-- The endpoint of `FireEvent`: `fmt.Sprintf("/events/%s", url.PathEscape(eventType))`. -/
def eventEndpoint (eventType : GoString) : GoString :=
  str "/events/" ++ PathEscape eventType

/-- The method `FireEvent` (events.go). -/
def Client.FireEvent {σ : Type} (rt : Runtime) (c : Client σ) (eventType : GoString)
    (eventData : Option GoMap) (w : σ) : Call σ GoValue :=
  match optionalPayload rt eventData with
  | (_, some err) => ⟨none, some (errorfW (str "failed to marshal event data: ") err), [], w⟩
  | (payload, none) =>
    finishStruct rt (c.doRequest rt (str "POST") (eventEndpoint eventType) payload w)
      (str "failed to fire event " ++ eventType ++ str ": ")
      (str "failed to parse fire event response: ") FireEventResponseType

/-! ## Definitions used to state the properties -/

/-- The value read back from decimal digits. -/
def readDecimal (s : GoString) : Nat :=
  s.foldl (fun a d => 10 * a + (d.val - 48)) 0

/-- The status code and the body read back from the text of the error `doRequest` builds for a
status outside 200..299: the text after the fixed opening is a decimal number, a colon, a
space, and the body. -/
def readStatus (msg : GoString) : Int × GoString :=
  let rest := msg.drop (str "API request failed with status ").length
  let (neg, rest1) : Bool × GoString :=
    match rest with
    | c :: t => if c = ch '-' then (true, t) else (false, rest)
    | [] => (false, rest)
  ((if neg then -((readDecimal (spanDigits rest1).1 : Nat) : Int)
    else ((readDecimal (spanDigits rest1).1 : Nat) : Int)),
   (spanDigits rest1).2.drop 2)

/-- A client whose transport answers every request with the given status code and body, and
does not change the outside world. -/
def fixedServer (status : Int) (body : GoString) : Client Unit :=
  { BaseURL := str "http://localhost:8123/api", Token := str "test-token",
    HTTPClient := { Timeout := thirtySeconds,
                    Do := fun _ w => (.ok { StatusCode := status, Body := .ok body }, w) } }

/-- A runtime in which every request can be created, every number is stored as the `float64`
zero, and the JSON errors carry fixed texts. -/
def plainRuntime : Runtime :=
  { newRequestError := fun _ _ => none,
    parseFloat := fun _ => some 0,
    formatFloat := fun _ => str "0",
    syntaxError := fun _ => .errorString (str "invalid character"),
    typeError := fun _ _ => .errorString (str "json: cannot unmarshal") }

/-- The environment of `TestNewClient_DefaultPort`: token `test-token`, host `192.168.1.100`,
no port. -/
def defaultPortEnv (name : GoString) : GoString :=
  if name = str "HA_BEARER_TOKEN" then str "test-token"
  else if name = str "HA_HOST_NAME" then str "192.168.1.100"
  else []

/-- A transport that fails every exchange. -/
def refusingDo (_ : Request) (w : Unit) : Except GoError Response × Unit :=
  (.error (.errorString (str "connection refused")), w)

/-- A JSON value that does not have the shape a Go type is decoded from, `null` apart: its
kind is not the kind the type takes although it is not `null`; or it is an array with such an
element, an object with such a value under a key that names a field of the struct (under the
decoder's matching of names), or an object with such a value when the type is a map. -/
inductive Mismatch : GoType → JSON → Prop where
  | kind (t : GoType) (j : JSON) (k : Kind) :
      j.kind ≠ .null → t.kind = some k → j.kind ≠ k → Mismatch t j
  | elem (t e : GoType) (xs : List JSON) (x : JSON) :
      t.elem = .slice e → x ∈ xs → Mismatch e x → Mismatch t (.arr xs)
  | field (t : GoType) (name : GoString) (fields : List (GoString × Bool × GoType))
      (ms : List (GoString × JSON)) (key fname : GoString) (oe : Bool) (ft : GoType) (x : JSON) :
      t.elem = .struct name fields → (key, x) ∈ ms → findField fields key = some (fname, oe, ft) →
      Mismatch ft x → Mismatch t (.obj ms)
  | entry (t e : GoType) (ms : List (GoString × JSON)) (key : GoString) (x : JSON) :
      t.elem = .map e → (key, x) ∈ ms → Mismatch e x → Mismatch t (.obj ms)

/-- A response body that does not match the Go type it is decoded into: it is not one JSON
value, or it is one that does not have the shape of the type. -/
def BadBody (t : GoType) (body : GoString) : Prop :=
  parseJSON body = none ∨ ∃ j, parseJSON body = some j ∧ Mismatch t j

/-- The nine endpoint methods, each with its arguments. -/
inductive Endpoint where
  | Health
  | GetConfig
  | GetStates
  | GetState (entityID : GoString)
  | SetState (entityID : GoString) (req : StateUpdateRequest)
  | GetServices
  | CallService (domain service : GoString) (serviceData : Option GoMap)
  | GetEvents
  | FireEvent (eventType : GoString) (eventData : Option GoMap)

/-- The outcome of a call with the returned value forgotten: only whether there is one. -/
def Call.forget {σ α : Type} (r : Call σ α) : Call σ Unit :=
  ⟨r.val.map (fun _ => ()), r.err, r.sent, r.world⟩

/-- The call of an endpoint method on a client. -/
def Endpoint.call {σ : Type} (rt : Runtime) (c : Client σ) : Endpoint → σ → Call σ Unit
  | .Health, w => (c.Health rt w).forget
  | .GetConfig, w => (c.GetConfig rt w).forget
  | .GetStates, w => (c.GetStates rt w).forget
  | .GetState entityID, w => (c.GetState rt entityID w).forget
  | .SetState entityID req, w => (c.SetState rt entityID req w).forget
  | .GetServices, w => (c.GetServices rt w).forget
  | .CallService domain service data, w => (c.CallService rt domain service data w).forget
  | .GetEvents, w => (c.GetEvents rt w).forget
  | .FireEvent eventType data, w => (c.FireEvent rt eventType data w).forget

/-- The Go type the method decodes the response body into. -/
def Endpoint.target : Endpoint → GoType
  | .Health => APIStatusType
  | .GetConfig => ConfigType
  | .GetStates => .slice StateType
  | .GetState _ => StateType
  | .SetState _ _ => StateType
  | .GetServices => .slice ServiceDomainType
  | .CallService _ _ _ => .slice StateType
  | .GetEvents => .slice EventType
  | .FireEvent _ _ => FireEventResponseType

/-- The HTTP method of the request. -/
def Endpoint.verb : Endpoint → GoString
  | .SetState _ _ => str "POST"
  | .CallService _ _ _ => str "POST"
  | .FireEvent _ _ => str "POST"
  | _ => str "GET"

/-- The endpoint of the request, relative to the base URL. -/
def Endpoint.route : Endpoint → GoString
  | .Health => str "/"
  | .GetConfig => str "/config"
  | .GetStates => str "/states"
  | .GetState entityID => stateEndpoint entityID
  | .SetState entityID _ => stateEndpoint entityID
  | .GetServices => str "/services"
  | .CallService domain service _ => serviceEndpoint domain service
  | .GetEvents => str "/events"
  | .FireEvent eventType _ => eventEndpoint eventType

/-- The request body of the method and the error of encoding it. -/
def Endpoint.payload (rt : Runtime) : Endpoint → Option GoString × Option GoError
  | .SetState _ req => Marshal rt req.toValue
  | .CallService _ _ data => optionalPayload rt data
  | .FireEvent _ data => optionalPayload rt data
  | _ => (none, none)

/-- The text the method puts before a decoding error. -/
def Endpoint.parseText : Endpoint → GoString
  | .Health => str "failed to parse health response: "
  | .GetConfig => str "failed to parse config response: "
  | .GetStates => str "failed to parse states response: "
  | .GetState _ => str "failed to parse state response: "
  | .SetState _ _ => str "failed to parse state response: "
  | .GetServices => str "failed to parse services response: "
  | .CallService _ _ _ => str "failed to parse service call response: "
  | .GetEvents => str "failed to parse events response: "
  | .FireEvent _ _ => str "failed to parse fire event response: "

/-- The text the method puts before the error of `doRequest`. -/
def Endpoint.failText : Endpoint → GoString
  | .Health => str "health check failed: "
  | .GetConfig => str "failed to get config: "
  | .GetStates => str "failed to get states: "
  | .GetState entityID => str "failed to get state for " ++ entityID ++ str ": "
  | .SetState entityID _ => str "failed to set state for " ++ entityID ++ str ": "
  | .GetServices => str "failed to get services: "
  | .CallService domain service _ =>
    str "failed to call service " ++ domain ++ str "." ++ service ++ str ": "
  | .GetEvents => str "failed to get events: "
  | .FireEvent eventType _ => str "failed to fire event " ++ eventType ++ str ": "

/-- The text the method puts before the error of encoding its request body. -/
def Endpoint.marshalText : Endpoint → GoString
  | .SetState _ _ => str "failed to marshal state update request: "
  | .CallService _ _ _ => str "failed to marshal service data: "
  | .FireEvent _ _ => str "failed to marshal event data: "
  | _ => []

/-- Whether a method returns a result for the decoded value: always for a pointer to a struct,
and for a slice when it is not nil. -/
def resultPresent (t : GoType) (v : GoValue) : Option Unit :=
  match t with
  | .slice _ => (sliceOf v).map (fun _ => ())
  | _ => some ()

/-- The tail of an endpoint method with the returned value forgotten: the error of `doRequest`
is wrapped, or the body is decoded into a zero value of the target type and a decoding error is
wrapped, or there is no error. -/
def finishForget {σ : Type} (rt : Runtime) (r : Call σ GoString) (failText parseText : GoString)
    (t : GoType) : Call σ Unit :=
  match r.err with
  | some err => ⟨none, some (errorfW failText err), r.sent, r.world⟩
  | none =>
    match (Unmarshal rt (r.val.getD []) t (zeroValue t)).2 with
    | some err => ⟨none, some (errorfW parseText err), r.sent, r.world⟩
    | none =>
      ⟨resultPresent t (Unmarshal rt (r.val.getD []) t (zeroValue t)).1, none, r.sent, r.world⟩

/-- The function `strconv.Quote` (the verb `%q`) on ASCII text: the text between double quotes
(byte 34), with a double quote and a backslash (byte 92) behind a backslash, the control bytes
that have a short escape written so, and every other control byte as a backslash, `x` and two
hexadecimal digits. A byte above ASCII is left as it is, as for a printable character. -/
def quoteASCII (s : GoString) : GoString :=
  34 :: s.flatMap (fun c =>
    if c.val = 34 then [92, 34]
    else if c.val = 92 then [92, 92]
    else if c.val = 7 then [92, ch 'a']
    else if c.val = 8 then [92, ch 'b']
    else if c.val = 12 then [92, ch 'f']
    else if c.val = 10 then [92, ch 'n']
    else if c.val = 13 then [92, ch 'r']
    else if c.val = 9 then [92, ch 't']
    else if c.val = 11 then [92, ch 'v']
    else if c.val < 32 ∨ c.val = 127 then
      [92, ch 'x', hexLower (c.val / 16), hexLower (c.val % 16)]
    else [c]) ++ [34]

/-- The URLs `http.NewRequest` refuses because they hold an ASCII control byte before the
fragment: `url.Parse` returns the `*url.Error` with the operation `parse`, the URL without its
fragment and the cause "invalid control character in URL", whose text is
`parse "<url>": net/url: invalid control character in URL`. Every other request is created. -/
def controlByteRuntime : Runtime :=
  { plainRuntime with
    newRequestError := fun _ url =>
      if (url.takeWhile (fun c => decide (c ≠ ch '#'))).any
          (fun c => decide (c.val < 32 ∨ c.val = 127)) then
        some (.wrapError
          (str "parse " ++ quoteASCII (url.takeWhile (fun c => decide (c ≠ ch '#'))) ++
            str ": net/url: invalid control character in URL")
          (.errorString (str "net/url: invalid control character in URL")))
      else none }

/-- A client as `NewClient` builds it when `HA_HOST_NAME` ends in a line feed: the base URL is
`http://homeassistant\n:8123/api`. The transport would answer 200 with `null`. -/
def lineFeedHostClient : Client Unit :=
  { fixedServer 200 (str "null") with BaseURL := str "http://homeassistant\n:8123/api" }

/-- The fields of a struct type; none for any other type. -/
def GoType.fields : GoType → List (GoString × Bool × GoType)
  | .struct _ fields => fields
  | _ => []

/-- The string an object gives for the string field `name` of a struct with the given fields:
the last string among the values of the members whose key names that field (under the
decoder's matching of names), or `init` when there is none. -/
def stringMember (fields : List (GoString × Bool × GoType)) (name : GoString)
    (ms : List (GoString × JSON)) (init : GoString) : GoString :=
  ms.foldl
    (fun cur m =>
      match findField fields m.1 with
      | some f =>
        if f.1 = name then
          match m.2 with
          | .str s => s
          | _ => cur
        else cur
      | none => cur)
    init


/-- The body the server of `TestClient_GetStates` writes: the encoding of the two states
`light.living_room`/`on` and `light.bedroom`/`off`, and the line feed of `Encoder.Encode`. -/
def twoStatesBody : GoString :=
  str ("[\x7b\"entity_id\":\"light.living_room\",\"state\":\"on\"\x7d," ++
    "\x7b\"entity_id\":\"light.bedroom\",\"state\":\"off\"\x7d]\n")
/-- A body with the two members of an entity-state object, `light.a` being `on`. -/
def plainStateBody : GoString :=
  str "\x7b\"entity_id\":\"light.a\",\"state\":\"on\"\x7d"

/-- The same body with one more member, under the key `STATE`, which is not the JSON name of any
field of `State`. -/
def upperKeyStateBody : GoString :=
  str "\x7b\"entity_id\":\"light.a\",\"state\":\"on\",\"STATE\":\"off\"\x7d"

/-- The same body with one more member, under the key `icon`, holding an array. -/
def extraKeyStateBody : GoString :=
  str "\x7b\"entity_id\":\"light.a\",\"icon\":[1,\"x\"],\"state\":\"on\"\x7d"
/-- The body the server of `TestClient_GetServices` writes: the domain `light` with the services
`turn_off` and `turn_on` (map keys are written in sorted order), and the line feed of
`Encoder.Encode`. -/
def lightServicesBody : GoString :=
  str ("[\x7b\"domain\":\"light\",\"services\":\x7b" ++
    "\"turn_off\":\x7b\"name\":\"Turn off\",\"description\":\"Turn off a light\"\x7d," ++
    "\"turn_on\":\x7b\"name\":\"Turn on\",\"description\":\"Turn on a light\"\x7d\x7d\x7d]\n")

/-- The type `StateUpdateRequest` as the decoder sees it (types.go). -/
def StateUpdateRequestType : GoType :=
  .struct (str "client.StateUpdateRequest")
    [(str "state", false, .string), (str "attributes", true, .map .iface)]

/-- The string held by the field `name` of the value a body decodes into as type `t`; `none`
when the body does not decode. -/
def decodedString (rt : Runtime) (t : GoType) (name : GoString) (body : GoString) :
    Option GoString :=
  match Unmarshal rt body t (zeroValue t) with
  | (v, none) =>
    match v.field name with
    | some (.string s) => some s
    | _ => none
  | (_, some _) => none

/-- The `State` a request body carries when decoded as a `StateUpdateRequest`
(as the server of `TestClient_SetState` reads it). -/
def postedState (rt : Runtime) (body : GoString) : Option GoString :=
  decodedString rt StateUpdateRequestType (str "state") body

/-- The `State` a response body carries when decoded as a `State`. -/
def servedState (rt : Runtime) (body : GoString) : Option GoString :=
  decodedString rt StateType (str "state") body

/-- A server that stores the state posted for an entity and serves it back: whatever the
outside world is, once the transport has been handed the `POST` request the client builds for
the entity's path with a body whose `state` is `s`, it answers the `GET` request the client
builds for the same path with a status in 200..299 and a body whose `state` is `s`. -/
def StoresState {σ : Type} (rt : Runtime) (c : Client σ) (entityID s : GoString) : Prop :=
  ∀ (w : σ) (post get : Request) (p : GoString),
    c.buildRequest rt (str "POST") (stateEndpoint entityID) (some p) = .ok post →
    c.buildRequest rt (str "GET") (stateEndpoint entityID) none = .ok get →
    postedState rt p = some s →
    ∃ (code : Int) (b : GoString) (w2 : σ),
      c.HTTPClient.Do get (c.HTTPClient.Do post w).2 =
          (.ok { StatusCode := code, Body := .ok b }, w2) ∧
        200 ≤ code ∧ code ≤ 299 ∧ servedState rt b = some s

/-- The outside world after `n` calls of `SetState` with the same arguments, one after the
other. -/
def setStateTimes {σ : Type} (rt : Runtime) (c : Client σ) (entityID : GoString)
    (r : StateUpdateRequest) : Nat → σ → σ
  | 0, w => w
  | n + 1, w => setStateTimes rt c entityID r n (c.SetState rt entityID r w).world

/-- The text of an entity state with the given `state`, as a server writes it. -/
def stateText (s : GoString) : GoString :=
  str "\x7b\"entity_id\":\"light.living_room\",\"state\":" ++ quoteString s ++ str "\x7d\n"

/-- A transport backed by a store of states by URL: a `POST` whose body decodes as a
`StateUpdateRequest` stores its `state` under the URL of the request and is answered 200 with
the entity state; any other request is answered 200 with the entity state stored under its
URL, 404 when there is none. -/
def storingDo (req : Request) (w : List (GoString × GoString)) :
    Except GoError Response × List (GoString × GoString) :=
  if req.Method = str "POST" then
    match postedState plainRuntime (req.Body.getD []) with
    | some s => (.ok { StatusCode := 200, Body := .ok (stateText s) }, (req.URL, s) :: w)
    | none => (.ok { StatusCode := 400, Body := .ok (str "400: Bad Request") }, w)
  else
    match w.find? (fun e => decide (e.1 = req.URL)) with
    | some e => (.ok { StatusCode := 200, Body := .ok (stateText e.2) }, w)
    | none => (.ok { StatusCode := 404, Body := .ok (str "404: Not Found") }, w)

/-- A client of the storing server. -/
def storingServer : Client (List (GoString × GoString)) :=
  { BaseURL := str "http://localhost:8123/api", Token := str "test-token",
    HTTPClient := { Timeout := thirtySeconds, Do := storingDo } }
/-- The function `utf8.Valid`: every byte is part of a well-formed UTF-8 sequence. `fuel`
bounds the number of steps by the input length. -/
def validLoop : Nat → GoString → Bool
  | 0, s => s.isEmpty
  | _ + 1, [] => true
  | fuel + 1, b :: rest =>
    if b.val < 128 then validLoop fuel rest
    else
      match utf8Size (b :: rest) with
      | 0 => false
      | n + 1 => validLoop fuel (rest.drop n)

/-- Whether a string is valid UTF-8. -/
def utf8Valid (s : GoString) : Bool := validLoop s.length s
/-- Whether a text can follow a number: it is empty or starts with a byte that is not a digit,
a dot or the letter of an exponent. -/
def endsNumber (rest : GoString) : Bool :=
  match rest with
  | [] => true
  | c :: _ => !isDigit c && decide (c ≠ ch '.') && decide (c ≠ ch 'e') && decide (c ≠ ch 'E')

/-- Insertion of one keyed item into a list sorted by key (the order of `insertEntry`). -/
def insertByKey {α : Type} (e : GoString × α) : List (GoString × α) → List (GoString × α)
  | [] => [e]
  | x :: rest => if bytesLe e.1 x.1 then e :: x :: rest else x :: insertByKey e rest

/-- Keyed items sorted by key (the order of `sortEntries`). -/
def sortByKey {α : Type} (es : List (GoString × α)) : List (GoString × α) :=
  es.foldr insertByKey []

mutual
/-- The JSON value the encoder writes for a Go value whose strings are valid UTF-8: nil is
`null`, a number is its literal, a slice is an array, a map is an object with its keys in sorted
order, a struct is an object with the fields that are not left out, in declaration order. -/
def jsonOf (rt : Runtime) : GoValue → JSON
  | .nil => .null
  | .bool b => .bool b
  | .int i => .num (formatInt i)
  | .float64 f => .num (rt.formatFloat f)
  | .string s => .str s
  | .slice xs => .arr (jsonOfList rt xs)
  | .map ms => .obj (sortByKey (jsonOfEntries rt ms))
  | .struct fs => .obj (jsonOfFields rt fs)
  | .unsupported _ => .null
/-- The JSON values of the elements of a slice. -/
def jsonOfList (rt : Runtime) : List GoValue → List JSON
  | [] => []
  | x :: xs => jsonOf rt x :: jsonOfList rt xs
/-- The JSON values of the entries of a map, under their keys. -/
def jsonOfEntries (rt : Runtime) : List (GoString × GoValue) → List (GoString × JSON)
  | [] => []
  | (k, v) :: ms => (k, jsonOf rt v) :: jsonOfEntries rt ms
/-- The JSON values of the fields of a struct that are not left out, under their names. -/
def jsonOfFields (rt : Runtime) : List (GoString × Omit × GoValue) → List (GoString × JSON)
  | [] => []
  | (name, rule, v) :: fs =>
    if omitted rule v then jsonOfFields rt fs else (name, jsonOf rt v) :: jsonOfFields rt fs
end

mutual
/-- The nesting depth of a JSON value: 0 for a scalar, one more than the deepest element for an
array or an object. -/
def JSON.depth : JSON → Nat
  | .arr xs => depthList xs + 1
  | .obj ms => depthMembers ms + 1
  | _ => 0
/-- The greatest depth among the elements of an array. -/
def depthList : List JSON → Nat
  | [] => 0
  | x :: xs => max x.depth (depthList xs)
/-- The greatest depth among the values of the members of an object. -/
def depthMembers : List (GoString × JSON) → Nat
  | [] => 0
  | (_, x) :: ms => max x.depth (depthMembers ms)
end

mutual
/-- The Go values that `Marshal` encodes to a JSON text holding the same data: no value of an
unsupported type, no NaN and no infinity, every finite `float64` written as a JSON number, and
every string, map key and field name valid UTF-8 (anything else is written as U+FFFD). -/
def encodable (rt : Runtime) : GoValue → Bool
  | .nil => true
  | .bool _ => true
  | .int _ => true
  | .float64 f =>
    !f.isNaNOrInf && decide (scanNumber (rt.formatFloat f) = some (rt.formatFloat f, []))
  | .string s => utf8Valid s
  | .slice xs => encodableList rt xs
  | .map ms => encodableEntries rt ms
  | .struct fs => encodableFields rt fs
  | .unsupported _ => false
/-- Every element of a slice is encodable. -/
def encodableList (rt : Runtime) : List GoValue → Bool
  | [] => true
  | x :: xs => encodable rt x && encodableList rt xs
/-- Every key of a map is valid UTF-8 and every value is encodable. -/
def encodableEntries (rt : Runtime) : List (GoString × GoValue) → Bool
  | [] => true
  | (k, v) :: ms => utf8Valid k && encodable rt v && encodableEntries rt ms
/-- Every field of a struct that is not left out has a valid UTF-8 name and an encodable
value. -/
def encodableFields (rt : Runtime) : List (GoString × Omit × GoValue) → Bool
  | [] => true
  | (name, rule, v) :: fs =>
    (omitted rule v || (utf8Valid name && encodable rt v)) && encodableFields rt fs
end

/-- Texts joined by commas. -/
def joinTexts : List GoString → GoString
  | [] => []
  | [a] => a
  | a :: b :: rest => a ++ ch ',' :: joinTexts (b :: rest)

/-- The parser reads the text as the JSON value: the text starts with a byte that is neither
white space nor a closing bracket, and whenever what follows the text can follow a number, the nesting allowed covers the
depth of the value and the fuel covers the input, the parser returns the value and what
follows the text. -/
def Reads (j : JSON) (text : GoString) : Prop :=
  (∃ c t, text = c :: t ∧ isSpace c = false ∧ c.val ≠ 93) ∧
    ∀ (d : Nat) (rest : GoString) (fuel : Nat), j.depth ≤ d → endsNumber rest = true →
      2 * (text ++ rest).length ≤ fuel → parseValue fuel d (text ++ rest) = some (j, rest)

/-- The text of one member of an object: the quoted key, a colon, the text of the value. -/
def memberText (i : GoString × JSON × GoString) : GoString :=
  quoteString i.1 ++ ch ':' :: i.2.2

/-- The member `attributes` of the object `SetState` sends: present, with the JSON value of the
map, when the map is not empty; absent for a nil or empty map (`omitempty`). -/
def attributesMember (rt : Runtime) (attrs : Option GoMap) : List (GoString × JSON) :=
  match attrs with
  | none => []
  | some [] => []
  | some (e :: m) => [(str "attributes", jsonOf rt (.map (e :: m)))]

/-- A `float64` NaN (`math.NaN()`). -/
def floatNaN : Float64 := 9221120237041090560

mutual
/-- The Go values the decoder stores in an `interface{}`: nil, a boolean, a `float64` that the
runtime reads back from the text it writes for it, a string, a slice of such values, and a map
with distinct keys to such values. -/
def plain (rt : Runtime) : GoValue → Bool
  | .nil => true
  | .bool _ => true
  | .int _ => false
  | .float64 f => decide (rt.parseFloat (rt.formatFloat f) = some f)
  | .string _ => true
  | .slice xs => plainList rt xs
  | .map ms => plainEntries rt ms && decide (ms.map Prod.fst).Nodup
  | .struct _ => false
  | .unsupported _ => false
/-- Every element of a slice is plain. -/
def plainList (rt : Runtime) : List GoValue → Bool
  | [] => true
  | x :: xs => plain rt x && plainList rt xs
/-- Every value of a map is plain. -/
def plainEntries (rt : Runtime) : List (GoString × GoValue) → Bool
  | [] => true
  | (_, v) :: ms => plain rt v && plainEntries rt ms
end

mutual
/-- A Go value with the entries of every map listed in the order of their keys. A Go map has
no order: the value is the same value. -/
def canon : GoValue → GoValue
  | .slice xs => .slice (canonList xs)
  | .map ms => .map (sortByKey (canonEntries ms))
  | .nil => .nil
  | .bool b => .bool b
  | .int i => .int i
  | .float64 f => .float64 f
  | .string s => .string s
  | .struct fs => .struct fs
  | .unsupported n => .unsupported n
/-- The elements of a slice, each in canonical form. -/
def canonList : List GoValue → List GoValue
  | [] => []
  | x :: xs => canon x :: canonList xs
/-- The entries of a map, each value in canonical form. -/
def canonEntries : List (GoString × GoValue) → List (GoString × GoValue)
  | [] => []
  | (k, v) :: ms => (k, canon v) :: canonEntries ms
end

/-- The type `Context` (types.go). -/
structure Context where
  ID : GoString
  ParentID : GoString
  UserID : GoString

/-- The type `State` (types.go). `Attributes = none` is the nil map, `Context = none` the nil
pointer. -/
structure State where
  EntityID : GoString
  State : GoString
  Attributes : Option GoMap
  LastChanged : GoString
  LastUpdated : GoString
  Context : Option Context

/-- A `Context` as the encoder sees it: `id`, and `parent_id` and `user_id` with `omitempty`. -/
def Context.toValue (c : Context) : GoValue :=
  .struct
    [(str "id", .never, .string c.ID), (str "parent_id", .whenEmpty, .string c.ParentID),
     (str "user_id", .whenEmpty, .string c.UserID)]

/-- The fields of a `State` as the encoder sees them: `entity_id`, `state`, and `attributes`,
`last_changed`, `last_updated` and `context` with `omitempty`. -/
def State.toFields (s : HomeAssistant.State) : List (GoString × Omit × GoValue) :=
  [(str "entity_id", .never, .string s.EntityID), (str "state", .never, .string s.State),
   (str "attributes", .whenEmpty,
     match s.Attributes with
     | none => .nil
     | some m => .map m),
   (str "last_changed", .whenEmpty, .string s.LastChanged),
   (str "last_updated", .whenEmpty, .string s.LastUpdated),
   (str "context", .whenNil,
     match s.Context with
     | none => .nil
     | some c => c.toValue)]

/-- A `State` as the encoder sees it. -/
def State.toValue (s : HomeAssistant.State) : GoValue := .struct s.toFields

/-- The `Attributes` a decoded `State` holds for a `State` that was encoded: nil when the map
was nil or empty (the member is left out), else the map. -/
def decodedAttributes (attrs : Option GoMap) : GoValue :=
  match attrs with
  | none => .nil
  | some [] => .nil
  | some (e :: m) => .map (sortByKey (canonEntries (e :: m)))

/-- What one member of an object does to the content of the field `name` of a struct. -/
def fieldStep (rt : Runtime) (fields : List (GoString × Bool × GoType)) (name : GoString)
    (cur : GoValue) (m : GoString × JSON) : GoValue :=
  match findField fields m.1 with
  | some f => if f.1 = name then (unmarshalValue rt f.2.2 m.2 cur).1 else cur
  | none => cur

/-- The `float64` 255 (bit pattern `0x406FE00000000000`). -/
def float255 : Float64 := 4643176031446892544

/-- A runtime that writes the `float64` 255 as `255` and reads `255` back as that value; every
other number is written as `0` and read as the `float64` zero. -/
def testRuntime : Runtime :=
  { newRequestError := fun _ _ => none,
    parseFloat := fun lit => if lit = str "255" then some float255 else some 0,
    formatFloat := fun f => if f = float255 then str "255" else str "0",
    syntaxError := fun _ => .errorString (str "invalid character"),
    typeError := fun _ _ => .errorString (str "json: cannot unmarshal") }

/-- The state of `TestClient_GetState`: `light.living_room` is `on`, with the attributes
`brightness` 255 and `friendly_name`. -/
def livingRoomState : HomeAssistant.State :=
  { EntityID := str "light.living_room", State := str "on",
    Attributes := some [(str "brightness", .float64 float255),
      (str "friendly_name", .string (str "Living Room Light"))],
    LastChanged := [], LastUpdated := [], Context := none }

/-- The body the server of `TestClient_GetState` writes. -/
def livingRoomBody : GoString :=
  str ("\x7b\"entity_id\":\"light.living_room\",\"state\":\"on\",\"attributes\":" ++
    "\x7b\"brightness\":255,\"friendly_name\":\"Living Room Light\"\x7d\x7d\n")

/-- A state whose `State` is the single byte `0xff`, which is not valid UTF-8. -/
def invalidState : HomeAssistant.State :=
  { EntityID := str "light.a", State := [255], Attributes := none,
    LastChanged := [], LastUpdated := [], Context := none }

/-- The encoding of `invalidState`: the byte is written as the escape of U+FFFD. -/
def invalidStateBody : GoString :=
  str "\x7b\"entity_id\":\"light.a\",\"state\":\"\\ufffd\"\x7d"

/-- Two calls have the same outcome: the same results and the same requests handed to the
transport. -/
def SameOutcome {σ τ α : Type} (r : Call σ α) (r1 : Call τ α) : Prop :=
  r.val = r1.val ∧ r.err = r1.err ∧ r.sent = r1.sent

/-- A state whose attribute `brightness` is the `int` 255. -/
def intAttributeState : HomeAssistant.State :=
  { EntityID := str "light.a", State := str "on",
    Attributes := some [(str "brightness", .int 255)],
    LastChanged := [], LastUpdated := [], Context := none }

/-- The encoding of `intAttributeState`. -/
def intAttributeBody : GoString :=
  str "\x7b\"entity_id\":\"light.a\",\"state\":\"on\",\"attributes\":\x7b\"brightness\":255\x7d\x7d"
/-! ## The adapter layer: library routines (`unicode/utf8`, `strings`, `regexp`) -/

/-- The parts of the Go library the adapters use that are parameters of the embedding. -/
structure Library where
  /-- The function `unicode.ToLower` on the code points above ASCII (the Unicode case tables). -/
  unicodeToLower : Nat → Nat
  /-- The conversion `int(f)` of a `float64`. -/
  floatToInt : Float64 → Int

/-- The function `utf8.DecodeRuneInString`: the code point at the head of the input and its
width in bytes; `RuneError` (U+FFFD) with width 1 for a byte that starts no well-formed
sequence, with width 0 for the empty input. -/
def decodeRune (s : GoString) : Nat × Nat :=
  match utf8Size s, s with
  | 1, b0 :: _ => (b0.val, 1)
  | 2, b0 :: b1 :: _ => (b0.val % 32 * 64 + b1.val % 64, 2)
  | 3, b0 :: b1 :: b2 :: _ => (b0.val % 16 * 4096 + b1.val % 64 * 64 + b2.val % 64, 3)
  | 4, b0 :: b1 :: b2 :: b3 :: _ =>
    (b0.val % 8 * 262144 + b1.val % 64 * 4096 + b2.val % 64 * 64 + b3.val % 64, 4)
  | _, [] => (65533, 0)
  | _, _ :: _ => (65533, 1)

/-- The function `unicode.ToLower`: the ASCII capitals are moved to the small letters, every
other ASCII code point is left as it is, the rest is looked up in the case tables. -/
def lowerRune (lib : Library) (r : Nat) : Nat :=
  if r ≤ 127 then (if 65 ≤ r ∧ r ≤ 90 then r + 32 else r) else lib.unicodeToLower r

/-- The call `strings.Map(unicode.ToLower, s)`: every code point is replaced by its lower case,
a byte that is not part of well-formed UTF-8 by U+FFFD. `fuel` bounds the number of steps by
the input length. -/
def mapLower (lib : Library) : Nat → GoString → GoString
  | 0, _ => []
  | _ + 1, [] => []
  | fuel + 1, b :: rest =>
    encodeRune (lowerRune lib (decodeRune (b :: rest)).1) ++
      mapLower lib fuel ((b :: rest).drop (decodeRune (b :: rest)).2)

/-- The function `strings.ToLower`: an ASCII-only string has its capitals moved to small
letters byte by byte; any other string goes through `strings.Map(unicode.ToLower, s)`. -/
def ToLower (lib : Library) (s : GoString) : GoString :=
  if s.all (fun c => decide (c.val < 128)) then
    s.map (fun c => if 65 ≤ c.val ∧ c.val ≤ 90 then c + 32 else c)
  else mapLower lib s.length s

/-- The character class `a-z0-9` of the expression in `slugify`, on code points. -/
def inClass (r : Nat) : Bool := (97 ≤ r && r ≤ 122) || (48 ≤ r && r ≤ 57)

/-- The end of a match of `[^a-z0-9]+` (greedy): the input after the longest run of code points
outside the class at its head. `fuel` bounds the number of steps by the input length. -/
def matchEnd : Nat → GoString → GoString
  | 0, s => s
  | _ + 1, [] => []
  | fuel + 1, b :: rest =>
    if inClass (decodeRune (b :: rest)).1 then b :: rest
    else matchEnd fuel ((b :: rest).drop (decodeRune (b :: rest)).2)

/-- The loop of `Regexp.ReplaceAllString` for the expression `[^a-z0-9]+` and a replacement
without `$`: the code points before the leftmost match are copied, the match is replaced, and
the search goes on after the match. `fuel` bounds the number of steps by the input length. -/
def replaceAllLoop (repl : GoString) : Nat → GoString → GoString
  | 0, s => s
  | _ + 1, [] => []
  | fuel + 1, b :: rest =>
    if inClass (decodeRune (b :: rest)).1 then
      (b :: rest).take (decodeRune (b :: rest)).2 ++
        replaceAllLoop repl fuel ((b :: rest).drop (decodeRune (b :: rest)).2)
    else repl ++ replaceAllLoop repl fuel (matchEnd (b :: rest).length (b :: rest))

/-- The call `reg.ReplaceAllString(src, repl)` for `reg = regexp.MustCompile("[^a-z0-9]+")`. -/
def ReplaceAllString (src repl : GoString) : GoString :=
  replaceAllLoop repl src.length src

/-- The function `trimLeftByte` of package `strings`. -/
def trimLeftByte : GoString → Byte → GoString
  | [], _ => []
  | b :: rest, c => if b = c then trimLeftByte rest c else b :: rest

/-- The function `trimRightByte` of package `strings`: the last byte is removed as long as it
is `c`. `fuel` bounds the number of steps by the input length. -/
def trimRightLoop : Nat → GoString → Byte → GoString
  | 0, s, _ => s
  | fuel + 1, s, c => if s.getLast? = some c then trimRightLoop fuel s.dropLast c else s

/-- The function `trimRightByte` of package `strings`. -/
def trimRightByte (s : GoString) (c : Byte) : GoString := trimRightLoop s.length s c

/-- The call `strings.Trim(s, cutset)` for a cutset of one ASCII byte `c`. -/
def Trim (s : GoString) (c : Byte) : GoString :=
  trimLeftByte (trimRightByte s c) c

/-! ## resource_zone.go: `slugify` -/

/-- The function `slugify` (resource_zone.go). -/
def slugify (lib : Library) (name : GoString) : GoString :=
  Trim (ReplaceAllString (ToLower lib name) (str "_")) (ch '_')

/-- Whether a byte is one of the characters `a-z`, `0-9`. -/
def isAlnum (c : Byte) : Bool :=
  (97 ≤ c.val && c.val ≤ 122) || (48 ≤ c.val && c.val ≤ 57)

/-- The specification's description of the middle step of `slugify`: the text is cut into its maximal
runs of characters inside `a-z0-9` and of characters outside, and every run of characters
outside is replaced by a single `_`. A character of several bytes consists of bytes outside
`a-z0-9`, so the runs of characters are the runs of bytes. -/
def replaceRuns (s : GoString) : GoString :=
  ((s.splitBy (fun a b => isAlnum a == isAlnum b)).map
    (fun run => if run.all isAlnum then run else [ch '_'])).flatten

/-- The specification's description of the last step of `slugify`: leading and trailing `_` are
removed. -/
def stripUnderscores (s : GoString) : GoString :=
  ((s.dropWhile (fun c => decide (c = ch '_'))).reverse.dropWhile
    (fun c => decide (c = ch '_'))).reverse

/-- The specification's description of `slugify`: lower case, runs replaced, ends stripped. -/
def slugifySpec (lib : Library) (name : GoString) : GoString :=
  stripUnderscores (replaceRuns (ToLower lib name))

/-- A library whose case tables leave every code point above ASCII as it is. -/
def plainLibrary : Library :=
  { unicodeToLower := fun r => r, floatToInt := fun _ => 0 }
/-! ## The adapter layer: values of the Terraform plugin SDK -/

/-- The type `diag.Severity`. -/
inductive Severity where
  | Error
  | Warning
  deriving DecidableEq, Repr

/-- The fields of `diag.Diagnostic` the package sets. -/
structure Diagnostic where
  Severity : HomeAssistant.Severity
  Summary : GoString
  deriving DecidableEq, Repr

/-- The function `diag.FromErr` on a non-nil error: one diagnostic of severity `Error` whose
summary is the text of the error. -/
def FromErr (err : GoError) : List Diagnostic :=
  [{ Severity := .Error, Summary := err.Error }]

/-- The part of `schema.ResourceData` the resources use. The schema fixes the Go type behind
every key, so `d.Get(key).(T)` is the entry of the store of type `T` (the zero value when
nothing is set). `present` is the second result of `d.GetOk(key)` and `rawNull` is
`d.GetRawConfig().GetAttr(key).IsNull()`; both describe the configuration and are read before
the first `d.Set` of a call. -/
structure ResourceData where
  Id : GoString
  strings : GoString → GoString
  floats : GoString → Float64
  bools : GoString → Bool
  ints : GoString → Int
  intLists : GoString → List Int
  present : GoString → Bool
  rawNull : GoString → Bool

/-- The method `d.SetId`. -/
def ResourceData.SetId (d : ResourceData) (id : GoString) : ResourceData :=
  { d with Id := id }

/-- The method `d.Set` with a `string`. -/
def ResourceData.SetString (d : ResourceData) (key v : GoString) : ResourceData :=
  { d with strings := fun k => if k = key then v else d.strings k }

/-- The method `d.Set` with a `float64`. -/
def ResourceData.SetFloat (d : ResourceData) (key : GoString) (v : Float64) : ResourceData :=
  { d with floats := fun k => if k = key then v else d.floats k }

/-- The method `d.Set` with a `bool`. -/
def ResourceData.SetBool (d : ResourceData) (key : GoString) (v : Bool) : ResourceData :=
  { d with bools := fun k => if k = key then v else d.bools k }

/-- The method `d.Set` with an `int`. -/
def ResourceData.SetInt (d : ResourceData) (key : GoString) (v : Int) : ResourceData :=
  { d with ints := fun k => if k = key then v else d.ints k }

/-- The method `d.Set` with a `[]int`. -/
def ResourceData.SetIntList (d : ResourceData) (key : GoString) (v : List Int) : ResourceData :=
  { d with intLists := fun k => if k = key then v else d.intLists k }

/-- A call of a client method by an adapter, with its arguments. -/
inductive ClientCall where
  | GetState (entityID : GoString)
  | SetState (entityID : GoString) (req : StateUpdateRequest)
  | CallService (domain service : GoString) (serviceData : Option GoMap)

/-- The outcome of a resource function: the diagnostics it returns, the resource data it
leaves, the client methods it called (in order, with their arguments), the requests handed to
`HTTPClient.Do` and the outside world after the call. -/
structure Outcome (σ : Type) where
  diags : List Diagnostic
  data : ResourceData
  calls : List ClientCall
  sent : List Request
  world : σ

/-- The field `State` of a decoded `*client.State`. -/
def stateState (state : GoValue) : GoString :=
  match state.field (str "state") with
  | some s => s.asString
  | none => []

/-- The lookup `state.Attributes[key]` in a decoded `*client.State`: the value and `ok`
together; `none` when the key is missing or the map is nil. -/
def stateAttribute (state : GoValue) (key : GoString) : Option GoValue :=
  match state.field (str "attributes") with
  | some attrs => attrs.index key
  | none => none

/-- The pattern `if v, ok := x.(string); ok { d.Set(key, v) }` on the outcome of a lookup. -/
def setIfString (d : ResourceData) (key : GoString) (x : Option GoValue) : ResourceData :=
  match x with
  | some (.string s) => d.SetString key s
  | _ => d

/-- The pattern `if v, ok := x.(float64); ok { d.Set(key, v) }` on the outcome of a lookup. -/
def setIfFloat (d : ResourceData) (key : GoString) (x : Option GoValue) : ResourceData :=
  match x with
  | some (.float64 f) => d.SetFloat key f
  | _ => d

/-- The pattern `if v, ok := x.(bool); ok { d.Set(key, v) }` on the outcome of a lookup. -/
def setIfBool (d : ResourceData) (key : GoString) (x : Option GoValue) : ResourceData :=
  match x with
  | some (.bool b) => d.SetBool key b
  | _ => d

/-- The pattern `if v, ok := x.(float64); ok { d.Set(key, int(v)) }` on the outcome of a
lookup. -/
def setIfNumber (lib : Library) (d : ResourceData) (key : GoString) (x : Option GoValue) :
    ResourceData :=
  match x with
  | some (.float64 f) => d.SetInt key (lib.floatToInt f)
  | _ => d

/-! ## resource_zone.go -/

/-- The function `resourceZoneRead`. -/
def resourceZoneRead {σ : Type} (rt : Runtime) (c : Client σ) (d : ResourceData) (w : σ) :
    Outcome σ :=
  let entityID := d.Id
  let r := c.GetState rt entityID w
  match r.err with
  | some _ => ⟨[], d.SetId [], [.GetState entityID], r.sent, r.world⟩
  | none =>
    let state := r.val.getD .nil
    let d1 := d.SetString (str "entity_id") entityID
    let d2 := d1.SetString (str "state") (stateState state)
    let d3 := setIfString d2 (str "name") (stateAttribute state (str "friendly_name"))
    let d4 := setIfFloat d3 (str "latitude") (stateAttribute state (str "latitude"))
    let d5 := setIfFloat d4 (str "longitude") (stateAttribute state (str "longitude"))
    let d6 := setIfFloat d5 (str "radius") (stateAttribute state (str "radius"))
    let d7 := setIfBool d6 (str "passive") (stateAttribute state (str "passive"))
    let d8 := setIfString d7 (str "icon") (stateAttribute state (str "icon"))
    let d9 := setIfBool d8 (str "editable") (stateAttribute state (str "editable"))
    ⟨[], d9, [.GetState entityID], r.sent, r.world⟩

/-- The function `resourceZoneCreate`. -/
def resourceZoneCreate {σ : Type} (rt : Runtime) (lib : Library) (c : Client σ)
    (d : ResourceData) (w : σ) : Outcome σ :=
  let name := d.strings (str "name")
  let entityID := str "zone." ++ slugify lib name
  let attributes : GoMap :=
    [(str "friendly_name", .string name),
     (str "latitude", .float64 (d.floats (str "latitude"))),
     (str "longitude", .float64 (d.floats (str "longitude"))),
     (str "radius", .float64 (d.floats (str "radius"))),
     (str "passive", .bool (d.bools (str "passive"))),
     (str "icon", .string (d.strings (str "icon"))),
     (str "editable", .bool true),
     (str "persons", .slice [])]
  let stateReq : StateUpdateRequest := { State := str "0", Attributes := some attributes }
  let r := c.SetState rt entityID stateReq w
  match r.err with
  | some err =>
    ⟨FromErr (errorfW (str "failed to create zone: ") err), d, [.SetState entityID stateReq],
      r.sent, r.world⟩
  | none =>
    let o := resourceZoneRead rt c (d.SetId entityID) r.world
    ⟨o.diags, o.data, .SetState entityID stateReq :: o.calls, r.sent ++ o.sent, o.world⟩

/-- The function `resourceZoneUpdate`. -/
def resourceZoneUpdate {σ : Type} (rt : Runtime) (c : Client σ) (d : ResourceData) (w : σ) :
    Outcome σ :=
  let entityID := d.Id
  let name := d.strings (str "name")
  let attributes : GoMap :=
    [(str "friendly_name", .string name),
     (str "latitude", .float64 (d.floats (str "latitude"))),
     (str "longitude", .float64 (d.floats (str "longitude"))),
     (str "radius", .float64 (d.floats (str "radius"))),
     (str "passive", .bool (d.bools (str "passive"))),
     (str "icon", .string (d.strings (str "icon"))),
     (str "editable", .bool true)]
  let g := c.GetState rt entityID w
  let attributes1 : GoMap :=
    match g.err with
    | none =>
      match stateAttribute (g.val.getD .nil) (str "persons") with
      | some persons => mapPut attributes (str "persons") persons
      | none => attributes
    | some _ => attributes
  let state := d.strings (str "state")
  let stateReq : StateUpdateRequest :=
    { State := if state = [] then str "0" else state, Attributes := some attributes1 }
  let r := c.SetState rt entityID stateReq g.world
  match r.err with
  | some err =>
    ⟨FromErr (errorfW (str "failed to update zone: ") err), d,
      [.GetState entityID, .SetState entityID stateReq], g.sent ++ r.sent, r.world⟩
  | none =>
    let o := resourceZoneRead rt c d r.world
    ⟨o.diags, o.data, .GetState entityID :: .SetState entityID stateReq :: o.calls,
      g.sent ++ r.sent ++ o.sent, o.world⟩

/-- The function `resourceZoneDelete`. -/
def resourceZoneDelete {σ : Type} (rt : Runtime) (c : Client σ) (d : ResourceData) (w : σ) :
    Outcome σ :=
  let entityID := d.Id
  let stateReq : StateUpdateRequest := { State := str "unavailable", Attributes := some [] }
  let r := c.SetState rt entityID stateReq w
  match r.err with
  | some err =>
    ⟨FromErr (errorfW (str "failed to delete zone: ") err), d, [.SetState entityID stateReq],
      r.sent, r.world⟩
  | none => ⟨[], d.SetId [], [.SetState entityID stateReq], r.sent, r.world⟩

/-! ## resource_light.go -/

/-- The function `buildLightServiceData`. -/
def buildLightServiceData (d : ResourceData) : GoMap :=
  let entityID := d.strings (str "entity_id")
  let m0 : GoMap := [(str "entity_id", .string entityID)]
  let m1 :=
    if !d.rawNull (str "brightness") then
      mapPut m0 (str "brightness") (.int (d.ints (str "brightness")))
    else m0
  let m2 :=
    if !d.rawNull (str "brightness_pct") then
      mapPut m1 (str "brightness_pct") (.int (d.ints (str "brightness_pct")))
    else m1
  let m3 :=
    if !d.rawNull (str "rgb_color") then
      if d.present (str "rgb_color") then
        if (d.intLists (str "rgb_color")).length = 3 then
          mapPut m2 (str "rgb_color")
            (.slice ((d.intLists (str "rgb_color")).map (fun i => GoValue.int i)))
        else m2
      else m2
    else m2
  let m4 :=
    if !d.rawNull (str "color_temp_kelvin") then
      mapPut m3 (str "color_temp_kelvin") (.int (d.ints (str "color_temp_kelvin")))
    else m3
  let m5 :=
    if !d.rawNull (str "transition") then
      mapPut m4 (str "transition") (.float64 (d.floats (str "transition")))
    else m4
  if !d.rawNull (str "effect") then
    mapPut m5 (str "effect") (.string (d.strings (str "effect")))
  else m5

/-- The loop of `resourceLightRead` over the elements of `rgb_color`: `int(f)` for a
`float64`, zero for any other value. -/
def rgbInts (lib : Library) (rgb : List GoValue) : List Int :=
  rgb.map (fun v =>
    match v with
    | .float64 f => lib.floatToInt f
    | _ => 0)

/-- The function `resourceLightRead`. -/
def resourceLightRead {σ : Type} (rt : Runtime) (lib : Library) (c : Client σ)
    (d : ResourceData) (w : σ) : Outcome σ :=
  let entityID := d.Id
  let r := c.GetState rt entityID w
  match r.err with
  | some err =>
    ⟨FromErr (errorfW (str "failed to read light state: ") err), d, [.GetState entityID],
      r.sent, r.world⟩
  | none =>
    let haState := r.val.getD .nil
    let d1 := if d.strings (str "entity_id") = [] then d.SetString (str "entity_id") entityID else d
    let d2 := d1.SetString (str "state") (stateState haState)
    let d3 := setIfNumber lib d2 (str "brightness") (stateAttribute haState (str "brightness"))
    let d4 :=
      match stateAttribute haState (str "rgb_color") with
      | some (.slice rgb) =>
        if rgb.length = 3 then d3.SetIntList (str "rgb_color") (rgbInts lib rgb) else d3
      | _ => d3
    let d5 := setIfNumber lib d4 (str "color_temp_kelvin")
      (stateAttribute haState (str "color_temp_kelvin"))
    let d6 := setIfString d5 (str "effect") (stateAttribute haState (str "effect"))
    ⟨[], d6, [.GetState entityID], r.sent, r.world⟩

/-- The function `resourceLightCreate`. -/
def resourceLightCreate {σ : Type} (rt : Runtime) (lib : Library) (c : Client σ)
    (d : ResourceData) (w : σ) : Outcome σ :=
  let entityID := d.strings (str "entity_id")
  let state := d.strings (str "state")
  let state1 := if state = [] then str "on" else state
  let serviceData := buildLightServiceData d
  let service := if state1 = str "on" then str "turn_on" else str "turn_off"
  let r := c.CallService rt (str "light") service (some serviceData) w
  match r.err with
  | some err =>
    ⟨FromErr (errorfW (str "failed to set light state: ") err), d,
      [.CallService (str "light") service (some serviceData)], r.sent, r.world⟩
  | none =>
    let o := resourceLightRead rt lib c (d.SetId entityID) r.world
    ⟨o.diags, o.data, .CallService (str "light") service (some serviceData) :: o.calls,
      r.sent ++ o.sent, o.world⟩

/-- The function `resourceLightUpdate`. -/
def resourceLightUpdate {σ : Type} (rt : Runtime) (lib : Library) (c : Client σ)
    (d : ResourceData) (w : σ) : Outcome σ :=
  let state := d.strings (str "state")
  let state1 := if state = [] then str "on" else state
  let serviceData := buildLightServiceData d
  let service := if state1 = str "on" then str "turn_on" else str "turn_off"
  let r := c.CallService rt (str "light") service (some serviceData) w
  match r.err with
  | some err =>
    ⟨FromErr (errorfW (str "failed to update light state: ") err), d,
      [.CallService (str "light") service (some serviceData)], r.sent, r.world⟩
  | none =>
    let o := resourceLightRead rt lib c d r.world
    ⟨o.diags, o.data, .CallService (str "light") service (some serviceData) :: o.calls,
      r.sent ++ o.sent, o.world⟩

/-- The function `resourceLightDelete`. -/
def resourceLightDelete {σ : Type} (rt : Runtime) (c : Client σ) (d : ResourceData) (w : σ) :
    Outcome σ :=
  let entityID := d.strings (str "entity_id")
  let serviceData : GoMap := [(str "entity_id", .string entityID)]
  let r := c.CallService rt (str "light") (str "turn_off") (some serviceData) w
  match r.err with
  | some err =>
    ⟨FromErr (errorfW (str "failed to turn off light: ") err), d,
      [.CallService (str "light") (str "turn_off") (some serviceData)], r.sent, r.world⟩
  | none =>
    ⟨[], d.SetId [], [.CallService (str "light") (str "turn_off") (some serviceData)], r.sent,
      r.world⟩

/-- A resource whose stores hold the zero values, with nothing configured. -/
def emptyData : ResourceData :=
  { Id := [], strings := fun _ => [], floats := fun _ => 0, bools := fun _ => false,
    ints := fun _ => 0, intLists := fun _ => [], present := fun _ => false,
    rawNull := fun _ => true }
/-! ## Paths and their dot segments (RFC 3986) -/

/-- The segments of a path: the texts between its slashes, so that `/states/x` has the
segments empty, `states`, `x`. -/
def pathSegments : GoString → List GoString
  | [] => [[]]
  | c :: rest =>
    if c = ch '/' then [] :: pathSegments rest
    else (c :: (pathSegments rest).headD []) :: (pathSegments rest).tail

/-- Whether a segment is a dot segment, `.` or `..` (RFC 3986, 3.3). -/
def isDotSegment (s : GoString) : Bool := decide (s = str ".") || decide (s = str "..")

/-- The segment `..` removes the segment before it, but never the empty segment in front of
the first slash. `acc` holds the segments kept so far, the last one first. -/
def popSegment : List GoString → List GoString
  | _ :: s :: rest => s :: rest
  | acc => acc

/-- The segments kept when the dot segments of a path are resolved from left to right
(RFC 3986, 5.2.4): `.` is dropped, `..` removes the segment before it, any other segment is
kept. `acc` holds the segments kept so far, the last one first. -/
def walkDots : List GoString → List GoString → List GoString
  | acc, [] => acc
  | acc, seg :: rest =>
    if seg = str "." then walkDots acc rest
    else if seg = str ".." then walkDots (popSegment acc) rest
    else walkDots (seg :: acc) rest

/-- The segments of the resource a path addresses: its dot segments are resolved, and a path
that ends in a dot segment ends in a slash afterwards (an empty last segment). -/
def resolveDots (segs : List GoString) : List GoString :=
  if isDotSegment (segs.getLastD []) then (([] : GoString) :: walkDots [] segs).reverse
  else (walkDots [] segs).reverse

/-! ## Servers for the zone resource -/

/-- A server that accepts every `POST` with the status 200 and the state `0`, and answers
every other request with the status 404. -/
def writeOnlyServer : Client Unit :=
  { BaseURL := str "http://localhost:8123/api", Token := str "test-token",
    HTTPClient :=
      { Timeout := thirtySeconds,
        Do := fun req w =>
          if req.Method = str "POST" then
            (.ok { StatusCode := 200, Body := .ok (str "\x7b\"state\": \"0\"\x7d") }, w)
          else (.ok { StatusCode := 404, Body := .ok (str "Entity not found") }, w) } }
/-! ## Lemmas: the fuel of the JSON parser and of the string loops is enough -/

theorem skipWS_length_le (s : GoString) : (skipWS s).length ≤ s.length := by
  induction s with
  | nil => simp [skipWS]
  | cons c rest ih =>
    simp only [skipWS]
    split
    · simp only [List.length_cons]; omega
    · simp

theorem spanDigits_length (s : GoString) : (spanDigits s).2.length ≤ s.length := by
  induction s with
  | nil => simp [spanDigits]
  | cons c rest ih =>
    simp only [spanDigits]
    split
    · simp only [List.length_cons]; omega
    · simp

theorem scanString_length_aux : ∀ (n : Nat) (s raw rest : GoString), s.length ≤ n →
    scanString s = some (raw, rest) → rest.length < s.length := by
  intro n
  induction n with
  | zero =>
    intro s raw rest hn h
    have : s = [] := List.length_eq_zero.1 (by omega)
    subst this
    simp [scanString] at h
  | succ n ih =>
    intro s raw rest hn h
    cases s with
    | nil => simp [scanString] at h
    | cons c t =>
      unfold scanString at h
      simp only [List.length_cons] at hn ⊢
      split at h
      · simp only [Option.some.injEq, Prod.mk.injEq] at h
        rw [← h.2]; omega
      · split at h
        · split at h
          · simp at h
          · rename_i e rest1
            split at h
            · simp only [Option.map_eq_some'] at h
              obtain ⟨r, hr, hrr⟩ := h
              have := ih rest1 r.1 r.2 (by simp only [List.length_cons] at hn; omega) (by rw [hr])
              simp only [Prod.mk.injEq] at hrr
              rw [← hrr.2]
              simp only [List.length_cons]; omega
            · split at h
              · split at h
                · rename_i h1 h2 h3 h4 rest2
                  split at h
                  · simp only [Option.map_eq_some'] at h
                    obtain ⟨r, hr, hrr⟩ := h
                    have := ih rest2 r.1 r.2 (by simp only [List.length_cons] at hn; omega)
                      (by rw [hr])
                    simp only [Prod.mk.injEq] at hrr
                    rw [← hrr.2]
                    simp only [List.length_cons]; omega
                  · simp at h
                · simp at h
              · simp at h
        · split at h
          · simp at h
          · simp only [Option.map_eq_some'] at h
            obtain ⟨r, hr, hrr⟩ := h
            have := ih t r.1 r.2 (by omega) (by rw [hr])
            simp only [Prod.mk.injEq] at hrr
            rw [← hrr.2]; omega

theorem scanString_length (s raw rest : GoString) (h : scanString s = some (raw, rest)) :
    rest.length < s.length :=
  scanString_length_aux s.length s raw rest (Nat.le_refl _) h

theorem scanIntPart_length (s ip rest : GoString) (h : scanIntPart s = some (ip, rest)) :
    rest.length < s.length := by
  unfold scanIntPart at h
  split at h
  · rename_i c t
    split at h
    · simp only [Option.some.injEq, Prod.mk.injEq] at h
      rw [← h.2]; simp
    · split at h
      · simp only [Option.some.injEq, Prod.mk.injEq] at h
        rw [← h.2]
        have := spanDigits_length t
        simp only [List.length_cons]; omega
      · simp at h
  · simp at h

theorem scanFraction_length (s fp rest : GoString) (h : scanFraction s = some (fp, rest)) :
    rest.length ≤ s.length := by
  unfold scanFraction at h
  split at h
  · rename_i c t
    split at h
    · split at h
      · simp at h
      · rename_i ds rest1 hsp
        simp only [Option.some.injEq, Prod.mk.injEq] at h
        rw [← h.2]
        have := spanDigits_length t
        rw [hsp] at this
        simp only [List.length_cons] at this ⊢; omega
    · simp only [Option.some.injEq, Prod.mk.injEq] at h
      rw [← h.2]
  · simp only [Option.some.injEq, Prod.mk.injEq] at h
    rw [← h.2]

theorem takeOptional_length (p : Byte → Bool) (s : GoString) :
    (takeOptional p s).2.length ≤ s.length := by
  unfold takeOptional
  split
  · split <;> simp
  · simp

theorem scanExponent_length (s ep rest : GoString) (h : scanExponent s = some (ep, rest)) :
    rest.length ≤ s.length := by
  unfold scanExponent at h
  split at h
  · rename_i c t
    split at h
    · have h0 := takeOptional_length (fun d => d = ch '+' || d = ch '-') t
      split at h
      · simp at h
      · rename_i ds rest2 hsp
        simp only [Option.some.injEq, Prod.mk.injEq] at h
        rw [← h.2]
        have := spanDigits_length (takeOptional (fun d => d = ch '+' || d = ch '-') t).2
        rw [hsp] at this
        simp only [List.length_cons] at this ⊢; omega
    · simp only [Option.some.injEq, Prod.mk.injEq] at h
      rw [← h.2]
  · simp only [Option.some.injEq, Prod.mk.injEq] at h
    rw [← h.2]

theorem scanNumber_length (s lit rest : GoString) (h : scanNumber s = some (lit, rest)) :
    rest.length < s.length := by
  unfold scanNumber at h
  have h0 := takeOptional_length (fun c => c = ch '-') s
  split at h
  · simp at h
  · rename_i ip s2 hip
    split at h
    · simp at h
    · rename_i fp s3 hfp
      split at h
      · simp at h
      · rename_i ep s4 hep
        simp only [Option.some.injEq, Prod.mk.injEq] at h
        rw [← h.2]
        have h1 := scanIntPart_length _ _ _ hip
        have h2 := scanFraction_length _ _ _ hfp
        have h3 := scanExponent_length _ _ _ hep
        omega

theorem parse_consumes : ∀ f : Nat,
    (∀ d s v rest, parseValue f d s = some (v, rest) → rest.length < s.length) ∧
    (∀ d s vs rest, parseElems f d s = some (vs, rest) → rest.length < s.length) ∧
    (∀ d s ms rest, parseMembers f d s = some (ms, rest) → rest.length < s.length) := by
  intro f
  induction f with
  | zero =>
    refine ⟨?_, ?_, ?_⟩ <;> intro d s v rest h
    · simp [parseValue] at h
    · simp [parseElems] at h
    · simp [parseMembers] at h
  | succ f ih =>
    obtain ⟨ihV, ihE, ihM⟩ := ih
    refine ⟨?_, ?_, ?_⟩
    · intro d s v rest h
      cases s with
      | nil => simp [parseValue] at h
      | cons c t =>
        simp only [parseValue] at h
        simp only [List.length_cons]
        split at h
        · -- object
          split at h
          · simp at h
          · rename_i d1
            have hw := skipWS_length_le t
            split at h
            · rename_i x t1 hsk
              rw [hsk] at hw
              simp only [List.length_cons] at hw
              split at h
              · simp only [Option.some.injEq, Prod.mk.injEq] at h
                rw [← h.2]; omega
              · simp only [Option.map_eq_some'] at h
                obtain ⟨r, hr, hrr⟩ := h
                have := ihM d1 (x :: t1) r.1 r.2 (by rw [hr])
                simp only [Prod.mk.injEq] at hrr
                rw [← hrr.2]
                simp only [List.length_cons] at this; omega
            · simp at h
        · split at h
          · -- array
            split at h
            · simp at h
            · rename_i d1
              have hw := skipWS_length_le t
              split at h
              · rename_i x t1 hsk
                rw [hsk] at hw
                simp only [List.length_cons] at hw
                split at h
                · simp only [Option.some.injEq, Prod.mk.injEq] at h
                  rw [← h.2]; omega
                · simp only [Option.map_eq_some'] at h
                  obtain ⟨r, hr, hrr⟩ := h
                  have := ihE d1 (x :: t1) r.1 r.2 (by rw [hr])
                  simp only [Prod.mk.injEq] at hrr
                  rw [← hrr.2]
                  simp only [List.length_cons] at this; omega
              · simp at h
          · split at h
            · -- string
              simp only [Option.map_eq_some'] at h
              obtain ⟨r, hr, hrr⟩ := h
              have := scanString_length t r.1 r.2 (by rw [hr])
              simp only [Prod.mk.injEq] at hrr
              rw [← hrr.2]; omega
            · split at h
              · split at h
                · simp only [Option.some.injEq, Prod.mk.injEq] at h
                  rw [← h.2]; simp only [List.length_drop]; omega
                · simp at h
              · split at h
                · split at h
                  · simp only [Option.some.injEq, Prod.mk.injEq] at h
                    rw [← h.2]; simp only [List.length_drop]; omega
                  · simp at h
                · split at h
                  · split at h
                    · simp only [Option.some.injEq, Prod.mk.injEq] at h
                      rw [← h.2]; simp only [List.length_drop]; omega
                    · simp at h
                  · simp only [Option.map_eq_some'] at h
                    obtain ⟨r, hr, hrr⟩ := h
                    have := scanNumber_length (c :: t) r.1 r.2 (by rw [hr])
                    simp only [Prod.mk.injEq] at hrr
                    rw [← hrr.2]
                    simp only [List.length_cons] at this; omega
    · intro d s vs rest h
      simp only [parseElems] at h
      split at h
      · simp at h
      · rename_i v rest0 hv
        have h1 := ihV d s v rest0 hv
        have hw := skipWS_length_le rest0
        split at h
        · rename_i x t1 hsk
          rw [hsk] at hw
          simp only [List.length_cons] at hw
          split at h
          · simp only [Option.some.injEq, Prod.mk.injEq] at h
            rw [← h.2]; omega
          · split at h
            · simp only [Option.map_eq_some'] at h
              obtain ⟨r, hr, hrr⟩ := h
              have := ihE d (skipWS t1) r.1 r.2 (by rw [hr])
              have hw2 := skipWS_length_le t1
              simp only [Prod.mk.injEq] at hrr
              rw [← hrr.2]; omega
            · simp at h
        · simp at h
    · intro d s ms rest h
      cases s with
      | nil => simp [parseMembers] at h
      | cons q t =>
        simp only [parseMembers] at h
        simp only [List.length_cons]
        split at h
        · split at h
          · simp at h
          · rename_i rawKey rest0 hk
            have h1 := scanString_length t rawKey rest0 hk
            have hw := skipWS_length_le rest0
            split at h
            · rename_i colon rest1 hsk
              rw [hsk] at hw
              simp only [List.length_cons] at hw
              split at h
              · split at h
                · simp at h
                · rename_i v rest2 hv
                  have h2 := ihV d (skipWS rest1) v rest2 hv
                  have hw1 := skipWS_length_le rest1
                  have hw2 := skipWS_length_le rest2
                  split at h
                  · rename_i x rest3 hsk2
                    rw [hsk2] at hw2
                    simp only [List.length_cons] at hw2
                    split at h
                    · simp only [Option.some.injEq, Prod.mk.injEq] at h
                      rw [← h.2]; omega
                    · split at h
                      · simp only [Option.map_eq_some'] at h
                        obtain ⟨r, hr, hrr⟩ := h
                        have := ihM d (skipWS rest3) r.1 r.2 (by rw [hr])
                        have hw3 := skipWS_length_le rest3
                        simp only [Prod.mk.injEq] at hrr
                        rw [← hrr.2]; omega
                      · simp at h
                  · simp at h
              · simp at h
            · simp at h
        · simp at h

theorem parse_fuel : ∀ f : Nat,
    (∀ d s f', 2 * s.length ≤ f → f ≤ f' → parseValue f' d s = parseValue f d s) ∧
    (∀ d s f', 2 * s.length + 1 ≤ f → f ≤ f' → parseElems f' d s = parseElems f d s) ∧
    (∀ d s f', 2 * s.length + 1 ≤ f → f ≤ f' → parseMembers f' d s = parseMembers f d s) := by
  intro f
  induction f with
  | zero =>
    refine ⟨?_, ?_, ?_⟩
    · intro d s f' hlen _
      have : s = [] := List.length_eq_zero.1 (by omega)
      subst this
      cases f' <;> simp [parseValue]
    · intro d s f' hlen _; omega
    · intro d s f' hlen _; omega
  | succ f ih =>
    obtain ⟨ihV, ihE, ihM⟩ := ih
    refine ⟨?_, ?_, ?_⟩
    · intro d s f' hlen hf'
      obtain ⟨g, rfl⟩ : ∃ g, f' = g + 1 := ⟨f' - 1, by omega⟩
      cases s with
      | nil => simp [parseValue]
      | cons c t =>
        simp only [parseValue]
        simp only [List.length_cons] at hlen
        have hw := skipWS_length_le t
        by_cases h1 : c.val = 123
        · simp only [h1, if_true]
          cases d with
          | zero => rfl
          | succ d1 =>
            simp only
            cases hsk : skipWS t with
            | nil => rfl
            | cons x t1 =>
              simp only
              rw [hsk] at hw
              rw [ihM d1 (x :: t1) g (by simp only [List.length_cons] at hw ⊢; omega) (by omega)]
        · simp only [h1, if_false]
          by_cases h2 : c.val = 91
          · simp only [h2, if_true]
            cases d with
            | zero => rfl
            | succ d1 =>
              simp only
              cases hsk : skipWS t with
              | nil => rfl
              | cons x t1 =>
                simp only
                rw [hsk] at hw
                rw [ihE d1 (x :: t1) g (by simp only [List.length_cons] at hw ⊢; omega) (by omega)]
          · simp only [h2, if_false]
    · intro d s f' hlen hf'
      obtain ⟨g, rfl⟩ : ∃ g, f' = g + 1 := ⟨f' - 1, by omega⟩
      simp only [parseElems]
      rw [ihV d s g (by omega) (by omega)]
      cases hv : parseValue f d s with
      | none => rfl
      | some r =>
        obtain ⟨v, rest0⟩ := r
        have hc := (parse_consumes f).1 d s v rest0 hv
        have hw := skipWS_length_le rest0
        simp only
        cases hsk : skipWS rest0 with
        | nil => rfl
        | cons x t1 =>
          simp only
          rw [hsk] at hw
          simp only [List.length_cons] at hw
          have hw1 := skipWS_length_le t1
          rw [ihE d (skipWS t1) g (by omega) (by omega)]
    · intro d s f' hlen hf'
      obtain ⟨g, rfl⟩ : ∃ g, f' = g + 1 := ⟨f' - 1, by omega⟩
      cases s with
      | nil => simp [parseMembers]
      | cons q t =>
        simp only [parseMembers]
        simp only [List.length_cons] at hlen
        by_cases h1 : q.val = 34
        · simp only [h1, if_true]
          cases hk : scanString t with
          | none => rfl
          | some r =>
            obtain ⟨rawKey, rest0⟩ := r
            have hc := scanString_length t rawKey rest0 hk
            have hw := skipWS_length_le rest0
            simp only
            cases hsk : skipWS rest0 with
            | nil => rfl
            | cons colon rest1 =>
              simp only
              rw [hsk] at hw
              simp only [List.length_cons] at hw
              have hw1 := skipWS_length_le rest1
              by_cases h2 : colon.val = 58
              · simp only [h2, if_true]
                rw [ihV d (skipWS rest1) g (by omega) (by omega)]
                cases hv : parseValue f d (skipWS rest1) with
                | none => rfl
                | some r2 =>
                  obtain ⟨v, rest2⟩ := r2
                  have hc2 := (parse_consumes f).1 d (skipWS rest1) v rest2 hv
                  have hw2 := skipWS_length_le rest2
                  simp only
                  cases hsk2 : skipWS rest2 with
                  | nil => rfl
                  | cons x rest3 =>
                    simp only
                    rw [hsk2] at hw2
                    simp only [List.length_cons] at hw2
                    have hw3 := skipWS_length_le rest3
                    rw [ihM d (skipWS rest3) g (by omega) (by omega)]
              · simp only [h2, if_false]
        · simp only [h1, if_false]

/-- The result of the parser does not depend on the fuel once it is the fuel `parseJSON` uses. -/
theorem parseValue_fuel (data : GoString) (d fuel : Nat) (h : 2 * data.length + 2 ≤ fuel) :
    parseValue fuel d (skipWS data) = parseValue (2 * data.length + 2) d (skipWS data) :=
  (parse_fuel (2 * data.length + 2)).1 d (skipWS data) fuel
    (by have := skipWS_length_le data; omega) h

theorem unquoteLoop_fuel : ∀ (f : Nat) (s : GoString) (f' : Nat), s.length ≤ f → f ≤ f' →
    unquoteLoop f' s = unquoteLoop f s := by
  intro f
  induction f with
  | zero =>
    intro s f' hlen _
    have : s = [] := List.length_eq_zero.1 (by omega)
    subst this
    cases f' <;> simp [unquoteLoop]
  | succ f ih =>
    intro s f' hlen hf'
    obtain ⟨g, rfl⟩ : ∃ g, f' = g + 1 := ⟨f' - 1, by omega⟩
    cases s with
    | nil => simp [unquoteLoop]
    | cons c rest =>
      simp only [List.length_cons] at hlen
      have hg : f ≤ g := by omega
      have e0 : unquoteLoop g rest = unquoteLoop f rest := ih rest g (by omega) hg
      have e1 : ∀ n, unquoteLoop g (rest.drop n) = unquoteLoop f (rest.drop n) :=
        fun n => ih _ g (by simp only [List.length_drop]; omega) hg
      have e2 : ∀ n m, unquoteLoop g ((rest.drop n).drop m) = unquoteLoop f ((rest.drop n).drop m) :=
        fun n m => ih _ g (by simp only [List.length_drop]; omega) hg
      have e3 : ∀ n m k, unquoteLoop g (((rest.drop n).drop m).drop k) =
          unquoteLoop f (((rest.drop n).drop m).drop k) :=
        fun n m k => ih _ g (by simp only [List.length_drop]; omega) hg
      simp only [unquoteLoop]
      by_cases h1 : c.val = 92
      · simp only [h1, if_true]
        cases rest with
        | nil => rfl
        | cons e rest1 =>
          have e4 : unquoteLoop g rest1 = unquoteLoop f rest1 := by simpa using e1 1
          have e5 : ∀ n, unquoteLoop g (rest1.drop n) = unquoteLoop f (rest1.drop n) := by
            intro n; simpa using e1 (n + 1)
          have e6 : ∀ n m, unquoteLoop g ((rest1.drop n).drop m) =
              unquoteLoop f ((rest1.drop n).drop m) := by
            intro n m; simpa using e2 (n + 1) m
          simp only [e4, e5, e6]
      · simp only [h1, if_false, e0, e1]

theorem quoteLoop_fuel : ∀ (f : Nat) (s : GoString) (f' : Nat), s.length ≤ f → f ≤ f' →
    quoteLoop f' s = quoteLoop f s := by
  intro f
  induction f with
  | zero =>
    intro s f' hlen _
    have : s = [] := List.length_eq_zero.1 (by omega)
    subst this
    cases f' <;> simp [quoteLoop]
  | succ f ih =>
    intro s f' hlen hf'
    obtain ⟨g, rfl⟩ : ∃ g, f' = g + 1 := ⟨f' - 1, by omega⟩
    cases s with
    | nil => simp [quoteLoop]
    | cons c rest =>
      simp only [List.length_cons] at hlen
      have hg : f ≤ g := by omega
      have e0 : quoteLoop g rest = quoteLoop f rest := ih rest g (by omega) hg
      have e1 : ∀ n, quoteLoop g (rest.drop n) = quoteLoop f (rest.drop n) :=
        fun n => ih _ g (by simp only [List.length_drop]; omega) hg
      simp only [quoteLoop, e0, e1]

/-! ## Lemmas: decimal text -/

theorem decimalLoop_append (fuel n : Nat) (acc : GoString) :
    decimalLoop fuel n acc = decimalLoop fuel n [] ++ acc := by
  induction fuel generalizing n acc with
  | zero => simp [decimalLoop]
  | succ fuel ih =>
    simp only [decimalLoop]
    split
    · simp
    · rw [ih, ih (n / 10) [_]]
      simp

theorem digit_val (n : Nat) : (Fin.ofNat (48 + n % 10) : Byte).val = 48 + n % 10 := by
  have h : n % 10 < 10 := Nat.mod_lt _ (by decide)
  show (48 + n % 10) % 256 = 48 + n % 10
  omega

theorem decimalLoop_digits (fuel n : Nat) :
    ∀ d ∈ decimalLoop fuel n [], isDigit d = true := by
  induction fuel generalizing n with
  | zero => simp [decimalLoop]
  | succ fuel ih =>
    intro d hd
    simp only [decimalLoop] at hd
    have hdig : isDigit (Fin.ofNat (48 + n % 10) : Byte) = true := by
      have h : n % 10 < 10 := Nat.mod_lt _ (by decide)
      simp only [isDigit, digit_val, Bool.and_eq_true, decide_eq_true_eq]
      omega
    split at hd
    · simp only [List.mem_singleton] at hd
      rw [hd]; exact hdig
    · rw [decimalLoop_append] at hd
      simp only [List.mem_append, List.mem_singleton] at hd
      rcases hd with hd | hd
      · exact ih _ d hd
      · rw [hd]; exact hdig

theorem readDecimal_append_digit (s : GoString) (d : Byte) :
    readDecimal (s ++ [d]) = 10 * readDecimal s + (d.val - 48) := by
  simp [readDecimal, List.foldl_append]

theorem readDecimal_decimalLoop (fuel n : Nat) (h : n < fuel) :
    readDecimal (decimalLoop fuel n []) = n := by
  induction fuel generalizing n with
  | zero => omega
  | succ fuel ih =>
    simp only [decimalLoop]
    split
    · rename_i h0
      have : n < 10 := by
        by_contra hc
        have : 1 ≤ n / 10 := (Nat.le_div_iff_mul_le (by decide)).2 (by omega)
        omega
      simp only [readDecimal, List.foldl, digit_val]
      omega
    · rename_i h0
      rw [decimalLoop_append, readDecimal_append_digit, ih (n / 10) (by omega), digit_val]
      omega

theorem readDecimal_formatNat (n : Nat) : readDecimal (formatNat n) = n :=
  readDecimal_decimalLoop (n + 1) n (Nat.lt_succ_self n)

theorem formatNat_digits (n : Nat) : ∀ d ∈ formatNat n, isDigit d = true :=
  decimalLoop_digits (n + 1) n


theorem spanDigits_append (ds rest : GoString) (hds : ∀ d ∈ ds, isDigit d = true)
    (hrest : ∀ c t, rest = c :: t → isDigit c = false) :
    spanDigits (ds ++ rest) = (ds, rest) := by
  induction ds with
  | nil =>
    cases rest with
    | nil => rfl
    | cons c t => simp [spanDigits, hrest c t rfl]
  | cons d ds ih =>
    have hd : isDigit d = true := hds d (List.mem_cons_self _ _)
    have ih1 := ih (fun x hx => hds x (List.mem_cons_of_mem _ hx))
    simp [spanDigits, hd, ih1]

theorem formatNat_ne_nil (n : Nat) : formatNat n ≠ [] := by
  unfold formatNat
  simp only [decimalLoop]
  split
  · simp
  · rw [decimalLoop_append]; simp

theorem readStatus_nat (n : Nat) (b : GoString) :
    (spanDigits (formatNat n ++ str ": " ++ b)).1 = formatNat n ∧
      (spanDigits (formatNat n ++ str ": " ++ b)).2 = str ": " ++ b := by
  have h := spanDigits_append (formatNat n) (str ": " ++ b) (formatNat_digits n)
    (by
      intro c t hct
      have : c = ch ':' := by
        have h2 : (str ": " ++ b).head? = some c := by rw [hct]; rfl
        have h3 : (str ": " ++ b).head? = some (ch ':') := rfl
        rw [h3] at h2
        exact (Option.some.inj h2).symm
      rw [this]; decide)
  rw [List.append_assoc, h]
  exact ⟨rfl, rfl⟩

theorem readStatus_apiErrorText (s : Int) (b : GoString) :
    readStatus (apiErrorText s b) = (s, b) := by
  have hfirst : ∀ n : Nat, ∃ d t, formatNat n = d :: t ∧ d ≠ ch '-' := by
    intro n
    cases h : formatNat n with
    | nil => exact absurd h (formatNat_ne_nil n)
    | cons d t =>
      refine ⟨d, t, rfl, ?_⟩
      intro hd
      have := formatNat_digits n d (by rw [h]; exact List.mem_cons_self _ _)
      rw [hd] at this
      exact absurd this (by decide)
  unfold readStatus apiErrorText
  rw [List.append_assoc, List.append_assoc, List.drop_left]
  unfold formatInt
  by_cases hs : s < 0
  · simp only [hs, if_true, List.cons_append]
    have h1 := readStatus_nat s.natAbs b
    rw [List.append_assoc] at h1
    simp only [if_true, h1.1, h1.2, readDecimal_formatNat]
    refine Prod.ext ?_ ?_
    · simp only []; omega
    · rfl
  · simp only [hs, if_false]
    obtain ⟨d, t, hdt, hd⟩ := hfirst s.natAbs
    have h1 := readStatus_nat s.natAbs b
    rw [List.append_assoc] at h1
    rw [hdt] at h1 ⊢
    simp only [List.cons_append, hd, if_false] at h1 ⊢
    rw [h1.1, h1.2, ← hdt, readDecimal_formatNat]
    refine Prod.ext ?_ ?_
    · simp only []
      exact Int.natAbs_of_nonneg (by omega)
    · rfl

/-! ## Lemmas: `doRequest` -/

theorem doRequest_of_response {σ : Type} (rt : Runtime) (c : Client σ) (method endpoint : GoString)
    (body : Option GoString) (w w1 : σ) (req : Request) (s : Int) (b : GoString)
    (hreq : c.buildRequest rt method endpoint body = .ok req)
    (hdo : c.HTTPClient.Do req w = (.ok { StatusCode := s, Body := .ok b }, w1)) :
    c.doRequest rt method endpoint body w =
      if s < 200 ∨ s ≥ 300 then ⟨none, some (.errorString (apiErrorText s b)), [req], w1⟩
      else ⟨some b, none, [req], w1⟩ := by
  simp only [Client.doRequest, hreq, hdo]

/-! ## C1, C2: the status check of `doRequest` -/

/-- C1. When the transport delivers, for the request `doRequest` built, a response with status
code `s` outside 200..299 and body `b`, `doRequest` returns no bytes and an error, whatever `b`
is. The error is the plain error whose text is `API request failed with status `, the decimal
`s`, `: ` and the bytes of `b` unchanged; the status and the body can be read back from that
text, so two such errors with the same text carry the same status and the same body. -/
theorem doRequest_status_outside_2xx {σ : Type} (rt : Runtime) (c : Client σ)
    (method endpoint : GoString) (body : Option GoString) (w w1 : σ) (req : Request)
    (s : Int) (b : GoString)
    (hreq : c.buildRequest rt method endpoint body = .ok req)
    (hdo : c.HTTPClient.Do req w = (.ok { StatusCode := s, Body := .ok b }, w1))
    (hs : s < 200 ∨ s ≥ 300) :
    (c.doRequest rt method endpoint body w).val = none ∧
      (c.doRequest rt method endpoint body w).err = some (.errorString (apiErrorText s b)) ∧
      apiErrorText s b = str "API request failed with status " ++ formatInt s ++ str ": " ++ b ∧
      readStatus (apiErrorText s b) = (s, b) ∧
      ∀ s2 b2, apiErrorText s2 b2 = apiErrorText s b → s2 = s ∧ b2 = b := by
  rw [doRequest_of_response rt c method endpoint body w w1 req s b hreq hdo, if_pos hs]
  refine ⟨rfl, rfl, rfl, readStatus_apiErrorText s b, ?_⟩
  intro s2 b2 h
  have h2 := readStatus_apiErrorText s2 b2
  rw [h, readStatus_apiErrorText] at h2
  exact ⟨(congrArg Prod.fst h2).symm, (congrArg Prod.snd h2).symm⟩

/-- C2. When the transport delivers, for the request `doRequest` built, a response with status
code `s` with `200 ≤ s ≤ 299` and body `b`, `doRequest` returns exactly `b` and a nil error,
for every method, endpoint and request body. -/
theorem doRequest_status_2xx {σ : Type} (rt : Runtime) (c : Client σ)
    (method endpoint : GoString) (body : Option GoString) (w w1 : σ) (req : Request)
    (s : Int) (b : GoString)
    (hreq : c.buildRequest rt method endpoint body = .ok req)
    (hdo : c.HTTPClient.Do req w = (.ok { StatusCode := s, Body := .ok b }, w1))
    (hlo : 200 ≤ s) (hhi : s ≤ 299) :
    (c.doRequest rt method endpoint body w).val = some b ∧
      (c.doRequest rt method endpoint body w).err = none := by
  have hin : ¬ (s < 200 ∨ s ≥ 300) := by omega
  rw [doRequest_of_response rt c method endpoint body w w1 req s b hreq hdo, if_neg hin]
  exact ⟨rfl, rfl⟩

/-- C1, at the scenario of `TestClient_ErrorResponse`: status 404 with body `Entity not found`
for the request of `GetState("light.nonexistent")`. -/
theorem doRequest_status_outside_2xx_witness :
    ((fixedServer 404 (str "Entity not found")).doRequest plainRuntime (str "GET")
        (stateEndpoint (str "light.nonexistent")) none ()).val = none ∧
      ((fixedServer 404 (str "Entity not found")).doRequest plainRuntime (str "GET")
        (stateEndpoint (str "light.nonexistent")) none ()).err =
        some (.errorString (str "API request failed with status 404: Entity not found")) :=
  have h := doRequest_status_outside_2xx plainRuntime (fixedServer 404 (str "Entity not found"))
    (str "GET") (stateEndpoint (str "light.nonexistent")) none () () _ 404
    (str "Entity not found") rfl rfl (by decide)
  ⟨h.1, h.2.1⟩

/-- C2, at a server answering 200 with the body `[]`. -/
theorem doRequest_status_2xx_witness :
    ((fixedServer 200 (str "[]")).doRequest plainRuntime (str "GET") (str "/states") none ()).val =
        some (str "[]") ∧
      ((fixedServer 200 (str "[]")).doRequest plainRuntime (str "GET") (str "/states") none ()).err =
        none :=
  doRequest_status_2xx plainRuntime (fixedServer 200 (str "[]")) (str "GET") (str "/states") none
    () () _ 200 (str "[]") rfl rfl (by decide) (by decide)

/-! ## C3, C4: `NewClient` -/

/-- C3. `NewClient` returns an error exactly when the bearer token or the host name is empty,
and then it returns no client; it returns a client exactly when it returns no error; every
client it returns has a non-empty `Token` and a non-empty `BaseURL`. -/
theorem NewClient_error_iff {σ : Type} (getenv : GoString → GoString)
    (defaultDo : Request → σ → Except GoError Response × σ) :
    ((NewClient getenv defaultDo).2.isSome ↔
        (getenv (str "HA_BEARER_TOKEN") = [] ∨ getenv (str "HA_HOST_NAME") = [])) ∧
      ((NewClient getenv defaultDo).2.isSome → (NewClient getenv defaultDo).1.isNone) ∧
      ((NewClient getenv defaultDo).1.isSome ↔ (NewClient getenv defaultDo).2 = none) ∧
      ∀ c, (NewClient getenv defaultDo).1 = some c → c.Token ≠ [] ∧ c.BaseURL ≠ [] := by
  unfold NewClient
  by_cases ht : getenv (str "HA_BEARER_TOKEN") = []
  · simp [ht]
  · by_cases hh : getenv (str "HA_HOST_NAME") = []
    · simp [ht, hh]
    · simp only [ht, hh, if_false, Option.isSome_none, Option.isSome_some, or_self,
        Option.isNone_some, Option.some.injEq, true_iff, false_iff, not_false_eq_true]
      refine ⟨by simp, by simp, trivial, ?_⟩
      intro c hc
      subst hc
      refine ⟨ht, ?_⟩
      show str "http://" ++ _ ≠ []
      simp [str, utf8EncodeChar]

/-- C4. With a non-empty token and a non-empty host name `NewClient` returns, without error, a
client whose `Token` is the token and whose `BaseURL` is `http://`, the host name, `:`, the
port, `/api`, the port being the value of `HA_PORT`, or `8123` when that is empty. -/
theorem NewClient_baseURL {σ : Type} (getenv : GoString → GoString)
    (defaultDo : Request → σ → Except GoError Response × σ)
    (ht : getenv (str "HA_BEARER_TOKEN") ≠ []) (hh : getenv (str "HA_HOST_NAME") ≠ []) :
    ∃ c, NewClient getenv defaultDo = (some c, none) ∧
      c.Token = getenv (str "HA_BEARER_TOKEN") ∧
      c.BaseURL = str "http://" ++ getenv (str "HA_HOST_NAME") ++ str ":" ++
        (if getenv (str "HA_PORT") = [] then str "8123" else getenv (str "HA_PORT")) ++
        str "/api" ∧
      c.HTTPClient.Timeout = thirtySeconds := by
  unfold NewClient
  simp only [ht, hh, if_false]
  exact ⟨_, rfl, rfl, rfl, rfl⟩

/-- C4, at the environment of `TestNewClient_DefaultPort`: the base URL is
`http://192.168.1.100:8123/api`. -/
theorem NewClient_baseURL_witness :
    ∃ c, NewClient defaultPortEnv refusingDo = (some c, none) ∧
      c.Token = str "test-token" ∧ c.BaseURL = str "http://192.168.1.100:8123/api" :=
  match NewClient_baseURL defaultPortEnv refusingDo (by decide) (by decide) with
  | ⟨c, h1, h2, h3, _⟩ => ⟨c, h1, h2, h3⟩


/-! ## Lemmas: path escaping -/

theorem upperhex_spec : ∀ n : Fin 16,
    unhex (upperhex n.val) = n.val ∧ ishex (upperhex n.val) = true ∧
      upperhex n.val ≠ ch '/' ∧ upperhex n.val ≠ ch '?' ∧ upperhex n.val ≠ ch '#' ∧
      upperhex n.val ≠ ch '%' := by
  decide

theorem byte_split (c : Byte) : (Fin.ofNat (c.val / 16 * 16 + c.val % 16) : Byte) = c := by
  apply Fin.ext
  show (c.val / 16 * 16 + c.val % 16) % 256 = c.val
  have := c.isLt
  omega

theorem shouldEscape_percent (c : Byte) (h : shouldEscape c = false) : c ≠ ch '%' := by
  intro hc
  rw [hc] at h
  exact absurd h (by decide)

theorem PathUnescape_PathEscape (s : GoString) : PathUnescape (PathEscape s) = some s := by
  induction s with
  | nil => rfl
  | cons c rest ih =>
    have hhi : c.val / 16 < 16 := by have := c.isLt; omega
    have hlo : c.val % 16 < 16 := Nat.mod_lt _ (by decide)
    have h1 := upperhex_spec ⟨c.val / 16, hhi⟩
    have h2 := upperhex_spec ⟨c.val % 16, hlo⟩
    simp only at h1 h2
    cases hc : shouldEscape c with
    | true =>
      simp only [PathEscape, hc, if_true, PathUnescape, h1.2.1, h2.2.1, Bool.and_self, ih,
        Option.map_some', h1.1, h2.1, byte_split]
    | false =>
      have hp := shouldEscape_percent c hc
      simp only [PathEscape, hc, Bool.false_eq_true, if_false]
      conv_lhs => unfold PathUnescape
      simp only [hp, if_false, ih, Option.map_some']


theorem PathEscape_no_reserved (s : GoString) :
    ∀ c ∈ PathEscape s, c ≠ ch '/' ∧ c ≠ ch '?' ∧ c ≠ ch '#' := by
  induction s with
  | nil => simp [PathEscape]
  | cons a rest ih =>
    have hhi : a.val / 16 < 16 := by have := a.isLt; omega
    have hlo : a.val % 16 < 16 := Nat.mod_lt _ (by decide)
    have h1 := upperhex_spec ⟨a.val / 16, hhi⟩
    have h2 := upperhex_spec ⟨a.val % 16, hlo⟩
    simp only at h1 h2
    intro c hc
    cases ha : shouldEscape a with
    | true =>
      simp only [PathEscape, ha, if_true, List.mem_cons] at hc
      rcases hc with hc | hc | hc | hc
      · rw [hc]; decide
      · rw [hc]; exact ⟨h1.2.2.1, h1.2.2.2.1, h1.2.2.2.2.1⟩
      · rw [hc]; exact ⟨h2.2.2.1, h2.2.2.2.1, h2.2.2.2.2.1⟩
      · exact ih c hc
    | false =>
      simp only [PathEscape, ha, Bool.false_eq_true, if_false, List.mem_cons] at hc
      rcases hc with hc | hc
      · rw [hc]
        refine ⟨?_, ?_, ?_⟩ <;>
        · intro h
          rw [h] at ha
          exact absurd ha (by decide)
      · exact ih c hc

theorem PathEscape_count (s : GoString) (c : Byte)
    (hc : c = ch '/' ∨ c = ch '?' ∨ c = ch '#') : (PathEscape s).count c = 0 := by
  rw [List.count_eq_zero]
  intro hmem
  have h := PathEscape_no_reserved s c hmem
  rcases hc with hc | hc | hc
  · exact h.1 hc
  · exact h.2.1 hc
  · exact h.2.2 hc

/-! ## Lemmas: the requests handed to the transport -/

theorem buildRequest_ok {σ : Type} (rt : Runtime) (c : Client σ) (method endpoint : GoString)
    (body : Option GoString) (req : Request)
    (h : c.buildRequest rt method endpoint body = .ok req) :
    req.URL = c.BaseURL ++ endpoint ∧ req.Body = body ∧
      req.Method = (if method = [] then str "GET" else method) ∧
      req.Header.Get (str "Authorization") = str "Bearer " ++ c.Token ∧
      req.Header.Get (str "Content-Type") = str "application/json" ∧
      req.ContentLength = (body.getD []).length := by
  unfold Client.buildRequest NewRequest at h
  simp only at h
  split at h
  · exact absurd h (by simp)
  · rename_i r hr
    split at hr
    · exact absurd hr (by simp)
    · simp only [Except.ok.injEq] at hr h
      subst hr
      subst h
      refine ⟨rfl, rfl, rfl, ?_, ?_, rfl⟩
      · have hk1 : CanonicalMIMEHeaderKey (str "Authorization") = str "Authorization" := by decide
        have hk2 : CanonicalMIMEHeaderKey (str "Content-Type") = str "Content-Type" := by decide
        have hne : str "Authorization" ≠ str "Content-Type" := by decide
        simp [Header.Get, Header.Set, mapGet, mapSet, hk1, hk2, hne, hne.symm, List.find?]
      · have hk2 : CanonicalMIMEHeaderKey (str "Content-Type") = str "Content-Type" := by decide
        simp [Header.Get, Header.Set, mapGet, mapSet, hk2, List.find?]

theorem buildRequest_isOk {σ : Type} (rt : Runtime) (c : Client σ) (method endpoint : GoString)
    (body : Option GoString)
    (h : rt.newRequestError (if method = [] then str "GET" else method) (c.BaseURL ++ endpoint) =
      none) :
    ∃ req, c.buildRequest rt method endpoint body = .ok req := by
  unfold Client.buildRequest NewRequest
  simp only [h]
  exact ⟨_, rfl⟩

theorem doRequest_sent {σ : Type} (rt : Runtime) (c : Client σ) (method endpoint : GoString)
    (body : Option GoString) (w : σ) :
    (c.doRequest rt method endpoint body w).sent =
      match c.buildRequest rt method endpoint body with
      | .ok req => [req]
      | .error _ => [] := by
  unfold Client.doRequest
  cases hb : c.buildRequest rt method endpoint body with
  | error e => rfl
  | ok req =>
    simp only
    cases hd : c.HTTPClient.Do req w with
    | mk res w1 =>
      cases res with
      | error e => rfl
      | ok resp =>
        simp only
        cases hbody : resp.Body with
        | error e => rfl
        | ok b =>
          simp only
          split <;> rfl

theorem doRequest_sent_mem {σ : Type} (rt : Runtime) (c : Client σ) (method endpoint : GoString)
    (body : Option GoString) (w : σ) (r : Request)
    (h : r ∈ (c.doRequest rt method endpoint body w).sent) :
    c.buildRequest rt method endpoint body = .ok r := by
  rw [doRequest_sent] at h
  cases hb : c.buildRequest rt method endpoint body with
  | error e => rw [hb] at h; simp at h
  | ok req =>
    rw [hb] at h
    simp only [List.mem_singleton] at h
    rw [h]

theorem finishStruct_sent {σ : Type} (rt : Runtime) (r : Call σ GoString)
    (failText parseText : GoString) (t : GoType) :
    (finishStruct rt r failText parseText t).sent = r.sent := by
  unfold finishStruct
  split
  · rfl
  · split <;> rfl

theorem finishSlice_sent {σ : Type} (rt : Runtime) (r : Call σ GoString)
    (failText parseText : GoString) (t : GoType) :
    (finishSlice rt r failText parseText t).sent = r.sent := by
  unfold finishSlice
  split
  · rfl
  · split <;> rfl


theorem GetState_sent_mem {σ : Type} (rt : Runtime) (c : Client σ) (entityID : GoString) (w : σ)
    (r : Request) (h : r ∈ (c.GetState rt entityID w).sent) :
    c.buildRequest rt (str "GET") (stateEndpoint entityID) none = .ok r := by
  unfold Client.GetState at h
  rw [finishStruct_sent] at h
  exact doRequest_sent_mem rt c _ _ _ w r h

theorem SetState_sent_mem {σ : Type} (rt : Runtime) (c : Client σ) (entityID : GoString)
    (req : StateUpdateRequest) (w : σ) (r : Request)
    (h : r ∈ (c.SetState rt entityID req w).sent) :
    c.buildRequest rt (str "POST") (stateEndpoint entityID) (Marshal rt req.toValue).1 = .ok r := by
  unfold Client.SetState at h
  cases hm : Marshal rt req.toValue with
  | mk p e =>
    rw [hm] at h
    cases e with
    | some err => simp at h
    | none =>
      simp only [finishStruct_sent] at h
      exact doRequest_sent_mem rt c _ _ _ w r h

theorem CallService_sent_mem {σ : Type} (rt : Runtime) (c : Client σ) (domain service : GoString)
    (data : Option GoMap) (w : σ) (r : Request)
    (h : r ∈ (c.CallService rt domain service data w).sent) :
    c.buildRequest rt (str "POST") (serviceEndpoint domain service) (optionalPayload rt data).1 =
      .ok r := by
  unfold Client.CallService at h
  cases hm : optionalPayload rt data with
  | mk p e =>
    rw [hm] at h
    cases e with
    | some err => simp at h
    | none =>
      simp only [finishSlice_sent] at h
      exact doRequest_sent_mem rt c _ _ _ w r h

theorem FireEvent_sent_mem {σ : Type} (rt : Runtime) (c : Client σ) (eventType : GoString)
    (data : Option GoMap) (w : σ) (r : Request)
    (h : r ∈ (c.FireEvent rt eventType data w).sent) :
    c.buildRequest rt (str "POST") (eventEndpoint eventType) (optionalPayload rt data).1 =
      .ok r := by
  unfold Client.FireEvent at h
  cases hm : optionalPayload rt data with
  | mk p e =>
    rw [hm] at h
    cases e with
    | some err => simp at h
    | none =>
      simp only [finishStruct_sent] at h
      exact doRequest_sent_mem rt c _ _ _ w r h

/-! ## C5, C6: escaped path segments -/

/-- C5. Every request `GetState` and `SetState` hand to the transport has the URL made of the
base URL, `/states/` and the path-escaped entity id, and for every identifier, whatever bytes
it holds, percent-decoding the escaped form (`url.PathUnescape`) succeeds and gives back
exactly the identifier. -/
theorem state_segment_round_trip {σ : Type} (rt : Runtime) (c : Client σ) (entityID : GoString)
    (req : StateUpdateRequest) (w : σ) :
    PathUnescape (PathEscape entityID) = some entityID ∧
      (∀ r ∈ (c.GetState rt entityID w).sent,
        r.URL = c.BaseURL ++ (str "/states/" ++ PathEscape entityID)) ∧
      (∀ r ∈ (c.SetState rt entityID req w).sent,
        r.URL = c.BaseURL ++ (str "/states/" ++ PathEscape entityID)) := by
  refine ⟨PathUnescape_PathEscape entityID, ?_, ?_⟩
  · intro r hr
    exact (buildRequest_ok rt c _ _ _ r (GetState_sent_mem rt c entityID w r hr)).1
  · intro r hr
    exact (buildRequest_ok rt c _ _ _ r (SetState_sent_mem rt c entityID req w r hr)).1

/-- C5, at the identifier `a/b c?#%`: it is escaped to `a%2Fb%20c%3F%23%25`, which decodes back
to it, and the request of `GetState` goes to `/states/a%2Fb%20c%3F%23%25`. -/
theorem state_segment_round_trip_witness :
    PathEscape (str "a/b c?#%") = str "a%2Fb%20c%3F%23%25" ∧
      PathUnescape (PathEscape (str "a/b c?#%")) = some (str "a/b c?#%") ∧
      ((fixedServer 200 (str "null")).GetState plainRuntime (str "a/b c?#%") ()).sent.map
        (fun r => r.URL) = [str "http://localhost:8123/api/states/a%2Fb%20c%3F%23%25"] :=
  have h := state_segment_round_trip plainRuntime (fixedServer 200 (str "null"))
    (str "a/b c?#%") { State := [], Attributes := none } ()
  ⟨by decide, h.1, by decide⟩

/-- The escaped form of every identifier contains none of the bytes `/`, `?` and `#`.
Hence the endpoint of `GetState` and `SetState` has exactly the two slashes of `/states/%s`,
the endpoint of `CallService` exactly the three of `/services/%s/%s`, the endpoint of
`FireEvent` exactly the two of `/events/%s`, none of them holds a `?` or a `#`, and the URL of
every request these methods hand to the transport is the base URL followed by that endpoint. -/
theorem escaped_segment_keeps_template {σ : Type} (rt : Runtime) (c : Client σ)
    (entityID domain service eventType : GoString) (req : StateUpdateRequest)
    (data : Option GoMap) (w : σ) :
    (∀ s : GoString, ∀ b ∈ PathEscape s, b ≠ ch '/' ∧ b ≠ ch '?' ∧ b ≠ ch '#') ∧
      ((stateEndpoint entityID).count (ch '/') = 2 ∧
        (stateEndpoint entityID).count (ch '?') = 0 ∧
        (stateEndpoint entityID).count (ch '#') = 0) ∧
      ((serviceEndpoint domain service).count (ch '/') = 3 ∧
        (serviceEndpoint domain service).count (ch '?') = 0 ∧
        (serviceEndpoint domain service).count (ch '#') = 0) ∧
      ((eventEndpoint eventType).count (ch '/') = 2 ∧
        (eventEndpoint eventType).count (ch '?') = 0 ∧
        (eventEndpoint eventType).count (ch '#') = 0) ∧
      (∀ r ∈ (c.GetState rt entityID w).sent, r.URL = c.BaseURL ++ stateEndpoint entityID) ∧
      (∀ r ∈ (c.SetState rt entityID req w).sent, r.URL = c.BaseURL ++ stateEndpoint entityID) ∧
      (∀ r ∈ (c.CallService rt domain service data w).sent,
        r.URL = c.BaseURL ++ serviceEndpoint domain service) ∧
      (∀ r ∈ (c.FireEvent rt eventType data w).sent,
        r.URL = c.BaseURL ++ eventEndpoint eventType) := by
  have hs : ∀ s : GoString, (PathEscape s).count (ch '/') = 0 :=
    fun s => PathEscape_count s _ (Or.inl rfl)
  have hq : ∀ s : GoString, (PathEscape s).count (ch '?') = 0 :=
    fun s => PathEscape_count s _ (Or.inr (Or.inl rfl))
  have hh : ∀ s : GoString, (PathEscape s).count (ch '#') = 0 :=
    fun s => PathEscape_count s _ (Or.inr (Or.inr rfl))
  have c1 : (str "/states/").count (ch '/') = 2 ∧ (str "/states/").count (ch '?') = 0 ∧
      (str "/states/").count (ch '#') = 0 := by decide
  have c2 : (str "/services/").count (ch '/') = 2 ∧ (str "/services/").count (ch '?') = 0 ∧
      (str "/services/").count (ch '#') = 0 := by decide
  have c3 : (str "/events/").count (ch '/') = 2 ∧ (str "/events/").count (ch '?') = 0 ∧
      (str "/events/").count (ch '#') = 0 := by decide
  have c4 : (str "/").count (ch '/') = 1 ∧ (str "/").count (ch '?') = 0 ∧
      (str "/").count (ch '#') = 0 := by decide
  refine ⟨PathEscape_no_reserved, ?_, ?_, ?_, ?_, ?_, ?_, ?_⟩
  · simp [stateEndpoint, List.count_append, hs, hq, hh, c1.1, c1.2.1, c1.2.2]
  · simp [serviceEndpoint, List.count_append, hs, hq, hh, c2.1, c2.2.1, c2.2.2, c4.1,
      c4.2.1, c4.2.2]
  · simp [eventEndpoint, List.count_append, hs, hq, hh, c3.1, c3.2.1, c3.2.2]
  · intro r hr
    exact (buildRequest_ok rt c _ _ _ r (GetState_sent_mem rt c entityID w r hr)).1
  · intro r hr
    exact (buildRequest_ok rt c _ _ _ r (SetState_sent_mem rt c entityID req w r hr)).1
  · intro r hr
    exact (buildRequest_ok rt c _ _ _ r (CallService_sent_mem rt c domain service data w r hr)).1
  · intro r hr
    exact (buildRequest_ok rt c _ _ _ r (FireEvent_sent_mem rt c eventType data w r hr)).1


/-- At the domain `light/../x` and the service `turn_on?x#y` the endpoint of `CallService` is
`/services/light%2F..%2Fx/turn_on%3Fx%23y`, with three slashes. -/
theorem escaped_segment_keeps_template_witness :
    serviceEndpoint (str "light/../x") (str "turn_on?x#y") =
        str "/services/light%2F..%2Fx/turn_on%3Fx%23y" ∧
      (serviceEndpoint (str "light/../x") (str "turn_on?x#y")).count (ch '/') = 3 ∧
      (serviceEndpoint (str "light/../x") (str "turn_on?x#y")).count (ch '?') = 0 ∧
      (serviceEndpoint (str "light/../x") (str "turn_on?x#y")).count (ch '#') = 0 :=
  have h := escaped_segment_keeps_template plainRuntime (fixedServer 200 (str "null"))
    (str "a/b") (str "light/../x") (str "turn_on?x#y") (str "e/v") { State := [], Attributes := none }
    none ()
  ⟨by decide, h.2.2.1⟩

/-! ## C7, C8: the request `doRequest` builds -/

theorem sent_of_buildRequest {σ : Type} (rt : Runtime) (c : Client σ)
    (method endpoint : GoString) (body : Option GoString) (w : σ)
    (h : rt.newRequestError (if method = [] then str "GET" else method) (c.BaseURL ++ endpoint) =
      none) :
    ∃ r, (c.doRequest rt method endpoint body w).sent = [r] ∧
      c.buildRequest rt method endpoint body = .ok r := by
  obtain ⟨req, hreq⟩ := buildRequest_isOk rt c method endpoint body h
  refine ⟨req, ?_, hreq⟩
  rw [doRequest_sent, hreq]

/-- C7. `CallService` called with the nil mapping hands to the transport only requests without
a body (`Body` nil, content length 0), never one with the body `{}`, and it hands over exactly
one such request whenever the request can be created; the same holds for `FireEvent` with nil
event data. For contrast, with the empty mapping that is not nil the body of every request of
`CallService` is `{}`. -/
theorem nil_data_sends_no_body {σ : Type} (rt : Runtime) (c : Client σ)
    (domain service eventType : GoString) (w : σ) :
    (∀ r ∈ (c.CallService rt domain service none w).sent,
        r.Body = none ∧ r.ContentLength = 0 ∧ r.Body ≠ some (str "\x7b\x7d")) ∧
      (rt.newRequestError (str "POST") (c.BaseURL ++ serviceEndpoint domain service) = none →
        ∃ r, (c.CallService rt domain service none w).sent = [r] ∧ r.Body = none) ∧
      (∀ r ∈ (c.FireEvent rt eventType none w).sent,
        r.Body = none ∧ r.ContentLength = 0 ∧ r.Body ≠ some (str "\x7b\x7d")) ∧
      (rt.newRequestError (str "POST") (c.BaseURL ++ eventEndpoint eventType) = none →
        ∃ r, (c.FireEvent rt eventType none w).sent = [r] ∧ r.Body = none) ∧
      (∀ r ∈ (c.CallService rt domain service (some []) w).sent,
        r.Body = some (str "\x7b\x7d")) := by
  have hnil : (optionalPayload rt none).1 = none := rfl
  have hempty : (optionalPayload rt (some [])).1 = some (str "\x7b\x7d") := rfl
  have hcs : (c.CallService rt domain service none w).sent =
      (c.doRequest rt (str "POST") (serviceEndpoint domain service) none w).sent := by
    simp only [Client.CallService, optionalPayload, finishSlice_sent]
  have hfe : (c.FireEvent rt eventType none w).sent =
      (c.doRequest rt (str "POST") (eventEndpoint eventType) none w).sent := by
    simp only [Client.FireEvent, optionalPayload, finishStruct_sent]
  refine ⟨?_, ?_, ?_, ?_, ?_⟩
  · intro r hr
    have h := buildRequest_ok rt c _ _ _ r (CallService_sent_mem rt c domain service none w r hr)
    rw [hnil] at h
    refine ⟨h.2.1, ?_, ?_⟩
    · rw [h.2.2.2.2.2]; rfl
    · rw [h.2.1]; simp
  · intro hok
    obtain ⟨r, hr, hb⟩ := sent_of_buildRequest rt c (str "POST")
      (serviceEndpoint domain service) none w hok
    exact ⟨r, hcs.trans hr, (buildRequest_ok rt c _ _ _ r hb).2.1⟩
  · intro r hr
    have h := buildRequest_ok rt c _ _ _ r (FireEvent_sent_mem rt c eventType none w r hr)
    rw [hnil] at h
    refine ⟨h.2.1, ?_, ?_⟩
    · rw [h.2.2.2.2.2]; rfl
    · rw [h.2.1]; simp
  · intro hok
    obtain ⟨r, hr, hb⟩ := sent_of_buildRequest rt c (str "POST")
      (eventEndpoint eventType) none w hok
    exact ⟨r, hfe.trans hr, (buildRequest_ok rt c _ _ _ r hb).2.1⟩
  · intro r hr
    have h := buildRequest_ok rt c _ _ _ r
      (CallService_sent_mem rt c domain service (some []) w r hr)
    rw [hempty] at h
    exact h.2.1

/-- C7, at `CallService("light", "turn_on", nil)`: one request, without a body. -/
theorem nil_data_sends_no_body_witness :
    ∃ r, ((fixedServer 200 (str "[]")).CallService plainRuntime (str "light") (str "turn_on")
        none ()).sent = [r] ∧ r.Body = none :=
  (nil_data_sends_no_body plainRuntime (fixedServer 200 (str "[]")) (str "light") (str "turn_on")
    (str "custom_event") ()).2.1 rfl

/-- C8. Every request `doRequest` builds, and so every request it hands to the transport,
carries the header `Authorization` with the value `Bearer ` followed by the client's token and
the header `Content-Type` with the value `application/json`, for every method, endpoint and
body, a nil body included; and whenever the request can be created exactly one request is
handed over. -/
theorem doRequest_headers {σ : Type} (rt : Runtime) (c : Client σ) (method endpoint : GoString)
    (body : Option GoString) (w : σ) :
    (∀ req, c.buildRequest rt method endpoint body = .ok req →
        req.Header.Get (str "Authorization") = str "Bearer " ++ c.Token ∧
          req.Header.Get (str "Content-Type") = str "application/json") ∧
      (∀ r ∈ (c.doRequest rt method endpoint body w).sent,
        r.Header.Get (str "Authorization") = str "Bearer " ++ c.Token ∧
          r.Header.Get (str "Content-Type") = str "application/json") ∧
      (rt.newRequestError (if method = [] then str "GET" else method) (c.BaseURL ++ endpoint) =
          none →
        ∃ r, (c.doRequest rt method endpoint body w).sent = [r]) := by
  refine ⟨?_, ?_, ?_⟩
  · intro req hreq
    have h := buildRequest_ok rt c _ _ _ req hreq
    exact ⟨h.2.2.2.1, h.2.2.2.2.1⟩
  · intro r hr
    have h := buildRequest_ok rt c _ _ _ r (doRequest_sent_mem rt c _ _ _ w r hr)
    exact ⟨h.2.2.2.1, h.2.2.2.2.1⟩
  · intro hok
    obtain ⟨r, hr, _⟩ := sent_of_buildRequest rt c method endpoint body w hok
    exact ⟨r, hr⟩

/-- C8, at the body-less `GET /` of `Health` with the token `test-token`: one request, whose
`Authorization` header is `Bearer test-token`. -/
theorem doRequest_headers_witness :
    ∃ r, ((fixedServer 200 (str "null")).doRequest plainRuntime (str "GET") (str "/") none ()).sent =
        [r] ∧
      r.Header.Get (str "Authorization") = str "Bearer test-token" ∧
      r.Header.Get (str "Content-Type") = str "application/json" :=
  have h := doRequest_headers plainRuntime (fixedServer 200 (str "null")) (str "GET") (str "/")
    none ()
  (h.2.2 rfl).elim fun r hr =>
    ⟨r, hr, h.2.1 r (by rw [hr]; exact List.mem_singleton_self r)⟩

/-! ## Lemmas: decoding a value of the wrong shape -/

theorem firstError_isSome_left (a b : Option GoError) (h : a.isSome = true) :
    (firstError a b).isSome = true := by
  cases a with
  | none => simp at h
  | some e => rfl

theorem firstError_isSome_right (a b : Option GoError) (h : b.isSome = true) :
    (firstError a b).isSome = true := by
  cases a with
  | none => exact h
  | some e => rfl

theorem GoType.elem_kind : (t : GoType) → t.elem.kind = t.kind
  | .ptr e => by simpa [GoType.elem, GoType.kind] using GoType.elem_kind e
  | .string => rfl
  | .bool => rfl
  | .int => rfl
  | .float64 => rfl
  | .iface => rfl
  | .slice _ => rfl
  | .map _ => rfl
  | .struct _ _ => rfl

theorem unmarshalValue_wrong_kind (rt : Runtime) (t : GoType) (j : JSON) (k : Kind)
    (cur : GoValue) (hnull : j.kind ≠ .null) (hk : t.kind = some k) (hne : j.kind ≠ k) :
    (unmarshalValue rt t j cur).2.isSome = true := by
  rw [← GoType.elem_kind] at hk
  cases j with
  | null => exact absurd rfl hnull
  | bool b =>
    cases hte : t.elem <;> rw [hte] at hk <;>
      simp_all [unmarshalValue, GoType.kind, JSON.kind]
  | num lit =>
    cases hte : t.elem <;> rw [hte] at hk <;>
      simp_all [unmarshalValue, GoType.kind, JSON.kind]
  | str s =>
    cases hte : t.elem <;> rw [hte] at hk <;>
      simp_all [unmarshalValue, GoType.kind, JSON.kind]
  | arr xs =>
    cases hte : t.elem <;> rw [hte] at hk <;>
      simp_all [unmarshalValue, GoType.kind, JSON.kind]
  | obj ms =>
    cases hte : t.elem <;> rw [hte] at hk <;>
      simp_all [unmarshalValue, GoType.kind, JSON.kind]

theorem unmarshalElems_error (rt : Runtime) (e : GoType) (x : JSON)
    (hx : ∀ cur, (unmarshalValue rt e x cur).2.isSome = true) :
    ∀ (xs : List JSON), x ∈ xs → ∀ old, (unmarshalElems rt e xs old).2.isSome = true := by
  intro xs
  induction xs with
  | nil => intro h; simp at h
  | cons y ys ih =>
    intro h old
    simp only [unmarshalElems]
    rcases List.mem_cons.1 h with h | h
    · subst h
      exact firstError_isSome_left _ _ (hx _)
    · exact firstError_isSome_right _ _ (ih h _)

theorem unmarshalEntries_error (rt : Runtime) (e : GoType) (key : GoString) (x : JSON)
    (hx : ∀ cur, (unmarshalValue rt e x cur).2.isSome = true) :
    ∀ (ms : List (GoString × JSON)), (key, x) ∈ ms →
      ∀ acc, (unmarshalEntries rt e ms acc).2.isSome = true := by
  intro ms
  induction ms with
  | nil => intro h; simp at h
  | cons m ms ih =>
    intro h acc
    obtain ⟨k, y⟩ := m
    simp only [unmarshalEntries]
    rcases List.mem_cons.1 h with h | h
    · cases h
      exact firstError_isSome_left _ _ (hx _)
    · exact firstError_isSome_right _ _ (ih h _)

theorem unmarshalFields_error (rt : Runtime) (fields : List (GoString × Bool × GoType))
    (key fname : GoString) (oe : Bool) (ft : GoType) (x : JSON)
    (hf : findField fields key = some (fname, oe, ft))
    (hx : ∀ cur, (unmarshalValue rt ft x cur).2.isSome = true) :
    ∀ (ms : List (GoString × JSON)), (key, x) ∈ ms →
      ∀ acc, (unmarshalFields rt fields ms acc).2.isSome = true := by
  intro ms
  induction ms with
  | nil => intro h; simp at h
  | cons m ms ih =>
    intro h acc
    obtain ⟨k, y⟩ := m
    rcases List.mem_cons.1 h with h | h
    · cases h
      simp only [unmarshalFields, hf]
      exact firstError_isSome_left _ _ (hx _)
    · cases hk : findField fields k with
      | none =>
        simp only [unmarshalFields, hk]
        exact ih h _
      | some f =>
        obtain ⟨n2, o2, t2⟩ := f
        simp only [unmarshalFields, hk]
        exact firstError_isSome_right _ _ (ih h _)

theorem unmarshalValue_mismatch (rt : Runtime) (t : GoType) (j : JSON) (h : Mismatch t j) :
    ∀ cur, (unmarshalValue rt t j cur).2.isSome = true := by
  induction h with
  | kind t j k hnull hk hne => exact fun cur => unmarshalValue_wrong_kind rt t j k cur hnull hk hne
  | elem t e xs x hte hx _ ih =>
    intro cur
    simp only [unmarshalValue, hte]
    exact unmarshalElems_error rt e x ih xs hx _
  | field t name fields ms key fname oe ft x hte hx hf _ ih =>
    intro cur
    simp only [unmarshalValue, hte]
    exact unmarshalFields_error rt fields key fname oe ft x hf ih ms hx _
  | entry t e ms key x hte hx _ ih =>
    intro cur
    simp only [unmarshalValue, hte]
    exact unmarshalEntries_error rt e key x ih ms hx _

theorem Unmarshal_bad_body (rt : Runtime) (t : GoType) (b : GoString) (cur : GoValue)
    (h : BadBody t b) :
    ∃ cause, (Unmarshal rt b t cur).2 = some cause ∧
      (parseJSON b = none → cause = rt.syntaxError b) := by
  rcases h with h | ⟨j, hj, hm⟩
  · exact ⟨rt.syntaxError b, by simp [Unmarshal, h], fun _ => rfl⟩
  · have he := unmarshalValue_mismatch rt t j hm cur
    cases hc : (unmarshalValue rt t j cur).2 with
    | none => rw [hc] at he; simp at he
    | some cause =>
      refine ⟨cause, ?_, ?_⟩
      · simp [Unmarshal, hj, hc]
      · intro hn; rw [hn] at hj; simp at hj

theorem finishStruct_bad_body {σ : Type} (rt : Runtime) (r : Call σ GoString)
    (failText parseText : GoString) (t : GoType) (b : GoString)
    (herr : r.err = none) (hval : r.val = some b) (h : BadBody t b) :
    (finishStruct rt r failText parseText t).val = none ∧
      ∃ cause, (finishStruct rt r failText parseText t).err = some (errorfW parseText cause) ∧
        (parseJSON b = none → cause = rt.syntaxError b) := by
  obtain ⟨cause, hc, hs⟩ := Unmarshal_bad_body rt t b (zeroValue t) h
  have hfs : finishStruct rt r failText parseText t =
      ⟨none, some (errorfW parseText cause), r.sent, r.world⟩ := by
    unfold finishStruct
    simp only [herr, hval, Option.getD_some, hc]
  rw [hfs]
  exact ⟨rfl, cause, rfl, hs⟩

theorem finishSlice_bad_body {σ : Type} (rt : Runtime) (r : Call σ GoString)
    (failText parseText : GoString) (t : GoType) (b : GoString)
    (herr : r.err = none) (hval : r.val = some b) (h : BadBody (.slice t) b) :
    (finishSlice rt r failText parseText t).val = none ∧
      ∃ cause, (finishSlice rt r failText parseText t).err = some (errorfW parseText cause) ∧
        (parseJSON b = none → cause = rt.syntaxError b) := by
  obtain ⟨cause, hc, hs⟩ := Unmarshal_bad_body rt (.slice t) b .nil h
  have hfs : finishSlice rt r failText parseText t =
      ⟨none, some (errorfW parseText cause), r.sent, r.world⟩ := by
    unfold finishSlice
    simp only [herr, hval, Option.getD_some, hc]
  rw [hfs]
  exact ⟨rfl, cause, rfl, hs⟩

theorem forget_bad_body {σ α : Type} (r : Call σ α) (text : GoString) (P : GoError → Prop)
    (h : r.val = none ∧ ∃ cause, r.err = some (errorfW text cause) ∧ P cause) :
    r.forget.val = none ∧ ∃ cause, r.forget.err = some (errorfW text cause) ∧ P cause := by
  obtain ⟨h1, cause, h2, h3⟩ := h
  refine ⟨?_, cause, h2, h3⟩
  show r.val.map (fun _ => ()) = none
  rw [h1]; rfl

/-! ## C9: decoding a body of the wrong shape -/

/-- C9, as the claim states it, fails. The server answers 200 with the body `null`: `Health`
returns no error and an `APIStatus` whose `Message` is the empty string, and `GetStates`
returns no error and the nil slice. The server answers 200 with `null` under the known key
`message`: `Health` again returns no error and the empty `Message`. -/
theorem null_body_returns_defaults :
    ((fixedServer 200 (str "null")).Health plainRuntime ()).err = none ∧
      ((fixedServer 200 (str "null")).Health plainRuntime ()).val =
        some (.struct [(str "message", .never, .string [])]) ∧
      ((fixedServer 200 (str "null")).GetStates plainRuntime ()).err = none ∧
      ((fixedServer 200 (str "null")).GetStates plainRuntime ()).val = none ∧
      ((fixedServer 200 (str "\x7b\"message\": null\x7d")).Health plainRuntime ()).err = none ∧
      ((fixedServer 200 (str "\x7b\"message\": null\x7d")).Health plainRuntime ()).val =
        some (.struct [(str "message", .never, .string [])]) :=
  ⟨rfl, rfl, rfl, rfl, rfl, rfl⟩

/-- C9, amended. For every endpoint method whose request body (if any) was encoded, when the
transport delivers for the request a response with a status in 200..299 and a body that is
not one JSON value, or that is a JSON value which somewhere the decoder stores it (at the top,
in an element of an array, under a key naming a known field, under a key of a map) is not
`null` and not of the kind the Go type takes, the method returns no result and the error made
of its `failed to parse ...` text and the decoder's error, which is the syntax error when the
body is not one JSON value. -/
theorem decode_failure_returns_error {σ : Type} (rt : Runtime) (c : Client σ) (ep : Endpoint)
    (w w1 : σ) (req : Request) (s : Int) (b : GoString)
    (hpay : (ep.payload rt).2 = none)
    (hreq : c.buildRequest rt ep.verb ep.route (ep.payload rt).1 = .ok req)
    (hdo : c.HTTPClient.Do req w = (.ok { StatusCode := s, Body := .ok b }, w1))
    (hlo : 200 ≤ s) (hhi : s ≤ 299)
    (hbad : BadBody ep.target b) :
    (ep.call rt c w).val = none ∧
      ∃ cause, (ep.call rt c w).err = some (errorfW ep.parseText cause) ∧
        (parseJSON b = none → cause = rt.syntaxError b) := by
  have hin : ¬ (s < 200 ∨ s ≥ 300) := by omega
  have hx := doRequest_of_response rt c ep.verb ep.route (ep.payload rt).1 w w1 req s b hreq hdo
  rw [if_neg hin] at hx
  have he := congrArg Call.err hx
  have hv := congrArg Call.val hx
  simp only at he hv
  cases ep with
  | Health =>
    exact forget_bad_body (c.Health rt w) _ _
      (finishStruct_bad_body rt _ _ _ APIStatusType b he hv hbad)
  | GetConfig =>
    exact forget_bad_body (c.GetConfig rt w) _ _
      (finishStruct_bad_body rt _ _ _ ConfigType b he hv hbad)
  | GetStates =>
    exact forget_bad_body (c.GetStates rt w) _ _
      (finishSlice_bad_body rt _ _ _ StateType b he hv hbad)
  | GetState entityID =>
    exact forget_bad_body (c.GetState rt entityID w) _ _
      (finishStruct_bad_body rt _ _ _ StateType b he hv hbad)
  | SetState entityID sreq =>
    cases hm : Marshal rt sreq.toValue with
    | mk p e =>
      simp only [Endpoint.payload, hm] at hpay he hv
      subst hpay
      have hset : c.SetState rt entityID sreq w =
          finishStruct rt (c.doRequest rt (str "POST") (stateEndpoint entityID) p w)
            (str "failed to set state for " ++ entityID ++ str ": ")
            (str "failed to parse state response: ") StateType := by
        simp only [Client.SetState, hm]
      exact forget_bad_body (c.SetState rt entityID sreq w)
        (str "failed to parse state response: ") _
        (by rw [hset]; exact finishStruct_bad_body rt _ _ _ StateType b he hv hbad)
  | GetServices =>
    exact forget_bad_body (c.GetServices rt w) _ _
      (finishSlice_bad_body rt _ _ _ ServiceDomainType b he hv hbad)
  | CallService domain service data =>
    cases hm : optionalPayload rt data with
    | mk p e =>
      simp only [Endpoint.payload, hm] at hpay he hv
      subst hpay
      have hset : c.CallService rt domain service data w =
          finishSlice rt (c.doRequest rt (str "POST") (serviceEndpoint domain service) p w)
            (str "failed to call service " ++ domain ++ str "." ++ service ++ str ": ")
            (str "failed to parse service call response: ") StateType := by
        simp only [Client.CallService, hm]
      exact forget_bad_body (c.CallService rt domain service data w)
        (str "failed to parse service call response: ") _
        (by rw [hset]; exact finishSlice_bad_body rt _ _ _ StateType b he hv hbad)
  | GetEvents =>
    exact forget_bad_body (c.GetEvents rt w) _ _
      (finishSlice_bad_body rt _ _ _ EventType b he hv hbad)
  | FireEvent eventType data =>
    cases hm : optionalPayload rt data with
    | mk p e =>
      simp only [Endpoint.payload, hm] at hpay he hv
      subst hpay
      have hset : c.FireEvent rt eventType data w =
          finishStruct rt (c.doRequest rt (str "POST") (eventEndpoint eventType) p w)
            (str "failed to fire event " ++ eventType ++ str ": ")
            (str "failed to parse fire event response: ") FireEventResponseType := by
        simp only [Client.FireEvent, hm]
      exact forget_bad_body (c.FireEvent rt eventType data w)
        (str "failed to parse fire event response: ") _
        (by rw [hset]; exact finishStruct_bad_body rt _ _ _ FireEventResponseType b he hv hbad)

/-- C9 amended, at three answers with status 200: for `Health` the body
`{"message": 5}` (a number under the known key `message`), for `GetStates` the body `{}` (an
object where an array is expected), for `GetState` the body `not json`. -/
theorem decode_failure_returns_error_witness :
    ((Endpoint.call plainRuntime (fixedServer 200 (str "\x7b\"message\": 5\x7d")) .Health ()).val =
        none ∧
      ∃ cause, (Endpoint.call plainRuntime (fixedServer 200 (str "\x7b\"message\": 5\x7d"))
        .Health ()).err = some (errorfW (str "failed to parse health response: ") cause)) ∧
    ((Endpoint.call plainRuntime (fixedServer 200 (str "\x7b\x7d")) .GetStates ()).val = none ∧
      ∃ cause, (Endpoint.call plainRuntime (fixedServer 200 (str "\x7b\x7d")) .GetStates ()).err =
        some (errorfW (str "failed to parse states response: ") cause)) ∧
    ((Endpoint.call plainRuntime (fixedServer 200 (str "not json"))
        (.GetState (str "light.kitchen")) ()).val = none ∧
      (Endpoint.call plainRuntime (fixedServer 200 (str "not json"))
        (.GetState (str "light.kitchen")) ()).err =
        some (errorfW (str "failed to parse state response: ")
          (plainRuntime.syntaxError (str "not json")))) :=
  have h1 := decode_failure_returns_error plainRuntime
    (fixedServer 200 (str "\x7b\"message\": 5\x7d")) .Health () () _ 200
    (str "\x7b\"message\": 5\x7d") rfl rfl rfl (by decide) (by decide)
    (Or.inr ⟨.obj [(str "message", .num (str "5"))], rfl,
      Mismatch.field _ (str "client.APIStatus") [(str "message", false, .string)] _
        (str "message") (str "message") false .string (.num (str "5")) rfl
        (List.mem_cons_self _ _) rfl
        (Mismatch.kind _ _ .string (by decide) rfl (by decide))⟩)
  have h2 := decode_failure_returns_error plainRuntime
    (fixedServer 200 (str "\x7b\x7d")) .GetStates () () _ 200 (str "\x7b\x7d") rfl rfl rfl
    (by decide) (by decide)
    (Or.inr ⟨.obj [], rfl, Mismatch.kind _ _ .array (by decide) rfl (by decide)⟩)
  have h3 := decode_failure_returns_error plainRuntime
    (fixedServer 200 (str "not json")) (.GetState (str "light.kitchen")) () () _ 200
    (str "not json") rfl rfl rfl (by decide) (by decide) (Or.inl rfl)
  ⟨⟨h1.1, h1.2.elim fun cause hc => ⟨cause, hc.1⟩⟩,
    ⟨h2.1, h2.2.elim fun cause hc => ⟨cause, hc.1⟩⟩,
    ⟨h3.1, h3.2.elim fun cause hc => by rw [hc.1, hc.2 rfl]; rfl⟩⟩

/-! ## C10: the text of the error of `GetState` -/

theorem finishStruct_exchange_error {σ : Type} (rt : Runtime) (r : Call σ GoString)
    (failText parseText : GoString) (t : GoType) (cause : GoError) (h : r.err = some cause) :
    finishStruct rt r failText parseText t =
      ⟨none, some (.wrapError (failText ++ cause.Error) cause), r.sent, r.world⟩ := by
  unfold finishStruct
  simp only [h]
  rfl

/-- C10. Whenever the exchange of `GetState` fails, that is `doRequest` returns an error `cause`
(the request could not be created, the transport failed, the body could not be read, or the
status was outside 200..299), `GetState` returns no state and the error whose text is
`failed to get state for `, the entity id, `: ` and the text of `cause`, and which wraps
`cause`. When the failure is a response with a status `s` outside 200..299 and body `b`, the
text is `failed to get state for <id>: API request failed with status <s>: <b>`, with `s` in
decimal and `b` unchanged. -/
theorem GetState_error_text {σ : Type} (rt : Runtime) (c : Client σ) (entityID : GoString)
    (w : σ) (cause : GoError)
    (h : (c.doRequest rt (str "GET") (stateEndpoint entityID) none w).err = some cause) :
    (c.GetState rt entityID w).val = none ∧
      ∃ e, (c.GetState rt entityID w).err = some e ∧
        e.Error = str "failed to get state for " ++ entityID ++ str ": " ++ cause.Error ∧
        e.Unwrap = some cause ∧ cause ∈ e.chain ∧
        ∀ (req : Request) (s : Int) (b : GoString) (w1 : σ),
          c.buildRequest rt (str "GET") (stateEndpoint entityID) none = .ok req →
          c.HTTPClient.Do req w = (.ok { StatusCode := s, Body := .ok b }, w1) →
          (s < 200 ∨ s ≥ 300) →
          e.Error = str "failed to get state for " ++ entityID ++ str ": " ++
            (str "API request failed with status " ++ formatInt s ++ str ": " ++ b) := by
  have hg := finishStruct_exchange_error rt _
    (str "failed to get state for " ++ entityID ++ str ": ")
    (str "failed to parse state response: ") StateType cause h
  have hg2 : c.GetState rt entityID w = _ := hg
  rw [hg2]
  refine ⟨rfl, _, rfl, rfl, rfl, ?_, ?_⟩
  · cases cause with
    | errorString m => simp [GoError.chain]
    | wrapError m e => simp [GoError.chain]
  · intro req s b w1 hreq hdo hs
    have hx := doRequest_of_response rt c _ _ _ w w1 req s b hreq hdo
    rw [if_pos hs] at hx
    rw [hx] at h
    simp only [Option.some.injEq] at h
    rw [← h]
    rfl

/-- C10, at the scenario of `TestClient_ErrorResponse`: the server answers 404 with the body
`Entity not found` and the text of the error of `GetState("light.nonexistent")` is
`failed to get state for light.nonexistent: API request failed with status 404: Entity not found`. -/
theorem GetState_error_text_witness :
    ((fixedServer 404 (str "Entity not found")).GetState plainRuntime
        (str "light.nonexistent") ()).val = none ∧
      ∃ e, ((fixedServer 404 (str "Entity not found")).GetState plainRuntime
          (str "light.nonexistent") ()).err = some e ∧
        e.Error = str ("failed to get state for light.nonexistent: " ++
          "API request failed with status 404: Entity not found") :=
  have h := GetState_error_text plainRuntime (fixedServer 404 (str "Entity not found"))
    (str "light.nonexistent") ()
    (.errorString (str "API request failed with status 404: Entity not found")) rfl
  ⟨h.1, h.2.elim fun e he => ⟨e, he.1, he.2.1.trans (by decide)⟩⟩

/-! ## Lemmas: the shape of every endpoint method -/

theorem finishStruct_forget {σ : Type} (rt : Runtime) (r : Call σ GoString)
    (failText parseText name : GoString) (fields : List (GoString × Bool × GoType)) :
    (finishStruct rt r failText parseText (.struct name fields)).forget =
      finishForget rt r failText parseText (.struct name fields) := by
  cases h1 : r.err with
  | some e => simp only [finishStruct, finishForget, Call.forget, h1, Option.map_none']
  | none =>
    cases h2 : (Unmarshal rt (r.val.getD []) (.struct name fields)
        (zeroValue (.struct name fields))).2 with
    | some e => simp only [finishStruct, finishForget, Call.forget, h1, h2, Option.map_none']
    | none =>
      simp only [finishStruct, finishForget, Call.forget, h1, h2, resultPresent,
        Option.map_some']

theorem finishSlice_forget {σ : Type} (rt : Runtime) (r : Call σ GoString)
    (failText parseText : GoString) (t : GoType) :
    (finishSlice rt r failText parseText t).forget =
      finishForget rt r failText parseText (.slice t) := by
  have hz : zeroValue (.slice t) = .nil := rfl
  cases h1 : r.err with
  | some e => simp only [finishSlice, finishForget, Call.forget, h1, Option.map_none']
  | none =>
    cases h2 : (Unmarshal rt (r.val.getD []) (.slice t) .nil).2 with
    | some e => simp only [finishSlice, finishForget, Call.forget, h1, h2, hz, Option.map_none']
    | none => simp only [finishSlice, finishForget, Call.forget, h1, h2, hz, resultPresent]

theorem Endpoint.call_of_payload {σ : Type} (rt : Runtime) (c : Client σ) (ep : Endpoint)
    (w : σ) (hpay : (ep.payload rt).2 = none) :
    ep.call rt c w =
      finishForget rt (c.doRequest rt ep.verb ep.route (ep.payload rt).1 w) ep.failText
        ep.parseText ep.target := by
  cases ep with
  | Health => exact finishStruct_forget rt _ _ _ _ _
  | GetConfig => exact finishStruct_forget rt _ _ _ _ _
  | GetStates => exact finishSlice_forget rt _ _ _ _
  | GetState entityID => exact finishStruct_forget rt _ _ _ _ _
  | SetState entityID sreq =>
    cases hm : Marshal rt sreq.toValue with
    | mk p e =>
      simp only [Endpoint.payload, hm] at hpay
      subst hpay
      have hset : c.SetState rt entityID sreq w =
          finishStruct rt (c.doRequest rt (str "POST") (stateEndpoint entityID) p w)
            (str "failed to set state for " ++ entityID ++ str ": ")
            (str "failed to parse state response: ") StateType := by
        simp only [Client.SetState, hm]
      simp only [Endpoint.call, hset, Endpoint.payload, hm]
      exact finishStruct_forget rt _ _ _ _ _
  | GetServices => exact finishSlice_forget rt _ _ _ _
  | CallService domain service data =>
    cases hm : optionalPayload rt data with
    | mk p e =>
      simp only [Endpoint.payload, hm] at hpay
      subst hpay
      have hset : c.CallService rt domain service data w =
          finishSlice rt (c.doRequest rt (str "POST") (serviceEndpoint domain service) p w)
            (str "failed to call service " ++ domain ++ str "." ++ service ++ str ": ")
            (str "failed to parse service call response: ") StateType := by
        simp only [Client.CallService, hm]
      simp only [Endpoint.call, hset, Endpoint.payload, hm]
      exact finishSlice_forget rt _ _ _ _
  | GetEvents => exact finishSlice_forget rt _ _ _ _
  | FireEvent eventType data =>
    cases hm : optionalPayload rt data with
    | mk p e =>
      simp only [Endpoint.payload, hm] at hpay
      subst hpay
      have hset : c.FireEvent rt eventType data w =
          finishStruct rt (c.doRequest rt (str "POST") (eventEndpoint eventType) p w)
            (str "failed to fire event " ++ eventType ++ str ": ")
            (str "failed to parse fire event response: ") FireEventResponseType := by
        simp only [Client.FireEvent, hm]
      simp only [Endpoint.call, hset, Endpoint.payload, hm]
      exact finishStruct_forget rt _ _ _ _ _

theorem Endpoint.call_of_payload_error {σ : Type} (rt : Runtime) (c : Client σ) (ep : Endpoint)
    (w : σ) (e : GoError) (hpay : (ep.payload rt).2 = some e) :
    ep.call rt c w = ⟨none, some (errorfW ep.marshalText e), [], w⟩ := by
  cases ep with
  | SetState entityID sreq =>
    cases hm : Marshal rt sreq.toValue with
    | mk p e2 =>
      simp only [Endpoint.payload, hm] at hpay
      subst hpay
      simp only [Endpoint.call, Client.SetState, hm, Call.forget]
      rfl
  | CallService domain service data =>
    cases hm : optionalPayload rt data with
    | mk p e2 =>
      simp only [Endpoint.payload, hm] at hpay
      subst hpay
      simp only [Endpoint.call, Client.CallService, hm, Call.forget]
      rfl
  | FireEvent eventType data =>
    cases hm : optionalPayload rt data with
    | mk p e2 =>
      simp only [Endpoint.payload, hm] at hpay
      subst hpay
      simp only [Endpoint.call, Client.FireEvent, hm, Call.forget]
      rfl
  | _ => simp [Endpoint.payload] at hpay

theorem finishForget_sent {σ : Type} (rt : Runtime) (r : Call σ GoString)
    (failText parseText : GoString) (t : GoType) :
    (finishForget rt r failText parseText t).sent = r.sent := by
  unfold finishForget
  split
  · rfl
  · split <;> rfl

theorem Endpoint.verb_ne_nil (ep : Endpoint) : ep.verb ≠ [] := by
  cases ep <;> simp only [Endpoint.verb] <;> decide

/-! ## C16: a transport failure is wrapped -/

theorem chain_head (e : GoError) : e ∈ e.chain := by
  cases e <;> simp [GoError.chain]

/-- C16. Whenever the transport fails to complete the exchange with the cause `e`, `doRequest`
returns no bytes and the error `failed to execute request: ` followed by the text of `e`, which
wraps `e`, for every method, endpoint and body; and every endpoint method whose request body was
encoded returns no result and an error that wraps that error, so that `e` is still in the chain
`errors.Is` walks, two `Unwrap` steps down, and the text of the error ends with the text of
`e`. -/
theorem transport_failure_is_wrapped {σ : Type} (rt : Runtime) (c : Client σ) (ep : Endpoint)
    (w w1 : σ) (req : Request) (e : GoError)
    (hpay : (ep.payload rt).2 = none)
    (hreq : c.buildRequest rt ep.verb ep.route (ep.payload rt).1 = .ok req)
    (hdo : c.HTTPClient.Do req w = (.error e, w1)) :
    (∀ (method endpoint : GoString) (body : Option GoString) (r : Request) (w2 w3 : σ)
        (cause : GoError),
        c.buildRequest rt method endpoint body = .ok r →
        c.HTTPClient.Do r w2 = (.error cause, w3) →
        (c.doRequest rt method endpoint body w2).val = none ∧
          (c.doRequest rt method endpoint body w2).err =
            some (.wrapError (str "failed to execute request: " ++ cause.Error) cause)) ∧
      (ep.call rt c w).val = none ∧
      ∃ err mid, (ep.call rt c w).err = some err ∧
        err.Unwrap = some mid ∧ mid.Unwrap = some e ∧ e ∈ err.chain ∧
        err.Error = ep.failText ++ (str "failed to execute request: " ++ e.Error) := by
  have hdoReq : ∀ (method endpoint : GoString) (body : Option GoString) (r : Request)
      (w2 w3 : σ) (cause : GoError),
      c.buildRequest rt method endpoint body = .ok r →
      c.HTTPClient.Do r w2 = (.error cause, w3) →
      c.doRequest rt method endpoint body w2 =
        ⟨none, some (.wrapError (str "failed to execute request: " ++ cause.Error) cause),
          [r], w3⟩ := by
    intro method endpoint body r w2 w3 cause h1 h2
    simp only [Client.doRequest, h1, h2]
    rfl
  refine ⟨?_, ?_⟩
  · intro method endpoint body r w2 w3 cause h1 h2
    rw [hdoReq method endpoint body r w2 w3 cause h1 h2]
    exact ⟨rfl, rfl⟩
  · rw [Endpoint.call_of_payload rt c ep w hpay, hdoReq _ _ _ req w w1 e hreq hdo]
    refine ⟨rfl, _, _, rfl, rfl, rfl, ?_, rfl⟩
    simp only [errorfW, GoError.chain, List.mem_cons]
    exact Or.inr (Or.inr (chain_head e))

/-- C16, at `GetState("light.kitchen")` against a transport that refuses the connection. -/
theorem transport_failure_is_wrapped_witness :
    (Endpoint.call plainRuntime
        { fixedServer 200 [] with HTTPClient := { Timeout := thirtySeconds, Do := refusingDo } }
        (.GetState (str "light.kitchen")) ()).val = none ∧
      ∃ err, (Endpoint.call plainRuntime
          { fixedServer 200 [] with HTTPClient := { Timeout := thirtySeconds, Do := refusingDo } }
          (.GetState (str "light.kitchen")) ()).err = some err ∧
        GoError.errorString (str "connection refused") ∈ err.chain ∧
        err.Error = str ("failed to get state for light.kitchen: " ++
          "failed to execute request: connection refused") :=
  have h := transport_failure_is_wrapped plainRuntime
    { fixedServer 200 [] with HTTPClient := { Timeout := thirtySeconds, Do := refusingDo } }
    (.GetState (str "light.kitchen")) () () _ (.errorString (str "connection refused"))
    rfl rfl rfl
  ⟨h.2.1, h.2.2.elim fun err h2 => h2.elim fun _ h3 =>
    ⟨err, h3.1, h3.2.2.2.1, h3.2.2.2.2.trans (by decide)⟩⟩

/-! ## C17: no retry -/

theorem Endpoint.call_sent {σ : Type} (rt : Runtime) (c : Client σ) (ep : Endpoint) (w : σ) :
    (ep.call rt c w).sent =
      match (ep.payload rt).2, c.buildRequest rt ep.verb ep.route (ep.payload rt).1 with
      | none, .ok req => [req]
      | _, _ => [] := by
  cases hp : (ep.payload rt).2 with
  | some e =>
    rw [Endpoint.call_of_payload_error rt c ep w e hp]
  | none =>
    rw [Endpoint.call_of_payload rt c ep w hp, finishForget_sent, doRequest_sent]
    cases c.buildRequest rt ep.verb ep.route (ep.payload rt).1 <;> rfl

/-- C17, as the claim states it, fails. The base URL holds a line feed (as when `HA_HOST_NAME`
ends in one) and `http.NewRequest` refuses URLs with a control byte: `Health`, which has no
request body to encode, hands no request to the transport and returns the error of the request
that could not be created. -/
theorem uncreatable_request_sends_nothing :
    (Endpoint.payload controlByteRuntime .Health).2 = none ∧
      (lineFeedHostClient.Health controlByteRuntime ()).sent = [] ∧
      (lineFeedHostClient.Health controlByteRuntime ()).val = none ∧
      (lineFeedHostClient.Health controlByteRuntime ()).err.map GoError.Error =
        some (str "health check failed: failed to create request: parse " ++
          quoteASCII (str "http://homeassistant\n:8123/api/") ++
          str ": net/url: invalid control character in URL") ∧
      quoteASCII (str "http://homeassistant\n:8123/api/") =
        34 :: str "http://homeassistant" ++ 92 :: str "n:8123/api/" ++ [34] :=
  ⟨rfl, by decide, rfl, by decide, by decide⟩

/-- C17, amended. No endpoint method retries: each call hands at most one request to the
transport, whatever the transport then answers; it hands exactly one when its request body
was encoded and `http.NewRequest` created the request, and none when the body could not be
encoded or the request could not be created. The request handed over is the one `doRequest`
builds for the method, the endpoint and the body of the call. -/
theorem endpoint_sends_at_most_one {σ : Type} (rt : Runtime) (c : Client σ) (ep : Endpoint)
    (w : σ) :
    (ep.call rt c w).sent.length ≤ 1 ∧
      ((ep.payload rt).2 = none →
        rt.newRequestError ep.verb (c.BaseURL ++ ep.route) = none →
        ∃ req, (ep.call rt c w).sent = [req] ∧
          c.buildRequest rt ep.verb ep.route (ep.payload rt).1 = .ok req) ∧
      ((ep.payload rt).2 ≠ none → (ep.call rt c w).sent = []) ∧
      (rt.newRequestError ep.verb (c.BaseURL ++ ep.route) ≠ none → (ep.call rt c w).sent = []) := by
  rw [Endpoint.call_sent]
  refine ⟨?_, ?_, ?_, ?_⟩
  · split <;> simp
  · intro hp hn
    have hv : (if ep.verb = [] then str "GET" else ep.verb) = ep.verb := if_neg ep.verb_ne_nil
    obtain ⟨req, hreq⟩ := buildRequest_isOk rt c ep.verb ep.route (ep.payload rt).1
      (by rw [hv]; exact hn)
    exact ⟨req, by rw [hp, hreq], hreq⟩
  · intro hp
    split
    · rename_i h1 _; exact absurd h1 hp
    · rfl
  · intro hn
    have hb : ∀ req, c.buildRequest rt ep.verb ep.route (ep.payload rt).1 ≠ .ok req := by
      intro req hreq
      unfold Client.buildRequest NewRequest at hreq
      simp only [if_neg ep.verb_ne_nil] at hreq
      cases hx : rt.newRequestError ep.verb (c.BaseURL ++ ep.route) with
      | none => exact hn hx
      | some e => rw [hx] at hreq; simp at hreq
    split
    · rename_i req _ h2; exact absurd h2 (hb req)
    · rfl

/-- C17 amended, at `GetState("light.kitchen")` against a server answering 404: one request. -/
theorem endpoint_sends_at_most_one_witness :
    ∃ req, (Endpoint.call plainRuntime (fixedServer 404 (str "Entity not found"))
        (.GetState (str "light.kitchen")) ()).sent = [req] ∧
      req.URL = str "http://localhost:8123/api/states/light.kitchen" :=
  ((endpoint_sends_at_most_one plainRuntime (fixedServer 404 (str "Entity not found"))
    (.GetState (str "light.kitchen")) ()).2.1 rfl rfl).elim fun req h =>
      ⟨req, h.1, (buildRequest_ok _ _ _ _ _ req h.2).1.trans (by decide)⟩


/-! ## Lemmas: decoding an object into a struct -/

theorem field_setField (fs : List (GoString × Omit × GoValue)) (n m : GoString) (v : GoValue) :
    (GoValue.struct (setField fs n v)).field m =
      if n = m then ((GoValue.struct fs).field m).map (fun _ => v)
      else (GoValue.struct fs).field m := by
  induction fs with
  | nil => simp [setField, GoValue.field]
  | cons f rest ih =>
    simp only [GoValue.field, setField, List.map_cons] at ih ⊢
    by_cases h1 : f.1 = n
    · by_cases h2 : n = m
      · subst h2
        simp [h1, List.find?]
      · have h3 : ¬ f.1 = m := by rw [h1]; exact h2
        simp only [h1, if_true, List.find?, h2, decide_False, if_false]
        have := ih
        simp only [h2, if_false] at this
        simpa [h2] using this
    · by_cases h2 : n = m
      · subst h2
        simp only [h1, if_false, List.find?, decide_False, if_true]
        have := ih
        simp only [if_true] at this
        simpa using this
      · simp only [h1, if_false, h2]
        by_cases h3 : f.1 = m
        · simp [List.find?, h3]
        · simp only [List.find?, h3, decide_False]
          have := ih
          simp only [h2, if_false] at this
          simpa using this

theorem findField_mem {τ : Type} (fields : List (GoString × τ)) (key : GoString)
    (f : GoString × τ) (h : findField fields key = some f) : f ∈ fields := by
  unfold findField at h
  split at h
  · rename_i g hg
    simp only [Option.some.injEq] at h
    subst h
    exact List.mem_of_find?_eq_some hg
  · exact List.mem_of_find?_eq_some h

theorem unmarshalValue_string (rt : Runtime) (x : JSON) (cur : GoString) :
    (unmarshalValue rt .string x (.string cur)).1 =
      .string (match x with
        | .str s => s
        | _ => cur) := by
  cases x <;> simp [unmarshalValue, GoType.nullable, GoType.elem, derefOrNew]

theorem unmarshalFields_string (rt : Runtime) (fields : List (GoString × Bool × GoType))
    (name : GoString)
    (hstr : ∀ f ∈ fields, f.1 = name → f.2.2 = .string) :
    ∀ (ms : List (GoString × JSON)) (acc : List (GoString × Omit × GoValue)) (cur : GoString),
      (GoValue.struct acc).field name = some (.string cur) →
      (GoValue.struct (unmarshalFields rt fields ms acc).1).field name =
        some (.string (stringMember fields name ms cur)) := by
  intro ms
  induction ms with
  | nil => intro acc cur h; simpa [unmarshalFields, stringMember] using h
  | cons m ms ih =>
    intro acc cur h
    obtain ⟨k, x⟩ := m
    cases hf : findField fields k with
    | none =>
      simp only [unmarshalFields, hf, stringMember, List.foldl_cons]
      exact ih acc cur h
    | some f =>
      obtain ⟨n, oe, ft⟩ := f
      simp only [unmarshalFields, hf, stringMember, List.foldl_cons]
      by_cases hn : n = name
      · subst hn
        have hft : ft = .string := hstr _ (findField_mem fields k _ hf) rfl
        subst hft
        simp only [if_true]
        refine ih _ _ ?_
        rw [field_setField, if_pos rfl, h]
        simp only [Option.getD_some, Option.map_some', unmarshalValue_string]
      · simp only [hn, if_false]
        refine ih _ _ ?_
        rw [field_setField, if_neg hn, h]

theorem unmarshalFields_unknown (rt : Runtime) (fields : List (GoString × Bool × GoType))
    (key : GoString) (x : JSON) (hk : findField fields key = none) :
    ∀ (ms1 ms2 : List (GoString × JSON)) (acc : List (GoString × Omit × GoValue)),
      unmarshalFields rt fields (ms1 ++ (key, x) :: ms2) acc =
        unmarshalFields rt fields (ms1 ++ ms2) acc := by
  intro ms1
  induction ms1 with
  | nil => intro ms2 acc; simp only [List.nil_append, unmarshalFields, hk]
  | cons m ms1 ih =>
    intro ms2 acc
    obtain ⟨k, y⟩ := m
    show unmarshalFields rt fields ((k, y) :: (ms1 ++ (key, x) :: ms2)) acc =
      unmarshalFields rt fields ((k, y) :: (ms1 ++ ms2)) acc
    cases hf : findField fields k with
    | none =>
      simp only [unmarshalFields, hf]
      exact ih ms2 acc
    | some f =>
      obtain ⟨n, oe, ft⟩ := f
      simp only [unmarshalFields, hf]
      rw [ih ms2]

theorem unmarshalElems_fresh (rt : Runtime) (e : GoType) (xs : List JSON) :
    (unmarshalElems rt e xs []).1 = xs.map (fun x => (unmarshalValue rt e x (zeroValue e)).1) ∧
      ((∀ x ∈ xs, (unmarshalValue rt e x (zeroValue e)).2 = none) →
        (unmarshalElems rt e xs []).2 = none) := by
  induction xs with
  | nil => simp [unmarshalElems]
  | cons x xs ih =>
    simp only [unmarshalElems, List.headD_nil, List.tail_nil, List.map_cons, ih.1, true_and]
    intro h
    rw [h x (List.mem_cons_self _ _), ih.2 (fun y hy => h y (List.mem_cons_of_mem _ hy))]
    rfl

/-! ## Lemmas: the outcome of a method once the body is delivered -/

theorem finishSlice_delivered {σ : Type} (rt : Runtime) (r : Call σ GoString)
    (failText parseText : GoString) (t : GoType) (b : GoString) (j : JSON)
    (herr : r.err = none) (hval : r.val = some b) (hj : parseJSON b = some j) :
    finishSlice rt r failText parseText t =
      match (unmarshalValue rt (.slice t) j .nil).2 with
      | some e => ⟨none, some (errorfW parseText e), r.sent, r.world⟩
      | none => ⟨sliceOf (unmarshalValue rt (.slice t) j .nil).1, none, r.sent, r.world⟩ := by
  unfold finishSlice
  simp only [herr, hval, Option.getD_some, Unmarshal, hj]

theorem finishStruct_delivered {σ : Type} (rt : Runtime) (r : Call σ GoString)
    (failText parseText : GoString) (t : GoType) (b : GoString) (j : JSON)
    (herr : r.err = none) (hval : r.val = some b) (hj : parseJSON b = some j) :
    finishStruct rt r failText parseText t =
      match (unmarshalValue rt t j (zeroValue t)).2 with
      | some e => ⟨none, some (errorfW parseText e), r.sent, r.world⟩
      | none => ⟨some (unmarshalValue rt t j (zeroValue t)).1, none, r.sent, r.world⟩ := by
  unfold finishStruct
  simp only [herr, hval, Option.getD_some, Unmarshal, hj]

theorem doRequest_delivered {σ : Type} (rt : Runtime) (c : Client σ) (method endpoint : GoString)
    (body : Option GoString) (w w1 : σ) (req : Request) (s : Int) (b : GoString)
    (hreq : c.buildRequest rt method endpoint body = .ok req)
    (hdo : c.HTTPClient.Do req w = (.ok { StatusCode := s, Body := .ok b }, w1))
    (hlo : 200 ≤ s) (hhi : s ≤ 299) :
    c.doRequest rt method endpoint body w = ⟨some b, none, [req], w1⟩ := by
  have hin : ¬ (s < 200 ∨ s ≥ 300) := by omega
  rw [doRequest_of_response rt c method endpoint body w w1 req s b hreq hdo, if_neg hin]

theorem State_string_fields : ∀ f ∈ StateType.fields,
    (f.1 = str "entity_id" → f.2.2 = .string) ∧ (f.1 = str "state" → f.2.2 = .string) ∧
      (f.1 = str "last_changed" → f.2.2 = .string) ∧
      (f.1 = str "last_updated" → f.2.2 = .string) := by
  intro f hf
  simp only [StateType, GoType.fields, List.mem_cons, List.mem_singleton, List.not_mem_nil,
    or_false] at hf
  rcases hf with rfl | rfl | rfl | rfl | rfl | rfl <;>
    refine ⟨?_, ?_, ?_, ?_⟩ <;> intro h <;> first | rfl | exact absurd h (by decide)

/-! ## C12: `GetStates` keeps the order of the array -/

/-- C12. When the server answers `GetStates` with a status in 200..299 and a body that is a JSON
array of `n` values each of which decodes into a `State` without error (entity-state objects),
`GetStates` returns no error and a sequence of exactly `n` states in the order of the array, the
`i`-th being the `i`-th value decoded; and when the `i`-th value is an object, the `EntityID` and
the `State` of the `i`-th result are the strings the object gives for `entity_id` and for
`state`. -/
theorem GetStates_preserves_order {σ : Type} (rt : Runtime) (c : Client σ) (w w1 : σ)
    (req : Request) (s : Int) (b : GoString) (xs : List JSON)
    (hreq : c.buildRequest rt (str "GET") (str "/states") none = .ok req)
    (hdo : c.HTTPClient.Do req w = (.ok { StatusCode := s, Body := .ok b }, w1))
    (hlo : 200 ≤ s) (hhi : s ≤ 299)
    (hparse : parseJSON b = some (.arr xs))
    (hobj : ∀ x ∈ xs, (unmarshalValue rt StateType x (zeroValue StateType)).2 = none) :
    (c.GetStates rt w).err = none ∧
      ∃ vs, (c.GetStates rt w).val = some vs ∧ vs.length = xs.length ∧
        vs = xs.map (fun x => (unmarshalValue rt StateType x (zeroValue StateType)).1) ∧
        ∀ (i : Nat) (ms : List (GoString × JSON)), xs[i]? = some (.obj ms) →
          ∃ v, vs[i]? = some v ∧
            v.field (str "entity_id") =
              some (.string (stringMember StateType.fields (str "entity_id") ms [])) ∧
            v.field (str "state") =
              some (.string (stringMember StateType.fields (str "state") ms [])) := by
  have hx := doRequest_delivered rt c _ _ _ w w1 req s b hreq hdo hlo hhi
  have hfs := finishSlice_delivered rt (c.doRequest rt (str "GET") (str "/states") none w)
    (str "failed to get states: ") (str "failed to parse states response: ") StateType b
    (.arr xs) (by rw [hx]) (by rw [hx]) hparse
  have hdec : unmarshalValue rt (.slice StateType) (.arr xs) .nil =
      (.slice (unmarshalElems rt StateType xs []).1, (unmarshalElems rt StateType xs []).2) := by
    simp only [unmarshalValue, GoType.elem]
  have hel := unmarshalElems_fresh rt StateType xs
  rw [hdec] at hfs
  simp only [hel.2 hobj, hel.1, sliceOf] at hfs
  have hg : c.GetStates rt w = _ := hfs
  rw [hg]
  refine ⟨rfl, _, rfl, by simp, rfl, ?_⟩
  intro i ms hi
  refine ⟨(unmarshalValue rt StateType (.obj ms) (zeroValue StateType)).1, ?_, ?_, ?_⟩
  · rw [List.getElem?_map, hi]; rfl
  · have h := unmarshalFields_string rt StateType.fields (str "entity_id")
      (fun f hf => (State_string_fields f hf).1) ms
      (structFields StateType (zeroValue StateType)) [] rfl
    exact h
  · have h := unmarshalFields_string rt StateType.fields (str "state")
      (fun f hf => (State_string_fields f hf).2.1) ms
      (structFields StateType (zeroValue StateType)) [] rfl
    exact h

/-- C12, at the server of `TestClient_GetStates`: two states, the first being
`light.living_room`/`on`, the second `light.bedroom`/`off`. -/
theorem GetStates_preserves_order_witness :
    ((fixedServer 200 twoStatesBody).GetStates plainRuntime ()).err = none ∧
      ∃ v0 v1, ((fixedServer 200 twoStatesBody).GetStates plainRuntime ()).val = some [v0, v1] ∧
        v0.field (str "entity_id") = some (.string (str "light.living_room")) ∧
        v0.field (str "state") = some (.string (str "on")) ∧
        v1.field (str "entity_id") = some (.string (str "light.bedroom")) ∧
        v1.field (str "state") = some (.string (str "off")) := by
  obtain ⟨h1, vs, hv, _, hmap, hf⟩ :=
    GetStates_preserves_order plainRuntime (fixedServer 200 twoStatesBody) () () _ 200
      twoStatesBody
      [.obj [(str "entity_id", .str (str "light.living_room")), (str "state", .str (str "on"))],
       .obj [(str "entity_id", .str (str "light.bedroom")), (str "state", .str (str "off"))]]
      rfl rfl (by decide) (by decide) rfl
      (by
        intro x hx
        simp only [List.mem_cons, List.mem_singleton, List.not_mem_nil, or_false] at hx
        rcases hx with rfl | rfl <;> rfl)
  refine ⟨h1, _, _, hv.trans (congrArg some hmap), ?_⟩
  obtain ⟨a, ha, ha1, ha2⟩ := hf 0 _ rfl
  obtain ⟨b, hb, hb1, hb2⟩ := hf 1 _ rfl
  rw [hmap] at ha hb
  cases ha
  cases hb
  exact ⟨ha1, ha2, hb1, hb2⟩

/-! ## C13: members under unknown keys -/

theorem findField_unknown {τ : Type} (fields : List (GoString × τ)) (key : GoString)
    (hk : ∀ f ∈ fields, foldName f.1 ≠ foldName key) : findField fields key = none := by
  have h1 : fields.find? (fun f => decide (f.1 = key)) = none := by
    rw [List.find?_eq_none]
    intro f hf
    have := hk f hf
    simp only [decide_eq_true_eq]
    intro h
    exact this (by rw [h])
  have h2 : fields.find? (fun f => decide (foldName f.1 = foldName key)) = none := by
    rw [List.find?_eq_none]
    intro f hf
    simpa only [decide_eq_true_eq] using hk f hf
  simp only [findField, h1, h2]

theorem unmarshalValue_unknown (rt : Runtime) (name : GoString)
    (fields : List (GoString × Bool × GoType)) (key : GoString) (x : JSON)
    (hk : findField fields key = none) (ms1 ms2 : List (GoString × JSON)) (cur : GoValue) :
    unmarshalValue rt (.struct name fields) (.obj (ms1 ++ (key, x) :: ms2)) cur =
      unmarshalValue rt (.struct name fields) (.obj (ms1 ++ ms2)) cur := by
  simp only [unmarshalValue, GoType.elem]
  rw [unmarshalFields_unknown rt fields key x hk]

/-- C13, counterexample. The key `STATE` is not the JSON name of any field of `State`; the
server answers `GetState` with an entity-state object whose `state` is `on`, and then with the
same object and one more member `"STATE":"off"`: the first call returns a `State` whose `State`
is `on`, the second one whose `State` is `off`. -/
theorem folded_key_changes_state :
    str "STATE" ∉ StateType.fields.map Prod.fst ∧
      ((fixedServer 200 plainStateBody).GetState plainRuntime (str "light.a") ()).err = none ∧
      (((fixedServer 200 plainStateBody).GetState plainRuntime (str "light.a") ()).val.bind
          (fun v => v.field (str "state"))) = some (.string (str "on")) ∧
      ((fixedServer 200 upperKeyStateBody).GetState plainRuntime (str "light.a") ()).err = none ∧
      (((fixedServer 200 upperKeyStateBody).GetState plainRuntime (str "light.a") ()).val.bind
          (fun v => v.field (str "state"))) = some (.string (str "off")) :=
  ⟨by decide, rfl, rfl, rfl, rfl⟩

/-- C13, amended. A member whose key names no field of `State`, neither exactly nor under the
decoder's case folding, is skipped: when one server answers `GetState` with a status in
200..299 and a JSON object, and another with a status in 200..299 and the same object with one
more member under such a key, whatever its value, the two calls return the same `State` and
the same error (so no error when the first returns none). -/
theorem unknown_key_is_skipped {σ τ : Type} (rt : Runtime) (c : Client σ) (c1 : Client τ)
    (entityID : GoString) (w w0 : σ) (v v0 : τ) (req req1 : Request) (s s1 : Int)
    (b b1 : GoString) (ms1 ms2 : List (GoString × JSON)) (key : GoString) (x : JSON)
    (hreq : c.buildRequest rt (str "GET") (stateEndpoint entityID) none = .ok req)
    (hdo : c.HTTPClient.Do req w = (.ok { StatusCode := s, Body := .ok b }, w0))
    (hlo : 200 ≤ s) (hhi : s ≤ 299)
    (hreq1 : c1.buildRequest rt (str "GET") (stateEndpoint entityID) none = .ok req1)
    (hdo1 : c1.HTTPClient.Do req1 v = (.ok { StatusCode := s1, Body := .ok b1 }, v0))
    (hlo1 : 200 ≤ s1) (hhi1 : s1 ≤ 299)
    (hb : parseJSON b = some (.obj (ms1 ++ ms2)))
    (hb1 : parseJSON b1 = some (.obj (ms1 ++ (key, x) :: ms2)))
    (hkey : ∀ f ∈ StateType.fields, foldName f.1 ≠ foldName key) :
    (c1.GetState rt entityID v).val = (c.GetState rt entityID w).val ∧
      (c1.GetState rt entityID v).err = (c.GetState rt entityID w).err := by
  have hx := doRequest_delivered rt c _ _ _ w w0 req s b hreq hdo hlo hhi
  have hx1 := doRequest_delivered rt c1 _ _ _ v v0 req1 s1 b1 hreq1 hdo1 hlo1 hhi1
  have hfs := finishStruct_delivered rt (c.doRequest rt (str "GET") (stateEndpoint entityID) none w)
    (str "failed to get state for " ++ entityID ++ str ": ")
    (str "failed to parse state response: ") StateType b _ (by rw [hx]) (by rw [hx]) hb
  have hfs1 := finishStruct_delivered rt
    (c1.doRequest rt (str "GET") (stateEndpoint entityID) none v)
    (str "failed to get state for " ++ entityID ++ str ": ")
    (str "failed to parse state response: ") StateType b1 _ (by rw [hx1]) (by rw [hx1]) hb1
  have hdec : unmarshalValue rt StateType (.obj (ms1 ++ (key, x) :: ms2)) (zeroValue StateType) =
      unmarshalValue rt StateType (.obj (ms1 ++ ms2)) (zeroValue StateType) :=
    unmarshalValue_unknown rt _ StateType.fields key x (findField_unknown _ key hkey) ms1 ms2 _
  have hg : c.GetState rt entityID w = _ := hfs
  have hg1 : c1.GetState rt entityID v = _ := hfs1
  rw [hg, hg1, hdec]
  cases (unmarshalValue rt StateType (.obj (ms1 ++ ms2)) (zeroValue StateType)).2 <;>
    exact ⟨rfl, rfl⟩

/-- C13, at a server answering 200 with an entity-state object and one answering 200 with the same
object and the further member `"icon":[1,"x"]`. -/
theorem unknown_key_is_skipped_witness :
    ((fixedServer 200 extraKeyStateBody).GetState plainRuntime (str "light.a") ()).val =
        ((fixedServer 200 plainStateBody).GetState plainRuntime (str "light.a") ()).val ∧
      ((fixedServer 200 extraKeyStateBody).GetState plainRuntime (str "light.a") ()).err =
        ((fixedServer 200 plainStateBody).GetState plainRuntime (str "light.a") ()).err :=
  unknown_key_is_skipped plainRuntime (fixedServer 200 plainStateBody)
    (fixedServer 200 extraKeyStateBody) (str "light.a") () () () () _ _ 200 200
    plainStateBody extraKeyStateBody [(str "entity_id", .str (str "light.a"))]
    [(str "state", .str (str "on"))] (str "icon") (.arr [.num (str "1"), .str (str "x")])
    rfl rfl (by decide) (by decide) rfl rfl (by decide) (by decide) rfl rfl (by decide)

set_option maxRecDepth 20000

/-! ## C19: `GetServices` -/

theorem mapPut_keys (m : List (GoString × GoValue)) (k : GoString) (v : GoValue) :
    (mapPut m k v).map Prod.fst = (m.map Prod.fst).filter (fun x => decide (x ≠ k)) ++ [k] := by
  simp only [mapPut, List.map_append, List.map_cons, List.map_nil, List.filter_map]
  rfl

theorem mapPut_nodup (m : List (GoString × GoValue)) (k : GoString) (v : GoValue)
    (h : (m.map Prod.fst).Nodup) : ((mapPut m k v).map Prod.fst).Nodup := by
  rw [mapPut_keys]
  refine List.Nodup.append (h.filter _) (List.nodup_singleton k) ?_
  intro x hx hk
  rw [List.mem_singleton] at hk
  rw [List.mem_filter] at hx
  simpa [hk] using hx.2

theorem mapPut_mem_keys (m : List (GoString × GoValue)) (k : GoString) (v : GoValue)
    (x : GoString) : x ∈ (mapPut m k v).map Prod.fst ↔ x ∈ m.map Prod.fst ∨ x = k := by
  rw [mapPut_keys, List.mem_append, List.mem_filter, List.mem_singleton]
  by_cases hx : x = k
  · simp [hx]
  · simp [hx]

theorem unmarshalEntries_keys (rt : Runtime) (e : GoType) :
    ∀ (ms : List (GoString × JSON)) (acc : List (GoString × GoValue)),
      (acc.map Prod.fst).Nodup →
      (((unmarshalEntries rt e ms acc).1.map Prod.fst).Nodup ∧
        ∀ x, x ∈ (unmarshalEntries rt e ms acc).1.map Prod.fst ↔
          x ∈ acc.map Prod.fst ∨ x ∈ ms.map Prod.fst) := by
  intro ms
  induction ms with
  | nil => intro acc h; simpa [unmarshalEntries] using h
  | cons m ms ih =>
    intro acc h
    obtain ⟨k, j⟩ := m
    simp only [unmarshalEntries]
    have h1 := ih (mapPut acc k (unmarshalValue rt e j (zeroValue e)).1) (mapPut_nodup _ _ _ h)
    refine ⟨h1.1, fun x => ?_⟩
    rw [h1.2 x, mapPut_mem_keys, List.map_cons, List.mem_cons]
    tauto

theorem unmarshalEntries_no_error (rt : Runtime) (e : GoType) :
    ∀ (ms : List (GoString × JSON)) (acc : List (GoString × GoValue)),
      (∀ m ∈ ms, (unmarshalValue rt e m.2 (zeroValue e)).2 = none) →
      (unmarshalEntries rt e ms acc).2 = none := by
  intro ms
  induction ms with
  | nil => intro acc _; simp [unmarshalEntries]
  | cons m ms ih =>
    intro acc h
    obtain ⟨k, j⟩ := m
    simp only [unmarshalEntries]
    rw [h (k, j) (List.mem_cons_self _ _), ih _ (fun y hy => h y (List.mem_cons_of_mem _ hy))]
    rfl

theorem unmarshalEntries_count (rt : Runtime) (e : GoType) (ms : List (GoString × JSON)) :
    (unmarshalEntries rt e ms []).1.length = ((ms.map Prod.fst).dedup).length := by
  have h := unmarshalEntries_keys rt e ms [] List.nodup_nil
  have hs : ((unmarshalEntries rt e ms []).1.map Prod.fst).toFinset =
      (ms.map Prod.fst).toFinset := by
    ext x
    simp only [List.mem_toFinset]
    rw [h.2 x]
    simp
  rw [← List.card_toFinset, ← hs, List.toFinset_card_of_nodup h.1, List.length_map]

theorem unmarshalValue_singleton (rt : Runtime) (t : GoType) (x : JSON) :
    unmarshalValue rt (.slice t) (.arr [x]) .nil =
      (.slice [(unmarshalValue rt t x (zeroValue t)).1],
        firstError (unmarshalValue rt t x (zeroValue t)).2 none) := by
  simp only [unmarshalValue, GoType.elem, unmarshalElems, List.headD_nil]

/-- C19. When the server answers `GetServices` with a status in 200..299 and a body that is a
JSON array of one object with the domain name `d` under `domain` and, under `services`, an
object whose values each decode into a `ServiceDef` without error, `GetServices` returns no
error and exactly one `ServiceDomain`, whose `Domain` is `d` and whose `Services` is a map
with one entry for each distinct service name of the object: its keys are distinct, they are
the names of the object, and their number is the number of distinct names. -/
theorem GetServices_counts_services {σ : Type} (rt : Runtime) (c : Client σ) (w w1 : σ)
    (req : Request) (s : Int) (b d : GoString) (svcs : List (GoString × JSON))
    (hreq : c.buildRequest rt (str "GET") (str "/services") none = .ok req)
    (hdo : c.HTTPClient.Do req w = (.ok { StatusCode := s, Body := .ok b }, w1))
    (hlo : 200 ≤ s) (hhi : s ≤ 299)
    (hparse : parseJSON b =
      some (.arr [.obj [(str "domain", .str d), (str "services", .obj svcs)]]))
    (hsvc : ∀ m ∈ svcs,
      (unmarshalValue rt ServiceDefType m.2 (zeroValue ServiceDefType)).2 = none) :
    (c.GetServices rt w).err = none ∧
      ∃ v m, (c.GetServices rt w).val = some [v] ∧
        v.field (str "domain") = some (.string d) ∧
        v.field (str "services") = some (.map m) ∧
        (m.map Prod.fst).Nodup ∧
        (∀ name, name ∈ m.map Prod.fst ↔ name ∈ svcs.map Prod.fst) ∧
        m.length = ((svcs.map Prod.fst).dedup).length := by
  have hx := doRequest_delivered rt c _ _ _ w w1 req s b hreq hdo hlo hhi
  have hfs := finishSlice_delivered rt (c.doRequest rt (str "GET") (str "/services") none w)
    (str "failed to get services: ") (str "failed to parse services response: ")
    ServiceDomainType b _ (by rw [hx]) (by rw [hx]) hparse
  have hkeys := unmarshalEntries_keys rt ServiceDefType svcs [] List.nodup_nil
  have hne := unmarshalEntries_no_error rt ServiceDefType svcs [] hsvc
  have hdec : unmarshalValue rt ServiceDomainType
      (.obj [(str "domain", .str d), (str "services", .obj svcs)])
      (zeroValue ServiceDomainType) =
      (.struct [(str "domain", .never, .string d),
        (str "services", .never, .map (unmarshalEntries rt ServiceDefType svcs []).1)],
       none) := by
    have hf1 : findField [(str "domain", false, GoType.string),
        (str "services", false, GoType.map ServiceDefType)] (str "domain") =
        some (str "domain", false, .string) := rfl
    have hf2 : findField [(str "domain", false, GoType.string),
        (str "services", false, GoType.map ServiceDefType)] (str "services") =
        some (str "services", false, .map ServiceDefType) := rfl
    have hs1 : (str "domain" = str "services") = False := eq_false (by decide)
    have hs2 : (str "services" = str "domain") = False := eq_false (by decide)
    simp only [unmarshalValue, GoType.elem, ServiceDomainType, unmarshalFields, hf1, hf2,
      zeroValue, zeroFields, omitRule, structFields, setField, GoValue.field, firstError,
      List.map_cons, List.map_nil, if_true, if_false, hs1, hs2, hne, List.find?, decide_True,
      decide_False, Option.map_some', Option.getD_some, Bool.false_eq_true]
  have hall : unmarshalValue rt (.slice ServiceDomainType)
      (.arr [.obj [(str "domain", .str d), (str "services", .obj svcs)]]) .nil =
      (.slice [.struct [(str "domain", .never, .string d),
        (str "services", .never, .map (unmarshalEntries rt ServiceDefType svcs []).1)]],
       none) := by
    rw [unmarshalValue_singleton, hdec]
    rfl
  rw [hall] at hfs
  have hg : c.GetServices rt w = _ := hfs
  rw [hg]
  refine ⟨rfl, _, _, rfl, rfl, rfl, hkeys.1, ?_, unmarshalEntries_count rt _ svcs⟩
  intro name
  rw [hkeys.2 name]
  simp

/-- C19, at the server of `TestClient_GetServices`: one domain, `light`, with exactly two
services. -/
theorem GetServices_counts_services_witness :
    ((fixedServer 200 lightServicesBody).GetServices plainRuntime ()).err = none ∧
      ∃ v m, ((fixedServer 200 lightServicesBody).GetServices plainRuntime ()).val = some [v] ∧
        v.field (str "domain") = some (.string (str "light")) ∧
        v.field (str "services") = some (.map m) ∧ m.length = 2 := by
  obtain ⟨h1, v, m, hv, hd, hs, _, _, hlen⟩ :=
    GetServices_counts_services plainRuntime (fixedServer 200 lightServicesBody) () () _ 200
      lightServicesBody (str "light")
      [(str "turn_off", .obj [(str "name", .str (str "Turn off")),
          (str "description", .str (str "Turn off a light"))]),
       (str "turn_on", .obj [(str "name", .str (str "Turn on")),
          (str "description", .str (str "Turn on a light"))])]
      rfl rfl (by decide) (by decide) rfl
      (by
        intro x hx
        simp only [List.mem_cons, List.mem_singleton, List.not_mem_nil, or_false] at hx
        rcases hx with rfl | rfl <;> rfl)
  exact ⟨h1, v, m, hv, hd, hs, hlen.trans (by decide)⟩

/-! ## C18: `SetState` followed by `GetState` -/

theorem doRequest_world {σ : Type} (rt : Runtime) (c : Client σ) (method endpoint : GoString)
    (body : Option GoString) (w : σ) (req : Request)
    (hreq : c.buildRequest rt method endpoint body = .ok req) :
    (c.doRequest rt method endpoint body w).world = (c.HTTPClient.Do req w).2 := by
  unfold Client.doRequest
  simp only [hreq]
  cases hd : c.HTTPClient.Do req w with
  | mk res w1 =>
    cases res with
    | error e => rfl
    | ok resp =>
      simp only
      cases hb : resp.Body with
      | error e => rfl
      | ok b =>
        simp only
        split <;> rfl

theorem finishStruct_world {σ : Type} (rt : Runtime) (r : Call σ GoString)
    (failText parseText : GoString) (t : GoType) :
    (finishStruct rt r failText parseText t).world = r.world := by
  unfold finishStruct
  cases r.err with
  | some e => rfl
  | none =>
    simp only
    cases (Unmarshal rt (r.val.getD []) t (zeroValue t)).2 <;> rfl

theorem Marshal_state_on (rt : Runtime) :
    Marshal rt (StateUpdateRequest.toValue { State := str "on", Attributes := none }) =
      (some (str "\x7b\"state\":\"on\"\x7d"), none) := by
  simp only [Marshal, StateUpdateRequest.toValue, marshalValue, marshalFields, omitted,
    keyed, joinItems]
  rfl

theorem postedState_state_on (rt : Runtime) :
    postedState rt (str "\x7b\"state\":\"on\"\x7d") = some (str "on") := by
  have hp : parseJSON (str "\x7b\"state\":\"on\"\x7d") =
      some (.obj [(str "state", .str (str "on"))]) := rfl
  have hf : findField [(str "state", false, GoType.string),
      (str "attributes", true, GoType.map GoType.iface)] (str "state") =
      some (str "state", false, .string) := rfl
  have hs : (str "attributes" = str "state") = False := eq_false (by decide)
  simp only [postedState, decodedString, Unmarshal, hp, StateUpdateRequestType, unmarshalValue,
    GoType.elem, unmarshalFields, hf, zeroValue, zeroFields, omitRule, structFields, setField,
    GoValue.field, firstError, List.map_cons, List.map_nil, if_true, if_false, hs, List.find?,
    decide_True, decide_False, Option.map_some', Option.getD_some, Bool.false_eq_true]

theorem finishStruct_of_decoded {σ : Type} (rt : Runtime) (r : Call σ GoString)
    (failText parseText : GoString) (t : GoType) (name b s : GoString)
    (herr : r.err = none) (hval : r.val = some b)
    (hdec : decodedString rt t name b = some s) :
    (finishStruct rt r failText parseText t).err = none ∧
      ∃ v, (finishStruct rt r failText parseText t).val = some v ∧
        v.field name = some (.string s) := by
  unfold decodedString at hdec
  unfold finishStruct
  simp only [herr, hval, Option.getD_some]
  cases hu : Unmarshal rt b t (zeroValue t) with
  | mk v e =>
    rw [hu] at hdec
    cases e with
    | some e => simp at hdec
    | none =>
      simp only at hdec
      refine ⟨rfl, v, rfl, ?_⟩
      cases hf : v.field name with
      | none => rw [hf] at hdec; simp at hdec
      | some x =>
        rw [hf] at hdec
        cases x <;> simp at hdec
        rw [hdec]

theorem SetState_on_world {σ : Type} (rt : Runtime) (c : Client σ) (entityID : GoString)
    (w : σ) (post : Request)
    (hpost : c.buildRequest rt (str "POST") (stateEndpoint entityID)
      (some (str "\x7b\"state\":\"on\"\x7d")) = .ok post) :
    (c.SetState rt entityID { State := str "on", Attributes := none } w).world =
      (c.HTTPClient.Do post w).2 := by
  unfold Client.SetState
  rw [Marshal_state_on]
  simp only
  rw [finishStruct_world, doRequest_world rt c _ _ _ w post hpost]

/-- C18. Against a server that stores the state posted for the entity and serves it back on
`GET` of the same path, when the requests to that path can be created: for every entity id, every
number of repetitions `n` and every outside world, after `n + 1` identical calls
`SetState(id, StateUpdateRequest{State: "on"})` the call `GetState(id)` returns no error and a
`State` whose `State` is `on`; one call followed by `GetState` is the case `n = 0`. -/
theorem set_then_get_state {σ : Type} (rt : Runtime) (c : Client σ) (entityID : GoString)
    (hpost : rt.newRequestError (str "POST") (c.BaseURL ++ stateEndpoint entityID) = none)
    (hget : rt.newRequestError (str "GET") (c.BaseURL ++ stateEndpoint entityID) = none)
    (hsrv : StoresState rt c entityID (str "on")) (n : Nat) (w : σ) :
    (c.GetState rt entityID
        (setStateTimes rt c entityID { State := str "on", Attributes := none } (n + 1) w)).err =
        none ∧
      ∃ v, (c.GetState rt entityID
          (setStateTimes rt c entityID { State := str "on", Attributes := none }
            (n + 1) w)).val = some v ∧
        v.field (str "state") = some (.string (str "on")) := by
  obtain ⟨post, hp⟩ := buildRequest_isOk rt c (str "POST") (stateEndpoint entityID)
    (some (str "\x7b\"state\":\"on\"\x7d")) (by rw [if_neg (by decide)]; exact hpost)
  obtain ⟨get, hg⟩ := buildRequest_isOk rt c (str "GET") (stateEndpoint entityID) none
    (by rw [if_neg (by decide)]; exact hget)
  induction n generalizing w with
  | zero =>
    obtain ⟨code, b, w2, hdo, hlo, hhi, hs⟩ := hsrv w post get _ hp hg (postedState_state_on rt)
    have hw : setStateTimes rt c entityID { State := str "on", Attributes := none } (0 + 1) w =
        (c.HTTPClient.Do post w).2 := by
      simp only [setStateTimes]
      exact SetState_on_world rt c entityID w post hp
    rw [hw]
    have hx := doRequest_delivered rt c _ _ _ _ w2 get code b hg hdo hlo hhi
    exact finishStruct_of_decoded rt _ _ _ StateType (str "state") b (str "on")
      (by rw [hx]) (by rw [hx]) hs
  | succ n ih =>
    exact ih (c.SetState rt entityID { State := str "on", Attributes := none } w).world

theorem storingServer_stores (entityID : GoString) :
    StoresState plainRuntime storingServer entityID (str "on") := by
  intro w post get p hp hg hs
  obtain ⟨hpu, hpb, hpm, -⟩ := buildRequest_ok plainRuntime storingServer _ _ _ post hp
  obtain ⟨hgu, -, hgm, -⟩ := buildRequest_ok plainRuntime storingServer _ _ _ get hg
  rw [if_neg (by decide)] at hpm hgm
  have h1 : storingDo post w =
      (.ok { StatusCode := 200, Body := .ok (stateText (str "on")) },
        (post.URL, str "on") :: w) := by
    simp only [storingDo, hpm, hpb, Option.getD_some, hs, if_true]
  have hne : ¬ (str "GET" = str "POST") := by decide
  have h2 : storingDo get ((post.URL, str "on") :: w) =
      (.ok { StatusCode := 200, Body := .ok (stateText (str "on")) },
        (post.URL, str "on") :: w) := by
    simp only [storingDo, hgm, hne, if_false, List.find?, hgu, hpu, decide_True]
  refine ⟨200, stateText (str "on"), (post.URL, str "on") :: w, ?_, by decide, by decide, rfl⟩
  show storingDo get (storingDo post w).2 = _
  rw [h1]
  exact h2

/-- C18, at the storing server, the entity `light.living_room` and three calls of `SetState`. -/
theorem set_then_get_state_witness :
    (storingServer.GetState plainRuntime (str "light.living_room")
        (setStateTimes plainRuntime storingServer (str "light.living_room")
          { State := str "on", Attributes := none } 3 [])).err = none ∧
      ∃ v, (storingServer.GetState plainRuntime (str "light.living_room")
          (setStateTimes plainRuntime storingServer (str "light.living_room")
            { State := str "on", Attributes := none } 3 [])).val = some v ∧
        v.field (str "state") = some (.string (str "on")) :=
  set_then_get_state plainRuntime storingServer (str "light.living_room") rfl rfl
    (storingServer_stores (str "light.living_room")) 2 []
/-! ## The encoder and the parser agree: strings -/

theorem utf8Size_split (b : Byte) (rest : GoString) (n : Nat) (hb : 128 ≤ b.val)
    (h : utf8Size (b :: rest) = n + 1) :
    ∃ p Y, rest = p ++ Y ∧ p.length = n ∧ (∀ c ∈ p, 128 ≤ c.val) ∧
      ∀ Z, utf8Size (b :: (p ++ Z)) = n + 1 := by
  have hb0 : ¬ b.val < 128 := by omega
  unfold utf8Size at h
  simp only at h
  rw [if_neg hb0] at h
  by_cases h1 : b.val < 194
  · rw [if_pos h1] at h; omega
  rw [if_neg h1] at h
  by_cases h2 : b.val ≤ 223
  · rw [if_pos h2] at h
    rcases rest with _ | ⟨b1, t⟩
    · simp at h
    · simp only at h
      by_cases hc : (decide (128 ≤ b1.val) && decide (b1.val ≤ 191)) = true
      · rw [if_pos hc] at h
        refine ⟨[b1], t, rfl, by simp at h; simp [h], ?_, ?_⟩
        · intro c hc1
          simp only [List.mem_singleton] at hc1
          subst hc1
          simp only [Bool.and_eq_true, decide_eq_true_eq] at hc
          exact hc.1
        · intro Z
          unfold utf8Size
          simp only [List.singleton_append]
          rw [if_neg hb0, if_neg h1, if_pos h2, if_pos hc]
          exact h
      · rw [if_neg hc] at h; omega
  rw [if_neg h2] at h
  by_cases h3 : b.val ≤ 239
  · rw [if_pos h3] at h
    rcases rest with _ | ⟨b1, _ | ⟨b2, t⟩⟩
    · simp at h
    · simp at h
    · simp only at h
      have hlo : 128 ≤ (if b.val = 224 then 160 else 128) := by split <;> omega
      by_cases hc : (decide ((if b.val = 224 then 160 else 128) ≤ b1.val) &&
          decide (b1.val ≤ (if b.val = 237 then 159 else 191)) &&
          (decide (128 ≤ b2.val) && decide (b2.val ≤ 191))) = true
      · rw [if_pos hc] at h
        refine ⟨[b1, b2], t, rfl, by simp at h; simp [h], ?_, ?_⟩
        · intro c hc1
          simp only [Bool.and_eq_true, decide_eq_true_eq] at hc
          simp only [List.mem_cons, List.mem_singleton, List.not_mem_nil, or_false] at hc1
          rcases hc1 with rfl | rfl
          · omega
          · exact hc.2.1
        · intro Z
          unfold utf8Size
          simp only [List.cons_append, List.nil_append]
          rw [if_neg hb0, if_neg h1, if_neg h2, if_pos h3, if_pos hc]
          exact h
      · rw [if_neg hc] at h; omega
  rw [if_neg h3] at h
  by_cases h4 : b.val ≤ 244
  · rw [if_pos h4] at h
    rcases rest with _ | ⟨b1, _ | ⟨b2, _ | ⟨b3, t⟩⟩⟩
    · simp at h
    · simp at h
    · simp at h
    · simp only at h
      have hlo : 128 ≤ (if b.val = 240 then 144 else 128) := by split <;> omega
      by_cases hc : (decide ((if b.val = 240 then 144 else 128) ≤ b1.val) &&
          decide (b1.val ≤ (if b.val = 244 then 143 else 191)) &&
          (decide (128 ≤ b2.val) && decide (b2.val ≤ 191)) &&
          (decide (128 ≤ b3.val) && decide (b3.val ≤ 191))) = true
      · rw [if_pos hc] at h
        refine ⟨[b1, b2, b3], t, rfl, by simp at h; simp [h], ?_, ?_⟩
        · intro c hc1
          simp only [Bool.and_eq_true, decide_eq_true_eq] at hc
          simp only [List.mem_cons, List.mem_singleton, List.not_mem_nil, or_false] at hc1
          rcases hc1 with rfl | rfl | rfl
          · omega
          · exact hc.1.2.1
          · exact hc.2.1
        · intro Z
          unfold utf8Size
          simp only [List.cons_append, List.nil_append]
          rw [if_neg hb0, if_neg h1, if_neg h2, if_neg h3, if_pos h4, if_pos hc]
          exact h
      · rw [if_neg hc] at h; omega
  · rw [if_neg h4] at h; omega

theorem scan_plain (c : Byte) (X : GoString) (h1 : c.val ≠ 34) (h2 : c.val ≠ 92)
    (h3 : 32 ≤ c.val) :
    scanString (c :: X) = (scanString X).map (fun r => (c :: r.1, r.2)) := by
  conv_lhs => unfold scanString
  rw [if_neg h1, if_neg h2, if_neg (by omega)]

theorem scan_escape (e : Byte) (X : GoString)
    (he : e.val = 98 ∨ e.val = 102 ∨ e.val = 110 ∨ e.val = 114 ∨ e.val = 116 ∨ e.val = 92 ∨
      e.val = 47 ∨ e.val = 34) :
    scanString (92 :: e :: X) = (scanString X).map (fun r => (92 :: e :: r.1, r.2)) := by
  conv_lhs => unfold scanString
  rw [if_neg (by decide), if_pos (by decide)]
  dsimp only
  rw [if_pos he]

theorem scan_unicode (h1 h2 h3 h4 : Byte) (X : GoString)
    (hh : (ishex h1 && ishex h2 && ishex h3 && ishex h4) = true) :
    scanString (92 :: 117 :: h1 :: h2 :: h3 :: h4 :: X) =
      (scanString X).map (fun r => (92 :: 117 :: h1 :: h2 :: h3 :: h4 :: r.1, r.2)) := by
  conv_lhs => unfold scanString
  rw [if_neg (by decide), if_pos (by decide)]
  dsimp only
  rw [if_neg (by decide), if_pos (by decide), if_pos hh]

theorem scan_high (p : GoString) (hp : ∀ c ∈ p, 128 ≤ c.val) (X : GoString) :
    scanString (p ++ X) = (scanString X).map (fun r => (p ++ r.1, r.2)) := by
  induction p with
  | nil => simp
  | cons c p ih =>
    have hc := hp c (List.mem_cons_self _ _)
    rw [List.cons_append, scan_plain c _ (by omega) (by omega) (by omega),
      ih (fun d hd => hp d (List.mem_cons_of_mem _ hd))]
    cases scanString X <;> rfl

theorem ishex_hexLower (n : Nat) (h : n < 16) : ishex (hexLower n) = true := by
  interval_cases n <;> rfl

theorem unhex_hexLower (n : Nat) (h : n < 16) : unhex (hexLower n) = n := by
  interval_cases n <;> rfl

theorem scan_quote (X : GoString) : scanString (34 :: X) = some ([], X) := by
  conv_lhs => unfold scanString
  rw [if_pos (by decide)]

theorem map_scan (p q X : GoString) (h : scanString (q ++ 34 :: X) = some (q, X)) :
    (scanString (q ++ 34 :: X)).map (fun r => (p ++ r.1, r.2)) = some (p ++ q, X) := by
  rw [h]; rfl

/-- The scanner reads the text the encoder writes for a string up to its closing quote. -/
theorem scanString_quoteLoop : ∀ (n : Nat) (s X : GoString),
    scanString (quoteLoop n s ++ 34 :: X) = some (quoteLoop n s, X) := by
  intro n
  induction n with
  | zero => intro s X; simp [quoteLoop, scan_quote]
  | succ n ih =>
    intro s X
    cases s with
    | nil => simp [quoteLoop, scan_quote]
    | cons b rest =>
      conv_lhs => unfold quoteLoop
      conv_rhs => unfold quoteLoop
      by_cases hb : b.val < 128
      · simp only [hb, if_true]
        by_cases hs : htmlSafe b = true
        · simp only [hs, if_true]
          have h34 : b.val ≠ 34 := by
            simp only [htmlSafe, Bool.and_eq_true, decide_eq_true_eq, bne_iff_ne, ne_eq] at hs
            tauto
          have h92 : b.val ≠ 92 := by
            simp only [htmlSafe, Bool.and_eq_true, decide_eq_true_eq, bne_iff_ne, ne_eq] at hs
            tauto
          have h32 : 32 ≤ b.val := by
            simp only [htmlSafe, Bool.and_eq_true, decide_eq_true_eq, bne_iff_ne, ne_eq] at hs
            tauto
          rw [List.cons_append, scan_plain b _ h34 h92 h32]
          exact map_scan [b] _ X (ih rest X)
        · simp only [hs, Bool.false_eq_true, if_false]
          by_cases h1 : b.val = 92 ∨ b.val = 34
          · simp only [h1, if_true]
            rw [List.cons_append, List.cons_append, scan_escape b _ (by tauto)]
            exact map_scan [92, b] _ X (ih rest X)
          simp only [h1, if_false]
          by_cases h2 : b.val = 8
          · simp only [h2, if_true]
            rw [List.cons_append, List.cons_append, scan_escape _ _ (by decide)]
            exact map_scan [92, ch 'b'] _ X (ih rest X)
          simp only [h2, if_false]
          by_cases h3 : b.val = 12
          · simp only [h3, if_true]
            rw [List.cons_append, List.cons_append, scan_escape _ _ (by decide)]
            exact map_scan [92, ch 'f'] _ X (ih rest X)
          simp only [h3, if_false]
          by_cases h4 : b.val = 10
          · simp only [h4, if_true]
            rw [List.cons_append, List.cons_append, scan_escape _ _ (by decide)]
            exact map_scan [92, ch 'n'] _ X (ih rest X)
          simp only [h4, if_false]
          by_cases h5 : b.val = 13
          · simp only [h5, if_true]
            rw [List.cons_append, List.cons_append, scan_escape _ _ (by decide)]
            exact map_scan [92, ch 'r'] _ X (ih rest X)
          simp only [h5, if_false]
          by_cases h6 : b.val = 9
          · simp only [h6, if_true]
            rw [List.cons_append, List.cons_append, scan_escape _ _ (by decide)]
            exact map_scan [92, ch 't'] _ X (ih rest X)
          simp only [h6, if_false]
          have hx1 : b.val / 16 < 16 := by omega
          have hx2 : b.val % 16 < 16 := by omega
          simp only [List.cons_append]
          rw [show ch 'u' = (117 : Byte) from rfl,
            scan_unicode _ _ _ _ _ (by
              rw [ishex_hexLower _ hx1, ishex_hexLower _ hx2]; rfl)]
          exact map_scan [92, 117, ch '0', ch '0', hexLower (b.val / 16), hexLower (b.val % 16)]
            _ X (ih rest X)
      · simp only [hb, if_false]
        cases hu : utf8Size (b :: rest) with
        | zero =>
          simp only
          rw [show (92 : Byte) :: str "ufffd" ++ quoteLoop n rest ++ 34 :: X =
            92 :: 117 :: ch 'f' :: ch 'f' :: ch 'f' :: ch 'd' :: (quoteLoop n rest ++ 34 :: X)
            from rfl, scan_unicode _ _ _ _ _ (by rfl)]
          exact map_scan [92, 117, ch 'f', ch 'f', ch 'f', ch 'd'] _ X (ih rest X)
        | succ m =>
          obtain ⟨p, Y, hrest, hlen, hhigh, -⟩ := utf8Size_split b rest m (by omega) hu
          subst hrest
          have htake : (p ++ Y).take m = p := by rw [← hlen]; simp
          have hdrop : (p ++ Y).drop m = Y := by rw [← hlen]; simp
          simp only [htake, hdrop]
          split_ifs
          · rw [show (92 : Byte) :: str "u2028" ++ quoteLoop n Y ++ 34 :: X =
              92 :: 117 :: ch '2' :: ch '0' :: ch '2' :: ch '8' :: (quoteLoop n Y ++ 34 :: X)
              from rfl, scan_unicode _ _ _ _ _ (by rfl)]
            exact map_scan [92, 117, ch '2', ch '0', ch '2', ch '8'] _ X (ih Y X)
          · rw [show (92 : Byte) :: str "u2029" ++ quoteLoop n Y ++ 34 :: X =
              92 :: 117 :: ch '2' :: ch '0' :: ch '2' :: ch '9' :: (quoteLoop n Y ++ 34 :: X)
              from rfl, scan_unicode _ _ _ _ _ (by rfl)]
            exact map_scan [92, 117, ch '2', ch '0', ch '2', ch '9'] _ X (ih Y X)
          · rw [show b :: p ++ quoteLoop n Y ++ 34 :: X =
              (b :: p) ++ (quoteLoop n Y ++ 34 :: X) by simp,
              scan_high (b :: p) (by
                intro c hc
                rcases List.mem_cons.1 hc with rfl | hc
                · omega
                · exact hhigh c hc)]
            have := map_scan (b :: p) _ X (ih Y X)
            simpa using this

theorem unquote_plain (c : Byte) (X : GoString) (F : Nat) (h1 : c.val ≠ 92) (h2 : c.val < 128) :
    unquoteLoop (F + 1) (c :: X) = c :: unquoteLoop F X := by
  conv_lhs => unfold unquoteLoop
  rw [if_neg h1, if_pos h2]

theorem unquote_escape (e : Byte) (X : GoString) (F : Nat) (he : e.val ≠ 117) :
    unquoteLoop (F + 1) (92 :: e :: X) =
      (if e.val = 98 then 8 else if e.val = 102 then 12 else if e.val = 110 then 10
        else if e.val = 114 then 13 else if e.val = 116 then 9 else e) :: unquoteLoop F X := by
  conv_lhs => unfold unquoteLoop
  rw [if_pos (by decide)]
  dsimp only
  rw [if_neg he]

theorem unquote_unicode (h1 h2 h3 h4 : Byte) (X : GoString) (F : Nat)
    (hh : ishex h1 = true ∧ ishex h2 = true ∧ ishex h3 = true ∧ ishex h4 = true)
    (hsur : ¬ (0xd800 ≤ ((unhex h1 * 16 + unhex h2) * 16 + unhex h3) * 16 + unhex h4 ∧
      ((unhex h1 * 16 + unhex h2) * 16 + unhex h3) * 16 + unhex h4 < 0xe000)) :
    unquoteLoop (F + 1) (92 :: 117 :: h1 :: h2 :: h3 :: h4 :: X) =
      encodeRune (((unhex h1 * 16 + unhex h2) * 16 + unhex h3) * 16 + unhex h4) ++
        unquoteLoop F X := by
  have hg : getu4 (92 :: 117 :: h1 :: h2 :: h3 :: h4 :: X) =
      some (((unhex h1 * 16 + unhex h2) * 16 + unhex h3) * 16 + unhex h4) := by
    unfold getu4
    dsimp only
    rw [if_pos ⟨by decide, by decide, hh⟩]
  conv_lhs => unfold unquoteLoop
  rw [if_pos (by decide)]
  dsimp only
  rw [if_pos (by decide), hg]
  dsimp only
  rw [if_neg hsur]
  rfl

theorem unquote_high (c : Byte) (p Z : GoString) (F m : Nat) (hc : 128 ≤ c.val)
    (hlen : p.length = m) (hu : utf8Size (c :: (p ++ Z)) = m + 1) :
    unquoteLoop (F + 1) (c :: (p ++ Z)) = c :: p ++ unquoteLoop F Z := by
  conv_lhs => unfold unquoteLoop
  rw [if_neg (by omega), if_neg (by omega), hu]
  dsimp only
  rw [← hlen]
  simp

theorem encodeRune_ascii (b : Byte) (h : b.val < 128) : encodeRune b.val = [b] := by
  unfold encodeRune
  rw [if_pos (by omega)]
  congr 1
  apply Fin.ext
  simp [Fin.ofNat, Nat.mod_eq_of_lt b.isLt]

theorem quoteLoop_nil (n : Nat) : quoteLoop n [] = [] := by
  cases n <;> rfl

/-- Unquoting the text the encoder writes for a valid UTF-8 string gives the string back. -/
theorem unquoteLoop_quoteLoop : ∀ (n : Nat) (s : GoString), validLoop n s = true →
    s.length ≤ n → ∀ F, (quoteLoop n s).length ≤ F → unquoteLoop F (quoteLoop n s) = s := by
  intro n
  induction n with
  | zero =>
    intro s _ hlen F _
    have : s = [] := List.length_eq_zero.1 (by omega)
    subst this
    cases F <;> rfl
  | succ n ih =>
    intro s hv hlen F hF
    cases s with
    | nil => rw [quoteLoop_nil]; cases F <;> rfl
    | cons b rest =>
      have hlen1 : rest.length ≤ n := by simpa using hlen
      unfold validLoop at hv
      unfold quoteLoop at hF ⊢
      by_cases hb : b.val < 128
      · simp only [hb, if_true] at hv hF ⊢
        by_cases hs : htmlSafe b = true
        · simp only [hs, if_true] at hF ⊢
          have h92 : b.val ≠ 92 := by
            simp only [htmlSafe, Bool.and_eq_true, decide_eq_true_eq, bne_iff_ne, ne_eq] at hs
            tauto
          obtain ⟨F, rfl⟩ : ∃ G, F = G + 1 := ⟨F - 1, by simp at hF; omega⟩
          rw [unquote_plain b _ F h92 hb, ih rest hv hlen1 F (by simp at hF; omega)]
        · simp only [hs, Bool.false_eq_true, if_false] at hF ⊢
          obtain ⟨F, rfl⟩ : ∃ G, F = G + 1 := ⟨F - 1, by
            have : 0 < F := by
              split_ifs at hF <;> simp at hF <;> omega
            omega⟩
          by_cases h1 : b.val = 92 ∨ b.val = 34
          · simp only [h1, if_true] at hF ⊢
            rw [unquote_escape b _ F (by omega), ih rest hv hlen1 F (by simp at hF; omega)]
            rcases h1 with h1 | h1 <;> simp [h1]
          simp only [h1, if_false] at hF ⊢
          by_cases h2 : b.val = 8
          · simp only [h2, if_true] at hF ⊢
            rw [unquote_escape _ _ F (by decide), ih rest hv hlen1 F (by simp at hF; omega)]
            rw [if_pos (by decide)]
            congr 1
            exact Fin.ext h2.symm
          simp only [h2, if_false] at hF ⊢
          by_cases h3 : b.val = 12
          · simp only [h3, if_true] at hF ⊢
            rw [unquote_escape _ _ F (by decide), ih rest hv hlen1 F (by simp at hF; omega)]
            rw [if_neg (by decide), if_pos (by decide)]
            congr 1
            exact Fin.ext h3.symm
          simp only [h3, if_false] at hF ⊢
          by_cases h4 : b.val = 10
          · simp only [h4, if_true] at hF ⊢
            rw [unquote_escape _ _ F (by decide), ih rest hv hlen1 F (by simp at hF; omega)]
            rw [if_neg (by decide), if_neg (by decide), if_pos (by decide)]
            congr 1
            exact Fin.ext h4.symm
          simp only [h4, if_false] at hF ⊢
          by_cases h5 : b.val = 13
          · simp only [h5, if_true] at hF ⊢
            rw [unquote_escape _ _ F (by decide), ih rest hv hlen1 F (by simp at hF; omega)]
            rw [if_neg (by decide), if_neg (by decide), if_neg (by decide), if_pos (by decide)]
            congr 1
            exact Fin.ext h5.symm
          simp only [h5, if_false] at hF ⊢
          by_cases h6 : b.val = 9
          · simp only [h6, if_true] at hF ⊢
            rw [unquote_escape _ _ F (by decide), ih rest hv hlen1 F (by simp at hF; omega)]
            rw [if_neg (by decide), if_neg (by decide), if_neg (by decide), if_neg (by decide),
              if_pos (by decide)]
            congr 1
            exact Fin.ext h6.symm
          simp only [h6, if_false] at hF ⊢
          have hx1 : b.val / 16 < 16 := by omega
          have hx2 : b.val % 16 < 16 := by omega
          have hval : ((unhex (ch '0') * 16 + unhex (ch '0')) * 16 + unhex (hexLower (b.val / 16)))
              * 16 + unhex (hexLower (b.val % 16)) = b.val := by
            rw [unhex_hexLower _ hx1, unhex_hexLower _ hx2, show unhex (ch '0') = 0 from rfl]
            omega
          rw [show ch 'u' = (117 : Byte) from rfl,
            unquote_unicode (ch '0') (ch '0') (hexLower (b.val / 16)) (hexLower (b.val % 16)) _ F
              ⟨rfl, rfl, ishex_hexLower _ hx1, ishex_hexLower _ hx2⟩ (by rw [hval]; omega),
            hval, encodeRune_ascii b hb, ih rest hv hlen1 F (by simp at hF; omega)]
          rfl
      · simp only [hb, if_false] at hv hF ⊢
        cases hu : utf8Size (b :: rest) with
        | zero => rw [hu] at hv; simp at hv
        | succ m =>
          rw [hu] at hv hF
          simp only at hv hF ⊢
          obtain ⟨p, Y, hrest, hlen2, hhigh, hpre⟩ := utf8Size_split b rest m (by omega) hu
          subst hrest
          have htake : (p ++ Y).take m = p := by rw [← hlen2]; simp
          have hdrop : (p ++ Y).drop m = Y := by rw [← hlen2]; simp
          have hY : Y.length ≤ n := by simp at hlen1; omega
          simp only [htake, hdrop] at hv hF ⊢
          obtain ⟨F, rfl⟩ : ∃ G, F = G + 1 := ⟨F - 1, by
            have : 0 < F := by
              split_ifs at hF <;> simp at hF <;> omega
            omega⟩
          split_ifs at hF ⊢ with c1 c2
          · obtain ⟨hb226, hm, ht1, ht2⟩ := c1
            subst hm
            have hp : p = [128, 168] := by
              rcases p with _ | ⟨p1, _ | ⟨p2, _ | ⟨p3, t⟩⟩⟩ <;> simp at hlen2
              simp at ht1 ht2
              rw [ht1, ht2]
            subst hp
            rw [show (92 : Byte) :: str "u2028" ++ quoteLoop n Y =
              92 :: 117 :: ch '2' :: ch '0' :: ch '2' :: ch '8' :: quoteLoop n Y from rfl,
              unquote_unicode (ch '2') (ch '0') (ch '2') (ch '8') _ F ⟨rfl, rfl, rfl, rfl⟩
                (by decide),
              ih Y hv hY F (by simp at hF; omega)]
            have hb' : b = 226 := Fin.ext hb226
            subst hb'
            rfl
          · obtain ⟨hb226, hm, ht1, ht2⟩ := c2
            subst hm
            have hp : p = [128, 169] := by
              rcases p with _ | ⟨p1, _ | ⟨p2, _ | ⟨p3, t⟩⟩⟩ <;> simp at hlen2
              simp at ht1 ht2
              rw [ht1, ht2]
            subst hp
            rw [show (92 : Byte) :: str "u2029" ++ quoteLoop n Y =
              92 :: 117 :: ch '2' :: ch '0' :: ch '2' :: ch '9' :: quoteLoop n Y from rfl,
              unquote_unicode (ch '2') (ch '0') (ch '2') (ch '9') _ F ⟨rfl, rfl, rfl, rfl⟩
                (by decide),
              ih Y hv hY F (by simp at hF; omega)]
            have hb' : b = 226 := Fin.ext hb226
            subst hb'
            rfl
          · rw [show b :: p ++ quoteLoop n Y = b :: (p ++ quoteLoop n Y) by simp,
              unquote_high b p _ F m (by omega) hlen2 (hpre _),
              ih Y hv hY F (by simp at hF; omega)]
            simp
/-! ## The encoder and the parser agree: numbers -/

theorem spanDigits_stable (s rest : GoString)
    (h : (spanDigits s).2 ≠ [] ∨ endsNumber rest = true) :
    spanDigits (s ++ rest) = ((spanDigits s).1, (spanDigits s).2 ++ rest) := by
  induction s with
  | nil =>
    rcases h with h | h
    · exact absurd rfl h
    · cases rest with
      | nil => rfl
      | cons c t =>
        simp only [endsNumber, Bool.and_eq_true, Bool.not_eq_true', decide_eq_true_eq] at h
        simp [spanDigits, h.1.1.1]
  | cons c s ih =>
    by_cases hc : isDigit c = true
    · simp only [spanDigits, hc, if_true, List.cons_append] at h ⊢
      rw [show s.append rest = s ++ rest from rfl, ih h]
    · simp [spanDigits, hc]

theorem takeOptional_stable (p : Byte → Bool) (s rest : GoString) (hs : s ≠ []) :
    takeOptional p (s ++ rest) = ((takeOptional p s).1, (takeOptional p s).2 ++ rest) := by
  cases s with
  | nil => exact absurd rfl hs
  | cons c t =>
    simp only [takeOptional, List.cons_append]
    split <;> rfl

theorem scanFraction_stable (s rest fp r : GoString) (hs : scanFraction s = some (fp, r))
    (h : r ≠ [] ∨ endsNumber rest = true) :
    scanFraction (s ++ rest) = some (fp, r ++ rest) := by
  cases s with
  | nil =>
    simp only [scanFraction, Option.some.injEq, Prod.mk.injEq] at hs
    obtain ⟨rfl, rfl⟩ := hs
    rcases h with h | h
    · exact absurd rfl h
    · cases rest with
      | nil => rfl
      | cons c t =>
        simp only [endsNumber, Bool.and_eq_true, Bool.not_eq_true', decide_eq_true_eq] at h
        simp [scanFraction, h.1.1.2]
  | cons c t =>
    simp only [scanFraction, List.cons_append] at hs ⊢
    by_cases hc : c = ch '.'
    · simp only [hc, if_true] at hs ⊢
      cases hsd : spanDigits t with
      | mk ds r1 =>
        rw [hsd] at hs
        cases ds with
        | nil => simp at hs
        | cons d ds =>
          simp only [Option.some.injEq, Prod.mk.injEq] at hs
          obtain ⟨rfl, rfl⟩ := hs
          rw [spanDigits_stable t rest (by rw [hsd]; exact h), hsd]
    · simp only [hc, if_false, Option.some.injEq, Prod.mk.injEq] at hs ⊢
      obtain ⟨rfl, rfl⟩ := hs
      exact ⟨rfl, rfl⟩

theorem scanExponent_stable (s rest ep r : GoString) (hs : scanExponent s = some (ep, r))
    (h : r ≠ [] ∨ endsNumber rest = true) :
    scanExponent (s ++ rest) = some (ep, r ++ rest) := by
  cases s with
  | nil =>
    simp only [scanExponent, Option.some.injEq, Prod.mk.injEq] at hs
    obtain ⟨rfl, rfl⟩ := hs
    rcases h with h | h
    · exact absurd rfl h
    · cases rest with
      | nil => rfl
      | cons c t =>
        simp only [endsNumber, Bool.and_eq_true, Bool.not_eq_true', decide_eq_true_eq] at h
        simp [scanExponent, h.1.2, h.2]
  | cons c t =>
    simp only [scanExponent, List.cons_append] at hs ⊢
    by_cases hc : c = ch 'e' ∨ c = ch 'E'
    · simp only [hc, if_true] at hs ⊢
      cases hsd : spanDigits (takeOptional (fun d => d = ch '+' || d = ch '-') t).2 with
      | mk ds r1 =>
        rw [hsd] at hs
        cases ds with
        | nil => simp at hs
        | cons d ds =>
          simp only [Option.some.injEq, Prod.mk.injEq] at hs
          obtain ⟨rfl, rfl⟩ := hs
          have ht : t ≠ [] := by
            intro ht
            subst ht
            simp [takeOptional, spanDigits] at hsd
          rw [takeOptional_stable _ t rest ht]
          simp only
          rw [spanDigits_stable _ rest (by rw [hsd]; exact h), hsd]
    · simp only [hc, if_false, Option.some.injEq, Prod.mk.injEq] at hs ⊢
      obtain ⟨rfl, rfl⟩ := hs
      exact ⟨rfl, rfl⟩

theorem scanIntPart_stable (s rest ip r : GoString) (hs : scanIntPart s = some (ip, r))
    (h : r ≠ [] ∨ endsNumber rest = true) :
    scanIntPart (s ++ rest) = some (ip, r ++ rest) := by
  cases s with
  | nil => simp [scanIntPart] at hs
  | cons c t =>
    simp only [scanIntPart, List.cons_append] at hs ⊢
    by_cases hc : c = ch '0'
    · simp only [hc, if_true, Option.some.injEq, Prod.mk.injEq] at hs ⊢
      obtain ⟨rfl, rfl⟩ := hs
      exact ⟨rfl, rfl⟩
    · simp only [hc, if_false] at hs ⊢
      by_cases hd : isDigit c = true
      · simp only [hd, if_true, Option.some.injEq, Prod.mk.injEq] at hs ⊢
        obtain ⟨rfl, rfl⟩ := hs
        rw [spanDigits_stable t rest h]
        exact ⟨rfl, rfl⟩
      · simp [hd] at hs

/-- A number literal followed by a text that can follow a number is scanned as that literal. -/
theorem scanNumber_stable (lit rest : GoString) (hs : scanNumber lit = some (lit, []))
    (h : endsNumber rest = true) :
    scanNumber (lit ++ rest) = some (lit, rest) := by
  unfold scanNumber at hs ⊢
  have hne : lit ≠ [] := by
    intro h0
    subst h0
    simp [takeOptional, scanIntPart] at hs
  rw [takeOptional_stable _ lit rest hne]
  simp only
  cases h1 : scanIntPart (takeOptional (fun c => c = ch '-') lit).2 with
  | none => rw [h1] at hs; simp at hs
  | some r1 =>
    obtain ⟨ip, s2⟩ := r1
    rw [h1] at hs
    simp only at hs
    cases h2 : scanFraction s2 with
    | none => rw [h2] at hs; simp at hs
    | some r2 =>
      obtain ⟨fp, s3⟩ := r2
      rw [h2] at hs
      simp only at hs
      cases h3 : scanExponent s3 with
      | none => rw [h3] at hs; simp at hs
      | some r3 =>
        obtain ⟨ep, s4⟩ := r3
        rw [h3] at hs
        simp only [Option.some.injEq, Prod.mk.injEq] at hs
        obtain ⟨hlit, hs4⟩ := hs
        subst hs4
        rw [scanIntPart_stable _ rest ip s2 h1 (Or.inr h)]
        simp only
        rw [scanFraction_stable _ rest fp s3 h2 (Or.inr h)]
        simp only
        rw [scanExponent_stable _ rest ep [] h3 (Or.inr h)]
        simp only [List.nil_append, hlit]

theorem decimalLoop_head : ∀ (fuel n : Nat) (acc : GoString), 0 < n → n < fuel →
    ∃ c t, decimalLoop fuel n acc = c :: t ∧ c ≠ ch '0' := by
  intro fuel
  induction fuel with
  | zero => intro n acc _ h; omega
  | succ fuel ih =>
    intro n acc hn hf
    simp only [decimalLoop]
    by_cases h10 : n / 10 = 0
    · rw [if_pos h10]
      refine ⟨_, _, rfl, ?_⟩
      have hlt : n < 10 := by omega
      interval_cases n <;> decide
    · rw [if_neg h10]
      exact ih (n / 10) _ (by omega) (by omega)

theorem scanNumber_formatNat (n : Nat) :
    scanIntPart (formatNat n) = some (formatNat n, []) := by
  by_cases hn : n = 0
  · subst hn; rfl
  · obtain ⟨c, t, hct, hc0⟩ := decimalLoop_head (n + 1) n [] (by omega) (by omega)
    have hd := formatNat_digits n
    unfold formatNat at hd ⊢
    rw [hct] at hd ⊢
    have ht : spanDigits t = (t, []) := by
      have := spanDigits_append t [] (fun d hd1 => hd d (List.mem_cons_of_mem _ hd1))
        (fun c t h => by cases h)
      simpa using this
    simp only [scanIntPart, hc0, if_false, hd c (List.mem_cons_self _ _), if_true, ht]

theorem formatNat_head_ne_minus (n : Nat) :
    takeOptional (fun c => c = ch '-') (formatNat n) = ([], formatNat n) := by
  have hd := formatNat_digits n
  have hne := formatNat_ne_nil n
  cases hf : formatNat n with
  | nil => exact absurd hf hne
  | cons c t =>
    rw [hf] at hd
    have hc := hd c (List.mem_cons_self _ _)
    have : c ≠ ch '-' := by
      intro h
      subst h
      exact absurd hc (by decide)
    simp [takeOptional, this]

/-- The text the encoder writes for an integer is a JSON number. -/
theorem scanNumber_formatInt (i : Int) : scanNumber (formatInt i) = some (formatInt i, []) := by
  unfold formatInt scanNumber
  by_cases hi : i < 0
  · simp only [hi, if_true]
    have : takeOptional (fun c => c = ch '-') (ch '-' :: formatNat i.natAbs) =
        ([ch '-'], formatNat i.natAbs) := by
      simp [takeOptional]
    rw [this]
    simp only [scanNumber_formatNat, scanFraction, scanExponent]
    simp
  · simp only [hi, if_false]
    rw [formatNat_head_ne_minus]
    simp only [scanNumber_formatNat, scanFraction, scanExponent]
    simp

theorem scanNumber_head (c : Byte) (s lit rest : GoString)
    (h : scanNumber (c :: s) = some (lit, rest)) : c = ch '-' ∨ isDigit c = true := by
  unfold scanNumber at h
  by_cases hc : c = ch '-'
  · exact Or.inl hc
  · right
    have : takeOptional (fun c => c = ch '-') (c :: s) = ([], c :: s) := by
      simp [takeOptional, hc]
    rw [this] at h
    simp only [scanIntPart] at h
    by_cases h0 : c = ch '0'
    · subst h0; rfl
    · simp only [h0, if_false] at h
      by_cases hd : isDigit c = true
      · exact hd
      · simp [hd] at h

/-! ## The encoder and the parser agree: values -/

theorem parse_string (s : GoString) (hv : utf8Valid s = true) : Reads (.str s) (quoteString s) := by
  refine ⟨⟨34, _, rfl, by decide, by decide⟩, ?_⟩
  intro d rest fuel _ _ hf
  obtain ⟨fuel, rfl⟩ : ∃ G, fuel = G + 1 := ⟨fuel - 1, by
    simp [quoteString] at hf; omega⟩
  have hq : quoteString s ++ rest = 34 :: (quoteLoop s.length s ++ 34 :: rest) := by
    simp [quoteString]
  rw [hq]
  conv_lhs => unfold parseValue
  rw [if_neg (by decide), if_neg (by decide), if_pos (by decide), scanString_quoteLoop]
  simp only [Option.map_some', unquote]
  rw [unquoteLoop_quoteLoop s.length s hv (le_refl _) _ (le_refl _)]

theorem parse_null : Reads .null (str "null") := by
  refine ⟨⟨ch 'n', _, rfl, by decide, by decide⟩, ?_⟩
  intro d rest fuel _ _ hf
  obtain ⟨fuel, rfl⟩ : ∃ G, fuel = G + 1 := ⟨fuel - 1, by
    have : (str "null").length = 4 := rfl
    rw [List.length_append] at hf; omega⟩
  rw [show str "null" ++ rest = ch 'n' :: (str "ull" ++ rest) from rfl]
  conv_lhs => unfold parseValue
  rw [if_neg (by decide), if_neg (by decide), if_neg (by decide), if_neg (by decide),
    if_neg (by decide), if_pos rfl, if_pos (by rfl)]
  rfl

theorem parse_bool (b : Bool) :
    Reads (.bool b) (if b then str "true" else str "false") := by
  cases b
  · refine ⟨⟨ch 'f', _, rfl, by decide, by decide⟩, ?_⟩
    intro d rest fuel _ _ hf
    obtain ⟨fuel, rfl⟩ : ∃ G, fuel = G + 1 := ⟨fuel - 1, by
      have : (str "false").length = 5 := rfl
      rw [if_neg (by decide), List.length_append] at hf; omega⟩
    rw [show (if false = true then str "true" else str "false") ++ rest =
      ch 'f' :: (str "alse" ++ rest) from rfl]
    conv_lhs => unfold parseValue
    rw [if_neg (by decide), if_neg (by decide), if_neg (by decide), if_neg (by decide),
      if_pos rfl, if_pos (by rfl)]
    rfl
  · refine ⟨⟨ch 't', _, rfl, by decide, by decide⟩, ?_⟩
    intro d rest fuel _ _ hf
    obtain ⟨fuel, rfl⟩ : ∃ G, fuel = G + 1 := ⟨fuel - 1, by
      have : (str "true").length = 4 := rfl
      rw [if_pos rfl, List.length_append] at hf; omega⟩
    rw [show (if true = true then str "true" else str "false") ++ rest =
      ch 't' :: (str "rue" ++ rest) from rfl]
    conv_lhs => unfold parseValue
    rw [if_neg (by decide), if_neg (by decide), if_neg (by decide), if_pos rfl, if_pos (by rfl)]
    rfl

theorem parse_number (lit : GoString) (h : scanNumber lit = some (lit, [])) :
    Reads (.num lit) lit := by
  cases lit with
  | nil => simp [scanNumber, takeOptional, scanIntPart] at h
  | cons c t =>
    have hc := scanNumber_head c t _ _ h
    have hc1 : c.val = 45 ∨ (48 ≤ c.val ∧ c.val ≤ 57) := by
      rcases hc with hc | hc
      · left; rw [hc]; rfl
      · right
        simpa [isDigit] using hc
    refine ⟨⟨c, t, rfl, by
      simp only [isSpace, Bool.or_eq_false_iff, decide_eq_false_iff_not]
      omega, by omega⟩, ?_⟩
    intro d rest fuel _ hrest hf
    obtain ⟨fuel, rfl⟩ : ∃ G, fuel = G + 1 := ⟨fuel - 1, by
      simp at hf; omega⟩
    have hs := scanNumber_stable _ rest h hrest
    rw [List.cons_append] at hs ⊢
    conv_lhs => unfold parseValue
    have ht : c ≠ ch 't' := by
      intro h; rw [h] at hc1; revert hc1; decide
    have hf1 : c ≠ ch 'f' := by
      intro h; rw [h] at hc1; revert hc1; decide
    have hn : c ≠ ch 'n' := by
      intro h; rw [h] at hc1; revert hc1; decide
    rw [if_neg (by omega), if_neg (by omega), if_neg (by omega), if_neg ht, if_neg hf1,
      if_neg hn, hs]
    rfl

theorem endsNumber_of (c : Byte) (X : GoString)
    (h : (!isDigit c && decide (c ≠ ch '.') && decide (c ≠ ch 'e') && decide (c ≠ ch 'E')) =
      true) : endsNumber (c :: X) = true := h

theorem skipWS_head (c : Byte) (t : GoString) (h : isSpace c = false) :
    skipWS (c :: t) = c :: t := by
  simp [skipWS, h]

theorem joinTexts_cons (a b : GoString) (rest : List GoString) :
    joinTexts (a :: b :: rest) = a ++ ch ',' :: joinTexts (b :: rest) := rfl

theorem joinItems_ok : ∀ (texts : List GoString),
    joinItems (texts.map Except.ok) = .ok (joinTexts texts) := by
  intro texts
  induction texts with
  | nil => rfl
  | cons a rest ih =>
    cases rest with
    | nil => rfl
    | cons b rest =>
      have ih1 : joinItems (Except.ok b :: rest.map Except.ok) = .ok (joinTexts (b :: rest)) := ih
      show joinItems (Except.ok a :: Except.ok b :: rest.map Except.ok) = _
      simp only [joinItems, ih1]
      rfl

theorem joinTexts_head (texts : List GoString) (c : Byte) (t : GoString) (more : List GoString)
    (h : texts = (c :: t) :: more) : ∃ t1, joinTexts texts = c :: t1 := by
  subst h
  cases more with
  | nil => exact ⟨t, rfl⟩
  | cons b rest => exact ⟨_, rfl⟩

/-- The elements of an array are read one after the other. -/
theorem parse_elems : ∀ (items : List (JSON × GoString)), items ≠ [] →
    (∀ i ∈ items, Reads i.1 i.2) →
    ∀ (d : Nat) (rest : GoString) (fuel : Nat), depthList (items.map Prod.fst) ≤ d →
      2 * (joinTexts (items.map Prod.snd) ++ 93 :: rest).length + 1 ≤ fuel →
      parseElems fuel d (joinTexts (items.map Prod.snd) ++ 93 :: rest) =
        some (items.map Prod.fst, rest) := by
  intro items
  induction items with
  | nil => intro h; exact absurd rfl h
  | cons i more ih =>
    intro _ hall d rest fuel hd hf
    obtain ⟨j, text⟩ := i
    have hj : Reads j text := hall (j, text) (List.mem_cons_self _ _)
    obtain ⟨fuel, rfl⟩ : ∃ G, fuel = G + 1 := ⟨fuel - 1, by omega⟩
    have hdj : j.depth ≤ d := by
      simp only [List.map_cons, depthList] at hd
      omega
    cases more with
    | nil =>
      simp only [List.map_cons, List.map_nil, joinTexts] at hf ⊢
      conv_lhs => unfold parseElems
      rw [hj.2 d (93 :: rest) fuel hdj (endsNumber_of _ _ (by decide)) (by omega)]
      simp only
      rw [skipWS_head 93 rest (by decide)]
      simp only
      rw [if_pos (by decide)]
    | cons i2 more =>
      have hd2 : depthList ((i2 :: more).map Prod.fst) ≤ d := by
        simp only [List.map_cons, depthList] at hd ⊢
        omega
      have ih1 := ih (by simp) (fun x hx => hall x (List.mem_cons_of_mem _ hx)) d rest
      obtain ⟨c2, t2, hc2, hsp2, -⟩ := (hall i2 (by simp)).1
      obtain ⟨t3, ht3⟩ := joinTexts_head ((i2 :: more).map Prod.snd) c2 t2 (more.map Prod.snd)
        (by simp [hc2])
      simp only [List.map_cons, joinTexts_cons] at hf ⊢
      simp only [List.map_cons] at ih1 ht3
      rw [List.append_assoc, List.cons_append]
      rw [List.append_assoc, List.cons_append, List.length_append, List.length_cons] at hf
      conv_lhs => unfold parseElems
      rw [hj.2 d _ fuel hdj (endsNumber_of _ _ (by decide)) (by
        rw [List.length_append, List.length_cons]; omega)]
      simp only
      rw [skipWS_head (ch ',') _ (by decide)]
      simp only
      rw [if_neg (by decide), if_pos (by decide), ht3, List.cons_append, skipWS_head c2 _ hsp2,
        ← List.cons_append, ← ht3, ih1 fuel hd2 (by omega)]
      rfl

theorem unquote_quoteLoop (k : GoString) (hv : utf8Valid k = true) :
    unquote (quoteLoop k.length k) = k := by
  unfold unquote
  exact unquoteLoop_quoteLoop k.length k hv (le_refl _) _ (le_refl _)

theorem memberText_eq (i : GoString × JSON × GoString) (X : GoString) :
    memberText i ++ X = 34 :: (quoteLoop i.1.length i.1 ++ 34 :: 58 :: (i.2.2 ++ X)) := by
  simp [memberText, quoteString]
  rfl

/-- The members of an object are read one after the other. -/
theorem parse_members : ∀ (items : List (GoString × JSON × GoString)), items ≠ [] →
    (∀ i ∈ items, utf8Valid i.1 = true ∧ Reads i.2.1 i.2.2) →
    ∀ (d : Nat) (rest : GoString) (fuel : Nat),
      depthMembers (items.map (fun i => (i.1, i.2.1))) ≤ d →
      2 * (joinTexts (items.map memberText) ++ 125 :: rest).length + 1 ≤ fuel →
      parseMembers fuel d (joinTexts (items.map memberText) ++ 125 :: rest) =
        some (items.map (fun i => (i.1, i.2.1)), rest) := by
  intro items
  induction items with
  | nil => intro h; exact absurd rfl h
  | cons i more ih =>
    intro _ hall d rest fuel hd hf
    obtain ⟨hk, hj⟩ := hall i (List.mem_cons_self _ _)
    obtain ⟨c, t, hct, hsp, -⟩ := hj.1
    obtain ⟨fuel, rfl⟩ : ∃ G, fuel = G + 1 := ⟨fuel - 1, by omega⟩
    have hdj : i.2.1.depth ≤ d := by
      simp only [List.map_cons, depthMembers] at hd
      omega
    cases more with
    | nil =>
      simp only [List.map_cons, List.map_nil, joinTexts] at hf ⊢
      rw [memberText_eq] at hf ⊢
      conv_lhs => unfold parseMembers
      rw [if_pos (by decide), scanString_quoteLoop]
      simp only
      rw [skipWS_head 58 _ (by decide)]
      simp only
      rw [if_pos (by decide)]
      have hsk : skipWS (i.2.2 ++ 125 :: rest) = i.2.2 ++ 125 :: rest := by
        rw [hct, List.cons_append, skipWS_head c _ hsp]
      rw [hsk, hj.2 d (125 :: rest) fuel hdj (endsNumber_of _ _ (by decide)) (by
        simp only [List.length_cons, List.length_append] at hf ⊢; omega)]
      simp only
      rw [skipWS_head 125 rest (by decide)]
      simp only
      rw [if_pos (by decide), unquote_quoteLoop _ hk]
    | cons i2 more =>
      have hd2 : depthMembers ((i2 :: more).map (fun i => (i.1, i.2.1))) ≤ d := by
        simp only [List.map_cons, depthMembers] at hd ⊢
        omega
      have ih1 := ih (by simp) (fun x hx => hall x (List.mem_cons_of_mem _ hx)) d rest
      obtain ⟨t3, ht3⟩ := joinTexts_head ((i2 :: more).map memberText) 34 _
        (more.map memberText) (by
          simp only [List.map_cons, List.cons.injEq, and_true]
          have := memberText_eq i2 []
          simpa using this)
      simp only [List.map_cons, joinTexts_cons] at hf ⊢
      simp only [List.map_cons] at ih1 ht3
      rw [List.append_assoc, List.cons_append, memberText_eq] at hf ⊢
      conv_lhs => unfold parseMembers
      rw [if_pos (by decide), scanString_quoteLoop]
      simp only
      rw [skipWS_head 58 _ (by decide)]
      simp only
      rw [if_pos (by decide)]
      have hsk : ∀ X, skipWS (i.2.2 ++ X) = i.2.2 ++ X := by
        intro X
        rw [hct, List.cons_append, skipWS_head c _ hsp]
      rw [hsk, hj.2 d _ fuel hdj (endsNumber_of _ _ (by decide)) (by
        simp only [List.length_cons, List.length_append] at hf ⊢; omega)]
      simp only
      rw [skipWS_head (ch ',') _ (by decide)]
      simp only
      rw [if_neg (by decide), if_pos (by decide), ht3, List.cons_append,
        skipWS_head 34 _ (by decide), ← List.cons_append, ← ht3, ih1 fuel hd2 (by
          simp only [List.length_cons, List.length_append] at hf ⊢; omega),
        unquote_quoteLoop _ hk]
      rfl

theorem parse_array (items : List (JSON × GoString)) (hall : ∀ i ∈ items, Reads i.1 i.2) :
    Reads (.arr (items.map Prod.fst)) (91 :: joinTexts (items.map Prod.snd) ++ [93]) := by
  refine ⟨⟨91, _, rfl, by decide, by decide⟩, ?_⟩
  intro d rest fuel hd _ hf
  obtain ⟨fuel, rfl⟩ : ∃ G, fuel = G + 1 := ⟨fuel - 1, by simp at hf; omega⟩
  obtain ⟨d1, rfl⟩ : ∃ e, d = e + 1 := ⟨d - 1, by simp only [JSON.depth] at hd; omega⟩
  have hd1 : depthList (items.map Prod.fst) ≤ d1 := by
    simp only [JSON.depth] at hd; omega
  have hshape : (91 :: joinTexts (items.map Prod.snd) ++ [93]) ++ rest =
      91 :: (joinTexts (items.map Prod.snd) ++ 93 :: rest) := by simp
  rw [hshape] at hf ⊢
  rw [List.length_cons] at hf
  conv_lhs => unfold parseValue
  rw [if_neg (by decide), if_pos (by decide)]
  simp only
  cases items with
  | nil =>
    simp only [List.map_nil, joinTexts, List.nil_append]
    rw [skipWS_head 93 rest (by decide)]
    simp only
    rw [if_pos (by decide)]
  | cons i more =>
    obtain ⟨c, t, hct, hsp, h93⟩ := (hall i (List.mem_cons_self _ _)).1
    obtain ⟨t3, ht3⟩ := joinTexts_head ((i :: more).map Prod.snd) c t (more.map Prod.snd)
      (by simp [hct])
    rw [ht3, List.cons_append, skipWS_head c _ hsp]
    simp only
    rw [if_neg h93, ← List.cons_append, ← ht3, parse_elems (i :: more) (by simp) hall d1 rest fuel
      hd1 (by omega)]
    rfl

theorem parse_object (items : List (GoString × JSON × GoString))
    (hall : ∀ i ∈ items, utf8Valid i.1 = true ∧ Reads i.2.1 i.2.2) :
    Reads (.obj (items.map (fun i => (i.1, i.2.1))))
      (123 :: joinTexts (items.map memberText) ++ [125]) := by
  refine ⟨⟨123, _, rfl, by decide, by decide⟩, ?_⟩
  intro d rest fuel hd _ hf
  obtain ⟨fuel, rfl⟩ : ∃ G, fuel = G + 1 := ⟨fuel - 1, by simp at hf; omega⟩
  obtain ⟨d1, rfl⟩ : ∃ e, d = e + 1 := ⟨d - 1, by simp only [JSON.depth] at hd; omega⟩
  have hd1 : depthMembers (items.map (fun i => (i.1, i.2.1))) ≤ d1 := by
    simp only [JSON.depth] at hd; omega
  have hshape : (123 :: joinTexts (items.map memberText) ++ [125]) ++ rest =
      123 :: (joinTexts (items.map memberText) ++ 125 :: rest) := by simp
  rw [hshape] at hf ⊢
  rw [List.length_cons] at hf
  conv_lhs => unfold parseValue
  rw [if_pos (by decide)]
  simp only
  cases items with
  | nil =>
    simp only [List.map_nil, joinTexts, List.nil_append]
    rw [skipWS_head 125 rest (by decide)]
    simp only
    rw [if_pos (by decide)]
  | cons i more =>
    obtain ⟨t3, ht3⟩ := joinTexts_head ((i :: more).map memberText) 34 _
      (more.map memberText) (by
        simp only [List.map_cons, List.cons.injEq, and_true]
        have := memberText_eq i []
        simpa using this)
    rw [ht3, List.cons_append, skipWS_head 34 _ (by decide)]
    simp only
    rw [if_neg (by decide), ← List.cons_append, ← ht3,
      parse_members (i :: more) (by simp) hall d1 rest fuel hd1 (by omega)]
    rfl

theorem insertEntry_eq (e : GoString × Except GoError GoString)
    (l : List (GoString × Except GoError GoString)) : insertEntry e l = insertByKey e l := by
  induction l with
  | nil => rfl
  | cons x rest ih => simp only [insertEntry, insertByKey, ih]

theorem sortEntries_eq (es : List (GoString × Except GoError GoString)) :
    sortEntries es = sortByKey es := by
  induction es with
  | nil => rfl
  | cons e es ih =>
    simp only [sortEntries, sortByKey, List.foldr_cons] at ih ⊢
    rw [ih, insertEntry_eq]

theorem insertByKey_map {α β : Type} (f : α → β) (e : GoString × α) (l : List (GoString × α)) :
    insertByKey (e.1, f e.2) (l.map (fun x => (x.1, f x.2))) =
      (insertByKey e l).map (fun x => (x.1, f x.2)) := by
  induction l with
  | nil => rfl
  | cons x rest ih =>
    simp only [List.map_cons, insertByKey]
    split
    · rfl
    · rw [List.map_cons, ih]

theorem sortByKey_map {α β : Type} (f : α → β) (l : List (GoString × α)) :
    sortByKey (l.map (fun x => (x.1, f x.2))) = (sortByKey l).map (fun x => (x.1, f x.2)) := by
  induction l with
  | nil => rfl
  | cons e l ih =>
    simp only [sortByKey, List.map_cons, List.foldr_cons] at ih ⊢
    rw [ih, insertByKey_map]

theorem mem_insertByKey {α : Type} (e x : GoString × α) (l : List (GoString × α)) :
    x ∈ insertByKey e l ↔ x = e ∨ x ∈ l := by
  induction l with
  | nil => simp [insertByKey]
  | cons y rest ih =>
    simp only [insertByKey]
    split
    · simp
    · simp only [List.mem_cons, ih]
      tauto

theorem mem_sortByKey {α : Type} (x : GoString × α) (l : List (GoString × α)) :
    x ∈ sortByKey l ↔ x ∈ l := by
  induction l with
  | nil => simp [sortByKey]
  | cons e l ih =>
    simp only [sortByKey, List.foldr_cons] at ih ⊢
    rw [mem_insertByKey, ih, List.mem_cons]

mutual
/-- An encodable Go value is encoded without error, and the parser reads the text as the JSON
value of the Go value. -/
theorem marshal_reads (rt : Runtime) : (v : GoValue) → encodable rt v = true →
    ∃ text, marshalValue rt v = .ok text ∧ Reads (jsonOf rt v) text
  | .nil, _ => ⟨_, rfl, parse_null⟩
  | .bool b, _ => ⟨_, rfl, parse_bool b⟩
  | .int i, _ => ⟨_, rfl, parse_number _ (scanNumber_formatInt i)⟩
  | .float64 f, h => by
    simp only [encodable, Bool.and_eq_true, Bool.not_eq_true', decide_eq_true_eq] at h
    refine ⟨rt.formatFloat f, ?_, parse_number _ h.2⟩
    simp only [marshalValue, h.1, Bool.false_eq_true, if_false]
  | .string s, h => ⟨_, rfl, parse_string s h⟩
  | .slice xs, h => by
    obtain ⟨items, h1, h2, h3⟩ := marshalList_reads rt xs h
    refine ⟨91 :: joinTexts (items.map Prod.snd) ++ [93], ?_, ?_⟩
    · have : items.map (fun i => (Except.ok i.2 : Except GoError GoString)) =
          (items.map Prod.snd).map Except.ok := by simp
      simp only [marshalValue, h1, this, joinItems_ok]
    · simp only [jsonOf, h2]
      exact parse_array items h3
  | .map ms, h => by
    obtain ⟨items, h1, h2, h3⟩ := marshalEntries_reads rt ms h
    refine ⟨123 :: joinTexts ((sortByKey items).map memberText) ++ [125], ?_, ?_⟩
    · have hs : sortEntries (marshalEntries rt ms) =
          (sortByKey items).map (fun i => (i.1, (Except.ok i.2.2 : Except GoError GoString))) := by
        rw [sortEntries_eq, h1]
        exact sortByKey_map (fun (x : JSON × GoString) =>
          (Except.ok x.2 : Except GoError GoString)) items
      have hk : ((sortByKey items).map
          (fun i => (i.1, (Except.ok i.2.2 : Except GoError GoString)))).map
          (fun e => keyed e.1 e.2) = ((sortByKey items).map memberText).map Except.ok := by
        simp only [List.map_map]
        rfl
      simp only [marshalValue, hs, hk, joinItems_ok]
    · have hj : sortByKey (jsonOfEntries rt ms) =
          (sortByKey items).map (fun i => (i.1, i.2.1)) := by
        rw [h2]
        exact sortByKey_map (fun (x : JSON × GoString) => x.1) items
      simp only [jsonOf, hj]
      exact parse_object (sortByKey items) (fun i hi => h3 i ((mem_sortByKey i items).1 hi))
  | .struct fs, h => by
    obtain ⟨items, h1, h2, h3⟩ := marshalFields_reads rt fs h
    refine ⟨123 :: joinTexts (items.map memberText) ++ [125], ?_, ?_⟩
    · have : items.map (fun i => (Except.ok (memberText i) : Except GoError GoString)) =
          (items.map memberText).map Except.ok := by simp
      simp only [marshalValue, h1, this, joinItems_ok]
    · simp only [jsonOf, h2]
      exact parse_object items h3
  | .unsupported _, h => by simp [encodable] at h
/-- The elements of a slice. -/
theorem marshalList_reads (rt : Runtime) : (xs : List GoValue) → encodableList rt xs = true →
    ∃ items : List (JSON × GoString),
      marshalList rt xs = items.map (fun i => (Except.ok i.2 : Except GoError GoString)) ∧
        jsonOfList rt xs = items.map Prod.fst ∧ ∀ i ∈ items, Reads i.1 i.2
  | [], _ => ⟨[], rfl, rfl, by simp⟩
  | x :: xs, h => by
    simp only [encodableList, Bool.and_eq_true] at h
    obtain ⟨text, h1, h2⟩ := marshal_reads rt x h.1
    obtain ⟨items, h3, h4, h5⟩ := marshalList_reads rt xs h.2
    refine ⟨(jsonOf rt x, text) :: items, ?_, ?_, ?_⟩
    · simp only [marshalList, h1, h3, List.map_cons]
    · simp only [jsonOfList, h4, List.map_cons]
    · intro i hi
      rcases List.mem_cons.1 hi with rfl | hi
      · exact h2
      · exact h5 i hi
/-- The entries of a map. -/
theorem marshalEntries_reads (rt : Runtime) : (ms : List (GoString × GoValue)) →
    encodableEntries rt ms = true →
    ∃ items : List (GoString × JSON × GoString),
      marshalEntries rt ms =
          items.map (fun i => (i.1, (Except.ok i.2.2 : Except GoError GoString))) ∧
        jsonOfEntries rt ms = items.map (fun i => (i.1, i.2.1)) ∧
        ∀ i ∈ items, utf8Valid i.1 = true ∧ Reads i.2.1 i.2.2
  | [], _ => ⟨[], rfl, rfl, by simp⟩
  | (k, v) :: ms, h => by
    simp only [encodableEntries, Bool.and_eq_true] at h
    obtain ⟨text, h1, h2⟩ := marshal_reads rt v h.1.2
    obtain ⟨items, h3, h4, h5⟩ := marshalEntries_reads rt ms h.2
    refine ⟨(k, jsonOf rt v, text) :: items, ?_, ?_, ?_⟩
    · simp only [marshalEntries, h1, h3, List.map_cons]
    · simp only [jsonOfEntries, h4, List.map_cons]
    · intro i hi
      rcases List.mem_cons.1 hi with rfl | hi
      · exact ⟨h.1.1, h2⟩
      · exact h5 i hi
/-- The fields of a struct. -/
theorem marshalFields_reads (rt : Runtime) : (fs : List (GoString × Omit × GoValue)) →
    encodableFields rt fs = true →
    ∃ items : List (GoString × JSON × GoString),
      marshalFields rt fs =
          items.map (fun i => (Except.ok (memberText i) : Except GoError GoString)) ∧
        jsonOfFields rt fs = items.map (fun i => (i.1, i.2.1)) ∧
        ∀ i ∈ items, utf8Valid i.1 = true ∧ Reads i.2.1 i.2.2
  | [], _ => ⟨[], rfl, rfl, by simp⟩
  | (name, rule, v) :: fs, h => by
    simp only [encodableFields, Bool.and_eq_true, Bool.or_eq_true] at h
    obtain ⟨items, h3, h4, h5⟩ := marshalFields_reads rt fs h.2
    by_cases ho : omitted rule v = true
    · refine ⟨items, ?_, ?_, h5⟩
      · simp only [marshalFields, ho, if_true, h3]
      · simp only [jsonOfFields, ho, if_true, h4]
    · have hv : utf8Valid name = true ∧ encodable rt v = true := by
        rcases h.1 with h1 | h1
        · exact absurd h1 ho
        · exact h1
      obtain ⟨text, h1, h2⟩ := marshal_reads rt v hv.2
      refine ⟨(name, jsonOf rt v, text) :: items, ?_, ?_, ?_⟩
      · simp only [marshalFields, ho, Bool.false_eq_true, if_false, h1, h3, List.map_cons, keyed,
          memberText]
      · simp only [jsonOfFields, ho, Bool.false_eq_true, if_false, h4, List.map_cons]
      · intro i hi
        rcases List.mem_cons.1 hi with rfl | hi
        · exact ⟨hv.1, h2⟩
        · exact h5 i hi
end

/-! ## Decoding into `interface{}` what the encoder wrote -/

theorem jsonOfEntries_map (rt : Runtime) (ms : List (GoString × GoValue)) :
    jsonOfEntries rt ms = ms.map (fun e => (e.1, jsonOf rt e.2)) := by
  induction ms with
  | nil => rfl
  | cons e ms ih =>
    obtain ⟨k, v⟩ := e
    simp only [jsonOfEntries, ih, List.map_cons]

theorem canonEntries_map (ms : List (GoString × GoValue)) :
    canonEntries ms = ms.map (fun e => (e.1, canon e.2)) := by
  induction ms with
  | nil => rfl
  | cons e ms ih =>
    obtain ⟨k, v⟩ := e
    simp only [canonEntries, ih, List.map_cons]

theorem perm_insertByKey {α : Type} (e : GoString × α) (l : List (GoString × α)) :
    (insertByKey e l).Perm (e :: l) := by
  induction l with
  | nil => exact List.Perm.refl _
  | cons x rest ih =>
    simp only [insertByKey]
    split
    · exact List.Perm.refl _
    · exact (List.Perm.cons x ih).trans (List.Perm.swap e x rest)

theorem perm_sortByKey {α : Type} (l : List (GoString × α)) : (sortByKey l).Perm l := by
  induction l with
  | nil => exact List.Perm.refl _
  | cons e l ih =>
    simp only [sortByKey, List.foldr_cons] at ih ⊢
    exact (perm_insertByKey e _).trans (List.Perm.cons e ih)

theorem nodup_sortByKey {α : Type} (l : List (GoString × α)) (h : (l.map Prod.fst).Nodup) :
    ((sortByKey l).map Prod.fst).Nodup :=
  ((perm_sortByKey l).map Prod.fst).nodup_iff.2 h

theorem mapPut_fresh (acc : List (GoString × GoValue)) (k : GoString) (v : GoValue)
    (h : k ∉ acc.map Prod.fst) : mapPut acc k v = acc ++ [(k, v)] := by
  unfold mapPut
  congr 1
  rw [List.filter_eq_self]
  intro e he
  simp only [decide_eq_true_eq]
  intro hk
  exact h (by rw [← hk]; exact List.mem_map_of_mem Prod.fst he)

/-- Members with distinct keys, each read as the canonical value, are stored in their order. -/
theorem toInterfaceMembers_distinct (rt : Runtime) (f : GoValue → GoValue) :
    ∀ (L : List (GoString × GoValue)) (acc : List (GoString × GoValue)),
      (∀ e ∈ L, toInterface rt (jsonOf rt e.2) = (f e.2, none)) →
      ((acc ++ L).map Prod.fst).Nodup →
      toInterfaceMembers rt (L.map (fun e => (e.1, jsonOf rt e.2))) acc =
        (acc ++ L.map (fun e => (e.1, f e.2)), none) := by
  intro L
  induction L with
  | nil => intro acc _ _; simp [toInterfaceMembers]
  | cons e L ih =>
    intro acc hall hnd
    obtain ⟨k, v⟩ := e
    have hv := hall (k, v) (List.mem_cons_self _ _)
    simp only at hv
    have hk : k ∉ acc.map Prod.fst := by
      intro hk
      rw [List.map_append, List.map_cons] at hnd
      have := (List.nodup_append.1 hnd).2.2
      exact this hk (List.mem_cons_self _ _)
    have hnd1 : ((acc ++ [(k, f v)] ++ L).map Prod.fst).Nodup := by
      simpa using hnd
    have ih1 := ih (acc ++ [(k, f v)]) (fun x hx => hall x (List.mem_cons_of_mem _ hx)) hnd1
    simp only [List.map_cons, toInterfaceMembers, hv, mapPut_fresh acc k (f v) hk, ih1, firstError]
    simp

mutual
/-- Decoding into an `interface{}` the JSON value of a plain Go value gives the value back,
without error. -/
theorem toInterface_jsonOf (rt : Runtime) : (v : GoValue) → plain rt v = true →
    toInterface rt (jsonOf rt v) = (canon v, none)
  | .nil, _ => rfl
  | .bool _, _ => rfl
  | .int _, h => by simp [plain] at h
  | .float64 f, h => by
    simp only [plain, decide_eq_true_eq] at h
    simp only [jsonOf, toInterface, h, canon]
  | .string _, _ => rfl
  | .slice xs, h => by
    simp only [plain] at h
    simp only [jsonOf, toInterface, toInterfaceList_jsonOf rt xs h, canon]
  | .map ms, h => by
    simp only [plain, Bool.and_eq_true, decide_eq_true_eq] at h
    have hall := toInterface_entries rt ms h.1
    have hj : sortByKey (jsonOfEntries rt ms) =
        (sortByKey ms).map (fun e => (e.1, jsonOf rt e.2)) := by
      rw [jsonOfEntries_map]
      exact sortByKey_map (jsonOf rt) ms
    have hc : sortByKey (canonEntries ms) = (sortByKey ms).map (fun e => (e.1, canon e.2)) := by
      rw [canonEntries_map]
      exact sortByKey_map canon ms
    have := toInterfaceMembers_distinct rt canon (sortByKey ms) []
      (fun e he => hall e ((mem_sortByKey e ms).1 he))
      (by simpa using nodup_sortByKey ms h.2)
    simp only [jsonOf, toInterface, hj, this, canon, hc, List.nil_append]
  | .struct _, h => by simp [plain] at h
  | .unsupported _, h => by simp [plain] at h
/-- The elements of a slice. -/
theorem toInterfaceList_jsonOf (rt : Runtime) : (xs : List GoValue) → plainList rt xs = true →
    toInterfaceList rt (jsonOfList rt xs) = (canonList xs, none)
  | [], _ => rfl
  | x :: xs, h => by
    simp only [plainList, Bool.and_eq_true] at h
    simp only [jsonOfList, toInterfaceList, toInterface_jsonOf rt x h.1,
      toInterfaceList_jsonOf rt xs h.2, canonList, firstError]
/-- The values of a map. -/
theorem toInterface_entries (rt : Runtime) : (ms : List (GoString × GoValue)) →
    plainEntries rt ms = true → ∀ e ∈ ms, toInterface rt (jsonOf rt e.2) = (canon e.2, none)
  | [], _ => by simp
  | (k, v) :: ms, h => by
    simp only [plainEntries, Bool.and_eq_true] at h
    intro e he
    rcases List.mem_cons.1 he with rfl | he
    · exact toInterface_jsonOf rt v h.1
    · exact toInterface_entries rt ms h.2 e he
end

theorem unmarshalValue_iface (rt : Runtime) (j : JSON) (cur : GoValue) :
    unmarshalValue rt .iface j cur = toInterface rt j := by
  cases j <;> simp [unmarshalValue, toInterface, GoType.elem, GoType.nullable]

theorem unmarshalEntries_iface (rt : Runtime) :
    ∀ (ms : List (GoString × JSON)) (acc : List (GoString × GoValue)),
      unmarshalEntries rt .iface ms acc = toInterfaceMembers rt ms acc := by
  intro ms
  induction ms with
  | nil => intro acc; simp [unmarshalEntries, toInterfaceMembers]
  | cons m ms ih =>
    intro acc
    obtain ⟨k, x⟩ := m
    simp only [unmarshalEntries, toInterfaceMembers, unmarshalValue_iface, ih]

/-- Decoding into a nil `map[string]interface{}` the JSON value of a plain map gives the map
back, without error. -/
theorem unmarshal_map_jsonOf (rt : Runtime) (m : GoMap) (h : plain rt (.map m) = true)
    (cur : GoValue) (hcur : cur = .nil) :
    unmarshalValue rt (.map .iface) (jsonOf rt (.map m)) cur =
      (.map (sortByKey (canonEntries m)), none) := by
  subst hcur
  have h1 := toInterface_jsonOf rt (.map m) h
  simp only [jsonOf, toInterface, canon] at h1
  simp only [jsonOf, unmarshalValue, GoType.elem, unmarshalEntries_iface]
  exact h1

theorem mapGet_of_mem {ν : Type} (L : List (GoString × ν)) (hnd : (L.map Prod.fst).Nodup)
    (k : GoString) (v : ν) (h : (k, v) ∈ L) : mapGet L k = some v := by
  induction L with
  | nil => cases h
  | cons e L ih =>
    simp only [List.map_cons, List.nodup_cons] at hnd
    rcases List.mem_cons.1 h with rfl | h
    · simp [mapGet]
    · have hne : e.1 ≠ k := by
        intro he
        exact hnd.1 (by rw [he]; exact List.mem_map_of_mem Prod.fst h)
      have := ih hnd.2 h
      simp only [mapGet, List.find?, hne, decide_False] at this ⊢
      exact this

/-- Every entry of a map with distinct keys is an entry of its canonical form. -/
theorem mapGet_canon (m : GoMap) (hnd : (m.map Prod.fst).Nodup) (k : GoString) (v : GoValue)
    (h : (k, v) ∈ m) : mapGet (sortByKey (canonEntries m)) k = some (canon v) := by
  apply mapGet_of_mem
  · apply nodup_sortByKey
    rw [canonEntries_map, List.map_map]
    exact hnd
  · rw [mem_sortByKey, canonEntries_map]
    exact List.mem_map_of_mem (fun e => (e.1, canon e.2)) h
/-! ## The encoder and the parser agree: `Marshal` and `Unmarshal` -/

theorem endsNumber_of_blank (tail : GoString) (h : skipWS tail = []) : endsNumber tail = true := by
  cases tail with
  | nil => rfl
  | cons c t =>
    by_cases hc : isSpace c = true
    · simp only [isSpace, Bool.or_eq_true, decide_eq_true_eq] at hc
      apply endsNumber_of
      have h1 : c = 32 ∨ c = 9 ∨ c = 13 ∨ c = 10 := by
        rcases hc with ((hc | hc) | hc) | hc
        · exact Or.inl (Fin.ext hc)
        · exact Or.inr (Or.inl (Fin.ext hc))
        · exact Or.inr (Or.inr (Or.inl (Fin.ext hc)))
        · exact Or.inr (Or.inr (Or.inr (Fin.ext hc)))
      rcases h1 with rfl | rfl | rfl | rfl <;> decide
    · simp [skipWS, hc] at h

/-- The text `Marshal` returns for an encodable value, whatever white space follows it, is one
JSON value for the parser: the JSON value of the Go value. -/
theorem Marshal_parse (rt : Runtime) (v : GoValue) (he : encodable rt v = true)
    (hd : (jsonOf rt v).depth ≤ maxNestingDepth) :
    ∃ text, Marshal rt v = (some text, none) ∧
      ∀ tail, skipWS tail = [] → parseJSON (text ++ tail) = some (jsonOf rt v) := by
  obtain ⟨text, h1, h2⟩ := marshal_reads rt v he
  refine ⟨text, by simp only [Marshal, h1], ?_⟩
  intro tail ht
  obtain ⟨c, t, hct, hsp, -⟩ := h2.1
  have hsk : skipWS (text ++ tail) = text ++ tail := by
    rw [hct, List.cons_append, skipWS_head c _ hsp]
  unfold parseJSON
  rw [hsk, h2.2 maxNestingDepth tail _ hd (endsNumber_of_blank tail ht) (by omega)]
  simp only [ht, if_true]

/-! ## C14: the request of `SetState` -/

theorem toValue_encodable (rt : Runtime) (r : StateUpdateRequest)
    (hstate : utf8Valid r.State = true)
    (hattrs : ∀ m, r.Attributes = some m → m ≠ [] → encodable rt (.map m) = true) :
    encodable rt r.toValue = true := by
  obtain ⟨s, a⟩ := r
  have h1 : utf8Valid (str "state") = true := by decide
  have h2 : utf8Valid (str "attributes") = true := by decide
  cases a with
  | none =>
    simp only [StateUpdateRequest.toValue, encodable, encodableFields, omitted, isEmptyValue]
    simp only at hstate
    simp [h1, hstate]
  | some m =>
    cases m with
    | nil =>
      simp only [StateUpdateRequest.toValue, encodable, encodableFields, omitted, isEmptyValue]
      simp only at hstate
      simp [h1, hstate]
    | cons e m =>
      have := hattrs (e :: m) rfl (by simp)
      simp only [StateUpdateRequest.toValue, encodable, encodableFields, omitted, isEmptyValue]
        at this ⊢
      simp only at hstate
      simp [h1, h2, hstate, this]

theorem toValue_json (rt : Runtime) (r : StateUpdateRequest) :
    jsonOf rt r.toValue =
      .obj ((str "state", .str r.State) :: attributesMember rt r.Attributes) := by
  obtain ⟨s, a⟩ := r
  cases a with
  | none =>
    simp [StateUpdateRequest.toValue, jsonOf, jsonOfFields, omitted, isEmptyValue,
      attributesMember]
  | some m =>
    cases m with
    | nil =>
      simp [StateUpdateRequest.toValue, jsonOf, jsonOfFields, omitted, isEmptyValue,
        attributesMember]
    | cons e m =>
      simp [StateUpdateRequest.toValue, jsonOf, jsonOfFields, omitted, isEmptyValue,
        attributesMember]

theorem StateUpdateRequest_string_fields : ∀ f ∈ StateUpdateRequestType.fields,
    f.1 = str "state" → f.2.2 = .string := by
  intro f hf
  simp only [StateUpdateRequestType, GoType.fields, List.mem_cons, List.mem_singleton,
    List.not_mem_nil, or_false] at hf
  rcases hf with rfl | rfl <;> intro h <;> first | rfl | exact absurd h (by decide)

theorem decoded_state (rt : Runtime) (s : GoString) (attrs : Option GoMap) :
    (unmarshalValue rt StateUpdateRequestType
        (.obj ((str "state", .str s) :: attributesMember rt attrs))
        (zeroValue StateUpdateRequestType)).1.field (str "state") = some (.string s) := by
  have h := unmarshalFields_string rt StateUpdateRequestType.fields (str "state")
    StateUpdateRequest_string_fields ((str "state", .str s) :: attributesMember rt attrs)
    (structFields StateUpdateRequestType (zeroValue StateUpdateRequestType)) [] rfl
  have hm : stringMember StateUpdateRequestType.fields (str "state")
      ((str "state", .str s) :: attributesMember rt attrs) [] = s := by
    have hf1 : findField StateUpdateRequestType.fields (str "state") =
        some (str "state", false, .string) := rfl
    have hf2 : findField StateUpdateRequestType.fields (str "attributes") =
        some (str "attributes", true, .map .iface) := rfl
    have hne : ¬ (str "attributes" = str "state") := by decide
    rcases attrs with _ | _ | ⟨e, m⟩ <;>
      simp [stringMember, attributesMember, hf1, hf2, hne]
  rw [hm] at h
  exact h

/-- C14, counterexample. An update request whose attributes hold a NaN cannot be encoded:
`SetState` returns an error and hands no request to the transport. An update request whose
`State` is the single byte `0xff`, which is not valid UTF-8, is sent with the `state` U+FFFD:
decoding the body as a `StateUpdateRequest` yields a `State` of three bytes, not the `State` of
the request. When the base URL holds a line feed and `http.NewRequest` refuses it, no request is
handed to the transport. -/
theorem SetState_body_can_differ :
    ((fixedServer 200 plainStateBody).SetState plainRuntime (str "light.a")
        { State := str "on", Attributes := some [(str "level", .float64 floatNaN)] } ()).sent =
        [] ∧
      ((fixedServer 200 plainStateBody).SetState plainRuntime (str "light.a")
        { State := str "on", Attributes := some [(str "level", .float64 floatNaN)] } ()).err ≠
        none ∧
      (((fixedServer 200 plainStateBody).SetState plainRuntime (str "light.a")
        { State := [255], Attributes := none } ()).sent.map
          (fun req => postedState plainRuntime (req.Body.getD []))) =
        [some [239, 191, 189]] ∧
      (lineFeedHostClient.SetState controlByteRuntime (str "light.a")
        { State := str "on", Attributes := none } ()).sent = [] :=
  ⟨rfl, by decide, rfl, by decide⟩

/-- C14, amended. For every entity id and every update request whose `State` is valid UTF-8 and
whose attributes, when not empty, are encodable (no NaN, no infinity, no value of an
unsupported type, strings and keys valid UTF-8) and nested no deeper than the parser allows,
when the request can be created, `SetState` hands exactly one request to the transport: a
`POST` to the base URL followed by `/states/` and the escaped id, whose body is one JSON
object with `state` equal to the `State` of the request, followed by `attributes` with the
JSON value of the map when the map is not empty and by nothing otherwise; decoding that body as
a `StateUpdateRequest` yields that `State`. -/
theorem SetState_request {σ : Type} (rt : Runtime) (c : Client σ) (entityID : GoString)
    (r : StateUpdateRequest) (w : σ)
    (hnew : rt.newRequestError (str "POST") (c.BaseURL ++ stateEndpoint entityID) = none)
    (hstate : utf8Valid r.State = true)
    (hattrs : ∀ m, r.Attributes = some m → m ≠ [] → encodable rt (.map m) = true)
    (hdepth : (jsonOf rt r.toValue).depth ≤ maxNestingDepth) :
    ∃ req body, (c.SetState rt entityID r w).sent = [req] ∧ req.Method = str "POST" ∧
      req.URL = c.BaseURL ++ (str "/states/" ++ PathEscape entityID) ∧
      req.Body = some body ∧
      parseJSON body =
        some (.obj ((str "state", .str r.State) :: attributesMember rt r.Attributes)) ∧
      (Unmarshal rt body StateUpdateRequestType (zeroValue StateUpdateRequestType)).1.field
        (str "state") = some (.string r.State) := by
  obtain ⟨text, hm, hp⟩ := Marshal_parse rt r.toValue (toValue_encodable rt r hstate hattrs) hdepth
  have hparse := hp [] rfl
  rw [List.append_nil, toValue_json] at hparse
  obtain ⟨req, hsent, hreq⟩ := sent_of_buildRequest rt c (str "POST") (stateEndpoint entityID)
    (some text) w (by rw [if_neg (by decide)]; exact hnew)
  obtain ⟨hurl, hbody, hmeth, -⟩ := buildRequest_ok rt c _ _ _ req hreq
  refine ⟨req, text, ?_, ?_, hurl, hbody, hparse, ?_⟩
  · unfold Client.SetState
    rw [hm]
    simp only
    rw [finishStruct_sent, hsent]
  · rw [hmeth, if_neg (by decide)]
  · unfold Unmarshal
    rw [hparse]
    exact decoded_state rt r.State r.Attributes

/-- C14, at the state `on` with the attribute `brightness` 255 for `light.living_room`. -/
theorem SetState_request_witness :
    ∃ req body, ((fixedServer 200 plainStateBody).SetState plainRuntime
        (str "light.living_room")
        { State := str "on", Attributes := some [(str "brightness", .int 255)] } ()).sent =
        [req] ∧
      req.Method = str "POST" ∧
      req.URL = str "http://localhost:8123/api/states/light.living_room" ∧
      req.Body = some body ∧
      parseJSON body = some (.obj [(str "state", .str (str "on")),
        (str "attributes", .obj [(str "brightness", .num (str "255"))])]) ∧
      (Unmarshal plainRuntime body StateUpdateRequestType
        (zeroValue StateUpdateRequestType)).1.field (str "state") =
        some (.string (str "on")) :=
  SetState_request plainRuntime (fixedServer 200 plainStateBody) (str "light.living_room")
    { State := str "on", Attributes := some [(str "brightness", .int 255)] } () rfl (by decide)
    (fun m h _ => by cases h; decide) (by decide)

/-! ## C15: the request of `CallService` -/

/-- C15, counterexample. A mapping that holds a NaN cannot be encoded: `CallService` returns an
error and hands no request to the transport. A mapping whose `entity_id` is the single byte
`0xff`, which is not valid UTF-8, is sent with the `entity_id` U+FFFD: decoding the body gives
an `entity_id` of three bytes, not the entry of the mapping. A mapping whose `brightness` is
the `int` 255 is sent as the number `255`, which decodes to the `float64` 255, not to the
`int`. When the base URL holds a line feed and `http.NewRequest` refuses it, no request is
handed to the transport. -/
theorem CallService_body_can_differ :
    ((fixedServer 200 (str "[]")).CallService plainRuntime (str "light") (str "turn_on")
        (some [(str "level", .float64 floatNaN)]) ()).sent = [] ∧
      ((fixedServer 200 (str "[]")).CallService plainRuntime (str "light") (str "turn_on")
        (some [(str "level", .float64 floatNaN)]) ()).err ≠ none ∧
      (((fixedServer 200 (str "[]")).CallService plainRuntime (str "light") (str "turn_on")
        (some [(str "entity_id", .string [255])]) ()).sent.map
          (fun req => ((Unmarshal plainRuntime (req.Body.getD []) (.map .iface) .nil).1.index
            (str "entity_id")))) = [some (.string [239, 191, 189])] ∧
      (((fixedServer 200 (str "[]")).CallService testRuntime (str "light") (str "turn_on")
        (some [(str "brightness", .int 255)]) ()).sent.map
          (fun req => ((Unmarshal testRuntime (req.Body.getD []) (.map .iface) .nil).1.index
            (str "brightness")))) = [some (.float64 float255)] ∧
      (lineFeedHostClient.CallService controlByteRuntime (str "light") (str "turn_on")
        (some []) ()).sent = [] :=
  ⟨rfl, by decide, rfl, rfl, by decide⟩

theorem Marshal_of_no_error (rt : Runtime) (v : GoValue) (h : (Marshal rt v).2 = none) :
    ∃ text, Marshal rt v = (some text, none) := by
  unfold Marshal at h ⊢
  cases hm : marshalValue rt v with
  | ok t => exact ⟨t, rfl⟩
  | error e =>
    rw [hm] at h
    cases h

/-- C15, amended. For every domain, every service and every non-nil mapping that `json.Marshal`
encodes without error, when the request can be created, `CallService` hands exactly one
request to the transport: a `POST` to the base URL followed by `/services/`, the escaped domain,
`/` and the escaped service, whose body is the encoding of the mapping. When in addition the
mapping is encodable faithfully (strings and keys valid UTF-8, finite numbers), plain (holding
only what the decoder stores in an `interface{}`: nil, booleans, `float64`s the runtime reads
back, strings, slices and maps of these with distinct keys) and nested no deeper than the
parser allows, decoding the body into a `map[string]interface{}` returns no error and gives
back every entry of the mapping. For the empty mapping the body is the two bytes of an empty
object, whereas for the nil mapping every request is without a body. -/
theorem CallService_request {σ : Type} (rt : Runtime) (c : Client σ) (domain service : GoString)
    (m : GoMap) (w : σ)
    (hnew : rt.newRequestError (str "POST") (c.BaseURL ++ serviceEndpoint domain service) = none)
    (hmar : (Marshal rt (.map m)).2 = none) :
    ∃ req body, (c.CallService rt domain service (some m) w).sent = [req] ∧
      req.Method = str "POST" ∧
      req.URL = c.BaseURL ++
        (str "/services/" ++ PathEscape domain ++ str "/" ++ PathEscape service) ∧
      req.Body = some body ∧ Marshal rt (.map m) = (some body, none) ∧
      (encodable rt (.map m) = true → plain rt (.map m) = true →
        (jsonOf rt (.map m)).depth ≤ maxNestingDepth →
        ∃ decoded, Unmarshal rt body (.map .iface) .nil = (.map decoded, none) ∧
          ∀ k v, (k, v) ∈ m → mapGet decoded k = some (canon v)) ∧
      (m = [] → body = [123, 125]) ∧
      ∀ r ∈ (c.CallService rt domain service none w).sent, r.Body = none := by
  obtain ⟨text, hm⟩ := Marshal_of_no_error rt (.map m) hmar
  obtain ⟨req, hsent, hreq⟩ := sent_of_buildRequest rt c (str "POST")
    (serviceEndpoint domain service) (some text) w (by rw [if_neg (by decide)]; exact hnew)
  obtain ⟨hurl, hbody, hmeth, -⟩ := buildRequest_ok rt c _ _ _ req hreq
  refine ⟨req, text, ?_, ?_, hurl, hbody, hm, ?_, ?_, ?_⟩
  · unfold Client.CallService
    simp only [optionalPayload, hm]
    rw [finishSlice_sent, hsent]
  · rw [hmeth, if_neg (by decide)]
  · intro henc hplain hdepth
    obtain ⟨text1, hm1, hp⟩ := Marshal_parse rt (.map m) henc hdepth
    have ht : text1 = text := by
      rw [hm] at hm1
      simp only [Prod.mk.injEq, Option.some.injEq, and_true] at hm1
      exact hm1.symm
    subst ht
    have hparse := hp [] rfl
    rw [List.append_nil] at hparse
    have hnd : (m.map Prod.fst).Nodup := by
      simp only [plain, Bool.and_eq_true, decide_eq_true_eq] at hplain
      exact hplain.2
    refine ⟨sortByKey (canonEntries m), ?_, fun k v h => mapGet_canon m hnd k v h⟩
    unfold Unmarshal
    rw [hparse]
    exact unmarshal_map_jsonOf rt m hplain .nil rfl
  · intro h0
    subst h0
    have : Marshal rt (.map []) = (some [123, 125], none) := by
      simp [Marshal, marshalValue, marshalEntries, sortEntries, joinItems]
    rw [this] at hm
    simp only [Prod.mk.injEq, Option.some.injEq, and_true] at hm
    exact hm.symm
  · intro r hr
    have := CallService_sent_mem rt c domain service none w r hr
    exact (buildRequest_ok rt c _ _ _ r this).2.1

/-- C15, at the request of `TestClient_CallService` (`light.turn_on` with the `entity_id`
`light.living_room`), and at a mapping as `buildLightServiceData` builds it, with an `int` and
a `[]int`: one `POST` whose body is the encoding of the mapping. -/
theorem CallService_request_witness :
    (∃ req body, ((fixedServer 200 (str "[]")).CallService plainRuntime (str "light")
        (str "turn_on") (some [(str "entity_id", .string (str "light.living_room"))]) ()).sent =
        [req] ∧
      req.Method = str "POST" ∧
      req.URL = str "http://localhost:8123/api/services/light/turn_on" ∧
      req.Body = some body ∧
      body = str "\x7b\"entity_id\":\"light.living_room\"\x7d" ∧
      ∃ decoded, Unmarshal plainRuntime body (.map .iface) .nil = (.map decoded, none) ∧
        mapGet decoded (str "entity_id") = some (.string (str "light.living_room"))) ∧
      ∃ req, ((fixedServer 200 (str "[]")).CallService plainRuntime (str "light")
        (str "turn_on")
        (some [(str "entity_id", .string (str "light.living_room")),
          (str "brightness", .int 255), (str "rgb_color", .slice [.int 255, .int 0, .int 0])])
        ()).sent = [req] ∧
      req.URL = str "http://localhost:8123/api/services/light/turn_on" ∧
      req.Body = some (str ("\x7b\"brightness\":255,\"entity_id\":\"light.living_room\"," ++
        "\"rgb_color\":[255,0,0]\x7d")) := by
  constructor
  · obtain ⟨req, body, h1, h2, h3, h4, h5, h6, -, -⟩ :=
      CallService_request plainRuntime (fixedServer 200 (str "[]")) (str "light")
        (str "turn_on") [(str "entity_id", .string (str "light.living_room"))] () rfl
        (by decide)
    obtain ⟨decoded, h6, h7⟩ := h6 (by decide) (by decide) (by decide)
    refine ⟨req, body, h1, h2, h3, h4, ?_, decoded, h6, ?_⟩
    · have h : Marshal plainRuntime
          (.map [(str "entity_id", .string (str "light.living_room"))]) =
          (some (str "\x7b\"entity_id\":\"light.living_room\"\x7d"), none) := by decide
      rw [h] at h5
      simp only [Prod.mk.injEq, Option.some.injEq, and_true] at h5
      exact h5.symm
    · exact h7 _ _ (List.mem_singleton_self _)
  · obtain ⟨req, body, h1, -, h3, h4, h5, -, -, -⟩ :=
      CallService_request plainRuntime (fixedServer 200 (str "[]")) (str "light")
        (str "turn_on")
        [(str "entity_id", .string (str "light.living_room")),
          (str "brightness", .int 255), (str "rgb_color", .slice [.int 255, .int 0, .int 0])]
        () rfl (by decide)
    refine ⟨req, h1, h3, ?_⟩
    have h : Marshal plainRuntime
        (.map [(str "entity_id", .string (str "light.living_room")),
          (str "brightness", .int 255),
          (str "rgb_color", .slice [.int 255, .int 0, .int 0])]) =
        (some (str ("\x7b\"brightness\":255,\"entity_id\":\"light.living_room\"," ++
          "\"rgb_color\":[255,0,0]\x7d")), none) := by decide
    rw [h] at h5
    simp only [Prod.mk.injEq, Option.some.injEq, and_true] at h5
    rw [h4, ← h5]
/-! ## Decoding into a struct what the encoder wrote for it -/

theorem field_some_of_setField (fs : List (GoString × Omit × GoValue)) (n : GoString)
    (v cur : GoValue) (h : (GoValue.struct fs).field n = some cur) :
    (GoValue.struct (setField fs n v)).field n = some v := by
  rw [field_setField, if_pos rfl, h]
  rfl

/-- The content of a field after an object is decoded into a struct. -/
theorem unmarshalFields_field (rt : Runtime) (fields : List (GoString × Bool × GoType))
    (name : GoString) :
    ∀ (ms : List (GoString × JSON)) (acc : List (GoString × Omit × GoValue)) (cur : GoValue),
      (GoValue.struct acc).field name = some cur →
      (GoValue.struct (unmarshalFields rt fields ms acc).1).field name =
        some (ms.foldl (fieldStep rt fields name) cur) := by
  intro ms
  induction ms with
  | nil => intro acc cur h; simpa [unmarshalFields] using h
  | cons m ms ih =>
    intro acc cur h
    obtain ⟨k, x⟩ := m
    simp only [unmarshalFields, List.foldl_cons, fieldStep]
    cases hf : findField fields k with
    | none => exact ih acc cur h
    | some f =>
      obtain ⟨fname, oe, ft⟩ := f
      simp only
      by_cases hn : fname = name
      · subst hn
        simp only [if_true, h, Option.getD_some]
        exact ih _ _ (field_some_of_setField acc fname _ cur h)
      · simp only [hn, if_false]
        refine ih _ _ ?_
        rw [field_setField, if_neg hn]
        exact h

theorem unmarshalFields_no_error (rt : Runtime) (fields : List (GoString × Bool × GoType)) :
    ∀ (ms : List (GoString × JSON)) (acc : List (GoString × Omit × GoValue)),
      (∀ m ∈ ms, ∀ f, findField fields m.1 = some f →
        ∀ cur, (unmarshalValue rt f.2.2 m.2 cur).2 = none) →
      (unmarshalFields rt fields ms acc).2 = none := by
  intro ms
  induction ms with
  | nil => intro acc _; simp [unmarshalFields]
  | cons m ms ih =>
    intro acc h
    obtain ⟨k, x⟩ := m
    simp only [unmarshalFields]
    cases hf : findField fields k with
    | none => exact ih acc (fun y hy => h y (List.mem_cons_of_mem _ hy))
    | some f =>
      obtain ⟨fname, oe, ft⟩ := f
      simp only
      rw [h (k, x) (List.mem_cons_self _ _) _ hf, ih _ (fun y hy => h y (List.mem_cons_of_mem _ hy))]
      rfl

theorem mem_jsonOfFields (rt : Runtime) (fs : List (GoString × Omit × GoValue))
    (m : GoString × JSON) (h : m ∈ jsonOfFields rt fs) :
    ∃ e ∈ fs, omitted e.2.1 e.2.2 = false ∧ m = (e.1, jsonOf rt e.2.2) := by
  induction fs with
  | nil => simp [jsonOfFields] at h
  | cons e fs ih =>
    obtain ⟨n, rule, v⟩ := e
    simp only [jsonOfFields] at h
    by_cases ho : omitted rule v = true
    · rw [if_pos ho] at h
      obtain ⟨e, he, h1⟩ := ih h
      exact ⟨e, List.mem_cons_of_mem _ he, h1⟩
    · rw [if_neg ho] at h
      rcases List.mem_cons.1 h with rfl | h
      · exact ⟨(n, rule, v), List.mem_cons_self _ _, by simpa using ho, rfl⟩
      · obtain ⟨e, he, h1⟩ := ih h
        exact ⟨e, List.mem_cons_of_mem _ he, h1⟩

theorem foldl_fieldStep_other (rt : Runtime) (fields : List (GoString × Bool × GoType))
    (name : GoString) (fs : List (GoString × Omit × GoValue))
    (hexact : ∀ e ∈ fs, ∃ f, findField fields e.1 = some f ∧ f.1 = e.1)
    (hname : name ∉ fs.map (fun e => e.1)) (cur : GoValue) :
    (jsonOfFields rt fs).foldl (fieldStep rt fields name) cur = cur := by
  induction fs generalizing cur with
  | nil => rfl
  | cons e fs ih =>
    obtain ⟨n, rule, v⟩ := e
    have hn : n ≠ name := by
      intro h
      exact hname (by simp [h])
    have hrest : name ∉ fs.map (fun e => e.1) := by
      intro h
      exact hname (by simp [h])
    have ih1 := ih (fun e he => hexact e (List.mem_cons_of_mem _ he)) hrest
    simp only [jsonOfFields]
    by_cases ho : omitted rule v = true
    · rw [if_pos ho]
      exact ih1 cur
    · rw [if_neg ho, List.foldl_cons]
      obtain ⟨f, hf, hf1⟩ := hexact (n, rule, v) (List.mem_cons_self _ _)
      have hstep : fieldStep rt fields name cur (n, jsonOf rt v) = cur := by
        simp only [fieldStep, hf]
        rw [if_neg (by rw [hf1]; exact hn)]
      rw [hstep]
      exact ih1 cur

/-- The content of a field after the JSON value of a struct value is decoded: unchanged when
the struct value has no such field or leaves it out, else what the decoder makes of the JSON
value of the field. -/
theorem foldl_fieldStep (rt : Runtime) (fields : List (GoString × Bool × GoType))
    (name : GoString) (fs : List (GoString × Omit × GoValue))
    (hexact : ∀ e ∈ fs, ∃ f, findField fields e.1 = some f ∧ f.1 = e.1)
    (hnd : (fs.map (fun e => e.1)).Nodup) (cur : GoValue) :
    (jsonOfFields rt fs).foldl (fieldStep rt fields name) cur =
      match fs.find? (fun e => decide (e.1 = name)), findField fields name with
      | some e, some f =>
        if omitted e.2.1 e.2.2 then cur else (unmarshalValue rt f.2.2 (jsonOf rt e.2.2) cur).1
      | _, _ => cur := by
  induction fs generalizing cur with
  | nil => simp [jsonOfFields]
  | cons e fs ih =>
    obtain ⟨n, rule, v⟩ := e
    simp only [List.map_cons, List.nodup_cons] at hnd
    have ih1 := ih (fun e he => hexact e (List.mem_cons_of_mem _ he)) hnd.2
    obtain ⟨f, hf, hf1⟩ := hexact (n, rule, v) (List.mem_cons_self _ _)
    by_cases hn : n = name
    · subst hn
      have hother := foldl_fieldStep_other rt fields n fs
        (fun e he => hexact e (List.mem_cons_of_mem _ he)) hnd.1
      simp only [List.find?, decide_True, hf, jsonOfFields]
      by_cases ho : omitted rule v = true
      · rw [if_pos ho, if_pos ho]
        exact hother cur
      · rw [if_neg ho, if_neg ho, List.foldl_cons, hother]
        simp only [fieldStep, hf]
        rw [if_pos hf1]
    · simp only [List.find?, hn, decide_False, jsonOfFields]
      by_cases ho : omitted rule v = true
      · rw [if_pos ho]
        exact ih1 cur
      · rw [if_neg ho, List.foldl_cons]
        have hstep : fieldStep rt fields name cur (n, jsonOf rt v) = cur := by
          simp only [fieldStep, hf]
          rw [if_neg (by rw [hf1]; exact hn)]
        rw [hstep]
        exact ih1 cur

theorem unmarshalValue_struct_obj (rt : Runtime) (name : GoString)
    (fields : List (GoString × Bool × GoType)) (ms : List (GoString × JSON)) (cur : GoValue) :
    unmarshalValue rt (.struct name fields) (.obj ms) cur =
      (.struct (unmarshalFields rt fields ms (structFields (.struct name fields) cur)).1,
        (unmarshalFields rt fields ms (structFields (.struct name fields) cur)).2) := by
  simp only [unmarshalValue, GoType.elem]

theorem unmarshalValue_string_ok (rt : Runtime) (x : GoString) (cur : GoValue) :
    unmarshalValue rt .string (jsonOf rt (.string x)) cur = (.string x, none) := by
  simp only [jsonOf, unmarshalValue, GoType.elem]

theorem unmarshal_map_no_error (rt : Runtime) (m : GoMap) (h : plain rt (.map m) = true)
    (cur : GoValue) : (unmarshalValue rt (.map .iface) (jsonOf rt (.map m)) cur).2 = none := by
  simp only [plain, Bool.and_eq_true, decide_eq_true_eq] at h
  have hall := toInterface_entries rt m h.1
  have hj : sortByKey (jsonOfEntries rt m) =
      (sortByKey m).map (fun e => (e.1, jsonOf rt e.2)) := by
    rw [jsonOfEntries_map]
    exact sortByKey_map (jsonOf rt) m
  simp only [jsonOf, unmarshalValue, GoType.elem, hj]
  apply unmarshalEntries_no_error
  intro x hx
  obtain ⟨e, he, rfl⟩ := List.mem_map.1 hx
  rw [unmarshalValue_iface, hall e ((mem_sortByKey e m).1 he)]

theorem Context_no_error (rt : Runtime) (cx : Context) (cur : GoValue) :
    (unmarshalValue rt (.ptr ContextType) (jsonOf rt cx.toValue) cur).2 = none := by
  have hj : jsonOf rt cx.toValue = .obj (jsonOfFields rt
      [(str "id", .never, .string cx.ID), (str "parent_id", .whenEmpty, .string cx.ParentID),
       (str "user_id", .whenEmpty, .string cx.UserID)]) := by
    simp only [Context.toValue, jsonOf]
  rw [hj]
  simp only [unmarshalValue, GoType.elem, ContextType]
  apply unmarshalFields_no_error
  intro m hm f hf cur1
  obtain ⟨e, he, -, rfl⟩ := mem_jsonOfFields rt _ m hm
  simp only [List.mem_cons, List.mem_singleton, List.not_mem_nil, or_false] at he
  rcases he with rfl | rfl | rfl
  · have : f = (str "id", false, .string) := by
      have h1 : findField [(str "id", false, GoType.string), (str "parent_id", true, .string),
        (str "user_id", true, .string)] (str "id") = some (str "id", false, .string) := rfl
      rw [h1] at hf
      exact (Option.some.inj hf).symm
    subst this
    rw [unmarshalValue_string_ok]
  · have : f = (str "parent_id", true, .string) := by
      have h1 : findField [(str "id", false, GoType.string), (str "parent_id", true, .string),
        (str "user_id", true, .string)] (str "parent_id") =
        some (str "parent_id", true, .string) := rfl
      rw [h1] at hf
      exact (Option.some.inj hf).symm
    subst this
    rw [unmarshalValue_string_ok]
  · have : f = (str "user_id", true, .string) := by
      have h1 : findField [(str "id", false, GoType.string), (str "parent_id", true, .string),
        (str "user_id", true, .string)] (str "user_id") =
        some (str "user_id", true, .string) := rfl
      rw [h1] at hf
      exact (Option.some.inj hf).symm
    subst this
    rw [unmarshalValue_string_ok]

theorem State_exact (s : State) :
    ∀ e ∈ s.toFields, ∃ f, findField StateType.fields e.1 = some f ∧ f.1 = e.1 := by
  intro e he
  simp only [State.toFields, List.mem_cons, List.mem_singleton, List.not_mem_nil, or_false] at he
  rcases he with rfl | rfl | rfl | rfl | rfl | rfl <;> exact ⟨_, rfl, rfl⟩

theorem State_nodup (s : State) : (s.toFields.map (fun e => e.1)).Nodup := by
  show [str "entity_id", str "state", str "attributes", str "last_changed",
    str "last_updated", str "context"].Nodup
  decide

theorem State_no_error (rt : Runtime) (s : State)
    (hplain : ∀ m, s.Attributes = some m → plain rt (.map m) = true)
    (acc : List (GoString × Omit × GoValue)) :
    (unmarshalFields rt StateType.fields (jsonOfFields rt s.toFields) acc).2 = none := by
  apply unmarshalFields_no_error
  intro m hm f hf cur
  obtain ⟨e, he, ho, rfl⟩ := mem_jsonOfFields rt _ m hm
  simp only [State.toFields, List.mem_cons, List.mem_singleton, List.not_mem_nil, or_false] at he
  rcases he with rfl | rfl | rfl | rfl | rfl | rfl
  · have h1 : findField StateType.fields (str "entity_id") =
        some (str "entity_id", false, .string) := rfl
    rw [h1] at hf
    obtain rfl := (Option.some.inj hf)
    rw [unmarshalValue_string_ok]
  · have h1 : findField StateType.fields (str "state") = some (str "state", false, .string) := rfl
    rw [h1] at hf
    obtain rfl := (Option.some.inj hf)
    rw [unmarshalValue_string_ok]
  · have h1 : findField StateType.fields (str "attributes") =
        some (str "attributes", true, .map .iface) := rfl
    rw [h1] at hf
    obtain rfl := (Option.some.inj hf)
    cases ha : s.Attributes with
    | none => rw [ha] at ho; simp [omitted, isEmptyValue] at ho
    | some m =>
      simp only [ha]
      exact unmarshal_map_no_error rt m (hplain m ha) cur
  · have h1 : findField StateType.fields (str "last_changed") =
        some (str "last_changed", true, .string) := rfl
    rw [h1] at hf
    obtain rfl := (Option.some.inj hf)
    rw [unmarshalValue_string_ok]
  · have h1 : findField StateType.fields (str "last_updated") =
        some (str "last_updated", true, .string) := rfl
    rw [h1] at hf
    obtain rfl := (Option.some.inj hf)
    rw [unmarshalValue_string_ok]
  · have h1 : findField StateType.fields (str "context") =
        some (str "context", true, .ptr ContextType) := rfl
    rw [h1] at hf
    obtain rfl := (Option.some.inj hf)
    cases hc : s.Context with
    | none => rw [hc] at ho; simp [omitted] at ho
    | some cx =>
      simp only [hc]
      exact Context_no_error rt cx cur

theorem omitted_string (x : GoString) (h : omitted .whenEmpty (.string x) = true) : x = [] := by
  simp only [omitted, isEmptyValue] at h
  exact List.isEmpty_iff.1 h

/-- The fields of the `State` decoded from the JSON value of a `State`. -/
theorem State_decoded (rt : Runtime) (s : State)
    (hplain : ∀ m, s.Attributes = some m → plain rt (.map m) = true) :
    ∃ v, unmarshalValue rt StateType (jsonOf rt s.toValue) (zeroValue StateType) = (v, none) ∧
      v.field (str "entity_id") = some (.string s.EntityID) ∧
      v.field (str "state") = some (.string s.State) ∧
      v.field (str "last_changed") = some (.string s.LastChanged) ∧
      v.field (str "last_updated") = some (.string s.LastUpdated) ∧
      v.field (str "attributes") = some (decodedAttributes s.Attributes) := by
  have hj : jsonOf rt s.toValue = .obj (jsonOfFields rt s.toFields) := by
    simp only [State.toValue, jsonOf]
  have hu := unmarshalValue_struct_obj rt (str "client.State") StateType.fields
    (jsonOfFields rt s.toFields) (zeroValue StateType)
  have hu1 : unmarshalValue rt StateType (jsonOf rt s.toValue) (zeroValue StateType) =
      (.struct (unmarshalFields rt StateType.fields (jsonOfFields rt s.toFields)
          (structFields (.struct (str "client.State") StateType.fields)
            (zeroValue StateType))).1,
        (unmarshalFields rt StateType.fields (jsonOfFields rt s.toFields)
          (structFields (.struct (str "client.State") StateType.fields)
            (zeroValue StateType))).2) := by
    rw [hj]; exact hu
  have hfield := fun name cur h =>
    (unmarshalFields_field rt StateType.fields name (jsonOfFields rt s.toFields)
      (structFields (.struct (str "client.State") StateType.fields) (zeroValue StateType))
      cur h).trans
      (congrArg some (foldl_fieldStep rt StateType.fields name s.toFields (State_exact s)
        (State_nodup s) cur))
  refine ⟨_, by rw [hu1, State_no_error rt s hplain], ?_, ?_, ?_, ?_, ?_⟩
  · rw [hfield (str "entity_id") (.string []) rfl]
    have h1 : s.toFields.find? (fun e => decide (e.1 = str "entity_id")) =
        some (str "entity_id", .never, .string s.EntityID) := rfl
    have h2 : findField StateType.fields (str "entity_id") =
        some (str "entity_id", false, .string) := rfl
    rw [h1, h2]
    simp only [omitted, Bool.false_eq_true, if_false, unmarshalValue_string_ok]
  · rw [hfield (str "state") (.string []) rfl]
    have h1 : s.toFields.find? (fun e => decide (e.1 = str "state")) =
        some (str "state", .never, .string s.State) := rfl
    have h2 : findField StateType.fields (str "state") = some (str "state", false, .string) := rfl
    rw [h1, h2]
    simp only [omitted, Bool.false_eq_true, if_false, unmarshalValue_string_ok]
  · rw [hfield (str "last_changed") (.string []) rfl]
    have h1 : s.toFields.find? (fun e => decide (e.1 = str "last_changed")) =
        some (str "last_changed", .whenEmpty, .string s.LastChanged) := rfl
    have h2 : findField StateType.fields (str "last_changed") =
        some (str "last_changed", true, .string) := rfl
    rw [h1, h2]
    simp only
    by_cases ho : omitted .whenEmpty (.string s.LastChanged) = true
    · rw [if_pos ho, omitted_string _ ho]
    · rw [if_neg ho, unmarshalValue_string_ok]
  · rw [hfield (str "last_updated") (.string []) rfl]
    have h1 : s.toFields.find? (fun e => decide (e.1 = str "last_updated")) =
        some (str "last_updated", .whenEmpty, .string s.LastUpdated) := rfl
    have h2 : findField StateType.fields (str "last_updated") =
        some (str "last_updated", true, .string) := rfl
    rw [h1, h2]
    simp only
    by_cases ho : omitted .whenEmpty (.string s.LastUpdated) = true
    · rw [if_pos ho, omitted_string _ ho]
    · rw [if_neg ho, unmarshalValue_string_ok]
  · rw [hfield (str "attributes") .nil rfl]
    have h1 : s.toFields.find? (fun e => decide (e.1 = str "attributes")) =
        some (str "attributes", .whenEmpty,
          match s.Attributes with
          | none => .nil
          | some m => .map m) := rfl
    have h2 : findField StateType.fields (str "attributes") =
        some (str "attributes", true, .map .iface) := rfl
    rw [h1, h2]
    simp only
    cases ha : s.Attributes with
    | none => simp [omitted, isEmptyValue, decodedAttributes]
    | some m =>
      cases m with
      | nil => simp [omitted, isEmptyValue, decodedAttributes]
      | cons e m =>
        have := unmarshal_map_jsonOf rt (e :: m) (hplain _ ha) .nil rfl
        simp only [omitted, isEmptyValue, List.isEmpty_cons, Bool.false_eq_true, if_false, this,
          decodedAttributes]

theorem mem_of_mapGet {ν : Type} (L : List (GoString × ν)) (k : GoString) (v : ν)
    (h : mapGet L k = some v) : (k, v) ∈ L := by
  unfold mapGet at h
  cases hf : L.find? (fun e => decide (e.1 = k)) with
  | none => rw [hf] at h; simp at h
  | some e =>
    rw [hf] at h
    simp only [Option.map_some', Option.some.injEq] at h
    have h1 := List.find?_some hf
    simp only [decide_eq_true_eq] at h1
    have h2 := List.mem_of_find?_eq_some hf
    obtain ⟨a, b⟩ := e
    simp only at h h1
    subst h h1
    exact h2

/-- The decoded attributes hold, key by key, the attributes that were encoded. -/
theorem decodedAttributes_index (attrs : Option GoMap)
    (hnd : ∀ m, attrs = some m → (m.map Prod.fst).Nodup) (k : GoString) :
    (decodedAttributes attrs).index k = (mapGet (attrs.getD []) k).map canon := by
  rcases attrs with _ | _ | ⟨e, m⟩
  · rfl
  · rfl
  · have hn := hnd (e :: m) rfl
    simp only [decodedAttributes, GoValue.index, Option.getD_some]
    cases hg : mapGet (e :: m) k with
    | some x =>
      rw [mapGet_canon (e :: m) hn k x (mem_of_mapGet _ k x hg)]
      rfl
    | none =>
      cases hc : mapGet (sortByKey (canonEntries (e :: m))) k with
      | none => rfl
      | some y =>
        exfalso
        have h1 := mem_of_mapGet _ k y hc
        rw [mem_sortByKey, canonEntries_map] at h1
        obtain ⟨e1, he1, heq⟩ := List.mem_map.1 h1
        obtain ⟨k1, x1⟩ := e1
        simp only [Prod.mk.injEq] at heq
        obtain ⟨rfl, -⟩ := heq
        rw [mapGet_of_mem (e :: m) hn k1 x1 he1] at hg
        cases hg

/-! ## C11: `GetState` on the encoding of a `State` -/

/-- C11, counterexample. The `State` of `invalidState` is the single byte `0xff`; the server
answers 200 with the JSON encoding of `invalidState`; `GetState` returns, without error, a
`State` whose `State` is the three bytes of U+FFFD, not the `State` that was encoded. The
attribute `brightness` of `intAttributeState` is the `int` 255; the server answers 200 with the
JSON encoding of `intAttributeState`; `GetState` returns, without error, a `State` whose
attribute `brightness` is the `float64` 255, not the `int`. -/
theorem GetState_changes_invalid_text :
    Marshal plainRuntime invalidState.toValue = (some invalidStateBody, none) ∧
      ((fixedServer 200 invalidStateBody).GetState plainRuntime (str "light.a") ()).err = none ∧
      (((fixedServer 200 invalidStateBody).GetState plainRuntime (str "light.a") ()).val.bind
        (fun v => v.field (str "state"))) = some (.string [239, 191, 189]) ∧
      invalidState.State = [255] ∧
      Marshal testRuntime intAttributeState.toValue = (some intAttributeBody, none) ∧
      ((fixedServer 200 intAttributeBody).GetState testRuntime (str "light.a") ()).err = none ∧
      ((((fixedServer 200 intAttributeBody).GetState testRuntime (str "light.a") ()).val.bind
        (fun v => v.field (str "attributes"))).bind (fun a => a.index (str "brightness"))) =
        some (.float64 float255) :=
  ⟨by decide, rfl, rfl, rfl, by decide, rfl, rfl⟩

/-- C11, amended. For every `State` that is encodable (strings and keys valid UTF-8, no NaN, no
infinity, no value of an unsupported type), whose attributes are plain (only what the decoder
stores in an `interface{}`: nil, booleans, `float64`s the runtime reads back, strings, slices
and maps of these with distinct keys) and which is nested no deeper than the parser allows:
when the server answers `GetState` with a status in 200..299 and the JSON encoding of the
`State`, followed by white space only, `GetState` returns no error and a `State` whose
`EntityID`, `State`, `LastChanged` and `LastUpdated` are those of the encoded `State`, and whose
`Attributes` are nil when the encoded ones were nil or empty and else hold, key by key, the
encoded attributes. -/
theorem GetState_round_trip {σ : Type} (rt : Runtime) (c : Client σ) (entityID : GoString)
    (s : State) (w w1 : σ) (req : Request) (code : Int) (text tail : GoString)
    (hreq : c.buildRequest rt (str "GET") (stateEndpoint entityID) none = .ok req)
    (htext : Marshal rt s.toValue = (some text, none))
    (hdo : c.HTTPClient.Do req w = (.ok { StatusCode := code, Body := .ok (text ++ tail) }, w1))
    (hlo : 200 ≤ code) (hhi : code ≤ 299) (htail : skipWS tail = [])
    (henc : encodable rt s.toValue = true)
    (hplain : ∀ m, s.Attributes = some m → plain rt (.map m) = true)
    (hdepth : (jsonOf rt s.toValue).depth ≤ maxNestingDepth) :
    (c.GetState rt entityID w).err = none ∧
      ∃ v, (c.GetState rt entityID w).val = some v ∧
        v.field (str "entity_id") = some (.string s.EntityID) ∧
        v.field (str "state") = some (.string s.State) ∧
        v.field (str "last_changed") = some (.string s.LastChanged) ∧
        v.field (str "last_updated") = some (.string s.LastUpdated) ∧
        v.field (str "attributes") = some (decodedAttributes s.Attributes) ∧
        ∀ k, (decodedAttributes s.Attributes).index k =
          (mapGet (s.Attributes.getD []) k).map canon := by
  obtain ⟨text1, hm, hp⟩ := Marshal_parse rt s.toValue henc hdepth
  rw [htext] at hm
  simp only [Prod.mk.injEq, Option.some.injEq, and_true] at hm
  subst hm
  have hparse := hp tail htail
  have hx := doRequest_delivered rt c _ _ _ w w1 req code _ hreq hdo hlo hhi
  have hfs := finishStruct_delivered rt
    (c.doRequest rt (str "GET") (stateEndpoint entityID) none w)
    (str "failed to get state for " ++ entityID ++ str ": ")
    (str "failed to parse state response: ") StateType _ _ (by rw [hx]) (by rw [hx]) hparse
  obtain ⟨v, hv, h1, h2, h3, h4, h5⟩ := State_decoded rt s hplain
  rw [hv] at hfs
  have hg : c.GetState rt entityID w = _ := hfs
  rw [hg]
  refine ⟨rfl, v, rfl, h1, h2, h3, h4, h5, ?_⟩
  intro k
  apply decodedAttributes_index
  intro m hm
  have := hplain m hm
  simp only [plain, Bool.and_eq_true, decide_eq_true_eq] at this
  exact this.2

/-- C11, at the server of `TestClient_GetState`: the state `on` of `light.living_room` with the
attributes `brightness` 255 and `friendly_name`. -/
theorem GetState_round_trip_witness :
    ((fixedServer 200 livingRoomBody).GetState testRuntime (str "light.living_room") ()).err =
        none ∧
      ∃ v, ((fixedServer 200 livingRoomBody).GetState testRuntime (str "light.living_room")
          ()).val = some v ∧
        v.field (str "entity_id") = some (.string (str "light.living_room")) ∧
        v.field (str "state") = some (.string (str "on")) ∧
        (v.field (str "attributes")).bind (fun a => a.index (str "brightness")) =
          some (.float64 float255) ∧
        (v.field (str "attributes")).bind (fun a => a.index (str "friendly_name")) =
          some (.string (str "Living Room Light")) := by
  obtain ⟨h0, v, hv, h1, h2, -, -, h5, h6⟩ :=
    GetState_round_trip testRuntime (fixedServer 200 livingRoomBody) (str "light.living_room")
      livingRoomState () () _ 200 (livingRoomBody.dropLast) [10] rfl (by decide) rfl
      (by decide) (by decide) rfl (by decide)
      (fun m hm => by cases hm; decide) (by decide)
  refine ⟨h0, v, hv, h1, h2, ?_, ?_⟩
  · rw [h5]
    exact h6 (str "brightness")
  · rw [h5]
    exact h6 (str "friendly_name")
/-! ## The outcome of a call depends on the configuration, the arguments and the responses -/

theorem buildRequest_congr {σ τ : Type} (rt : Runtime) (c : Client σ) (c1 : Client τ)
    (hb : c.BaseURL = c1.BaseURL) (ht : c.Token = c1.Token) (method endpoint : GoString)
    (body : Option GoString) :
    c.buildRequest rt method endpoint body = c1.buildRequest rt method endpoint body := by
  unfold Client.buildRequest
  rw [hb, ht]

theorem doRequest_congr {σ τ : Type} (rt : Runtime) (c : Client σ) (c1 : Client τ) (w : σ)
    (w1 : τ) (hb : c.BaseURL = c1.BaseURL) (ht : c.Token = c1.Token)
    (hdo : ∀ req, (c.HTTPClient.Do req w).1 = (c1.HTTPClient.Do req w1).1)
    (method endpoint : GoString) (body : Option GoString) :
    SameOutcome (c.doRequest rt method endpoint body w)
      (c1.doRequest rt method endpoint body w1) := by
  unfold Client.doRequest
  rw [← buildRequest_congr rt c c1 hb ht]
  cases c.buildRequest rt method endpoint body with
  | error e => exact ⟨rfl, rfl, rfl⟩
  | ok req =>
    dsimp only
    have h := hdo req
    cases hd : c.HTTPClient.Do req w with
    | mk r v =>
      cases hd1 : c1.HTTPClient.Do req w1 with
      | mk r1 v1 =>
        rw [hd, hd1] at h
        simp only at h
        subst h
        cases r with
        | error e => exact ⟨rfl, rfl, rfl⟩
        | ok resp =>
          simp only
          cases resp.Body with
          | error e => exact ⟨rfl, rfl, rfl⟩
          | ok b =>
            simp only
            split <;> exact ⟨rfl, rfl, rfl⟩

theorem finishStruct_congr {σ τ : Type} (rt : Runtime) (r : Call σ GoString)
    (r1 : Call τ GoString) (h : SameOutcome r r1) (failText parseText : GoString) (t : GoType) :
    SameOutcome (finishStruct rt r failText parseText t)
      (finishStruct rt r1 failText parseText t) := by
  obtain ⟨v, e, s, w⟩ := r
  obtain ⟨v1, e1, s1, w1⟩ := r1
  obtain ⟨hv, he, hs⟩ := h
  simp only at hv he hs
  subst hv he hs
  unfold finishStruct
  cases e with
  | some err => exact ⟨rfl, rfl, rfl⟩
  | none =>
    simp only
    cases (Unmarshal rt (v.getD []) t (zeroValue t)).2 <;> exact ⟨rfl, rfl, rfl⟩

theorem finishSlice_congr {σ τ : Type} (rt : Runtime) (r : Call σ GoString)
    (r1 : Call τ GoString) (h : SameOutcome r r1) (failText parseText : GoString) (t : GoType) :
    SameOutcome (finishSlice rt r failText parseText t)
      (finishSlice rt r1 failText parseText t) := by
  obtain ⟨v, e, s, w⟩ := r
  obtain ⟨v1, e1, s1, w1⟩ := r1
  obtain ⟨hv, he, hs⟩ := h
  simp only at hv he hs
  subst hv he hs
  unfold finishSlice
  cases e with
  | some err => exact ⟨rfl, rfl, rfl⟩
  | none =>
    simp only
    cases (Unmarshal rt (v.getD []) (.slice t) .nil).2 <;> exact ⟨rfl, rfl, rfl⟩

/-- The results of every endpoint method and the requests it hands to the transport are
determined by the base URL and the token of the client, the arguments of the call and the
responses of the transport: two clients with the same base URL and token whose transports
answer every request alike give the same outcome, whatever else differs in the outside
world. -/
theorem outcome_depends_on_response {σ τ : Type} (rt : Runtime) (c : Client σ) (c1 : Client τ)
    (w : σ) (w1 : τ) (hb : c.BaseURL = c1.BaseURL) (ht : c.Token = c1.Token)
    (hdo : ∀ req, (c.HTTPClient.Do req w).1 = (c1.HTTPClient.Do req w1).1) :
    SameOutcome (c.Health rt w) (c1.Health rt w1) ∧
      SameOutcome (c.GetConfig rt w) (c1.GetConfig rt w1) ∧
      SameOutcome (c.GetStates rt w) (c1.GetStates rt w1) ∧
      (∀ id, SameOutcome (c.GetState rt id w) (c1.GetState rt id w1)) ∧
      (∀ id r, SameOutcome (c.SetState rt id r w) (c1.SetState rt id r w1)) ∧
      (∀ d s data, SameOutcome (c.CallService rt d s data w) (c1.CallService rt d s data w1)) ∧
      SameOutcome (c.GetServices rt w) (c1.GetServices rt w1) ∧
      SameOutcome (c.GetEvents rt w) (c1.GetEvents rt w1) ∧
      (∀ t data, SameOutcome (c.FireEvent rt t data w) (c1.FireEvent rt t data w1)) := by
  have hd := doRequest_congr rt c c1 w w1 hb ht hdo
  refine ⟨?_, ?_, ?_, ?_, ?_, ?_, ?_, ?_, ?_⟩
  · exact finishStruct_congr rt _ _ (hd _ _ _) _ _ _
  · exact finishStruct_congr rt _ _ (hd _ _ _) _ _ _
  · exact finishSlice_congr rt _ _ (hd _ _ _) _ _ _
  · intro id
    exact finishStruct_congr rt _ _ (hd _ _ _) _ _ _
  · intro id r
    unfold Client.SetState
    cases hm : Marshal rt r.toValue with
    | mk p e =>
      cases e with
      | some err => exact ⟨rfl, rfl, rfl⟩
      | none => exact finishStruct_congr rt _ _ (hd _ _ _) _ _ _
  · intro d s data
    unfold Client.CallService
    cases hm : optionalPayload rt data with
    | mk p e =>
      cases e with
      | some err => exact ⟨rfl, rfl, rfl⟩
      | none => exact finishSlice_congr rt _ _ (hd _ _ _) _ _ _
  · exact finishSlice_congr rt _ _ (hd _ _ _) _ _ _
  · exact finishSlice_congr rt _ _ (hd _ _ _) _ _ _
  · intro t data
    unfold Client.FireEvent
    cases hm : optionalPayload rt data with
    | mk p e =>
      cases e with
      | some err => exact ⟨rfl, rfl, rfl⟩
      | none => exact finishStruct_congr rt _ _ (hd _ _ _) _ _ _
/-! ## Lemmas: code points and bytes -/

theorem utf8Size_ascii (b : Byte) (rest : GoString) (hb : b.val < 128) :
    utf8Size (b :: rest) = 1 := by
  unfold utf8Size
  simp only
  rw [if_pos hb]

theorem utf8Size_cases (b : Byte) (rest : GoString) (hb : 128 ≤ b.val) :
    utf8Size (b :: rest) = 0 ∨
      (utf8Size (b :: rest) = 2 ∧ (194 ≤ b.val ∧ b.val ≤ 223) ∧
        ∃ b1 t, rest = b1 :: t ∧ 128 ≤ b1.val) ∨
      (utf8Size (b :: rest) = 3 ∧ (224 ≤ b.val ∧ b.val ≤ 239) ∧
        ∃ b1 b2 t, rest = b1 :: b2 :: t ∧ (128 ≤ b1.val ∧ b1.val ≤ 191) ∧ 128 ≤ b2.val ∧
          (b.val = 224 → 160 ≤ b1.val)) ∨
      (utf8Size (b :: rest) = 4 ∧ (240 ≤ b.val ∧ b.val ≤ 244) ∧
        ∃ b1 b2 b3 t, rest = b1 :: b2 :: b3 :: t ∧ (128 ≤ b1.val ∧ b1.val ≤ 191) ∧
          128 ≤ b2.val ∧ 128 ≤ b3.val ∧ (b.val = 240 → 144 ≤ b1.val)) := by
  have hb0 : ¬ b.val < 128 := by omega
  unfold utf8Size
  simp only
  rw [if_neg hb0]
  by_cases h1 : b.val < 194
  · rw [if_pos h1]; exact Or.inl rfl
  rw [if_neg h1]
  by_cases h2 : b.val ≤ 223
  · rw [if_pos h2]
    rcases rest with _ | ⟨b1, t⟩
    · exact Or.inl rfl
    · simp only
      by_cases hc : (decide (128 ≤ b1.val) && decide (b1.val ≤ 191)) = true
      · rw [if_pos hc]
        simp only [Bool.and_eq_true, decide_eq_true_eq] at hc
        exact Or.inr (Or.inl ⟨rfl, by omega, b1, t, rfl, hc.1⟩)
      · rw [if_neg hc]; exact Or.inl rfl
  rw [if_neg h2]
  by_cases h3 : b.val ≤ 239
  · rw [if_pos h3]
    rcases rest with _ | ⟨b1, _ | ⟨b2, t⟩⟩
    · exact Or.inl rfl
    · exact Or.inl rfl
    · simp only
      by_cases hc : (decide ((if b.val = 224 then 160 else 128) ≤ b1.val) &&
          decide (b1.val ≤ (if b.val = 237 then 159 else 191)) &&
          (decide (128 ≤ b2.val) && decide (b2.val ≤ 191))) = true
      · rw [if_pos hc]
        simp only [Bool.and_eq_true, decide_eq_true_eq] at hc
        refine Or.inr (Or.inr (Or.inl ⟨rfl, by omega, b1, b2, t, rfl, ?_, hc.2.1, ?_⟩))
        · have := hc.1.1
          have hhi := hc.1.2
          split at this <;> split at hhi <;> omega
        · intro h224
          have := hc.1.1
          rw [if_pos h224] at this
          exact this
      · rw [if_neg hc]; exact Or.inl rfl
  rw [if_neg h3]
  by_cases h4 : b.val ≤ 244
  · rw [if_pos h4]
    rcases rest with _ | ⟨b1, _ | ⟨b2, _ | ⟨b3, t⟩⟩⟩
    · exact Or.inl rfl
    · exact Or.inl rfl
    · exact Or.inl rfl
    · simp only
      by_cases hc : (decide ((if b.val = 240 then 144 else 128) ≤ b1.val) &&
          decide (b1.val ≤ (if b.val = 244 then 143 else 191)) &&
          (decide (128 ≤ b2.val) && decide (b2.val ≤ 191)) &&
          (decide (128 ≤ b3.val) && decide (b3.val ≤ 191))) = true
      · rw [if_pos hc]
        simp only [Bool.and_eq_true, decide_eq_true_eq] at hc
        refine Or.inr (Or.inr (Or.inr ⟨rfl, by omega, b1, b2, b3, t, rfl, ?_, hc.1.2.1,
          hc.2.1, ?_⟩))
        · have := hc.1.1.1
          have hhi := hc.1.1.2
          split at this <;> split at hhi <;> omega
        · intro h240
          have := hc.1.1.1
          rw [if_pos h240] at this
          exact this
      · rw [if_neg hc]; exact Or.inl rfl
  · rw [if_neg h4]; exact Or.inl rfl

theorem isAlnum_lt (c : Byte) (h : isAlnum c = true) : c.val < 128 := by
  simp only [isAlnum, Bool.or_eq_true, Bool.and_eq_true, decide_eq_true_eq] at h
  omega

theorem isAlnum_high (c : Byte) (h : 128 ≤ c.val) : isAlnum c = false := by
  cases hc : isAlnum c with
  | false => rfl
  | true => have := isAlnum_lt c hc; omega

theorem decodeRune_ascii (b : Byte) (rest : GoString) (hb : b.val < 128) :
    decodeRune (b :: rest) = (b.val, 1) := by
  unfold decodeRune
  rw [utf8Size_ascii b rest hb]

/-- The code point at the head of a text is in the class `a-z0-9` exactly when the first byte
is; then its width is 1; otherwise its bytes are all outside the class. -/
theorem decodeRune_class (b : Byte) (rest : GoString) :
    inClass (decodeRune (b :: rest)).1 = isAlnum b ∧
      (isAlnum b = true → (decodeRune (b :: rest)).2 = 1) ∧
      ∃ p Y, b :: rest = p ++ Y ∧ p.length = (decodeRune (b :: rest)).2 ∧ p ≠ [] ∧
        (isAlnum b = false → ∀ c ∈ p, isAlnum c = false) := by
  by_cases hb : b.val < 128
  · rw [decodeRune_ascii b rest hb]
    refine ⟨rfl, fun _ => rfl, [b], rest, rfl, rfl, by simp, ?_⟩
    intro h c hc
    simp only [List.mem_singleton] at hc
    rw [hc]; exact h
  · have hb1 : 128 ≤ b.val := by omega
    have hna : isAlnum b = false := isAlnum_high b hb1
    have hw : ∀ n : Nat, isAlnum b = true → n = 1 := fun n h => by rw [hna] at h; cases h
    rcases utf8Size_cases b rest hb1 with h | ⟨h, hlo, b1, t, rfl, h1⟩ |
      ⟨h, hlo, b1, b2, t, rfl, h1, h2, h3⟩ | ⟨h, hlo, b1, b2, b3, t, rfl, h1, h2, h3, h4⟩
    · have hd : decodeRune (b :: rest) = (65533, 1) := by
        unfold decodeRune
        rw [h]
      rw [hd]
      refine ⟨by rw [hna]; rfl, hw _, [b], rest, rfl, rfl,
        by simp, ?_⟩
      intro _ c hc
      simp only [List.mem_singleton] at hc
      rw [hc]; exact hna
    · have hd : decodeRune (b :: b1 :: t) = (b.val % 32 * 64 + b1.val % 64, 2) := by
        unfold decodeRune
        rw [h]
      rw [hd]
      refine ⟨?_, hw _, [b, b1], t, rfl, rfl, by simp, ?_⟩
      · rw [hna]
        have : b.val < 256 := b.isLt
        simp only [inClass, Bool.or_eq_false_iff, Bool.and_eq_false_iff, decide_eq_false_iff_not]
        omega
      · intro _ c hc
        simp only [List.mem_cons, List.mem_singleton, List.not_mem_nil, or_false] at hc
        rcases hc with rfl | rfl
        · exact hna
        · exact isAlnum_high _ h1
    · have hd : decodeRune (b :: b1 :: b2 :: t) =
          (b.val % 16 * 4096 + b1.val % 64 * 64 + b2.val % 64, 3) := by
        unfold decodeRune
        rw [h]
      rw [hd]
      refine ⟨?_, hw _, [b, b1, b2], t, rfl, rfl, by simp, ?_⟩
      · rw [hna]
        have : b.val < 256 := b.isLt
        have : b1.val < 256 := b1.isLt
        simp only [inClass, Bool.or_eq_false_iff, Bool.and_eq_false_iff, decide_eq_false_iff_not]
        by_cases h224 : b.val = 224
        · have := h3 h224
          omega
        · omega
      · intro _ c hc
        simp only [List.mem_cons, List.mem_singleton, List.not_mem_nil, or_false] at hc
        rcases hc with rfl | rfl | rfl
        · exact hna
        · exact isAlnum_high _ h1.1
        · exact isAlnum_high _ h2
    · have hd : decodeRune (b :: b1 :: b2 :: b3 :: t) =
          (b.val % 8 * 262144 + b1.val % 64 * 4096 + b2.val % 64 * 64 + b3.val % 64, 4) := by
        unfold decodeRune
        rw [h]
      rw [hd]
      refine ⟨?_, hw _, [b, b1, b2, b3], t, rfl, rfl, by simp,
        ?_⟩
      · rw [hna]
        have : b.val < 256 := b.isLt
        have : b1.val < 256 := b1.isLt
        simp only [inClass, Bool.or_eq_false_iff, Bool.and_eq_false_iff, decide_eq_false_iff_not]
        by_cases h240 : b.val = 240
        · have := h4 h240
          omega
        · omega
      · intro _ c hc
        simp only [List.mem_cons, List.mem_singleton, List.not_mem_nil, or_false] at hc
        rcases hc with rfl | rfl | rfl | rfl
        · exact hna
        · exact isAlnum_high _ h1.1
        · exact isAlnum_high _ h2
        · exact isAlnum_high _ h3

/-! ## Lemmas: the replacement of `slugify` on bytes -/

theorem dropWhile_append_all {α : Type} (q : α → Bool) (p Y : List α) (h : ∀ c ∈ p, q c = true) :
    (p ++ Y).dropWhile q = Y.dropWhile q := by
  induction p with
  | nil => rfl
  | cons a p ih =>
    rw [List.cons_append, List.dropWhile_cons, if_pos (h a (List.mem_cons_self _ _))]
    exact ih (fun c hc => h c (List.mem_cons_of_mem _ hc))

theorem length_dropWhile_le {α : Type} (q : α → Bool) (l : List α) :
    (l.dropWhile q).length ≤ l.length := by
  induction l with
  | nil => simp
  | cons a l ih =>
    rw [List.dropWhile_cons]
    split
    · simp only [List.length_cons]; omega
    · exact le_refl _

theorem matchEnd_eq : ∀ (fuel : Nat) (s : GoString), s.length ≤ fuel →
    matchEnd fuel s = s.dropWhile (fun c => !isAlnum c) := by
  intro fuel
  induction fuel with
  | zero =>
    intro s h
    have : s = [] := List.length_eq_zero.1 (by omega)
    subst this
    rfl
  | succ fuel ih =>
    intro s h
    cases s with
    | nil => rfl
    | cons b rest =>
      obtain ⟨hcls, _, p, Y, hpY, hlen, hp, hall⟩ := decodeRune_class b rest
      unfold matchEnd
      rw [hcls]
      by_cases ha : isAlnum b = true
      · rw [if_pos ha, List.dropWhile_cons, if_neg (by simp [ha])]
      · have ha' : isAlnum b = false := by simpa using ha
        have hdrop : (b :: rest).drop (decodeRune (b :: rest)).2 = Y := by
          rw [← hlen, hpY, List.drop_left]
        rw [if_neg ha, hdrop, hpY,
          dropWhile_append_all _ p Y (fun c hc => by simp [hall ha' c hc])]
        apply ih
        have hl : (b :: rest).length = p.length + Y.length := by rw [hpY, List.length_append]
        have hp1 : 0 < p.length := List.length_pos.2 hp
        simp only [List.length_cons] at hl h
        omega

theorem splitByLoop_append {α : Type} (R : α → α → Bool) :
    ∀ (l : List α) (a : α) (g : List α) (gs : List (List α)),
      List.splitBy.loop R l a g gs = gs.reverse ++ List.splitBy.loop R l a g [] := by
  intro l
  induction l with
  | nil => intro a g gs; simp [List.splitBy.loop]
  | cons b l ih =>
    intro a g gs
    simp only [List.splitBy.loop]
    cases R a b with
    | true => exact ih b (a :: g) gs
    | false =>
      simp only
      rw [ih b [] (_ :: gs), ih b [] [_]]
      simp

/-- The first run of a text under a relation that compares a key: the head and the longest
run of elements with the key of the head after it. -/
theorem splitByLoop_key {α : Type} (key : α → Bool) :
    ∀ (l : List α) (a : α) (g : List α), (∀ x ∈ g, key x = key a) →
      List.splitBy.loop (fun x y => key x == key y) l a g [] =
        (g.reverse ++ a :: l.takeWhile (fun x => key x == key a)) ::
          List.splitBy (fun x y => key x == key y) (l.dropWhile (fun x => key x == key a)) := by
  intro l
  induction l with
  | nil => intro a g _; simp [List.splitBy.loop, List.splitBy]
  | cons b l ih =>
    intro a g hg
    simp only [List.splitBy.loop]
    by_cases hab : key a = key b
    · have h1 : (key a == key b) = true := by simp [hab]
      have h2 : (key b == key a) = true := by simp [hab]
      rw [h1]
      simp only
      rw [ih b (a :: g) (by
        intro x hx
        rcases List.mem_cons.1 hx with rfl | hx
        · exact hab
        · rw [hg x hx, hab])]
      simp only [List.takeWhile_cons, List.dropWhile_cons, h2, if_true, hab, List.reverse_cons,
        List.append_assoc, List.singleton_append, beq_self_eq_true]
    · have h1 : (key a == key b) = false := by simp [hab]
      have h2 : (key b == key a) = false := by
        simp only [beq_eq_false_iff_ne, ne_eq]
        exact fun h => hab h.symm
      rw [h1]
      simp only
      rw [splitByLoop_append]
      simp only [List.takeWhile_cons, List.dropWhile_cons, h2, Bool.false_eq_true, if_false,
        List.reverse_cons, List.reverse_nil, List.nil_append, List.singleton_append,
        List.splitBy]

theorem splitBy_key {α : Type} (key : α → Bool) (a : α) (l : List α) :
    List.splitBy (fun x y => key x == key y) (a :: l) =
      (a :: l.takeWhile (fun x => key x == key a)) ::
        List.splitBy (fun x y => key x == key y) (l.dropWhile (fun x => key x == key a)) := by
  have := splitByLoop_key key l a [] (by simp)
  simpa [List.splitBy] using this

theorem replaceRuns_alnum (b : Byte) (rest : GoString) (hb : isAlnum b = true) :
    replaceRuns (b :: rest) =
      b :: (rest.takeWhile isAlnum ++ replaceRuns (rest.dropWhile isAlnum)) := by
  have hk : (fun x => isAlnum x == isAlnum b) = isAlnum := by
    funext x; rw [hb]; simp
  unfold replaceRuns
  rw [splitBy_key isAlnum b rest, hk, List.map_cons, List.flatten_cons]
  have hall : (b :: rest.takeWhile isAlnum).all isAlnum = true := by
    rw [List.all_cons, hb, Bool.true_and, List.all_eq_true]
    intro x hx
    exact List.mem_takeWhile_imp hx
  rw [if_pos hall]
  rfl

theorem replaceRuns_other (b : Byte) (rest : GoString) (hb : isAlnum b = false) :
    replaceRuns (b :: rest) =
      ch '_' :: replaceRuns (rest.dropWhile (fun c => !isAlnum c)) := by
  have hk : (fun x => isAlnum x == isAlnum b) = (fun c => !isAlnum c) := by
    funext x; rw [hb]; cases isAlnum x <;> rfl
  unfold replaceRuns
  rw [splitBy_key isAlnum b rest, hk, List.map_cons, List.flatten_cons]
  have hall : ¬ (b :: rest.takeWhile (fun c => !isAlnum c)).all isAlnum = true := by
    rw [List.all_cons, hb]
    simp
  rw [if_neg hall]
  rfl

theorem replaceRuns_step (b : Byte) (rest : GoString) (hb : isAlnum b = true) :
    replaceRuns (b :: rest) = b :: replaceRuns rest := by
  rw [replaceRuns_alnum b rest hb]
  congr 1
  cases rest with
  | nil => rfl
  | cons c r =>
    by_cases hc : isAlnum c = true
    · rw [replaceRuns_alnum c r hc, List.takeWhile_cons, if_pos hc, List.dropWhile_cons,
        if_pos hc]
      rfl
    · rw [List.takeWhile_cons, if_neg hc, List.dropWhile_cons, if_neg hc]
      rfl

/-- The loop of `ReplaceAllString` gives what the claim describes: every maximal run of bytes
outside `a-z0-9` replaced by one `_`. -/
theorem replaceAllLoop_eq : ∀ (fuel : Nat) (s : GoString), s.length ≤ fuel →
    replaceAllLoop (str "_") fuel s = replaceRuns s := by
  intro fuel
  induction fuel with
  | zero =>
    intro s h
    have : s = [] := List.length_eq_zero.1 (by omega)
    subst this
    rfl
  | succ fuel ih =>
    intro s h
    cases s with
    | nil => rfl
    | cons b rest =>
      obtain ⟨hcls, hw, -⟩ := decodeRune_class b rest
      unfold replaceAllLoop
      rw [hcls]
      by_cases ha : isAlnum b = true
      · rw [if_pos ha, hw ha, replaceRuns_step b rest ha]
        simp only [List.take_succ_cons, List.take_zero, List.drop_succ_cons, List.drop_zero,
          List.singleton_append]
        rw [ih rest (by simpa using h)]
      · have ha' : isAlnum b = false := by simpa using ha
        rw [if_neg ha, matchEnd_eq _ _ (le_refl _), replaceRuns_other b rest ha',
          List.dropWhile_cons, if_pos (by simp [ha'])]
        rw [ih _ (by
          have := length_dropWhile_le (fun c => !isAlnum c) rest
          simp only [List.length_cons] at h
          omega)]
        rfl

theorem ReplaceAllString_eq (s : GoString) : ReplaceAllString s (str "_") = replaceRuns s :=
  replaceAllLoop_eq s.length s (le_refl _)

theorem trimLeftByte_eq (s : GoString) (c : Byte) :
    trimLeftByte s c = s.dropWhile (fun x => decide (x = c)) := by
  induction s with
  | nil => rfl
  | cons b rest ih =>
    unfold trimLeftByte
    by_cases h : b = c
    · rw [if_pos h, ih, List.dropWhile_cons, if_pos (by simpa using h)]
    · rw [if_neg h, List.dropWhile_cons, if_neg (by simpa using h)]

theorem trimRightLoop_eq (c : Byte) : ∀ (fuel : Nat) (s : GoString), s.length ≤ fuel →
    trimRightLoop fuel s c = s.rdropWhile (fun x => decide (x = c)) := by
  intro fuel
  induction fuel with
  | zero =>
    intro s h
    have : s = [] := List.length_eq_zero.1 (by omega)
    subst this
    rfl
  | succ fuel ih =>
    intro s h
    unfold trimRightLoop
    rcases List.eq_nil_or_concat s with hs | ⟨l, x, hs⟩
    · subst hs; rfl
    · rw [List.concat_eq_append] at hs
      subst hs
      have hl : (l ++ [x]).getLast? = some x := by simp
      rw [hl, List.dropLast_concat]
      simp only [Option.some.injEq]
      by_cases hx : x = c
      · rw [if_pos hx, ih l (by simp at h; omega),
          List.rdropWhile_concat_pos _ _ _ (by simpa using hx)]
      · rw [if_neg hx, List.rdropWhile_concat_neg _ _ _ (by simpa using hx)]

theorem trimRightByte_eq (s : GoString) (c : Byte) :
    trimRightByte s c = s.rdropWhile (fun x => decide (x = c)) :=
  trimRightLoop_eq c s.length s (le_refl _)

theorem rdropWhile_cons {α : Type} (p : α → Bool) (a : α) (t : List α) :
    (a :: t).rdropWhile p =
      if (t.rdropWhile p).isEmpty then (if p a then [] else [a]) else a :: t.rdropWhile p := by
  induction t using List.reverseRecOn generalizing a with
  | nil => simp [List.rdropWhile_singleton]
  | append_singleton l x ih =>
    rw [← List.cons_append]
    by_cases hx : p x = true
    · rw [List.rdropWhile_concat_pos _ _ _ hx, List.rdropWhile_concat_pos _ _ _ hx, ih]
    · rw [List.rdropWhile_concat_neg _ _ _ hx, List.rdropWhile_concat_neg _ _ _ hx,
        if_neg (by simp)]
      rfl

theorem dropWhile_rdropWhile {α : Type} (p : α → Bool) (l : List α) :
    (l.rdropWhile p).dropWhile p = (l.dropWhile p).rdropWhile p := by
  induction l with
  | nil => rfl
  | cons a t ih =>
    by_cases ha : p a = true
    · have hr : (a :: t).dropWhile p = t.dropWhile p := by
        rw [List.dropWhile_cons, if_pos ha]
      rw [hr, ← ih, rdropWhile_cons]
      by_cases ht : (t.rdropWhile p).isEmpty = true
      · rw [if_pos ht, if_pos ha, List.isEmpty_iff.1 ht]
      · rw [if_neg ht, List.dropWhile_cons, if_pos ha]
    · have hr : (a :: t).dropWhile p = a :: t := by
        rw [List.dropWhile_cons, if_neg ha]
      rw [hr, rdropWhile_cons]
      by_cases ht : (t.rdropWhile p).isEmpty = true
      · rw [if_pos ht, if_neg ha, List.dropWhile_cons, if_neg ha]
      · rw [if_neg ht, List.dropWhile_cons, if_neg ha]

theorem stripUnderscores_eq (s : GoString) :
    stripUnderscores s =
      (s.dropWhile (fun c => decide (c = ch '_'))).rdropWhile (fun c => decide (c = ch '_')) :=
  rfl

theorem Trim_eq (s : GoString) : Trim s (ch '_') = stripUnderscores s := by
  unfold Trim
  rw [trimLeftByte_eq, trimRightByte_eq, dropWhile_rdropWhile]
  rfl

theorem slugify_eq (lib : Library) (name : GoString) :
    slugify lib name = stripUnderscores (replaceRuns (ToLower lib name)) := by
  unfold slugify
  rw [ReplaceAllString_eq, Trim_eq]

/-! ## Lemmas: the shape of a slug -/

theorem isAlnum_underscore : isAlnum (ch '_') = false := by decide

theorem mem_replaceRuns : ∀ (n : Nat) (s : GoString), s.length ≤ n →
    ∀ c ∈ replaceRuns s, isAlnum c = true ∨ c = ch '_' := by
  intro n
  induction n with
  | zero =>
    intro s h c hc
    have : s = [] := List.length_eq_zero.1 (by omega)
    subst this
    cases hc
  | succ n ih =>
    intro s h c hc
    cases s with
    | nil => cases hc
    | cons b rest =>
      simp only [List.length_cons] at h
      by_cases hb : isAlnum b = true
      · rw [replaceRuns_step b rest hb] at hc
        rcases List.mem_cons.1 hc with rfl | hc
        · exact Or.inl hb
        · exact ih rest (by omega) c hc
      · rw [replaceRuns_other b rest (by simpa using hb)] at hc
        rcases List.mem_cons.1 hc with rfl | hc
        · exact Or.inr rfl
        · have := length_dropWhile_le (fun c => !isAlnum c) rest
          exact ih _ (by omega) c hc

theorem replaceRuns_head (s : GoString) (x : Byte) (hx : (replaceRuns s).head? = some x) :
    isAlnum x = true ∨ ∃ b, s.head? = some b ∧ isAlnum b = false := by
  cases s with
  | nil => cases hx
  | cons b rest =>
    by_cases hb : isAlnum b = true
    · rw [replaceRuns_step b rest hb] at hx
      simp only [List.head?_cons, Option.some.injEq] at hx
      exact Or.inl (hx ▸ hb)
    · exact Or.inr ⟨b, rfl, by simpa using hb⟩

theorem dropWhile_head_alnum (rest : GoString) (b : Byte)
    (h : (rest.dropWhile (fun c => !isAlnum c)).head? = some b) : isAlnum b = true := by
  have := List.head?_dropWhile_not (fun c => !isAlnum c) rest
  rw [h] at this
  simpa using this

theorem chain_replaceRuns : ∀ (n : Nat) (s : GoString), s.length ≤ n →
    List.Chain' (fun a b => ¬ (a = ch '_' ∧ b = ch '_')) (replaceRuns s) := by
  intro n
  induction n with
  | zero =>
    intro s h
    have : s = [] := List.length_eq_zero.1 (by omega)
    subst this
    exact List.chain'_nil
  | succ n ih =>
    intro s h
    cases s with
    | nil => exact List.chain'_nil
    | cons b rest =>
      simp only [List.length_cons] at h
      by_cases hb : isAlnum b = true
      · rw [replaceRuns_step b rest hb, List.chain'_cons']
        refine ⟨?_, ih rest (by omega)⟩
        intro y _ hy
        rw [hy.1, isAlnum_underscore] at hb
        cases hb
      · rw [replaceRuns_other b rest (by simpa using hb), List.chain'_cons']
        have hl := length_dropWhile_le (fun c => !isAlnum c) rest
        refine ⟨?_, ih _ (by omega)⟩
        intro y hy hyy
        rcases replaceRuns_head _ y (by simpa using hy) with h1 | ⟨b1, h1, h2⟩
        · rw [hyy.2, isAlnum_underscore] at h1
          cases h1
        · rw [dropWhile_head_alnum rest b1 h1] at h2
          cases h2

theorem replaceRuns_fixed : ∀ (z : GoString), (∀ c ∈ z, isAlnum c = true ∨ c = ch '_') →
    List.Chain' (fun a b => ¬ (a = ch '_' ∧ b = ch '_')) z → replaceRuns z = z := by
  intro z
  induction z with
  | nil => intro _ _; rfl
  | cons b rest ih =>
    intro hm hc
    rw [List.chain'_cons'] at hc
    have hrest := ih (fun c hc1 => hm c (List.mem_cons_of_mem _ hc1)) hc.2
    by_cases hb : isAlnum b = true
    · rw [replaceRuns_step b rest hb, hrest]
    · have hbu : b = ch '_' := (hm b (List.mem_cons_self _ _)).resolve_left hb
      rw [replaceRuns_other b rest (by simpa using hb)]
      have hd : rest.dropWhile (fun c => !isAlnum c) = rest := by
        cases rest with
        | nil => rfl
        | cons c r =>
          have hcu : c ≠ ch '_' := fun hcu => hc.1 c (by simp) ⟨hbu, hcu⟩
          have hca : isAlnum c = true :=
            (hm c (List.mem_cons_of_mem _ (List.mem_cons_self _ _))).resolve_right hcu
          rw [List.dropWhile_cons, if_neg (by simp [hca])]
      rw [hd, hrest, hbu]

theorem ToLower_fixed (lib : Library) (z : GoString)
    (hm : ∀ c ∈ z, isAlnum c = true ∨ c = ch '_') : ToLower lib z = z := by
  have hlow : ∀ c ∈ z, c.val < 128 ∧ ¬ (65 ≤ c.val ∧ c.val ≤ 90) := by
    intro c hc
    rcases hm c hc with h | h
    · simp only [isAlnum, Bool.or_eq_true, Bool.and_eq_true, decide_eq_true_eq] at h
      omega
    · subst h
      decide
  unfold ToLower
  rw [if_pos (by
    rw [List.all_eq_true]
    intro c hc
    simpa using (hlow c hc).1)]
  conv_rhs => rw [← List.map_id z]
  apply List.map_congr_left
  intro c hc
  rw [if_neg (hlow c hc).2]
  rfl

theorem stripUnderscores_idem (y : GoString) :
    stripUnderscores (stripUnderscores y) = stripUnderscores y := by
  have h1 : ((y.dropWhile (fun c => decide (c = ch '_'))).rdropWhile
      (fun c => decide (c = ch '_'))).dropWhile (fun c => decide (c = ch '_')) =
      (y.dropWhile (fun c => decide (c = ch '_'))).rdropWhile
        (fun c => decide (c = ch '_')) := by
    rw [dropWhile_rdropWhile, List.dropWhile_idempotent]
  rw [stripUnderscores_eq (stripUnderscores y), stripUnderscores_eq y, h1,
    List.rdropWhile_idempotent]

theorem stripUnderscores_within (y : GoString) : stripUnderscores y <:+: y := by
  rw [stripUnderscores_eq]
  exact List.IsInfix.trans (List.IsPrefix.isInfix ( List.rdropWhile_prefix _ _))
    (List.IsSuffix.isInfix (List.dropWhile_suffix _))

theorem mem_slugify (lib : Library) (name : GoString) :
    ∀ c ∈ slugify lib name, isAlnum c = true ∨ c = ch '_' := by
  intro c hc
  rw [slugify_eq] at hc
  exact mem_replaceRuns _ _ (le_refl _) c ((stripUnderscores_within _).subset hc)

theorem chain_slugify (lib : Library) (name : GoString) :
    List.Chain' (fun a b => ¬ (a = ch '_' ∧ b = ch '_')) (slugify lib name) := by
  rw [slugify_eq]
  exact List.Chain'.infix (chain_replaceRuns _ _ (le_refl _)) (stripUnderscores_within _)

theorem slugify_head (lib : Library) (name : GoString) :
    (slugify lib name).head? ≠ some (ch '_') := by
  rw [slugify_eq, stripUnderscores_eq, ← dropWhile_rdropWhile]
  intro h
  have := List.head?_dropWhile_not (fun c => decide (c = ch '_'))
    ((replaceRuns (ToLower lib name)).rdropWhile (fun c => decide (c = ch '_')))
  rw [h] at this
  simp at this

theorem slugify_last (lib : Library) (name : GoString) :
    (slugify lib name).getLast? ≠ some (ch '_') := by
  rw [slugify_eq, stripUnderscores_eq]
  intro h
  have hne : ((replaceRuns (ToLower lib name)).dropWhile
      (fun c => decide (c = ch '_'))).rdropWhile (fun c => decide (c = ch '_')) ≠ [] := by
    intro h0
    rw [h0] at h
    cases h
  have := List.rdropWhile_last_not (fun c => decide (c = ch '_')) _ hne
  rw [List.getLast?_eq_getLast _ hne] at h
  simp only [Option.some.injEq] at h
  rw [h] at this
  simp at this

theorem mem_replaceRuns_of_alnum : ∀ (n : Nat) (s : GoString), s.length ≤ n →
    ∀ c ∈ s, isAlnum c = true → c ∈ replaceRuns s := by
  intro n
  induction n with
  | zero =>
    intro s h c hc
    have : s = [] := List.length_eq_zero.1 (by omega)
    subst this
    cases hc
  | succ n ih =>
    intro s h c hc ha
    cases s with
    | nil => cases hc
    | cons b rest =>
      simp only [List.length_cons] at h
      by_cases hb : isAlnum b = true
      · rw [replaceRuns_step b rest hb]
        rcases List.mem_cons.1 hc with rfl | hc
        · exact List.mem_cons_self _ _
        · exact List.mem_cons_of_mem _ (ih rest (by omega) c hc ha)
      · rw [replaceRuns_other b rest (by simpa using hb)]
        have hl := length_dropWhile_le (fun c => !isAlnum c) rest
        refine List.mem_cons_of_mem _ (ih _ (by omega) c ?_ ha)
        rcases List.mem_cons.1 hc with rfl | hc
        · exact absurd ha hb
        · rw [← List.takeWhile_append_dropWhile (fun c => !isAlnum c) rest] at hc
          rcases List.mem_append.1 hc with h1 | h1
          · have := List.mem_takeWhile_imp h1
            simp [ha] at this
          · exact h1

theorem stripUnderscores_eq_nil (y : GoString) :
    stripUnderscores y = [] ↔ ∀ c ∈ y, c = ch '_' := by
  rw [stripUnderscores_eq, List.rdropWhile_eq_nil_iff]
  constructor
  · intro h
    have hd : y.dropWhile (fun c => decide (c = ch '_')) = [] := by
      cases hy : y.dropWhile (fun c => decide (c = ch '_')) with
      | nil => rfl
      | cons a t =>
        have h1 := List.head?_dropWhile_not (fun c => decide (c = ch '_')) y
        rw [hy] at h1 h
        have h2 := h a (List.mem_cons_self _ _)
        simp only [List.head?_cons] at h1
        rw [h1] at h2
        cases h2
    intro c hc
    simpa using List.dropWhile_eq_nil_iff.1 hd c hc
  · intro h c hc
    simpa using h c ((List.dropWhile_suffix _).subset hc)

theorem slugify_eq_nil (lib : Library) (name : GoString) :
    slugify lib name = [] ↔ ∀ c ∈ ToLower lib name, isAlnum c = false := by
  rw [slugify_eq, stripUnderscores_eq_nil]
  constructor
  · intro h c hc
    by_contra hne
    have ha : isAlnum c = true := by simpa using hne
    have := h c (mem_replaceRuns_of_alnum _ _ (le_refl _) c hc ha)
    rw [this, isAlnum_underscore] at ha
    cases ha
  · intro h c hc
    rcases mem_replaceRuns _ _ (le_refl _) c hc with h1 | h1
    · exfalso
      generalize ToLower lib name = x at h hc
      cases x with
      | nil => cases hc
      | cons b rest =>
        have hb := h b (List.mem_cons_self _ _)
        rw [replaceRuns_other b rest hb] at hc
        have hd : rest.dropWhile (fun c => !isAlnum c) = [] := by
          rw [List.dropWhile_eq_nil_iff]
          intro y hy
          simp [h y (List.mem_cons_of_mem _ hy)]
        rw [hd] at hc
        rcases List.mem_cons.1 hc with rfl | hc
        · rw [isAlnum_underscore] at h1
          cases h1
        · cases hc
    · exact h1

theorem slugify_fixed (lib : Library) (name : GoString) :
    slugify lib (slugify lib name) = slugify lib name := by
  have hm := mem_slugify lib name
  have hc := chain_slugify lib name
  rw [slugify_eq lib (slugify lib name), ToLower_fixed lib _ hm, replaceRuns_fixed _ hm hc]
  rw [slugify_eq lib name]
  exact stripUnderscores_idem _

theorem decodeRune_width (b : Byte) (rest : GoString) :
    1 ≤ (decodeRune (b :: rest)).2 := by
  obtain ⟨-, -, p, Y, -, hl, hne, -⟩ := decodeRune_class b rest
  rw [← hl]
  exact List.length_pos.2 hne

/-- The fuel of `mapLower` is enough: any bound from the input length on gives the same
result, so `ToLower` runs the loop to the end of the input. -/
theorem mapLower_fuel (lib : Library) : ∀ (n : Nat) (s : GoString), s.length ≤ n →
    mapLower lib n s = mapLower lib s.length s := by
  intro n
  induction n using Nat.strong_induction_on with
  | _ n ih =>
    intro s h
    cases s with
    | nil => cases n <;> rfl
    | cons b rest =>
      cases n with
      | zero => simp at h
      | succ n =>
        have hw := decodeRune_width b rest
        have hl : ((b :: rest).drop (decodeRune (b :: rest)).2).length ≤ rest.length := by
          rw [List.length_drop, List.length_cons]
          omega
        simp only [List.length_cons] at h
        rw [List.length_cons]
        unfold mapLower
        rw [ih n (Nat.lt_succ_self n) _ (by omega), ih rest.length (by omega) _ hl]

/-! ## C21, C30: what `slugify` returns -/

/-- C21. For every name, `slugify(name)` is the result of lowercasing the name, replacing every
maximal run of bytes outside `a-z0-9` (the characters outside the class are exactly the runs of
such bytes) by a single `_`, and removing the leading and the trailing `_`; in particular the
six names of `TestSlugify` give `home`, `living_room`, `office_2`, `test_zone`, `spaces` and
`special_chars`. -/
theorem slugify_meets_description (lib : Library) :
    (∀ name, slugify lib name = slugifySpec lib name) ∧
      slugify lib (str "Home") = str "home" ∧
      slugify lib (str "Living Room") = str "living_room" ∧
      slugify lib (str "Office 2") = str "office_2" ∧
      slugify lib (str "Test-Zone") = str "test_zone" ∧
      slugify lib (str "  Spaces  ") = str "spaces" ∧
      slugify lib (str "Special!@#Chars") = str "special_chars" :=
  ⟨fun name => slugify_eq lib name, rfl, rfl, rfl, rfl, rfl, rfl⟩

/-- C30. The function `slugify` is idempotent: for every name,
`slugify(slugify(name)) = slugify(name)`. -/
theorem slugify_idempotent (lib : Library) (name : GoString) :
    slugify lib (slugify lib name) = slugify lib name :=
  slugify_fixed lib name

/-! ## C28: a result or an error, never both -/

theorem finishStruct_val_iff {σ : Type} (rt : Runtime) (r : Call σ GoString)
    (failText parseText : GoString) (t : GoType) :
    (finishStruct rt r failText parseText t).val.isSome = true ↔
      (finishStruct rt r failText parseText t).err = none := by
  unfold finishStruct
  split
  · simp
  · split
    · simp
    · simp

theorem finishSlice_val_none {σ : Type} (rt : Runtime) (r : Call σ GoString)
    (failText parseText : GoString) (t : GoType)
    (h : (finishSlice rt r failText parseText t).err ≠ none) :
    (finishSlice rt r failText parseText t).val = none := by
  unfold finishSlice at h ⊢
  split
  · rfl
  · rename_i h1
    rw [h1] at h
    dsimp only at h ⊢
    split
    · rfl
    · rename_i h2
      rw [h2] at h
      exact absurd rfl h

/-- C28. Each of the methods returning a pointer (`Health`, `GetConfig`, `GetState`, `SetState`,
`FireEvent`) returns a non-nil result if and only if it returns a nil error, and each of the
methods returning a slice (`GetStates`, `CallService`, `GetServices`, `GetEvents`) returns the
nil slice whenever it returns a non-nil error; so no method returns both a result and an
error. -/
theorem result_or_error {σ : Type} (rt : Runtime) (c : Client σ) (w : σ)
    (entityID eventType domain service : GoString) (req : StateUpdateRequest)
    (data : Option GoMap) :
    ((c.Health rt w).val.isSome = true ↔ (c.Health rt w).err = none) ∧
      ((c.GetConfig rt w).val.isSome = true ↔ (c.GetConfig rt w).err = none) ∧
      ((c.GetState rt entityID w).val.isSome = true ↔ (c.GetState rt entityID w).err = none) ∧
      ((c.SetState rt entityID req w).val.isSome = true ↔
        (c.SetState rt entityID req w).err = none) ∧
      ((c.FireEvent rt eventType data w).val.isSome = true ↔
        (c.FireEvent rt eventType data w).err = none) ∧
      ((c.GetStates rt w).err ≠ none → (c.GetStates rt w).val = none) ∧
      ((c.CallService rt domain service data w).err ≠ none →
        (c.CallService rt domain service data w).val = none) ∧
      ((c.GetServices rt w).err ≠ none → (c.GetServices rt w).val = none) ∧
      ((c.GetEvents rt w).err ≠ none → (c.GetEvents rt w).val = none) := by
  refine ⟨finishStruct_val_iff _ _ _ _ _, finishStruct_val_iff _ _ _ _ _,
    finishStruct_val_iff _ _ _ _ _, ?_, ?_, finishSlice_val_none _ _ _ _ _, ?_,
    finishSlice_val_none _ _ _ _ _, finishSlice_val_none _ _ _ _ _⟩
  · unfold Client.SetState
    cases hm : Marshal rt req.toValue with
    | mk p e =>
      cases e with
      | some err => simp
      | none => exact finishStruct_val_iff _ _ _ _ _
  · unfold Client.FireEvent
    cases hm : optionalPayload rt data with
    | mk p e =>
      cases e with
      | some err => simp
      | none => exact finishStruct_val_iff _ _ _ _ _
  · unfold Client.CallService
    cases hm : optionalPayload rt data with
    | mk p e =>
      cases e with
      | some err => intro _; rfl
      | none => exact finishSlice_val_none _ _ _ _ _

/-- C28 at `GetState` against a server answering 404 and `GetStates` against one answering
`[]`: an error without a result, a result without an error. -/
theorem result_or_error_witness :
    (((fixedServer 404 (str "Entity not found")).GetState plainRuntime (str "light.kitchen")
        ()).val.isSome = true ↔
      ((fixedServer 404 (str "Entity not found")).GetState plainRuntime (str "light.kitchen")
        ()).err = none) ∧
      ((fixedServer 404 (str "Entity not found")).GetState plainRuntime (str "light.kitchen")
        ()).val.isSome = false ∧
      ((fixedServer 404 (str "Entity not found")).GetStates plainRuntime ()).val = none :=
  ⟨(result_or_error plainRuntime (fixedServer 404 (str "Entity not found")) ()
      (str "light.kitchen") [] [] [] { State := [], Attributes := none } none).2.2.1,
    rfl,
    (result_or_error plainRuntime (fixedServer 404 (str "Entity not found")) ()
      (str "light.kitchen") [] [] [] { State := [], Attributes := none } none).2.2.2.2.2.1
      (by decide)⟩

/-! ## The zone resource -/

theorem resourceZoneCreate_calls {σ : Type} (rt : Runtime) (lib : Library) (c : Client σ)
    (d : ResourceData) (w : σ) :
    (resourceZoneCreate rt lib c d w).calls.head? =
      some (.SetState (str "zone." ++ slugify lib (d.strings (str "name")))
        { State := str "0",
          Attributes := some
            [(str "friendly_name", .string (d.strings (str "name"))),
             (str "latitude", .float64 (d.floats (str "latitude"))),
             (str "longitude", .float64 (d.floats (str "longitude"))),
             (str "radius", .float64 (d.floats (str "radius"))),
             (str "passive", .bool (d.bools (str "passive"))),
             (str "icon", .string (d.strings (str "icon"))),
             (str "editable", .bool true),
             (str "persons", .slice [])] }) := by
  unfold resourceZoneCreate
  dsimp only
  split <;> rfl

/-- C26. For every name, `slugify(name)` holds only the bytes `a-z`, `0-9` and `_`, does not
begin or end with `_` and has no two consecutive `_`; it is the empty string exactly when the
lowercased name holds no byte of `a-z0-9`, and then `resourceZoneCreate` calls `SetState` with
the entity id `zone.`. -/
theorem slugify_shape {σ : Type} (rt : Runtime) (lib : Library) (c : Client σ)
    (d : ResourceData) (w : σ) (name : GoString) :
    (∀ x ∈ slugify lib name,
        (97 ≤ x.val ∧ x.val ≤ 122) ∨ (48 ≤ x.val ∧ x.val ≤ 57) ∨ x = ch '_') ∧
      (slugify lib name).head? ≠ some (ch '_') ∧
      (slugify lib name).getLast? ≠ some (ch '_') ∧
      List.Chain' (fun a b => ¬ (a = ch '_' ∧ b = ch '_')) (slugify lib name) ∧
      (slugify lib name = [] ↔
        ∀ x ∈ ToLower lib name, ¬ ((97 ≤ x.val ∧ x.val ≤ 122) ∨ (48 ≤ x.val ∧ x.val ≤ 57))) ∧
      (d.strings (str "name") = name → slugify lib name = [] →
        ∃ req, (resourceZoneCreate rt lib c d w).calls.head? =
          some (.SetState (str "zone.") req)) := by
  have hal : ∀ x : Byte, isAlnum x = true ↔
      ((97 ≤ x.val ∧ x.val ≤ 122) ∨ (48 ≤ x.val ∧ x.val ≤ 57)) := by
    intro x
    simp only [isAlnum, Bool.or_eq_true, Bool.and_eq_true, decide_eq_true_eq]
  refine ⟨?_, slugify_head lib name, slugify_last lib name, chain_slugify lib name, ?_, ?_⟩
  · intro x hx
    rcases mem_slugify lib name x hx with h | h
    · rcases (hal x).1 h with h1 | h1
      · exact Or.inl h1
      · exact Or.inr (Or.inl h1)
    · exact Or.inr (Or.inr h)
  · rw [slugify_eq_nil]
    constructor
    · intro h x hx hx1
      have h1 := h x hx
      rw [(hal x).2 hx1] at h1
      cases h1
    · intro h x hx
      have := h x hx
      rw [← hal x] at this
      simpa using this
  · intro hn hs
    rw [resourceZoneCreate_calls, hn, hs, List.append_nil]
    exact ⟨_, rfl⟩

/-- C26 at the name `!!!`: the slug is empty and the entity id is `zone.`. -/
theorem slugify_shape_witness :
    slugify plainLibrary (str "!!!") = [] ∧
      ∃ req, (resourceZoneCreate plainRuntime plainLibrary (fixedServer 200 (str "null"))
        (emptyData.SetString (str "name") (str "!!!")) ()).calls.head? =
          some (.SetState (str "zone.") req) :=
  ⟨by decide,
    (slugify_shape plainRuntime plainLibrary (fixedServer 200 (str "null"))
      (emptyData.SetString (str "name") (str "!!!")) () (str "!!!")).2.2.2.2.2 rfl
      (by decide)⟩

theorem setIfString_Id (d : ResourceData) (key : GoString) (x : Option GoValue) :
    (setIfString d key x).Id = d.Id := by
  unfold setIfString
  split <;> rfl

theorem setIfFloat_Id (d : ResourceData) (key : GoString) (x : Option GoValue) :
    (setIfFloat d key x).Id = d.Id := by
  unfold setIfFloat
  split <;> rfl

theorem setIfBool_Id (d : ResourceData) (key : GoString) (x : Option GoValue) :
    (setIfBool d key x).Id = d.Id := by
  unfold setIfBool
  split <;> rfl

theorem resourceZoneRead_failed {σ : Type} (rt : Runtime) (c : Client σ) (d : ResourceData)
    (w : σ) (h : (c.GetState rt d.Id w).err ≠ none) :
    resourceZoneRead rt c d w =
      ⟨[], d.SetId [], [.GetState d.Id], (c.GetState rt d.Id w).sent,
        (c.GetState rt d.Id w).world⟩ := by
  unfold resourceZoneRead
  dsimp only
  split
  · rfl
  · rename_i h1
    exact absurd h1 h

theorem resourceZoneRead_ok {σ : Type} (rt : Runtime) (c : Client σ) (d : ResourceData)
    (w : σ) (h : (c.GetState rt d.Id w).err = none) :
    (resourceZoneRead rt c d w).diags = [] ∧ (resourceZoneRead rt c d w).data.Id = d.Id ∧
      (resourceZoneRead rt c d w).calls = [.GetState d.Id] := by
  unfold resourceZoneRead
  dsimp only
  split
  · rename_i e h1
    rw [h] at h1
    cases h1
  · refine ⟨rfl, ?_, rfl⟩
    dsimp only
    rw [setIfBool_Id, setIfString_Id, setIfBool_Id, setIfFloat_Id, setIfFloat_Id,
      setIfFloat_Id, setIfString_Id]
    rfl

/-- C27. The function `resourceZoneRead` never reports a read failure: whenever `GetState`
returns an error (whatever its cause: a 404, another status outside 2xx, a transport failure,
a body that cannot be decoded), it sets the resource id to the empty string and returns no
diagnostics; `GetState` was its only call. -/
theorem resourceZoneRead_hides_errors {σ : Type} (rt : Runtime) (c : Client σ)
    (d : ResourceData) (w : σ) (h : (c.GetState rt d.Id w).err ≠ none) :
    (resourceZoneRead rt c d w).diags = [] ∧ (resourceZoneRead rt c d w).data.Id = [] ∧
      (resourceZoneRead rt c d w).data = d.SetId [] ∧
      (resourceZoneRead rt c d w).calls = [.GetState d.Id] := by
  rw [resourceZoneRead_failed rt c d w h]
  exact ⟨rfl, rfl, rfl, rfl⟩

/-- C27 at a server answering 404 to the read of `zone.home`. -/
theorem resourceZoneRead_hides_errors_witness :
    ((fixedServer 404 (str "Entity not found")).GetState plainRuntime (str "zone.home")
        ()).err ≠ none ∧
      (resourceZoneRead plainRuntime (fixedServer 404 (str "Entity not found"))
        (emptyData.SetId (str "zone.home")) ()).diags = [] ∧
      (resourceZoneRead plainRuntime (fixedServer 404 (str "Entity not found"))
        (emptyData.SetId (str "zone.home")) ()).data.Id = [] :=
  ⟨by decide,
    (resourceZoneRead_hides_errors plainRuntime (fixedServer 404 (str "Entity not found"))
      (emptyData.SetId (str "zone.home")) () (by decide)).1,
    (resourceZoneRead_hides_errors plainRuntime (fixedServer 404 (str "Entity not found"))
      (emptyData.SetId (str "zone.home")) () (by decide)).2.1⟩

theorem doRequest_sent_length {σ : Type} (rt : Runtime) (c : Client σ)
    (method endpoint : GoString) (body : Option GoString) (w : σ) :
    (c.doRequest rt method endpoint body w).sent.length ≤ 1 := by
  rw [doRequest_sent]
  split <;> simp

theorem SetState_sent_length {σ : Type} (rt : Runtime) (c : Client σ) (entityID : GoString)
    (req : StateUpdateRequest) (w : σ) : (c.SetState rt entityID req w).sent.length ≤ 1 := by
  unfold Client.SetState
  cases hm : Marshal rt req.toValue with
  | mk p e =>
    cases e with
    | some err => simp
    | none =>
      simp only [finishStruct_sent]
      exact doRequest_sent_length rt c _ _ _ w

/-- C22. The function `resourceZoneDelete` calls `SetState` exactly once, for the id of the
resource, with the state `unavailable` and the empty attribute map, and calls nothing else;
every request it hands to the transport is that `POST` (at most one), never a `DELETE`. When
the call succeeds it clears the resource id and returns no diagnostics; when the call fails it
returns one error diagnostic with the wrapped text and leaves the resource data, the id
included, as it was. So for a resource with a non-empty id the id is empty afterwards exactly
when the call succeeded. -/
theorem resourceZoneDelete_marks_unavailable {σ : Type} (rt : Runtime) (c : Client σ)
    (d : ResourceData) (w : σ) (req : StateUpdateRequest)
    (hreq : req = { State := str "unavailable", Attributes := some [] }) :
    (resourceZoneDelete rt c d w).calls = [.SetState d.Id req] ∧
      (resourceZoneDelete rt c d w).sent = (c.SetState rt d.Id req w).sent ∧
      (resourceZoneDelete rt c d w).sent.length ≤ 1 ∧
      (∀ q ∈ (resourceZoneDelete rt c d w).sent,
        q.Method = str "POST" ∧ q.URL = c.BaseURL ++ stateEndpoint d.Id) ∧
      ((c.SetState rt d.Id req w).err = none →
        (resourceZoneDelete rt c d w).data = d.SetId [] ∧
          (resourceZoneDelete rt c d w).diags = []) ∧
      (∀ err, (c.SetState rt d.Id req w).err = some err →
        (resourceZoneDelete rt c d w).data = d ∧
          (resourceZoneDelete rt c d w).diags =
            [{ Severity := .Error,
               Summary := str "failed to delete zone: " ++ err.Error }]) ∧
      (d.Id ≠ [] →
        ((resourceZoneDelete rt c d w).data.Id = [] ↔
          (c.SetState rt d.Id req w).err = none)) := by
  subst hreq
  have hsent : (resourceZoneDelete rt c d w).sent =
      (c.SetState rt d.Id { State := str "unavailable", Attributes := some [] } w).sent := by
    unfold resourceZoneDelete
    dsimp only
    split <;> rfl
  have hmem : ∀ q ∈ (c.SetState rt d.Id { State := str "unavailable", Attributes := some [] }
      w).sent, c.buildRequest rt (str "POST") (stateEndpoint d.Id)
        (Marshal rt (StateUpdateRequest.toValue
          { State := str "unavailable", Attributes := some [] })).1 = .ok q :=
    fun q hq => SetState_sent_mem rt c d.Id _ w q hq
  refine ⟨?_, hsent, ?_, ?_, ?_, ?_, ?_⟩
  · unfold resourceZoneDelete
    dsimp only
    split <;> rfl
  · rw [hsent]
    exact SetState_sent_length rt c d.Id _ w
  · intro q hq
    rw [hsent] at hq
    have hb := buildRequest_ok rt c _ _ _ q (hmem q hq)
    exact ⟨hb.2.2.1.trans (by rw [if_neg (by decide)]), hb.1⟩
  · intro h
    unfold resourceZoneDelete
    dsimp only
    split
    · rename_i e h1
      rw [h] at h1
      cases h1
    · exact ⟨rfl, rfl⟩
  · intro err h
    unfold resourceZoneDelete
    dsimp only
    split
    · rename_i e h1
      rw [h] at h1
      cases h1
      exact ⟨rfl, rfl⟩
    · rename_i h1
      rw [h] at h1
      cases h1
  · intro hid
    unfold resourceZoneDelete
    dsimp only
    split
    · rename_i e h1
      constructor
      · intro h2
        exact absurd h2 hid
      · intro h2
        rw [h2] at h1
        cases h1
    · rename_i h1
      exact ⟨fun _ => h1, fun _ => rfl⟩

/-- C22 at a server answering 404 to the update of `zone.home`: the id stays, one error
diagnostic comes back; and at a server answering 200 with a state: the id is cleared. -/
theorem resourceZoneDelete_marks_unavailable_witness :
    (resourceZoneDelete plainRuntime (fixedServer 404 (str "Entity not found"))
        (emptyData.SetId (str "zone.home")) ()).data.Id ≠ [] ∧
      (resourceZoneDelete plainRuntime (fixedServer 200 (str "\x7b\"state\": \"unavailable\"\x7d"))
        (emptyData.SetId (str "zone.home")) ()).data.Id = [] :=
  ⟨fun h => absurd
      (((resourceZoneDelete_marks_unavailable plainRuntime
        (fixedServer 404 (str "Entity not found")) (emptyData.SetId (str "zone.home")) ()
        { State := str "unavailable", Attributes := some [] } rfl).2.2.2.2.2.2
        (by decide)).1 h) (by decide),
    ((resourceZoneDelete_marks_unavailable plainRuntime
      (fixedServer 200 (str "\x7b\"state\": \"unavailable\"\x7d"))
      (emptyData.SetId (str "zone.home")) ()
      { State := str "unavailable", Attributes := some [] } rfl).2.2.2.2.2.2
      (by decide)).2 (by decide)⟩

theorem mapGet_mapPut_self (m : GoMap) (k : GoString) (v : GoValue) :
    mapGet (mapPut m k v) k = some v := by
  unfold mapGet mapPut
  rw [List.find?_append]
  have h1 : (m.filter (fun e => decide (e.1 ≠ k))).find? (fun e => decide (e.1 = k)) = none := by
    rw [List.find?_eq_none]
    intro x hx
    have := (List.mem_filter.1 hx).2
    simpa using this
  rw [h1]
  simp

/-! ## The light resource -/

theorem resourceLightRead_calls {σ : Type} (rt : Runtime) (lib : Library) (c : Client σ)
    (d : ResourceData) (w : σ) : (resourceLightRead rt lib c d w).calls = [.GetState d.Id] := by
  unfold resourceLightRead
  dsimp only
  split <;> rfl

theorem find_filter_other (m : GoMap) (k j : GoString) (hk : k ≠ j) :
    (m.filter (fun e => decide (e.1 ≠ k))).find? (fun e => decide (e.1 = j)) =
      m.find? (fun e => decide (e.1 = j)) := by
  induction m with
  | nil => rfl
  | cons e m ih =>
    by_cases he : e.1 = j
    · have hek : e.1 ≠ k := fun h => hk (h.symm.trans he)
      rw [List.filter_cons, if_pos (by simpa using hek), List.find?_cons, List.find?_cons]
      simp [he]
    · by_cases hek : e.1 = k
      · rw [List.filter_cons, if_neg (by simpa using hek), List.find?_cons, ih]
        simp [he]
      · rw [List.filter_cons, if_pos (by simpa using hek), List.find?_cons, List.find?_cons, ih]

theorem mapGet_mapPut_other (m : GoMap) (k j : GoString) (v w : GoValue) (hk : k ≠ j)
    (hm : mapGet m j = some w) : mapGet (mapPut m k v) j = some w := by
  unfold mapGet mapPut at *
  rw [List.find?_append, find_filter_other m k j hk]
  cases hf : m.find? (fun e => decide (e.1 = j)) with
  | none => rw [hf] at hm; cases hm
  | some e => rw [hf] at hm; simpa using hm

theorem mem_keys_mapPut_ite (p : Prop) [Decidable p] (m : GoMap) (k : GoString) (v : GoValue)
    (x : GoString) :
    x ∈ (if p then mapPut m k v else m).map Prod.fst ↔ x ∈ m.map Prod.fst ∨ (p ∧ x = k) := by
  by_cases h : p
  · rw [if_pos h, mapPut_mem_keys]
    simp [h]
  · rw [if_neg h]
    simp [h]

theorem ite_nested {α : Type} (a b c : Prop) [Decidable a] [Decidable b] [Decidable c]
    (x y : α) :
    (if a then if b then if c then x else y else y else y) = if a ∧ b ∧ c then x else y := by
  by_cases ha : a <;> by_cases hb : b <;> by_cases hc : c <;> simp [ha, hb, hc]

theorem buildLightServiceData_keys (d : ResourceData) (x : GoString) :
    x ∈ (buildLightServiceData d).map Prod.fst ↔
      x = str "entity_id" ∨
        (d.rawNull (str "brightness") = false ∧ x = str "brightness") ∨
        (d.rawNull (str "brightness_pct") = false ∧ x = str "brightness_pct") ∨
        ((d.rawNull (str "rgb_color") = false ∧ d.present (str "rgb_color") = true ∧
            (d.intLists (str "rgb_color")).length = 3) ∧ x = str "rgb_color") ∨
        (d.rawNull (str "color_temp_kelvin") = false ∧ x = str "color_temp_kelvin") ∨
        (d.rawNull (str "transition") = false ∧ x = str "transition") ∨
        (d.rawNull (str "effect") = false ∧ x = str "effect") := by
  unfold buildLightServiceData
  simp only [ite_nested, mem_keys_mapPut_ite, List.map_cons, List.map_nil, List.mem_singleton,
    Bool.not_eq_true', or_assoc]

/-- C24. The service data built by `buildLightServiceData` always hold `entity_id` (the entity
id of the resource); each of `brightness`, `brightness_pct`, `color_temp_kelvin`, `transition`
and `effect` is a key exactly when the attribute is not null in the raw configuration;
`rgb_color` is a key only when it is not null in the raw configuration and has exactly 3
elements (and exactly when, in addition, `GetOk` reports it as set); and there is no other
key. -/
theorem buildLightServiceData_only_configured (d : ResourceData) :
    mapGet (buildLightServiceData d) (str "entity_id") =
        some (.string (d.strings (str "entity_id"))) ∧
      (∀ k ∈ [str "brightness", str "brightness_pct", str "color_temp_kelvin",
          str "transition", str "effect"],
        (k ∈ (buildLightServiceData d).map Prod.fst ↔ d.rawNull k = false)) ∧
      (str "rgb_color" ∈ (buildLightServiceData d).map Prod.fst →
        d.rawNull (str "rgb_color") = false ∧ (d.intLists (str "rgb_color")).length = 3) ∧
      (str "rgb_color" ∈ (buildLightServiceData d).map Prod.fst ↔
        d.rawNull (str "rgb_color") = false ∧ d.present (str "rgb_color") = true ∧
          (d.intLists (str "rgb_color")).length = 3) ∧
      (∀ k ∈ (buildLightServiceData d).map Prod.fst,
        k ∈ [str "entity_id", str "brightness", str "brightness_pct", str "rgb_color",
          str "color_temp_kelvin", str "transition", str "effect"]) := by
  have hrgb : str "rgb_color" ∈ (buildLightServiceData d).map Prod.fst ↔
      d.rawNull (str "rgb_color") = false ∧ d.present (str "rgb_color") = true ∧
        (d.intLists (str "rgb_color")).length = 3 := by
    rw [buildLightServiceData_keys]
    simp +decide
  refine ⟨?_, ?_, ?_, hrgb, ?_⟩
  · unfold buildLightServiceData
    dsimp only
    have hget : ∀ (p : Prop) [Decidable p] (m : GoMap) (k : GoString) (v w : GoValue),
        k ≠ str "entity_id" → mapGet m (str "entity_id") = some w →
        mapGet (if p then mapPut m k v else m) (str "entity_id") = some w := by
      intro p _ m k v w hk hm
      by_cases h : p
      · rw [if_pos h]
        exact mapGet_mapPut_other m k (str "entity_id") v w hk hm
      · rw [if_neg h]
        exact hm
    rw [ite_nested]
    exact hget _ _ _ _ _ (by decide) (hget _ _ _ _ _ (by decide) (hget _ _ _ _ _ (by decide)
      (hget _ _ _ _ _ (by decide) (hget _ _ _ _ _ (by decide)
        (hget _ _ _ _ _ (by decide) rfl)))))
  · intro k hk
    rw [buildLightServiceData_keys]
    simp only [List.mem_cons, List.mem_singleton, List.not_mem_nil, or_false] at hk
    rcases hk with rfl | rfl | rfl | rfl | rfl <;> simp +decide
  · intro h
    exact ⟨(hrgb.1 h).1, (hrgb.1 h).2.2⟩
  · intro k hk
    rw [buildLightServiceData_keys] at hk
    simp only [List.mem_cons, List.mem_singleton, List.not_mem_nil, or_false]
    rcases hk with h | h | h | h | h | h | h
    · exact Or.inl h
    · exact Or.inr (Or.inl h.2)
    · exact Or.inr (Or.inr (Or.inl h.2))
    · exact Or.inr (Or.inr (Or.inr (Or.inl h.2)))
    · exact Or.inr (Or.inr (Or.inr (Or.inr (Or.inl h.2))))
    · exact Or.inr (Or.inr (Or.inr (Or.inr (Or.inr (Or.inl h.2)))))
    · exact Or.inr (Or.inr (Or.inr (Or.inr (Or.inr (Or.inr h.2)))))

/-- C24 at a light with nothing configured: `brightness` is not sent. -/
theorem buildLightServiceData_only_configured_witness :
    str "brightness" ∉ (buildLightServiceData emptyData).map Prod.fst :=
  fun h => absurd
    (((buildLightServiceData_only_configured emptyData).2.1 (str "brightness")
      (List.mem_cons_self _ _)).1 h) (by decide)

/-! ## C6: dot segments -/

theorem pathSegments_cons (c : Byte) (rest : GoString) :
    pathSegments (c :: rest) =
      if c = ch '/' then [] :: pathSegments rest
      else (c :: (pathSegments rest).headD []) :: (pathSegments rest).tail := by
  rw [pathSegments]

theorem walkDots_cons (acc : List GoString) (seg : GoString) (rest : List GoString) :
    walkDots acc (seg :: rest) =
      if seg = str "." then walkDots acc rest
      else if seg = str ".." then walkDots (popSegment acc) rest
      else walkDots (seg :: acc) rest := by
  rw [walkDots]

theorem pathSegments_ne_nil (s : GoString) : pathSegments s ≠ [] := by
  cases s with
  | nil => simp [pathSegments]
  | cons c rest =>
    rw [pathSegments_cons]
    split <;> simp

theorem pathSegments_append_slash (a b : GoString) :
    pathSegments (a ++ ch '/' :: b) = pathSegments a ++ pathSegments b := by
  induction a with
  | nil =>
    rw [List.nil_append, pathSegments_cons, if_pos rfl]
    rfl
  | cons c rest ih =>
    rw [List.cons_append, pathSegments_cons, pathSegments_cons c rest, ih]
    by_cases hc : c = ch '/'
    · rw [if_pos hc, if_pos hc]
      rfl
    · rw [if_neg hc, if_neg hc]
      cases hp : pathSegments rest with
      | nil => exact absurd hp (pathSegments_ne_nil rest)
      | cons seg segs => rfl

theorem pathSegments_of_no_slash (s : GoString) (h : ∀ c ∈ s, c ≠ ch '/') :
    pathSegments s = [s] := by
  induction s with
  | nil => rfl
  | cons c rest ih =>
    rw [pathSegments_cons, if_neg (h c (List.mem_cons_self _ _)),
      ih (fun x hx => h x (List.mem_cons_of_mem _ hx))]
    rfl

theorem walkDots_append (acc a b : List GoString) :
    walkDots acc (a ++ b) = walkDots (walkDots acc a) b := by
  induction a generalizing acc with
  | nil => rfl
  | cons seg rest ih =>
    rw [List.cons_append, walkDots_cons, walkDots_cons acc seg rest]
    split
    · exact ih _
    · split
      · exact ih _
      · exact ih _

theorem walkDots_plain (acc : List GoString) (s : GoString) (h : isDotSegment s = false) :
    walkDots acc [s] = s :: acc := by
  simp only [isDotSegment, Bool.or_eq_false_iff, decide_eq_false_iff_not] at h
  rw [walkDots_cons, if_neg h.1, if_neg h.2]
  rfl

theorem PathEscape_injective (s t : GoString) (h : PathEscape s = PathEscape t) : s = t := by
  have h1 := PathUnescape_PathEscape s
  rw [h, PathUnescape_PathEscape t] at h1
  exact (Option.some.inj h1).symm

theorem isDotSegment_PathEscape (s : GoString) :
    isDotSegment (PathEscape s) = isDotSegment s := by
  have h1 : PathEscape (str ".") = str "." := by decide
  have h2 : PathEscape (str "..") = str ".." := by decide
  have e1 : PathEscape s = str "." ↔ s = str "." :=
    ⟨fun h => PathEscape_injective _ _ (h.trans h1.symm), fun h => by rw [h, h1]⟩
  have e2 : PathEscape s = str ".." ↔ s = str ".." :=
    ⟨fun h => PathEscape_injective _ _ (h.trans h2.symm), fun h => by rw [h, h2]⟩
  unfold isDotSegment
  simp only [e1, e2]

theorem resolveDots_two (base a b : GoString) (ha : ∀ c ∈ a, c ≠ ch '/')
    (hb : ∀ c ∈ b, c ≠ ch '/') (hda : isDotSegment a = false) (hdb : isDotSegment b = false) :
    resolveDots (pathSegments (base ++ ch '/' :: (a ++ ch '/' :: b))) =
      (walkDots [] (pathSegments base)).reverse ++ [a, b] := by
  rw [pathSegments_append_slash, pathSegments_append_slash, pathSegments_of_no_slash a ha,
    pathSegments_of_no_slash b hb]
  unfold resolveDots
  have hl : (pathSegments base ++ ([a] ++ [b])).getLastD [] = b := by
    simp [List.getLastD_eq_getLast?]
  rw [hl, hdb, walkDots_append, walkDots_append, walkDots_plain _ a hda,
    walkDots_plain _ b hdb]
  simp

theorem resolveDots_three (base a b c : GoString) (ha : ∀ x ∈ a, x ≠ ch '/')
    (hb : ∀ x ∈ b, x ≠ ch '/') (hc : ∀ x ∈ c, x ≠ ch '/') (hda : isDotSegment a = false)
    (hdb : isDotSegment b = false) (hdc : isDotSegment c = false) :
    resolveDots (pathSegments (base ++ ch '/' :: (a ++ ch '/' :: (b ++ ch '/' :: c)))) =
      (walkDots [] (pathSegments base)).reverse ++ [a, b, c] := by
  rw [pathSegments_append_slash, pathSegments_append_slash, pathSegments_append_slash,
    pathSegments_of_no_slash a ha, pathSegments_of_no_slash b hb,
    pathSegments_of_no_slash c hc]
  unfold resolveDots
  have hl : (pathSegments base ++ ([a] ++ ([b] ++ [c]))).getLastD [] = c := by
    simp [List.getLastD_eq_getLast?]
  rw [hl, hdc, walkDots_append, walkDots_append, walkDots_append, walkDots_plain _ a hda,
    walkDots_plain _ b hdb, walkDots_plain _ c hdc]
  simp

/-- C6, as the claim states it, fails. The identifier `..` holds none of `/`, `?`, `#` and
`url.PathEscape` leaves it as it is: the endpoint of `GetState("..")` is `/states/..`, the
request goes to `http://localhost:8123/api/states/..`, and once the dot segment is resolved
that path is `/api/`, the path `Health` requests, not a path below `/api/states/`. Likewise
the identifier `.` is left as it is and `/api/states/.` resolves to `/api/states/`. -/
theorem dot_identifier_leaves_template :
    (∀ b ∈ PathEscape (str ".."), b ≠ ch '/' ∧ b ≠ ch '?' ∧ b ≠ ch '#') ∧
      stateEndpoint (str "..") = str "/states/.." ∧
      ((fixedServer 200 (str "null")).GetState plainRuntime (str "..") ()).sent.map
        (fun r => r.URL) = [str "http://localhost:8123/api/states/.."] ∧
      resolveDots (pathSegments (str "/api/states/..")) = pathSegments (str "/api/") ∧
      ((fixedServer 200 (str "null")).Health plainRuntime ()).sent.map
        (fun r => r.URL) = [str "http://localhost:8123/api/"] ∧
      ((fixedServer 200 (str "null")).GetState plainRuntime (str ".") ()).sent.map
        (fun r => r.URL) = [str "http://localhost:8123/api/states/."] ∧
      resolveDots (pathSegments (str "/api/states/.")) = pathSegments (str "/api/states/") :=
  ⟨by decide, by decide, by decide, by decide, by decide, by decide, by decide⟩

/-- C6, amended. The escaped form of every identifier contains none of the bytes `/`, `?` and
`#`, so the endpoints of `GetState` and `SetState`, of `CallService` and of `FireEvent` have
exactly the two, three and two slashes of their templates and no `?` or `#`, and the URL of
every request is the base URL followed by that endpoint. The escaped form is a dot segment
(`.` or `..`) exactly when the identifier is one. For identifiers that are not dot segments,
whatever the path of the base URL, resolving the dot segments of the path leaves the segments
of the template in place: the path ends in `states` and the escaped id, in `services`, the
escaped domain and the escaped service, in `events` and the escaped event type. -/
theorem escaped_segment_stays_in_template {σ : Type} (rt : Runtime) (c : Client σ)
    (entityID domain service eventType : GoString) (req : StateUpdateRequest)
    (data : Option GoMap) (w : σ) :
    (∀ s : GoString, ∀ b ∈ PathEscape s, b ≠ ch '/' ∧ b ≠ ch '?' ∧ b ≠ ch '#') ∧
      ((stateEndpoint entityID).count (ch '/') = 2 ∧
        (stateEndpoint entityID).count (ch '?') = 0 ∧
        (stateEndpoint entityID).count (ch '#') = 0) ∧
      ((serviceEndpoint domain service).count (ch '/') = 3 ∧
        (serviceEndpoint domain service).count (ch '?') = 0 ∧
        (serviceEndpoint domain service).count (ch '#') = 0) ∧
      ((eventEndpoint eventType).count (ch '/') = 2 ∧
        (eventEndpoint eventType).count (ch '?') = 0 ∧
        (eventEndpoint eventType).count (ch '#') = 0) ∧
      (∀ r ∈ (c.GetState rt entityID w).sent, r.URL = c.BaseURL ++ stateEndpoint entityID) ∧
      (∀ r ∈ (c.SetState rt entityID req w).sent, r.URL = c.BaseURL ++ stateEndpoint entityID) ∧
      (∀ r ∈ (c.CallService rt domain service data w).sent,
        r.URL = c.BaseURL ++ serviceEndpoint domain service) ∧
      (∀ r ∈ (c.FireEvent rt eventType data w).sent,
        r.URL = c.BaseURL ++ eventEndpoint eventType) ∧
      (∀ s : GoString, isDotSegment (PathEscape s) = isDotSegment s) ∧
      (isDotSegment entityID = false → ∀ base : GoString,
        resolveDots (pathSegments (base ++ stateEndpoint entityID)) =
          (walkDots [] (pathSegments base)).reverse ++ [str "states", PathEscape entityID]) ∧
      (isDotSegment domain = false → isDotSegment service = false → ∀ base : GoString,
        resolveDots (pathSegments (base ++ serviceEndpoint domain service)) =
          (walkDots [] (pathSegments base)).reverse ++
            [str "services", PathEscape domain, PathEscape service]) ∧
      (isDotSegment eventType = false → ∀ base : GoString,
        resolveDots (pathSegments (base ++ eventEndpoint eventType)) =
          (walkDots [] (pathSegments base)).reverse ++ [str "events", PathEscape eventType]) := by
  have h := escaped_segment_keeps_template rt c entityID domain service eventType req data w
  have hns : ∀ s : GoString, ∀ x ∈ PathEscape s, x ≠ ch '/' :=
    fun s x hx => (PathEscape_no_reserved s x hx).1
  refine ⟨h.1, h.2.1, h.2.2.1, h.2.2.2.1, h.2.2.2.2.1, h.2.2.2.2.2.1, h.2.2.2.2.2.2.1,
    h.2.2.2.2.2.2.2, isDotSegment_PathEscape, ?_, ?_, ?_⟩
  · intro hd base
    exact resolveDots_two base (str "states") (PathEscape entityID) (by decide) (hns _)
      (by decide) ((isDotSegment_PathEscape _).trans hd)
  · intro hd hs base
    have he : serviceEndpoint domain service =
        ch '/' :: (str "services" ++ ch '/' :: (PathEscape domain ++ ch '/' ::
          PathEscape service)) := by
      unfold serviceEndpoint
      simp [str, utf8EncodeChar, ch]
    rw [he]
    exact resolveDots_three base (str "services") (PathEscape domain) (PathEscape service)
      (by decide) (hns _) (hns _) (by decide) ((isDotSegment_PathEscape _).trans hd)
      ((isDotSegment_PathEscape _).trans hs)
  · intro hd base
    exact resolveDots_two base (str "events") (PathEscape eventType) (by decide) (hns _)
      (by decide) ((isDotSegment_PathEscape _).trans hd)

/-- C6 amended, at the entity id `a/../b` below the base path `/api`: the path resolves to the
segments of `/api/states/a%2F..%2Fb`. -/
theorem escaped_segment_stays_in_template_witness :
    resolveDots (pathSegments (str "/api" ++ stateEndpoint (str "a/../b"))) =
      [[], str "api", str "states", str "a%2F..%2Fb"] :=
  ((escaped_segment_stays_in_template plainRuntime (fixedServer 200 (str "null"))
    (str "a/../b") (str "light") (str "turn_on") (str "e") { State := [], Attributes := none }
    none ()).2.2.2.2.2.2.2.2.2.1 (by decide) (str "/api")).trans (by decide)

/-! ## The requests of the resources -/

theorem CallService_sent_one {σ : Type} (rt : Runtime) (c : Client σ) (domain service : GoString)
    (data : Option GoMap) (w : σ)
    (hnew : rt.newRequestError (str "POST") (c.BaseURL ++ serviceEndpoint domain service) = none)
    (hpay : (optionalPayload rt data).2 = none) :
    ∃ q, (c.CallService rt domain service data w).sent = [q] := by
  obtain ⟨q, hsent, -⟩ := sent_of_buildRequest rt c (str "POST")
    (serviceEndpoint domain service) (optionalPayload rt data).1 w
    (by rw [if_neg (by decide)]; exact hnew)
  refine ⟨q, ?_⟩
  unfold Client.CallService
  cases hm : optionalPayload rt data with
  | mk p e =>
    rw [hm] at hpay hsent
    dsimp only at hpay hsent
    subst hpay
    dsimp only
    rw [finishSlice_sent, hsent]

theorem SetState_sent_one {σ : Type} (rt : Runtime) (c : Client σ) (entityID : GoString)
    (req : StateUpdateRequest) (w : σ)
    (hnew : rt.newRequestError (str "POST") (c.BaseURL ++ stateEndpoint entityID) = none)
    (hpay : (Marshal rt req.toValue).2 = none) :
    ∃ q, (c.SetState rt entityID req w).sent = [q] := by
  obtain ⟨q, hsent, -⟩ := sent_of_buildRequest rt c (str "POST")
    (stateEndpoint entityID) (Marshal rt req.toValue).1 w
    (by rw [if_neg (by decide)]; exact hnew)
  refine ⟨q, ?_⟩
  unfold Client.SetState
  cases hm : Marshal rt req.toValue with
  | mk p e =>
    rw [hm] at hpay hsent
    dsimp only at hpay hsent
    subst hpay
    dsimp only
    rw [finishStruct_sent, hsent]

theorem GetState_sent_get {σ : Type} (rt : Runtime) (c : Client σ) (entityID : GoString)
    (w : σ) : ∀ q ∈ (c.GetState rt entityID w).sent,
      q.Method = str "GET" ∧ q.URL = c.BaseURL ++ stateEndpoint entityID := by
  intro q hq
  have hb := buildRequest_ok rt c _ _ _ q (GetState_sent_mem rt c entityID w q hq)
  exact ⟨hb.2.2.1.trans (by rw [if_neg (by decide)]), hb.1⟩

theorem SetState_sent_post {σ : Type} (rt : Runtime) (c : Client σ) (entityID : GoString)
    (req : StateUpdateRequest) (w : σ) : ∀ q ∈ (c.SetState rt entityID req w).sent,
      q.Method = str "POST" ∧ q.URL = c.BaseURL ++ stateEndpoint entityID ∧
        q.Body = (Marshal rt req.toValue).1 := by
  intro q hq
  have hb := buildRequest_ok rt c _ _ _ q (SetState_sent_mem rt c entityID req w q hq)
  exact ⟨hb.2.2.1.trans (by rw [if_neg (by decide)]), hb.1, hb.2.1⟩

theorem resourceLightRead_sent {σ : Type} (rt : Runtime) (lib : Library) (c : Client σ)
    (d : ResourceData) (w : σ) :
    (resourceLightRead rt lib c d w).sent = (c.GetState rt d.Id w).sent := by
  unfold resourceLightRead
  dsimp only
  split <;> rfl

theorem resourceZoneRead_sent {σ : Type} (rt : Runtime) (c : Client σ)
    (d : ResourceData) (w : σ) :
    (resourceZoneRead rt c d w).sent = (c.GetState rt d.Id w).sent ∧
      (resourceZoneRead rt c d w).world = (c.GetState rt d.Id w).world ∧
      (resourceZoneRead rt c d w).diags = [] ∧
      (resourceZoneRead rt c d w).calls = [.GetState d.Id] := by
  unfold resourceZoneRead
  dsimp only
  split <;> exact ⟨rfl, rfl, rfl, rfl⟩

theorem lightService_eq (state : GoString) :
    (if (if state = [] then str "on" else state) = str "on" then str "turn_on"
      else str "turn_off") =
      (if state = str "on" ∨ state = [] then str "turn_on" else str "turn_off") := by
  by_cases h0 : state = []
  · rw [if_pos h0, if_pos rfl, if_pos (Or.inr h0)]
  · rw [if_neg h0]
    by_cases h1 : state = str "on"
    · rw [if_pos h1, if_pos (Or.inl h1)]
    · rw [if_neg h1, if_neg (fun h => h.elim h1 h0)]

/-- C23. The functions `resourceLightCreate` and `resourceLightUpdate` call `CallService`
exactly once, first, always with the domain `light` and the data of `buildLightServiceData`;
the service is `turn_on` exactly when the state of the resource is `on` or empty, and
`turn_off` for every other state. The requests they hand to the transport are those of that
call, followed only by `GET` requests of the reading that follows: every request of the call
is a `POST` to the base URL followed by `/services/light/` and the service, with the encoded
service data as its body, and there is exactly one when the data can be encoded and the
request can be created. When the call fails, the functions return the error diagnostic that
wraps its error and leave the resource data as they were. -/
theorem light_service_follows_state {σ : Type} (rt : Runtime) (lib : Library) (c : Client σ)
    (d : ResourceData) (w : σ) (service : GoString)
    (hsvc : service =
      if d.strings (str "state") = str "on" ∨ d.strings (str "state") = [] then str "turn_on"
      else str "turn_off") :
    ((∃ rest, (resourceLightCreate rt lib c d w).calls =
          .CallService (str "light") service (some (buildLightServiceData d)) :: rest ∧
          ∀ x ∈ rest, ∃ id, x = .GetState id) ∧
        (∃ rest, (resourceLightCreate rt lib c d w).sent =
          (c.CallService rt (str "light") service (some (buildLightServiceData d)) w).sent ++
            rest ∧ ∀ q ∈ rest, q.Method = str "GET") ∧
        (∀ err, (c.CallService rt (str "light") service (some (buildLightServiceData d))
            w).err = some err →
          (resourceLightCreate rt lib c d w).diags =
              FromErr (errorfW (str "failed to set light state: ") err) ∧
            (resourceLightCreate rt lib c d w).data = d ∧
            (resourceLightCreate rt lib c d w).world =
              (c.CallService rt (str "light") service (some (buildLightServiceData d))
                w).world)) ∧
      ((∃ rest, (resourceLightUpdate rt lib c d w).calls =
          .CallService (str "light") service (some (buildLightServiceData d)) :: rest ∧
          ∀ x ∈ rest, ∃ id, x = .GetState id) ∧
        (∃ rest, (resourceLightUpdate rt lib c d w).sent =
          (c.CallService rt (str "light") service (some (buildLightServiceData d)) w).sent ++
            rest ∧ ∀ q ∈ rest, q.Method = str "GET") ∧
        (∀ err, (c.CallService rt (str "light") service (some (buildLightServiceData d))
            w).err = some err →
          (resourceLightUpdate rt lib c d w).diags =
              FromErr (errorfW (str "failed to update light state: ") err) ∧
            (resourceLightUpdate rt lib c d w).data = d ∧
            (resourceLightUpdate rt lib c d w).world =
              (c.CallService rt (str "light") service (some (buildLightServiceData d))
                w).world)) ∧
      (∀ q ∈ (c.CallService rt (str "light") service (some (buildLightServiceData d)) w).sent,
        q.Method = str "POST" ∧ q.URL = c.BaseURL ++ (str "/services/light/" ++ service) ∧
          q.Body = (Marshal rt (.map (buildLightServiceData d))).1) ∧
      (rt.newRequestError (str "POST") (c.BaseURL ++ (str "/services/light/" ++ service)) =
          none →
        (Marshal rt (.map (buildLightServiceData d))).2 = none →
        ∃ q, (c.CallService rt (str "light") service (some (buildLightServiceData d)) w).sent =
          [q]) := by
  have hep : serviceEndpoint (str "light") service = str "/services/light/" ++ service := by
    rw [hsvc]
    split <;> decide
  rw [← lightService_eq] at hsvc
  refine ⟨⟨?_, ?_, ?_⟩, ⟨?_, ?_, ?_⟩, ?_, ?_⟩
  · subst hsvc
    unfold resourceLightCreate
    dsimp only
    split
    · exact ⟨[], rfl, fun x hx => absurd hx (List.not_mem_nil x)⟩
    · refine ⟨_, rfl, ?_⟩
      intro x hx
      rw [resourceLightRead_calls] at hx
      exact ⟨_, List.mem_singleton.1 hx⟩
  · subst hsvc
    unfold resourceLightCreate
    dsimp only
    split
    · exact ⟨[], (List.append_nil _).symm, fun x hx => absurd hx (List.not_mem_nil x)⟩
    · refine ⟨_, rfl, ?_⟩
      intro q hq
      rw [resourceLightRead_sent] at hq
      exact (GetState_sent_get rt c _ _ q hq).1
  · subst hsvc
    intro err herr
    unfold resourceLightCreate
    dsimp only
    split
    · rename_i e h1
      rw [herr] at h1
      cases h1
      exact ⟨rfl, rfl, rfl⟩
    · rename_i h1
      rw [herr] at h1
      cases h1
  · subst hsvc
    unfold resourceLightUpdate
    dsimp only
    split
    · exact ⟨[], rfl, fun x hx => absurd hx (List.not_mem_nil x)⟩
    · refine ⟨_, rfl, ?_⟩
      intro x hx
      rw [resourceLightRead_calls] at hx
      exact ⟨_, List.mem_singleton.1 hx⟩
  · subst hsvc
    unfold resourceLightUpdate
    dsimp only
    split
    · exact ⟨[], (List.append_nil _).symm, fun x hx => absurd hx (List.not_mem_nil x)⟩
    · refine ⟨_, rfl, ?_⟩
      intro q hq
      rw [resourceLightRead_sent] at hq
      exact (GetState_sent_get rt c _ _ q hq).1
  · subst hsvc
    intro err herr
    unfold resourceLightUpdate
    dsimp only
    split
    · rename_i e h1
      rw [herr] at h1
      cases h1
      exact ⟨rfl, rfl, rfl⟩
    · rename_i h1
      rw [herr] at h1
      cases h1
  · intro q hq
    have hb := buildRequest_ok rt c _ _ _ q (CallService_sent_mem rt c _ _ _ w q hq)
    rw [hep] at hb
    exact ⟨hb.2.2.1.trans (by rw [if_neg (by decide)]), hb.1, hb.2.1⟩
  · intro hnew hmar
    exact CallService_sent_one rt c _ _ _ w (by rw [hep]; exact hnew) hmar

/-- C23 at the light `light.a` whose state is `off`, against a server answering `[]`: the
first request is the `POST` to `/services/light/turn_off` with the entity id as its body. -/
theorem light_service_follows_state_witness :
    ∃ q rest, (resourceLightCreate plainRuntime plainLibrary (fixedServer 200 (str "[]"))
        ((emptyData.SetString (str "entity_id") (str "light.a")).SetString (str "state")
          (str "off")) ()).sent = q :: rest ∧
      q.Method = str "POST" ∧
      q.URL = str "http://localhost:8123/api/services/light/turn_off" ∧
      q.Body = some (str "\x7b\"entity_id\":\"light.a\"\x7d") := by
  have h := light_service_follows_state plainRuntime plainLibrary (fixedServer 200 (str "[]"))
    ((emptyData.SetString (str "entity_id") (str "light.a")).SetString (str "state")
      (str "off")) () (str "turn_off") (by decide)
  obtain ⟨rest, hsent, -⟩ := h.1.2.1
  obtain ⟨q, hq⟩ := h.2.2.2 (by decide) (by decide)
  have hq1 := h.2.2.1 q (by rw [hq]; exact List.mem_singleton_self q)
  refine ⟨q, rest, ?_, hq1.1, hq1.2.1.trans (by decide), hq1.2.2.trans (by decide)⟩
  rw [hsent, hq]
  rfl

/-! ## C25: the update of a zone -/

/-- C25. The function `resourceZoneUpdate` first reads the current state and then calls
`SetState` for the id of the resource, and calls nothing else but the reading that follows.
The state of the update request is the state of the resource, or `0` when that is empty. When
the reading returned no error and the attributes read hold `persons`, the attributes of the
update request hold `persons` with exactly that value; otherwise (the reading failed, or the
attributes read hold no `persons`) they have no key `persons`. The requests handed to the
transport are those of the reading, then those of the update, then only `GET` requests: every
request of the update is a `POST` to the base URL followed by `/states/` and the escaped id
whose body is the encoding of that update request, and there is exactly one when the request
can be encoded and created. When the update fails, the function returns the error diagnostic
that wraps its error and leaves the resource data as they were. -/
theorem resourceZoneUpdate_keeps_persons {σ : Type} (rt : Runtime) (c : Client σ)
    (d : ResourceData) (w : σ) :
    ∃ attrs,
      (∃ rest, (resourceZoneUpdate rt c d w).calls =
        .GetState d.Id ::
          .SetState d.Id
            { State := if d.strings (str "state") = [] then str "0"
                else d.strings (str "state"),
              Attributes := some attrs } :: rest ∧
        ∀ x ∈ rest, x = .GetState d.Id) ∧
      (∃ rest, (resourceZoneUpdate rt c d w).sent =
        (c.GetState rt d.Id w).sent ++
          (c.SetState rt d.Id
            { State := if d.strings (str "state") = [] then str "0"
                else d.strings (str "state"),
              Attributes := some attrs } (c.GetState rt d.Id w).world).sent ++ rest ∧
        ∀ q ∈ rest, q.Method = str "GET") ∧
      (∀ q ∈ (c.SetState rt d.Id
            { State := if d.strings (str "state") = [] then str "0"
                else d.strings (str "state"),
              Attributes := some attrs } (c.GetState rt d.Id w).world).sent,
        q.Method = str "POST" ∧ q.URL = c.BaseURL ++ stateEndpoint d.Id ∧
          q.Body = (Marshal rt (StateUpdateRequest.toValue
            { State := if d.strings (str "state") = [] then str "0"
                else d.strings (str "state"),
              Attributes := some attrs })).1) ∧
      (rt.newRequestError (str "POST") (c.BaseURL ++ stateEndpoint d.Id) = none →
        (Marshal rt (StateUpdateRequest.toValue
            { State := if d.strings (str "state") = [] then str "0"
                else d.strings (str "state"),
              Attributes := some attrs })).2 = none →
        ∃ q, (c.SetState rt d.Id
            { State := if d.strings (str "state") = [] then str "0"
                else d.strings (str "state"),
              Attributes := some attrs } (c.GetState rt d.Id w).world).sent = [q]) ∧
      (∀ err, (c.SetState rt d.Id
            { State := if d.strings (str "state") = [] then str "0"
                else d.strings (str "state"),
              Attributes := some attrs } (c.GetState rt d.Id w).world).err = some err →
        (resourceZoneUpdate rt c d w).diags =
            FromErr (errorfW (str "failed to update zone: ") err) ∧
          (resourceZoneUpdate rt c d w).data = d) ∧
      (∀ current persons, (c.GetState rt d.Id w).err = none →
        (c.GetState rt d.Id w).val = some current →
        stateAttribute current (str "persons") = some persons →
        mapGet attrs (str "persons") = some persons) ∧
      (((c.GetState rt d.Id w).err ≠ none ∨
          ∀ current, (c.GetState rt d.Id w).val = some current →
            stateAttribute current (str "persons") = none) →
        str "persons" ∉ attrs.map Prod.fst) := by
  have hval : (c.GetState rt d.Id w).err = none → ∃ v, (c.GetState rt d.Id w).val = some v := by
    intro h
    exact Option.isSome_iff_exists.1 ((finishStruct_val_iff _ _ _ _ _).2 h)
  have key : ∀ attrs : GoMap,
      (match (c.GetState rt d.Id w).err with
        | none =>
          match stateAttribute ((c.GetState rt d.Id w).val.getD .nil) (str "persons") with
          | some persons =>
            mapPut
              [(str "friendly_name", .string (d.strings (str "name"))),
               (str "latitude", .float64 (d.floats (str "latitude"))),
               (str "longitude", .float64 (d.floats (str "longitude"))),
               (str "radius", .float64 (d.floats (str "radius"))),
               (str "passive", .bool (d.bools (str "passive"))),
               (str "icon", .string (d.strings (str "icon"))),
               (str "editable", .bool true)] (str "persons") persons
          | none =>
              [(str "friendly_name", .string (d.strings (str "name"))),
               (str "latitude", .float64 (d.floats (str "latitude"))),
               (str "longitude", .float64 (d.floats (str "longitude"))),
               (str "radius", .float64 (d.floats (str "radius"))),
               (str "passive", .bool (d.bools (str "passive"))),
               (str "icon", .string (d.strings (str "icon"))),
               (str "editable", .bool true)]
        | some _ =>
              [(str "friendly_name", .string (d.strings (str "name"))),
               (str "latitude", .float64 (d.floats (str "latitude"))),
               (str "longitude", .float64 (d.floats (str "longitude"))),
               (str "radius", .float64 (d.floats (str "radius"))),
               (str "passive", .bool (d.bools (str "passive"))),
               (str "icon", .string (d.strings (str "icon"))),
               (str "editable", .bool true)]) = attrs →
      (∀ current persons, (c.GetState rt d.Id w).err = none →
        (c.GetState rt d.Id w).val = some current →
        stateAttribute current (str "persons") = some persons →
        mapGet attrs (str "persons") = some persons) ∧
      (((c.GetState rt d.Id w).err ≠ none ∨
          ∀ current, (c.GetState rt d.Id w).val = some current →
            stateAttribute current (str "persons") = none) →
        str "persons" ∉ attrs.map Prod.fst) := by
    intro attrs hattrs
    cases hg : (c.GetState rt d.Id w).err with
    | some e =>
      rw [hg] at hattrs
      dsimp only at hattrs
      subst hattrs
      refine ⟨fun _ _ h => (by cases h), fun _ => ?_⟩
      simp only [List.map_cons, List.map_nil]
      decide
    | none =>
      obtain ⟨v, hv⟩ := hval hg
      rw [hg, hv] at hattrs
      dsimp only [Option.getD] at hattrs
      cases hp : stateAttribute v (str "persons") with
      | some p =>
        rw [hp] at hattrs
        dsimp only at hattrs
        subst hattrs
        constructor
        · intro cur q _ hcur hq
          rw [hv] at hcur
          cases hcur
          rw [hp] at hq
          cases hq
          exact mapGet_mapPut_self _ _ _
        · intro h
          rcases h with h | h
          · exact absurd rfl h
          · have := h v hv
            rw [hp] at this
            cases this
      | none =>
        rw [hp] at hattrs
        dsimp only at hattrs
        subst hattrs
        constructor
        · intro cur q _ hcur hq
          rw [hv] at hcur
          cases hcur
          rw [hp] at hq
          cases hq
        · intro _
          simp only [List.map_cons, List.map_nil]
          decide
  refine ⟨(match (c.GetState rt d.Id w).err with
        | none =>
          match stateAttribute ((c.GetState rt d.Id w).val.getD .nil) (str "persons") with
          | some persons =>
            mapPut
              [(str "friendly_name", .string (d.strings (str "name"))),
               (str "latitude", .float64 (d.floats (str "latitude"))),
               (str "longitude", .float64 (d.floats (str "longitude"))),
               (str "radius", .float64 (d.floats (str "radius"))),
               (str "passive", .bool (d.bools (str "passive"))),
               (str "icon", .string (d.strings (str "icon"))),
               (str "editable", .bool true)] (str "persons") persons
          | none =>
              [(str "friendly_name", .string (d.strings (str "name"))),
               (str "latitude", .float64 (d.floats (str "latitude"))),
               (str "longitude", .float64 (d.floats (str "longitude"))),
               (str "radius", .float64 (d.floats (str "radius"))),
               (str "passive", .bool (d.bools (str "passive"))),
               (str "icon", .string (d.strings (str "icon"))),
               (str "editable", .bool true)]
        | some _ =>
              [(str "friendly_name", .string (d.strings (str "name"))),
               (str "latitude", .float64 (d.floats (str "latitude"))),
               (str "longitude", .float64 (d.floats (str "longitude"))),
               (str "radius", .float64 (d.floats (str "radius"))),
               (str "passive", .bool (d.bools (str "passive"))),
               (str "icon", .string (d.strings (str "icon"))),
               (str "editable", .bool true)]),
    ?_, ?_, SetState_sent_post rt c d.Id _ _, SetState_sent_one rt c d.Id _ _, ?_, key _ rfl⟩
  · unfold resourceZoneUpdate
    dsimp only
    split
    · exact ⟨[], rfl, fun x hx => absurd hx (List.not_mem_nil x)⟩
    · refine ⟨_, rfl, ?_⟩
      intro x hx
      rw [(resourceZoneRead_sent rt c d _).2.2.2] at hx
      exact List.mem_singleton.1 hx
  · unfold resourceZoneUpdate
    dsimp only
    split
    · exact ⟨[], (List.append_nil _).symm, fun x hx => absurd hx (List.not_mem_nil x)⟩
    · refine ⟨_, rfl, ?_⟩
      intro q hq
      rw [(resourceZoneRead_sent rt c d _).1] at hq
      exact (GetState_sent_get rt c _ _ q hq).1
  · intro err herr
    unfold resourceZoneUpdate
    dsimp only
    split
    · rename_i e h1
      have h2 : some e = some err := h1.symm.trans herr
      cases h2
      exact ⟨rfl, rfl⟩
    · rename_i h1
      have h2 : none = some err := h1.symm.trans herr
      cases h2

/-- C25 at a server whose state of `zone.home` holds `persons`: the second request is the
`POST` whose body holds the list read. -/
theorem resourceZoneUpdate_keeps_persons_witness :
    (∃ attrs, mapGet attrs (str "persons") = some (.slice [.string (str "person.a")]) ∧
      ∀ q ∈ ((fixedServer 200
          (str "\x7b\"state\":\"1\",\"attributes\":\x7b\"persons\":[\"person.a\"]\x7d\x7d")).SetState
          plainRuntime (str "zone.home") { State := str "0", Attributes := some attrs }
          ()).sent,
        q.Body = (Marshal plainRuntime (StateUpdateRequest.toValue
          { State := str "0", Attributes := some attrs })).1) ∧
      (resourceZoneUpdate plainRuntime
        (fixedServer 200
          (str "\x7b\"state\":\"1\",\"attributes\":\x7b\"persons\":[\"person.a\"]\x7d\x7d"))
        (emptyData.SetId (str "zone.home")) ()).sent.map (fun q => (q.Method, q.Body)) =
        [(str "GET", none),
         (str "POST", some (str ("\x7b\"state\":\"0\",\"attributes\":\x7b\"editable\":true," ++
           "\"friendly_name\":\"\",\"icon\":\"\",\"latitude\":0,\"longitude\":0," ++
           "\"passive\":false,\"persons\":[\"person.a\"],\"radius\":0\x7d\x7d"))),
         (str "GET", none)] :=
  ⟨(resourceZoneUpdate_keeps_persons plainRuntime
    (fixedServer 200
      (str "\x7b\"state\":\"1\",\"attributes\":\x7b\"persons\":[\"person.a\"]\x7d\x7d"))
    (emptyData.SetId (str "zone.home")) ()).elim fun attrs h =>
      ⟨attrs, h.2.2.2.2.2.1 _ _ (by decide) rfl rfl,
        fun q hq => (h.2.2.1 q hq).2.2⟩,
    by decide⟩

/-! ## C29: the creation of a zone -/

/-- C29, as the claim states it, fails. Against a server that accepts the `POST` of the state
and answers 404 to the reading that follows, `SetState` succeeds for `zone.living_room`, and
`resourceZoneCreate` returns no diagnostics and a resource whose id is empty, not that entity
id: `resourceZoneRead`, which ends the function, clears the id when its `GetState` fails. -/
theorem resourceZoneCreate_read_back_clears_id :
    slugify plainLibrary (str "Living Room") = str "living_room" ∧
      (writeOnlyServer.SetState plainRuntime (str "zone.living_room")
        { State := str "0",
          Attributes := some
            [(str "friendly_name", .string (str "Living Room")),
             (str "latitude", .float64 0), (str "longitude", .float64 0),
             (str "radius", .float64 0), (str "passive", .bool false),
             (str "icon", .string []), (str "editable", .bool true),
             (str "persons", .slice [])] } ()).err = none ∧
      (resourceZoneCreate plainRuntime plainLibrary writeOnlyServer
        (emptyData.SetString (str "name") (str "Living Room")) ()).sent.map
          (fun q => (q.Method, q.URL)) =
        [(str "POST", str "http://localhost:8123/api/states/zone.living_room"),
         (str "GET", str "http://localhost:8123/api/states/zone.living_room")] ∧
      (resourceZoneCreate plainRuntime plainLibrary writeOnlyServer
        (emptyData.SetString (str "name") (str "Living Room")) ()).diags = [] ∧
      (resourceZoneCreate plainRuntime plainLibrary writeOnlyServer
        (emptyData.SetString (str "name") (str "Living Room")) ()).data.Id = [] ∧
      (resourceZoneCreate plainRuntime plainLibrary writeOnlyServer
        (emptyData.SetString (str "name") (str "Living Room")) ()).data.Id ≠
          str "zone.living_room" :=
  ⟨by decide, by decide, by decide, by decide, by decide, by decide⟩

/-- C29, amended. The function `resourceZoneCreate` derives the entity id from the name alone:
it calls `SetState` exactly once, first, with the entity id `zone.` followed by
`slugify(name)`, the state `0` and the attributes `friendly_name` (the name), `latitude`,
`longitude`, `radius`, `passive`, `icon` (the configured values), `editable` (true) and
`persons` (the empty list); the requests of that call, each a `POST` to `/states/` and the
escaped entity id with the encoded request as its body and exactly one when the request can be
encoded and created, are the first it hands to the transport, followed only by `GET`
requests. When the call fails the function returns the error diagnostic that wraps its error,
calls nothing else and leaves the resource data as they were. When the call succeeds the
resource id is set to that entity id and the zone is read back with `GetState` for that id:
no diagnostics are returned, the id is that entity id when the reading returns no error, and
the id is empty when the reading fails. -/
theorem resourceZoneCreate_sets_state {σ : Type} (rt : Runtime) (lib : Library) (c : Client σ)
    (d : ResourceData) (w : σ) (entityID : GoString) (req : StateUpdateRequest)
    (hid : entityID = str "zone." ++ slugify lib (d.strings (str "name")))
    (hreq : req =
      { State := str "0",
        Attributes := some
          [(str "friendly_name", .string (d.strings (str "name"))),
           (str "latitude", .float64 (d.floats (str "latitude"))),
           (str "longitude", .float64 (d.floats (str "longitude"))),
           (str "radius", .float64 (d.floats (str "radius"))),
           (str "passive", .bool (d.bools (str "passive"))),
           (str "icon", .string (d.strings (str "icon"))),
           (str "editable", .bool true),
           (str "persons", .slice [])] }) :
    (∃ rest, (resourceZoneCreate rt lib c d w).calls = .SetState entityID req :: rest ∧
        ∀ x ∈ rest, x = .GetState entityID) ∧
      (∃ rest, (resourceZoneCreate rt lib c d w).sent =
          (c.SetState rt entityID req w).sent ++ rest ∧ ∀ q ∈ rest, q.Method = str "GET") ∧
      (∀ q ∈ (c.SetState rt entityID req w).sent,
        q.Method = str "POST" ∧ q.URL = c.BaseURL ++ stateEndpoint entityID ∧
          q.Body = (Marshal rt req.toValue).1) ∧
      (rt.newRequestError (str "POST") (c.BaseURL ++ stateEndpoint entityID) = none →
        (Marshal rt req.toValue).2 = none →
        ∃ q, (c.SetState rt entityID req w).sent = [q]) ∧
      (∀ err, (c.SetState rt entityID req w).err = some err →
        (resourceZoneCreate rt lib c d w).diags =
            FromErr (errorfW (str "failed to create zone: ") err) ∧
          (resourceZoneCreate rt lib c d w).calls = [.SetState entityID req] ∧
          (resourceZoneCreate rt lib c d w).data = d) ∧
      ((c.SetState rt entityID req w).err = none →
        (resourceZoneCreate rt lib c d w).calls =
            [.SetState entityID req, .GetState entityID] ∧
          (resourceZoneCreate rt lib c d w).diags = [] ∧
          (resourceZoneCreate rt lib c d w).data =
            (resourceZoneRead rt c (d.SetId entityID)
              (c.SetState rt entityID req w).world).data ∧
          ((c.GetState rt entityID (c.SetState rt entityID req w).world).err = none →
            (resourceZoneCreate rt lib c d w).data.Id = entityID) ∧
          ((c.GetState rt entityID (c.SetState rt entityID req w).world).err ≠ none →
            (resourceZoneCreate rt lib c d w).data.Id = [])) := by
  subst hid hreq
  refine ⟨?_, ?_, SetState_sent_post rt c _ _ w, SetState_sent_one rt c _ _ w, ?_, ?_⟩
  · unfold resourceZoneCreate
    dsimp only
    split
    · exact ⟨[], rfl, fun x hx => absurd hx (List.not_mem_nil x)⟩
    · refine ⟨_, rfl, ?_⟩
      intro x hx
      rw [(resourceZoneRead_sent rt c _ _).2.2.2] at hx
      exact List.mem_singleton.1 hx
  · unfold resourceZoneCreate
    dsimp only
    split
    · exact ⟨[], (List.append_nil _).symm, fun x hx => absurd hx (List.not_mem_nil x)⟩
    · refine ⟨_, rfl, ?_⟩
      intro q hq
      rw [(resourceZoneRead_sent rt c _ _).1] at hq
      exact (GetState_sent_get rt c _ _ q hq).1
  · intro err herr
    unfold resourceZoneCreate
    dsimp only
    split
    · rename_i e h1
      rw [herr] at h1
      cases h1
      exact ⟨rfl, rfl, rfl⟩
    · rename_i h1
      rw [herr] at h1
      cases h1
  · intro h
    unfold resourceZoneCreate
    dsimp only
    split
    · rename_i e h1
      rw [h] at h1
      cases h1
    · dsimp only
      refine ⟨?_, (resourceZoneRead_sent rt c _ _).2.2.1, rfl, ?_, ?_⟩
      · rw [(resourceZoneRead_sent rt c _ _).2.2.2]
        rfl
      · intro hg
        exact (resourceZoneRead_ok rt c (d.SetId _) _ hg).2.1
      · intro hg
        rw [resourceZoneRead_failed rt c (d.SetId _) _ hg]
        rfl

/-- C29 amended, at the zone `Living Room`: against a server answering every request with the
state of the zone, the id is `zone.living_room` afterwards; against a server answering 404,
`SetState` fails and the resource keeps its empty id. -/
theorem resourceZoneCreate_sets_state_witness :
    (resourceZoneCreate plainRuntime plainLibrary
        (fixedServer 200 (str "\x7b\"state\": \"0\"\x7d"))
        (emptyData.SetString (str "name") (str "Living Room")) ()).data.Id =
        str "zone.living_room" ∧
      ∃ req, (resourceZoneCreate plainRuntime plainLibrary
        (fixedServer 404 (str "Entity not found"))
        (emptyData.SetString (str "name") (str "Living Room")) ()).calls =
      [.SetState (str "zone.living_room") req] :=
  ⟨((resourceZoneCreate_sets_state plainRuntime plainLibrary
      (fixedServer 200 (str "\x7b\"state\": \"0\"\x7d"))
      (emptyData.SetString (str "name") (str "Living Room")) () (str "zone.living_room") _
      (by decide) rfl).2.2.2.2.2 (by decide)).2.2.2.1 (by decide),
    _, ((resourceZoneCreate_sets_state plainRuntime plainLibrary
      (fixedServer 404 (str "Entity not found"))
      (emptyData.SetString (str "name") (str "Living Room")) () (str "zone.living_room") _
      (by decide) rfl).2.2.2.2.1 _ rfl).2.1⟩

end HomeAssistant
